import Mathlib

/-! # Continuum: retraining trigger core

A shallow embedding of the retraining policies (`retrain_policies.cpp`), the runtime
profiler and the trigger checker (`data_processor.hpp`) and the message counter and the
receive path of the backend RPC transport (`rpc_backend_service.cpp`), followed by
theorems about them.

Modelling conventions.

* `long` and `int` are unbounded integers (`Int`).  Signed overflow is undefined in C++
  and no value handled here (microsecond time stamps, sample counts, message numbers)
  comes near the 64-bit limits in a run of the program.  Where the code stores a `long`
  in an `int` (the counter `untrained` of `calc_timeout`) the conversion is modelled:
  the value is reduced modulo `2 ^ 32` into the range of `int`.
* A finite `double` is the rational it denotes, every non-finite double (NaN, +inf,
  -inf) is `none`.  Every arithmetic operation on doubles and every conversion of an
  integer to `double` rounds its exact result to the nearest binary64 number, ties to
  even, operation by operation in the order in which C++ evaluates the expression.
  Overflow to an infinity (magnitudes above `1.8e308`) is not modelled: wherever such a
  value could arise here the code converts it to `long`, which is undefined, or compares
  it with a finite number, which gives the same result either way.
* Code that throws, dereferences a null pointer, reads before the start of a vector or
  converts a non-finite double to `long` does not complete normally; such a run ends in
  a `Fault`.
* `std::unordered_map` objects keyed by application name are partial functions.  The
  inflight map, which the code iterates, is an association list whose order stands for
  the (unspecified) iteration order.
* Values read from the system clock or from the Redis store are inputs of the handler
  that reads them.
-/

namespace continuum

/-! ## Scalars -/

/-- An idealised C++ double: `some q` is the finite value `q`, `none` is NaN or an infinity. -/
abbrev Double := Option ℚ

/-- Ways in which a piece of the program fails to complete normally. -/
inductive Fault where
  | null_dereference
  | out_of_bounds
  | exception
  | non_finite
  | fuel
deriving DecidableEq, Repr

/-- Use of a double in a conversion to `long`; a non-finite value has no defined result. -/
def finite (d : Double) : Except Fault ℚ :=
  match d with
  | some q => Except.ok q
  | none => Except.error Fault.non_finite

/-- Conversion double to long as done by `static_cast<long>` and by initialising a `long`
from a double: truncation toward zero. -/
def static_cast_long (q : ℚ) : Int := Int.tdiv q.num q.den

/-- The number `⌊log₂ n⌋` for `n ≥ 1` by repeated halving; `fuel` bounds the number of
halvings and `fuel = n` is always enough. -/
def nat_log2 : Nat → Nat → Nat
  | 0, _ => 0
  | fuel + 1, n => if n < 2 then 0 else nat_log2 fuel (n / 2) + 1

/-- The number `⌊log₂ (n / d)⌋` for positive `n` and `d`. -/
def floor_log2 (n d : Nat) : Int :=
  let a := nat_log2 n n
  let b := nat_log2 d d
  if d * 2 ^ a ≤ n * 2 ^ b then (a : Int) - b else (a : Int) - b - 1

/-- The integer nearest to `n / d` for positive `d`, the even one of the two when `n / d`
lies half way between them. -/
def round_half_even (n : Int) (d : Nat) : Int :=
  let f := n / (d : Int)
  let r := n % (d : Int)
  if 2 * r < d then f
  else if 2 * r > d then f + 1
  else if f % 2 = 0 then f else f + 1

/-- Rounding of an exact result to a double (binary64): to the nearest number with 53
significant bits, or to the nearest multiple of `2 ^ (-1074)` below `2 ^ (-1022)`, ties
to even. -/
def round_double (x : ℚ) : ℚ :=
  if x.num = 0 then 0
  else
    let s : Int := max (floor_log2 x.num.natAbs x.den) (-1022) - 52
    if 0 ≤ s then
      ((round_half_even x.num (x.den * 2 ^ s.toNat) * (2 ^ s.toNat : Nat) : Int) : ℚ)
    else
      mkRat (round_half_even (x.num * (2 ^ (-s).toNat : Nat)) x.den) (2 ^ (-s).toNat)

/-- Conversion of a `long` or an `int` to `double`. -/
def of_long (n : Int) : ℚ := round_double n

/-- Product of two doubles. -/
def dmul (a b : ℚ) : ℚ := round_double (a * b)

/-- Sum of two doubles. -/
def dadd (a b : ℚ) : ℚ := round_double (a + b)

/-- Difference of two doubles. -/
def dsub (a b : ℚ) : ℚ := round_double (a - b)

/-- Division of doubles: a zero divisor gives a non-finite quotient. -/
def fdiv (a b : ℚ) : Double := if b = 0 then none else some (round_double (a / b))

/-- Conversion of a `long` to `int`: the value modulo `2 ^ 32` in the range of `int`. -/
def int_cast (x : Int) : Int := (x + 2147483648) % 4294967296 - 2147483648

/-- The cast `(unsigned)x` of an `int`. -/
def unsigned_cast (x : Int) : Nat := (x % 4294967296).toNat

/-! ## Records (retrain_policies.hpp) -/

/-- Pair `(arrival_time, batch_size)`. -/
abbrev BatchInfo := Int × Int

abbrev BatchesInfo := List BatchInfo

/-- Triple `(trigger_retrain, start_time, end_time)`. -/
abbrev RetrainInfo := Bool × Int × Int

/-- Pair `(all_cost, min_cost)`, a pair of `long`. -/
abbrev CostInfo := Int × Int

structure RetrainRecord where
  alpha_ : Double
  beta_ : Double
  weight_ : Double
  last_arrival_ : Int
  data_from_ : Int
  data_to_ : Int
  finished_ : Bool
  training_batch_ : BatchInfo
  batches_ : BatchesInfo

/-- The constructor `RetrainRecord(long latest_data_arrival_time)`; the three doubles are
assigned by the caller right after construction and are parameters here. -/
def RetrainRecord.mk_new (latest_data_arrival_time : Int) (alpha beta weight : Double) :
    RetrainRecord :=
  { alpha_ := alpha, beta_ := beta, weight_ := weight,
    last_arrival_ := latest_data_arrival_time, data_from_ := 0, data_to_ := 0,
    finished_ := true, training_batch_ := (0, 0), batches_ := [] }

/-- The loop `for (b : batches) if (p b) acc += b.second` started at `acc = 0`. -/
def sum_sizes_where (p : BatchInfo → Bool) (batches : BatchesInfo) : Int :=
  batches.foldl (fun acc b => if p b then acc + b.2 else acc) 0

/-! ## NaiveBestEffortPolicy -/

def NaiveBestEffortPolicy.get_name : String := "NaiveBestEffortPolicy"

def NaiveBestEffortPolicy.ready_to_retrain (record : RetrainRecord) : RetrainInfo :=
  if record.data_from_ ≤ 0 then
    (true, 1, record.last_arrival_)
  else if record.finished_ = true ∧ record.last_arrival_ > record.training_batch_.1 then
    (true, record.data_to_ + 1, record.last_arrival_)
  else
    (false, 0, 0)

def NaiveBestEffortPolicy.on_retrain_finished (record : RetrainRecord) : RetrainInfo :=
  if record.finished_ = true ∧ record.last_arrival_ > record.training_batch_.1 then
    (true, record.data_to_ + 1, record.last_arrival_)
  else
    (false, 0, 0)

def NaiveBestEffortPolicy.calc_timeout (_retrain_data : RetrainRecord) : Int := 0

/-! ## SpeculativeBestEffortPolicy -/

def SpeculativeBestEffortPolicy.get_name : String := "SpeculativeBestEffortPolicy"

def SpeculativeBestEffortPolicy.ready_to_retrain (record : RetrainRecord) :
    Except Fault RetrainInfo :=
  if record.data_from_ ≤ 0 then
    Except.ok (true, record.last_arrival_, record.last_arrival_)
  else if record.finished_ = true ∧ record.last_arrival_ > record.training_batch_.1 then
    Except.ok (true, record.data_to_ + 1, record.last_arrival_)
  else do
    let data_size_after_retrain : Int :=
      sum_sizes_where (fun b => decide (b.1 > record.data_to_)) record.batches_
    let last_retrain_data_size : Int := record.training_batch_.2
    let interval : Int := Int.tdiv (record.last_arrival_ - record.training_batch_.1) 1000
    let beta ← finite record.beta_
    let left : Int := static_cast_long (dmul (of_long data_size_after_retrain) beta)
    let alpha ← finite record.alpha_
    let right : Int :=
      static_cast_long
        (dmul 2
          (dadd
            (dmul (dmul alpha (of_long last_retrain_data_size))
              (of_long data_size_after_retrain))
            (of_long (interval * (last_retrain_data_size + data_size_after_retrain)))))
    if left ≥ right then
      Except.ok (true, record.data_from_, record.last_arrival_)
    else
      Except.ok (false, 0, 0)

def SpeculativeBestEffortPolicy.on_retrain_finished (retrain_data : RetrainRecord) :
    RetrainInfo :=
  if retrain_data.finished_ = true ∧
      retrain_data.last_arrival_ > retrain_data.training_batch_.1 then
    (true, retrain_data.data_to_ + 1, retrain_data.last_arrival_)
  else
    (false, 0, 0)

def SpeculativeBestEffortPolicy.calc_timeout (_retrain_data : RetrainRecord) : Int := 0

/-! ## CostAwarePolicy

Iterators into `batches_` are indices; `batches.length` is `end()`. -/

def CostAwarePolicy.get_name : String := "CostAwarePolicy"

/-- The function `calc_cost(begin, end, data_size, alpha, beta, weight)` on the vector
`batches`.  The read `(end - 1)->first` happens whatever the range; with `end` at index
`0` it reads before the start of the vector.  A non-finite `weight` makes the returned
double non-finite, which the only caller converts to `long`. -/
def CostAwarePolicy.calc_cost (batches : BatchesInfo) (begin end_ : Nat) (data_size : Int)
    (alpha beta weight : Double) : Except Fault ℚ := do
  let a ← finite alpha
  let b ← finite beta
  let retrain_time : Int := static_cast_long (dadd (dmul a (of_long data_size)) b)
  let last ←
    match end_, batches with
    | 0, _ => Except.error Fault.out_of_bounds
    | e + 1, bs =>
      match bs[e]? with
      | some x => Except.ok x
      | none => Except.error Fault.out_of_bounds
  let end_time : Int := retrain_time * 1000 + last.1
  let latency : Int :=
    ((batches.drop begin).take (end_ - begin)).foldl (fun acc x => acc + (end_time - x.1)) 0
  let w ← finite weight
  Except.ok (dadd (dmul w (of_long retrain_time)) (of_long (Int.tdiv latency 1000)))

/-- The loop that advances `begin` past the data under training: the index of the first
batch with `first > data_to`, or `end()`. -/
def CostAwarePolicy.skip_trained (data_to : Int) : BatchesInfo → Nat
  | [] => 0
  | b :: rest => if b.1 > data_to then 0 else CostAwarePolicy.skip_trained data_to rest + 1

/-- The loop that looks for the split point: `rest` is the vector from `itr` on; the
result is the final `(itr, partial_size)`. -/
def CostAwarePolicy.split_loop (data_size : Int) : BatchesInfo → Nat → Int → Nat × Int
  | [], itr, partial_size => (itr, partial_size)
  | b :: rest, itr, partial_size =>
    if data_size - b.2 > 2 * partial_size then
      CostAwarePolicy.split_loop data_size rest (itr + 1) (partial_size + b.2)
    else
      (itr, partial_size)

def CostAwarePolicy.calc_cost_info (record : RetrainRecord) : Except Fault CostInfo := do
  let begin : Nat :=
    if record.finished_ = false then
      CostAwarePolicy.skip_trained record.data_to_ record.batches_
    else 0
  let data_size : Int := sum_sizes_where (fun _ => true) (record.batches_.drop begin)
  let split := CostAwarePolicy.split_loop data_size (record.batches_.drop begin) begin 0
  let itr : Nat := split.1
  let partial_size : Int := split.2
  let all_cost ← CostAwarePolicy.calc_cost record.batches_ begin record.batches_.length
    data_size record.alpha_ record.beta_ record.weight_
  let first_cost ← CostAwarePolicy.calc_cost record.batches_ begin itr
    partial_size record.alpha_ record.beta_ record.weight_
  let second_cost ← CostAwarePolicy.calc_cost record.batches_ itr record.batches_.length
    (data_size - partial_size) record.alpha_ record.beta_ record.weight_
  let min_cost : ℚ := dadd first_cost second_cost
  Except.ok (static_cast_long all_cost, static_cast_long min_cost)

def CostAwarePolicy.ready_to_retrain (record : RetrainRecord) : Except Fault RetrainInfo :=
  if record.finished_ = false then
    Except.ok (false, 0, 0)
  else if record.batches_.length ≤ 1 then
    Except.ok (false, 0, 0)
  else do
    let cost_info ← CostAwarePolicy.calc_cost_info record
    let weight ← finite record.weight_
    let beta ← finite record.beta_
    if of_long (cost_info.1 - cost_info.2) > dmul weight beta then
      Except.ok (true, record.data_to_ + 1, record.last_arrival_)
    else
      Except.ok (false, 0, 0)

def CostAwarePolicy.on_retrain_finished (record : RetrainRecord) : Except Fault RetrainInfo :=
  CostAwarePolicy.ready_to_retrain record

def CostAwarePolicy.calc_timeout (record : RetrainRecord) : Except Fault Int := do
  let costs ← CostAwarePolicy.calc_cost_info record
  let untrained : Int :=
    record.batches_.foldl
      (fun acc b =>
        if record.finished_ || (!record.finished_ && decide (b.1 > record.data_to_)) then
          int_cast (acc + b.2)
        else acc)
      0
  let weight ← finite record.weight_
  let beta ← finite record.beta_
  let quotient ←
    finite (fdiv (dsub (dmul weight beta) (of_long (costs.1 - costs.2))) (of_long untrained))
  Except.ok (static_cast_long quotient)

/-! ## ManualPolicy -/

def ManualPolicy.get_name : String := "ManualPolicy"

def ManualPolicy.ready_to_retrain (_retrain_data : RetrainRecord) : RetrainInfo := (false, 0, 0)

def ManualPolicy.on_retrain_finished (_retrain_data : RetrainRecord) : RetrainInfo :=
  (false, 0, 0)

def ManualPolicy.calc_timeout (_retrain_data : RetrainRecord) : Int := 0

/-- Dispatch over the polymorphic `RetrainPolicy` interface: the four derived classes. -/
inductive RetrainPolicy where
  | NaiveBestEffort
  | SpeculativeBestEffort
  | CostAware
  | Manual
deriving DecidableEq, Repr

def RetrainPolicy.get_name : RetrainPolicy → String
  | RetrainPolicy.NaiveBestEffort => NaiveBestEffortPolicy.get_name
  | RetrainPolicy.SpeculativeBestEffort => SpeculativeBestEffortPolicy.get_name
  | RetrainPolicy.CostAware => CostAwarePolicy.get_name
  | RetrainPolicy.Manual => ManualPolicy.get_name

def RetrainPolicy.ready_to_retrain (policy : RetrainPolicy) (record : RetrainRecord) :
    Except Fault RetrainInfo :=
  match policy with
  | RetrainPolicy.NaiveBestEffort => Except.ok (NaiveBestEffortPolicy.ready_to_retrain record)
  | RetrainPolicy.SpeculativeBestEffort => SpeculativeBestEffortPolicy.ready_to_retrain record
  | RetrainPolicy.CostAware => CostAwarePolicy.ready_to_retrain record
  | RetrainPolicy.Manual => Except.ok (ManualPolicy.ready_to_retrain record)

def RetrainPolicy.on_retrain_finished (policy : RetrainPolicy) (record : RetrainRecord) :
    Except Fault RetrainInfo :=
  match policy with
  | RetrainPolicy.NaiveBestEffort =>
    Except.ok (NaiveBestEffortPolicy.on_retrain_finished record)
  | RetrainPolicy.SpeculativeBestEffort =>
    Except.ok (SpeculativeBestEffortPolicy.on_retrain_finished record)
  | RetrainPolicy.CostAware => CostAwarePolicy.on_retrain_finished record
  | RetrainPolicy.Manual => Except.ok (ManualPolicy.on_retrain_finished record)

def RetrainPolicy.calc_timeout (policy : RetrainPolicy) (record : RetrainRecord) :
    Except Fault Int :=
  match policy with
  | RetrainPolicy.NaiveBestEffort => Except.ok (NaiveBestEffortPolicy.calc_timeout record)
  | RetrainPolicy.SpeculativeBestEffort =>
    Except.ok (SpeculativeBestEffortPolicy.calc_timeout record)
  | RetrainPolicy.CostAware => CostAwarePolicy.calc_timeout record
  | RetrainPolicy.Manual => Except.ok (ManualPolicy.calc_timeout record)

/-! ## Backend RPC transport (rpc_backend_service.cpp): the enqueue path -/

/-- The retrain request handed to the transport.  The class is declared in datatypes.hpp,
which is not among the sources; the fields are those read and written by
data_processor.hpp, in constructor order (the constant retrain type is left out). -/
structure RetrainRequest where
  data_from_ : Int
  data_to_ : Int
  batch_ids_ : List String
  data_size_ : Int
deriving DecidableEq, Repr

/-- Tuple `(zmq_connection_id, message_id, messages, creation time)`.  The frames produced
by `RetrainRequest::serialize` are represented by the request they encode. -/
structure RPCRequest where
  zmq_connection_id : Int
  id : Int
  msg : RetrainRequest
  time : Int
deriving DecidableEq, Repr

structure RPCBackendService where
  active_ : Bool
  message_id_ : Int
  request_queue_ : List RPCRequest
deriving DecidableEq, Repr

/-- State left by the constructor `RPCBackendService()`. -/
def RPCBackendService.mk_new : RPCBackendService :=
  { active_ := false, message_id_ := 0, request_queue_ := [] }

/-- The effect of `start` on the fields modelled here (the worker thread is not modelled);
starting an active service throws. -/
def RPCBackendService.start (rpc : RPCBackendService) : Except Fault RPCBackendService :=
  if rpc.active_ = true then Except.error Fault.exception
  else Except.ok { rpc with active_ := true }

def RPCBackendService.stop (rpc : RPCBackendService) : RPCBackendService :=
  if rpc.active_ = true then { rpc with active_ := false } else rpc

/-- The method `send_message(msg, zmq_connection_id)`; `current_time_micros` is the clock
value it reads.  Returns the new state and the returned id. -/
def RPCBackendService.send_message (rpc : RPCBackendService) (msg : RetrainRequest)
    (zmq_connection_id : Int) (current_time_micros : Int) : RPCBackendService × Int :=
  if rpc.active_ = false then
    (rpc, -1)
  else
    let id := rpc.message_id_
    ({ rpc with
        message_id_ := rpc.message_id_ + 1,
        request_queue_ := rpc.request_queue_ ++
          [{ zmq_connection_id := zmq_connection_id, id := id, msg := msg,
             time := current_time_micros }] },
     id)

/-- A call of one of the public methods of the transport. -/
inductive RPCCall where
  | start
  | stop
  | send_message (msg : RetrainRequest) (zmq_connection_id : Int) (current_time_micros : Int)
deriving DecidableEq, Repr

/-- One call: the new state and, for a `send_message`, whether the transport was
active when it was made together with the id it returned.  A `start` that throws
leaves the fields as they are. -/
def RPCBackendService.call (rpc : RPCBackendService) :
    RPCCall → RPCBackendService × Option (Bool × Int)
  | RPCCall.start =>
    match rpc.start with
    | Except.ok started => (started, none)
    | Except.error _ => (rpc, none)
  | RPCCall.stop => (rpc.stop, none)
  | RPCCall.send_message msg zmq_connection_id current_time_micros =>
    let sent := rpc.send_message msg zmq_connection_id current_time_micros
    (sent.1, some (rpc.active_, sent.2))

/-- A sequence of calls: the final state and the results of the `send_message` calls,
in call order. -/
def RPCBackendService.calls (rpc : RPCBackendService) :
    List RPCCall → RPCBackendService × List (Bool × Int)
  | [] => (rpc, [])
  | c :: rest =>
    let r := rpc.call c
    let rs := RPCBackendService.calls r.1 rest
    match r.2 with
    | some result => (rs.1, result :: rs.2)
    | none => (rs.1, rs.2)

/-- The ids returned by the calls made while the transport was active. -/
def active_ids (results : List (Bool × Int)) : List Int :=
  (results.filter (fun r => r.1)).map Prod.snd

/-! ## Backend RPC transport (rpc_backend_service.cpp): the receive path -/

/-- Modelled from the spec: the enumeration `MessageType` of datatypes.hpp (not among the
sources), with the names the code uses. -/
inductive MessageType where
  | StartRetraining
  | BackendMetadata
  | RetrainingStarted
  | RetrainingEnded
  | BackendHeartbeat
deriving DecidableEq, Repr

/-- Modelled from the spec: the wire values of the message types, `0` to `4`; the cast
`static_cast<MessageType>` of any other `int` is a value outside the enumeration, which
the `switch` sends to its `default` branch. -/
def MessageType.of_int (n : Int) : Option MessageType :=
  if n = 0 then some MessageType.StartRetraining
  else if n = 1 then some MessageType.BackendMetadata
  else if n = 2 then some MessageType.RetrainingStarted
  else if n = 3 then some MessageType.RetrainingEnded
  else if n = 4 then some MessageType.BackendHeartbeat
  else none

/-- A routing identity: the bytes of the first frame, `vector<uint8_t>`. -/
abbrev RoutingIdentity := List (Fin 256)

/-- An inbound multipart message: the routing identity, the leading `int` of the type
frame, and the frames that `receive_message` reads after it: five strings for
`BackendMetadata`, two `int` for `RetrainingStarted` and `RetrainingEnded`. -/
structure InboundMessage where
  routing_identity : RoutingIdentity
  type : Int
  backend_name : String
  backend_version : String
  app_name : String
  policy_name : String
  params : String
  msg_id : Int
  retrain_result : Int
deriving DecidableEq, Repr

/-- What `receive_message` reads from outside while it handles one message: the values
of `alpha`, `beta` and `weight` that `json::parse_json` and `json::try_get_double`
(json_util, not among the sources) give for a `params` frame, or the fault they end in,
and the result of `redis::get_all_application_names`. -/
structure ReceiveEnv where
  parse_params : String → Except Fault (Double × Double × Double)
  application_names : List String

/-- What `receive_message` does to the outside: calls of the store, of the two callbacks
and of `send_heartbeat_response`, and the log of an unrecognised type. -/
inductive Effect where
  | add_backend (name version policy : String) (alpha beta weight : Double)
      (zmq_connection_id : Int)
  | set_backend_link (app_name backend_name : String)
  | retrain_started_callback (id result : Int)
  | retrain_finished_callback (id result : Int)
  | send_heartbeat_response (connection_id : RoutingIdentity) (request_backend_metadata : Bool)
  | log_unrecognized_type
deriving DecidableEq, Repr

/-- The `boost::bimap<int, vector<uint8_t>>` named `connections`, in insertion order. -/
abbrev Connections := List (Int × RoutingIdentity)

/-- Lookup `connections.right.find(connection_id)`. -/
def Connections.right_find (m : Connections) (connection_id : RoutingIdentity) : Option Int :=
  (m.find? (fun p => decide (p.2 = connection_id))).map Prod.fst

/-- Insertion `connections.insert(value_type(id, connection_id))`: both sides of the
bimap are sets, so nothing is inserted when either key is present. -/
def Connections.insert (m : Connections) (id : Int) (connection_id : RoutingIdentity) :
    Connections :=
  if m.any (fun p => decide (p.1 = id) || decide (p.2 = connection_id)) then m
  else m ++ [(id, connection_id)]

/-- The map `connections_backend_map`, in insertion order. -/
abbrev ConnectionsBackendMap := List (RoutingIdentity × String)

/-- Lookup `connections_backend_map.find(connection_id)`. -/
def ConnectionsBackendMap.find (m : ConnectionsBackendMap) (connection_id : RoutingIdentity) :
    Option String :=
  (m.find? (fun p => decide (p.1 = connection_id))).map Prod.snd

/-- Insertion `connections_backend_map.emplace(connection_id, name)`: nothing is inserted
when the key is present. -/
def ConnectionsBackendMap.emplace (m : ConnectionsBackendMap)
    (connection_id : RoutingIdentity) (name : String) : ConnectionsBackendMap :=
  if m.any (fun p => decide (p.1 = connection_id)) then m else m ++ [(connection_id, name)]

/-- The locals of `manage_service` that `receive_message` takes by reference. -/
structure ServiceState where
  connections : Connections
  connections_backend_map : ConnectionsBackendMap
  zmq_connection_id : Int
deriving DecidableEq, Repr

/-- The locals as `manage_service` creates them. -/
def ServiceState.initial : ServiceState :=
  { connections := [], connections_backend_map := [], zmq_connection_id := 0 }

/-- The method `receive_message`: returns the new locals and what it did to the outside.
An exception leaves the method, and the loop of `manage_service`, at once. -/
def RPCBackendService.receive_message (env : ReceiveEnv) (st : ServiceState)
    (msg : InboundMessage) : Except Fault (ServiceState × List Effect) :=
  let connection_id := msg.routing_identity
  let new_connection : Bool := (Connections.right_find st.connections connection_id).isNone
  match MessageType.of_int msg.type with
  | some MessageType.BackendMetadata =>
    if new_connection = true then do
      let connections := Connections.insert st.connections st.zmq_connection_id connection_id
      let parsed ← env.parse_params msg.params
      let added : Effect :=
        Effect.add_backend msg.backend_name msg.backend_version msg.policy_name parsed.1
          parsed.2.1 parsed.2.2 st.zmq_connection_id
      let linked : List Effect :=
        if msg.app_name ∈ env.application_names then
          [Effect.set_backend_link msg.app_name msg.backend_name]
        else []
      Except.ok
        ({ connections := connections,
           connections_backend_map :=
             ConnectionsBackendMap.emplace st.connections_backend_map connection_id
               msg.backend_name,
           zmq_connection_id := st.zmq_connection_id + 1 },
         added :: linked)
    else Except.ok (st, [])
  | some MessageType.RetrainingStarted =>
    if new_connection = false then
      match ConnectionsBackendMap.find st.connections_backend_map connection_id with
      | none => Except.error Fault.exception
      | some _ =>
        Except.ok (st, [Effect.retrain_started_callback msg.msg_id msg.retrain_result])
    else Except.ok (st, [])
  | some MessageType.BackendHeartbeat =>
    Except.ok (st, [Effect.send_heartbeat_response connection_id new_connection])
  | some MessageType.RetrainingEnded =>
    if new_connection = false then
      match ConnectionsBackendMap.find st.connections_backend_map connection_id with
      | none => Except.error Fault.exception
      | some _ =>
        Except.ok (st, [Effect.retrain_finished_callback msg.msg_id msg.retrain_result])
    else Except.ok (st, [])
  | _ => Except.ok (st, [Effect.log_unrecognized_type])

/-- The receiving side of the loop of `manage_service`: the inbound messages are handled
one per iteration, in order, each with what the outside held at that time. -/
def RPCBackendService.manage_service (st : ServiceState) :
    List (ReceiveEnv × InboundMessage) → Except Fault (ServiceState × List Effect)
  | [] => Except.ok (st, [])
  | step :: rest =>
    match RPCBackendService.receive_message step.1 st step.2 with
    | Except.ok out =>
      match RPCBackendService.manage_service out.1 rest with
      | Except.ok final => Except.ok (final.1, out.2 ++ final.2)
      | Except.error f => Except.error f
    | Except.error f => Except.error f

/-! ## RuntimeProfiler (data_processor.hpp) -/

/-- Accumulators of the loop in `calc_alpha_beta`. -/
structure RegressionSums where
  sum_time : Int
  sum_size : Int
  sum_x_multi_y : Int
  sum_x_squa : Int
deriving DecidableEq, Repr

structure RuntimeProfiler where
  max_samples_ : Int
  threshold_ : Int
  alpha_ : Double
  beta_ : Double
  time_size_pairs_ : List (Int × Int)

/-- The constructor `RuntimeProfiler(double alpha, double beta)`. -/
def RuntimeProfiler.mk_new (alpha beta : Double) : RuntimeProfiler :=
  { max_samples_ := 10, threshold_ := 3, alpha_ := alpha, beta_ := beta,
    time_size_pairs_ := [] }

/-- The loop of `calc_alpha_beta` over the samples `(time, size)`, with `y = first` and
`x = second`. -/
def RuntimeProfiler.accumulate (samples : List (Int × Int)) : RegressionSums :=
  samples.foldl
    (fun acc s =>
      { sum_time := acc.sum_time + s.1,
        sum_size := acc.sum_size + s.2,
        sum_x_multi_y := acc.sum_x_multi_y + s.2 * s.1,
        sum_x_squa := acc.sum_x_squa + s.2 * s.2 })
    { sum_time := 0, sum_size := 0, sum_x_multi_y := 0, sum_x_squa := 0 }

def RuntimeProfiler.calc_alpha_beta (p : RuntimeProfiler) : RuntimeProfiler :=
  let size : Int := p.time_size_pairs_.length
  let sums := RuntimeProfiler.accumulate p.time_size_pairs_
  let multi_sum_x_sum_y : Int := sums.sum_time * sums.sum_size
  let squa_sum_x : Int := sums.sum_size * sums.sum_size
  let alpha : Double :=
    fdiv (of_long (size * sums.sum_x_multi_y - multi_sum_x_sum_y))
      (of_long (size * sums.sum_x_squa - squa_sum_x))
  let beta : Double :=
    match alpha, fdiv (of_long sums.sum_time) (of_long size) with
    | some a, some mean_time =>
      (fdiv (dmul a (of_long sums.sum_size)) (of_long size)).map
        (fun t => dsub mean_time t)
    | _, _ => none
  { p with alpha_ := alpha, beta_ := beta }

/-- The method `add_sample(time, data_size)`.  Erasing `begin()` of an empty vector (only
possible when `(unsigned)max_samples_` is zero) is undefined. -/
def RuntimeProfiler.add_sample (p : RuntimeProfiler) (time data_size : Int) :
    Except Fault RuntimeProfiler := do
  let kept ←
    if p.time_size_pairs_.length ≥ unsigned_cast p.max_samples_ then
      match p.time_size_pairs_ with
      | [] => Except.error Fault.out_of_bounds
      | _ :: rest => Except.ok rest
    else Except.ok p.time_size_pairs_
  let pushed : RuntimeProfiler := { p with time_size_pairs_ := kept ++ [(time, data_size)] }
  if pushed.time_size_pairs_.length ≥ unsigned_cast pushed.threshold_ then
    Except.ok pushed.calc_alpha_beta
  else
    Except.ok pushed

def RuntimeProfiler.get_alpha_beta (p : RuntimeProfiler) : Double × Double :=
  (p.alpha_, p.beta_)

/-! ## TriggerChecker (data_processor.hpp) -/

/-- The enumeration `RetrainState` of datatypes.hpp (not among the sources): the two values
used by the trigger checker. -/
inductive RetrainState where
  | RetrainSent
  | StartedReceived
deriving DecidableEq, Repr

structure InflightRetrainMessage where
  send_time_ : Int
  zmq_connection_id_ : Int
  app_name_ : String
  state_ : RetrainState
  batch_ids_ : List String
  msg_link_ : Int
deriving DecidableEq, Repr

/-- The map `inflight_messages_`: keys are message ids, list order is iteration order. -/
abbrev InflightMessages := List (Int × InflightRetrainMessage)

/-- Lookup `find(msg_id)`. -/
def InflightMessages.find (m : InflightMessages) (msg_id : Int) :
    Option InflightRetrainMessage :=
  match m with
  | [] => none
  | p :: rest => if p.1 = msg_id then some p.2 else InflightMessages.find rest msg_id

/-- Removal `erase(msg_id)`. -/
def InflightMessages.erase (m : InflightMessages) (msg_id : Int) : InflightMessages :=
  m.filter (fun p => decide (p.1 ≠ msg_id))

/-- Insertion `emplace(msg_id, message)`: nothing is inserted when the key is present. -/
def InflightMessages.emplace (m : InflightMessages) (msg_id : Int)
    (message : InflightRetrainMessage) : InflightMessages :=
  match InflightMessages.find m msg_id with
  | some _ => m
  | none => m ++ [(msg_id, message)]

/-- In-place update of the entry under `msg_id`. -/
def InflightMessages.modify (m : InflightMessages) (msg_id : Int)
    (f : InflightRetrainMessage → InflightRetrainMessage) : InflightMessages :=
  m.map (fun p => if p.1 = msg_id then (p.1, f p.2) else p)

/-- A backend hash of the store as read by `get_backend`, its numeric fields parsed. -/
structure Backend where
  alpha : Double
  beta : Double
  weight : Double
  policy : String
  zmq_connection_id : Int

/-- What the handlers read from the Redis store.  `get_backend` is `none` for a hash
whose numeric fields do not parse (`std::stod` and `std::stoi` throw). -/
structure Redis where
  get_backend_link : String → String
  get_backend : String → Option Backend
  get_retrain_data_ids : String → Int → Int → List String

/-- A closure handed to `tryRunAfterDelay` by `set_timeout`, with its captured values. -/
structure PendingTimeout where
  app_name : String
  last_arrival : Int
  timeout : Int
deriving DecidableEq, Repr

structure TriggerChecker where
  rpc_ : RPCBackendService
  retrain_records_ : String → Option RetrainRecord
  inflight_messages_ : InflightMessages
  app_policies_ : String → Option String
  runtime_profilers_ : String → Option RuntimeProfiler
  zmq_connections : String → Option Int
  pending_timeouts_ : List PendingTimeout

/-- The map `retrain_policies_` filled by the constructor. -/
def TriggerChecker.retrain_policies_ (policy_name : String) : Option RetrainPolicy :=
  if policy_name = NaiveBestEffortPolicy.get_name then some RetrainPolicy.NaiveBestEffort
  else if policy_name = SpeculativeBestEffortPolicy.get_name then
    some RetrainPolicy.SpeculativeBestEffort
  else if policy_name = CostAwarePolicy.get_name then some RetrainPolicy.CostAware
  else if policy_name = ManualPolicy.get_name then some RetrainPolicy.Manual
  else none

def DEFAULT_POLICY : String := NaiveBestEffortPolicy.get_name

/-- State after the constructor `TriggerChecker(rpc)`. -/
def TriggerChecker.mk_new (rpc : RPCBackendService) : TriggerChecker :=
  { rpc_ := rpc,
    retrain_records_ := fun _ => none,
    inflight_messages_ := [],
    app_policies_ := fun _ => none,
    runtime_profilers_ := fun _ => none,
    zmq_connections := fun _ => none,
    pending_timeouts_ := [] }

/-- Assignment `map[key] = value` on a map keyed by application name. -/
def assign {α : Type} (m : String → Option α) (key : String) (value : α) :
    String → Option α :=
  fun k => if k = key then some value else m k

def TriggerChecker.set_app_policy (s : TriggerChecker) (app_name policy_name : String) :
    TriggerChecker :=
  match TriggerChecker.retrain_policies_ policy_name with
  | some _ => { s with app_policies_ := assign s.app_policies_ app_name policy_name }
  | none => { s with app_policies_ := assign s.app_policies_ app_name DEFAULT_POLICY }

/-- The method `get_app_policy`: throws when the application has no policy; a policy name
missing from `retrain_policies_` yields a null pointer, used by every caller. -/
def TriggerChecker.get_app_policy (s : TriggerChecker) (app_name : String) :
    Except Fault RetrainPolicy :=
  match s.app_policies_ app_name with
  | some policy_name =>
    match TriggerChecker.retrain_policies_ policy_name with
    | some policy => Except.ok policy
    | none => Except.error Fault.null_dereference
  | none => Except.error Fault.exception

/-- The loop of `trigger_retrain` that looks for the last inflight message of the
application: returns the final `(link, last_time)`. -/
def TriggerChecker.find_link (m : InflightMessages) (app_name : String) : Int × Int :=
  m.foldl
    (fun acc p =>
      if p.2.app_name_ = app_name then
        if p.2.send_time_ > acc.2 then (p.1, p.2.send_time_) else acc
      else acc)
    (-1, 0)

/-- The method `trigger_retrain(app_name, retrain_req)`; `send_time` is the clock value read
by `send_message`, `cur_time` the one read by `get_cur_time`. -/
def TriggerChecker.trigger_retrain (s : TriggerChecker) (app_name : String)
    (retrain_req : RetrainRequest) (send_time cur_time : Int) : Except Fault TriggerChecker :=
  let zmq_connection_id : Int := (s.zmq_connections app_name).getD 0
  let sent := s.rpc_.send_message retrain_req zmq_connection_id send_time
  let msg_id : Int := sent.2
  match s.retrain_records_ app_name with
  | none => Except.error Fault.null_dereference
  | some record =>
    let updated : RetrainRecord :=
      { record with
          data_from_ := retrain_req.data_from_,
          data_to_ := retrain_req.data_to_,
          training_batch_ := (cur_time, retrain_req.data_size_),
          finished_ := false }
    let inflight_message : InflightRetrainMessage :=
      { send_time_ := cur_time, zmq_connection_id_ := zmq_connection_id,
        app_name_ := app_name, state_ := RetrainState.RetrainSent,
        batch_ids_ := retrain_req.batch_ids_,
        msg_link_ := (TriggerChecker.find_link s.inflight_messages_ app_name).1 }
    Except.ok
      { s with
          rpc_ := sent.1,
          zmq_connections := assign s.zmq_connections app_name zmq_connection_id,
          retrain_records_ := assign s.retrain_records_ app_name updated,
          inflight_messages_ :=
            InflightMessages.emplace s.inflight_messages_ msg_id inflight_message }

/-- The method `check_trigger_by_func(app_name, func)`; returns the new state and whether a
retrain was triggered. -/
def TriggerChecker.check_trigger_by_func (s : TriggerChecker) (redis : Redis)
    (app_name : String) (func : RetrainRecord → Except Fault RetrainInfo)
    (send_time cur_time : Int) : Except Fault (TriggerChecker × Bool) :=
  match s.retrain_records_ app_name with
  | none => Except.error Fault.null_dereference
  | some record => do
    let retrain_info ← func record
    if retrain_info.1 = true then
      let data_from : Int := retrain_info.2.1
      let data_to : Int := retrain_info.2.2
      let batch_ids := redis.get_retrain_data_ids app_name data_from data_to
      let data_size : Int :=
        sum_sizes_where (fun p => decide (p.1 ≥ data_from) && decide (p.1 ≤ data_to))
          record.batches_
      let retrain_query : RetrainRequest :=
        { data_from_ := data_from, data_to_ := data_to, batch_ids_ := batch_ids,
          data_size_ := data_size }
      let s1 ← TriggerChecker.trigger_retrain s app_name retrain_query send_time cur_time
      Except.ok (s1, true)
    else
      Except.ok (s, false)

/-- The method `set_timeout`: a positive timeout hands a closure to the event base, any
other value fulfils the promise with `(false, 0, 0)` at once, which triggers nothing. -/
def TriggerChecker.set_timeout (s : TriggerChecker) (app_name : String) (last_arrival : Int)
    (timeout : Int) : TriggerChecker :=
  if timeout > 0 then
    { s with
        pending_timeouts_ := s.pending_timeouts_ ++
          [{ app_name := app_name, last_arrival := last_arrival, timeout := timeout }] }
  else s

def TriggerChecker.check_trigger (s : TriggerChecker) (redis : Redis) (app_name : String)
    (arrival_time : Int) (send_time cur_time : Int) : Except Fault TriggerChecker := do
  let policy ← TriggerChecker.get_app_policy s app_name
  let checked ← TriggerChecker.check_trigger_by_func s redis app_name
    (RetrainPolicy.ready_to_retrain policy) send_time cur_time
  if checked.2 = false then
    match checked.1.retrain_records_ app_name with
    | none => Except.error Fault.null_dereference
    | some record => do
      let timeout ← RetrainPolicy.calc_timeout policy record
      Except.ok (TriggerChecker.set_timeout checked.1 app_name arrival_time timeout)
  else
    Except.ok checked.1

/-- The handler `manual_trigger_retrain`; `cur_time` is the clock value it reads itself.
Returns the new state and the value given to the promise. -/
def TriggerChecker.manual_trigger_retrain (s : TriggerChecker) (redis : Redis)
    (app_name : String) (cur_time send_time dispatch_time : Int) :
    Except Fault (TriggerChecker × Int) :=
  match s.retrain_records_ app_name with
  | some record =>
    let last_end : Int := record.data_to_
    let data_size : Int :=
      sum_sizes_where (fun p => decide (p.1 ≥ last_end)) record.batches_
    if data_size > 0 then do
      let data_ids := redis.get_retrain_data_ids app_name last_end cur_time
      let retrain_query : RetrainRequest :=
        { data_from_ := last_end, data_to_ := cur_time, batch_ids_ := data_ids,
          data_size_ := data_size }
      let s1 ← TriggerChecker.trigger_retrain s app_name retrain_query send_time dispatch_time
      Except.ok (s1, data_size)
    else
      Except.ok (s, 0)
  | none => Except.ok (s, -1)

/-- The handler `report_data_arrival`.  Returns the new state and the value given to the
promise. -/
def TriggerChecker.report_data_arrival (s : TriggerChecker) (redis : Redis)
    (app_name : String) (arrival_time data_size : Int) (send_time cur_time : Int) :
    Except Fault (TriggerChecker × Bool) :=
  match s.retrain_records_ app_name with
  | some record => do
    let appended : RetrainRecord :=
      { record with
          batches_ := record.batches_ ++ [(arrival_time, data_size)],
          last_arrival_ := arrival_time }
    let s1 : TriggerChecker :=
      { s with retrain_records_ := assign s.retrain_records_ app_name appended }
    let s2 ← TriggerChecker.check_trigger s1 redis app_name arrival_time send_time cur_time
    Except.ok (s2, true)
  | none =>
    let backend_name := redis.get_backend_link app_name
    if backend_name = "" then
      Except.ok (s, true)
    else
      match redis.get_backend backend_name with
      | none => Except.error Fault.exception
      | some backend => do
        let record : RetrainRecord :=
          { RetrainRecord.mk_new arrival_time backend.alpha backend.beta backend.weight with
              batches_ := [(arrival_time, data_size)] }
        let profiler := RuntimeProfiler.mk_new backend.alpha backend.beta
        let s1 : TriggerChecker :=
          { s with
              retrain_records_ := assign s.retrain_records_ app_name record,
              runtime_profilers_ :=
                match s.runtime_profilers_ app_name with
                | some _ => s.runtime_profilers_
                | none => assign s.runtime_profilers_ app_name profiler }
        let s2 := TriggerChecker.set_app_policy s1 app_name backend.policy
        let s3 ← TriggerChecker.check_trigger s2 redis app_name arrival_time send_time cur_time
        Except.ok (s3, true)

/-- The handler `report_retrain_begin`. -/
def TriggerChecker.report_retrain_begin (s : TriggerChecker) (msg_id : Int) :
    TriggerChecker × Bool :=
  match InflightMessages.find s.inflight_messages_ msg_id with
  | some _ =>
    ({ s with
        inflight_messages_ :=
          InflightMessages.modify s.inflight_messages_ msg_id
            (fun m => { m with state_ := RetrainState.StartedReceived }) },
     true)
  | none => (s, true)

/-- The loop of `report_retrain_end` that erases the predecessors:
`while (next_msg >= 0) { tmp = next_msg; next_msg = inflight_messages_[next_msg]->msg_link_;
erase(tmp); }`.  A lookup of an id that is not in the map dereferences a null pointer.
Every completed iteration removes an entry, so `fuel` above the size of the map is never
used up. -/
def TriggerChecker.erase_links (fuel : Nat) (m : InflightMessages) (next_msg : Int) :
    Except Fault InflightMessages :=
  match fuel with
  | 0 => if next_msg ≥ 0 then Except.error Fault.fuel else Except.ok m
  | n + 1 =>
    if next_msg ≥ 0 then
      match InflightMessages.find m next_msg with
      | none => Except.error Fault.null_dereference
      | some msg =>
        TriggerChecker.erase_links n (InflightMessages.erase m next_msg) msg.msg_link_
    else Except.ok m

/-- The part of `report_retrain_end` under the comment "update retrain records". -/
def TriggerChecker.update_retrain_records (s : TriggerChecker) (app_name : String)
    (cur_time : Int) : Except Fault TriggerChecker :=
  match s.retrain_records_ app_name with
  | none => Except.ok s
  | some record =>
    let erase_from : Int := record.data_from_
    let erase_to : Int := record.data_to_
    let batches : BatchesInfo :=
      record.batches_.filter (fun b => !(decide (b.1 ≥ erase_from) && decide (b.1 ≤ erase_to)))
    let time : Int := Int.tdiv (cur_time - record.training_batch_.1) 1000
    let size : Int := record.training_batch_.2
    match s.runtime_profilers_ app_name with
    | none => Except.error Fault.null_dereference
    | some profiler => do
      let sampled ← RuntimeProfiler.add_sample profiler time size
      let updated : RetrainRecord :=
        { record with
            finished_ := true, batches_ := batches,
            alpha_ := sampled.alpha_, beta_ := sampled.beta_ }
      Except.ok
        { s with
            runtime_profilers_ := assign s.runtime_profilers_ app_name sampled,
            retrain_records_ := assign s.retrain_records_ app_name updated }

/-- The handler `report_retrain_end`.  Returns the new state and the value given to the
promise, `none` when the promise is dropped without a value. -/
def TriggerChecker.report_retrain_end (s : TriggerChecker) (redis : Redis) (msg_id : Int)
    (cur_time send_time dispatch_time : Int) : Except Fault (TriggerChecker × Option Bool) :=
  match InflightMessages.find s.inflight_messages_ msg_id with
  | none => Except.ok (s, none)
  | some msg => do
    let app_name := msg.app_name_
    let erased ← TriggerChecker.erase_links (s.inflight_messages_.length + 1)
      (InflightMessages.erase s.inflight_messages_ msg_id) msg.msg_link_
    let s1 : TriggerChecker := { s with inflight_messages_ := erased }
    let s2 ← TriggerChecker.update_retrain_records s1 app_name cur_time
    let policy ← TriggerChecker.get_app_policy s2 app_name
    let checked ← TriggerChecker.check_trigger_by_func s2 redis app_name
      (RetrainPolicy.on_retrain_finished policy) send_time dispatch_time
    Except.ok (checked.1, some true)

/-- The closure of `set_timeout`: the value it gives to the promise when it runs. -/
def TriggerChecker.timeout_closure (s : TriggerChecker) (t : PendingTimeout) : RetrainInfo :=
  match s.retrain_records_ t.app_name with
  | some record =>
    if record.last_arrival_ = t.last_arrival ∧ record.finished_ = true then
      (true, record.data_to_ + 1, t.last_arrival)
    else (false, 0, 0)
  | none => (false, 0, 0)

/-- The continuation `future.then(...)` of `check_trigger`. -/
def TriggerChecker.after_timeout (s : TriggerChecker) (redis : Redis) (app_name : String)
    (retrain_info : RetrainInfo) (send_time cur_time : Int) : Except Fault TriggerChecker :=
  if retrain_info.1 = true then
    match s.retrain_records_ app_name with
    | none => Except.error Fault.null_dereference
    | some record =>
      let data_from : Int := retrain_info.2.1
      let data_to : Int := retrain_info.2.2
      let data_ids := redis.get_retrain_data_ids app_name data_from data_to
      let data_size : Int :=
        sum_sizes_where (fun p => decide (p.1 ≥ data_from) && decide (p.1 ≤ data_to))
          record.batches_
      let retrain_query : RetrainRequest :=
        { data_from_ := data_from, data_to_ := data_to, batch_ids_ := data_ids,
          data_size_ := data_size }
      TriggerChecker.trigger_retrain s app_name retrain_query send_time cur_time
  else Except.ok s

/-- The event base runs the pending closure number `index`. -/
def TriggerChecker.fire_timeout (s : TriggerChecker) (redis : Redis) (index : Nat)
    (send_time cur_time : Int) : Except Fault TriggerChecker :=
  match s.pending_timeouts_[index]? with
  | none => Except.ok s
  | some t =>
    let s1 : TriggerChecker :=
      { s with pending_timeouts_ := s.pending_timeouts_.eraseIdx index }
    TriggerChecker.after_timeout s1 redis t.app_name (TriggerChecker.timeout_closure s1 t)
      send_time cur_time

/-- The subscription callback of the constructor, for a `set` event on `key`. -/
def TriggerChecker.backend_link_set (s : TriggerChecker) (redis : Redis) (key : String) :
    Except Fault TriggerChecker :=
  match redis.get_backend (redis.get_backend_link key) with
  | some backend =>
    Except.ok
      { s with zmq_connections := assign s.zmq_connections key backend.zmq_connection_id }
  | none => Except.error Fault.exception

/-! ## Event traces -/

inductive Event where
  | ReportDataArrival (app_name : String) (arrival_time data_size : Int)
  | ManualTrigger (app_name : String)
  | ReportRetrainBegin (msg_id : Int)
  | ReportRetrainEnd (msg_id : Int)
  | TimeoutFired (index : Nat)
  | BackendLinkSet (key : String)
deriving DecidableEq, Repr

/-- What a handler reads from outside while it runs: the store, the clock value read by
the body of the handler, the one read by `send_message` and the one read by
`trigger_retrain`. -/
structure Env where
  redis : Redis
  cur_time : Int
  send_time : Int
  dispatch_time : Int

def TriggerChecker.handle (s : TriggerChecker) (env : Env) (e : Event) :
    Except Fault TriggerChecker :=
  match e with
  | Event.ReportDataArrival app_name arrival_time data_size =>
    (TriggerChecker.report_data_arrival s env.redis app_name arrival_time data_size
      env.send_time env.dispatch_time).map Prod.fst
  | Event.ManualTrigger app_name =>
    (TriggerChecker.manual_trigger_retrain s env.redis app_name env.cur_time
      env.send_time env.dispatch_time).map Prod.fst
  | Event.ReportRetrainBegin msg_id =>
    Except.ok (TriggerChecker.report_retrain_begin s msg_id).1
  | Event.ReportRetrainEnd msg_id =>
    (TriggerChecker.report_retrain_end s env.redis msg_id env.cur_time
      env.send_time env.dispatch_time).map Prod.fst
  | Event.TimeoutFired index =>
    TriggerChecker.fire_timeout s env.redis index env.send_time env.dispatch_time
  | Event.BackendLinkSet key => TriggerChecker.backend_link_set s env.redis key

def TriggerChecker.run (s : TriggerChecker) : List (Env × Event) → Except Fault TriggerChecker
  | [] => Except.ok s
  | step :: rest =>
    match TriggerChecker.handle s step.1 step.2 with
    | Except.ok s1 => TriggerChecker.run s1 rest
    | Except.error f => Except.error f

/-- The state in which `DataProcessor()` leaves the trigger checker: a fresh transport,
started. -/
def TriggerChecker.initial : TriggerChecker :=
  TriggerChecker.mk_new { RPCBackendService.mk_new with active_ := true }

/-! ## Quantities named by the specification -/

/-- Total size of the batches of `batches` whose arrival time satisfies `p`. -/
def total_size (p : BatchInfo → Prop) [DecidablePred p] (batches : BatchesInfo) : Int :=
  ((batches.filter (fun b => decide (p b))).map Prod.snd).sum

/-- The inequality of the specification over exact numbers,
`B * beta ≥ 2 * (alpha * D * B + delta * (D + B))`, with `B` the total size of the
batches that arrived after `data_to`, `D` the size under training and `delta` the
interval in milliseconds between the dispatch and the last arrival. -/
def speculative_inequality (R : RetrainRecord) (alpha beta : ℚ) : Prop :=
  (total_size (fun b => b.1 > R.data_to_) R.batches_ : ℚ) * beta ≥
    2 * (alpha * (R.training_batch_.2 : ℚ) *
          (total_size (fun b => b.1 > R.data_to_) R.batches_ : ℚ) +
        ((Int.tdiv (R.last_arrival_ - R.training_batch_.1) 1000 : Int) : ℚ) *
          ((R.training_batch_.2 : ℚ) +
            (total_size (fun b => b.1 > R.data_to_) R.batches_ : ℚ)))

/-- The two sides of that inequality computed over exact numbers and then converted to
`long`. -/
def speculative_sides_exact (R : RetrainRecord) (alpha beta : ℚ) : Int × Int :=
  (static_cast_long ((total_size (fun b => b.1 > R.data_to_) R.batches_ : ℚ) * beta),
   static_cast_long
      (2 * (alpha * (R.training_batch_.2 : ℚ) *
          (total_size (fun b => b.1 > R.data_to_) R.batches_ : ℚ) +
        ((Int.tdiv (R.last_arrival_ - R.training_batch_.1) 1000 : Int) : ℚ) *
          ((R.training_batch_.2 : ℚ) +
            (total_size (fun b => b.1 > R.data_to_) R.batches_ : ℚ)))))

/-- The same inequality in double arithmetic: the left side is the product `B * beta`
rounded to double, the right side is `2 * (((alpha * D) * B) + delta * (D + B))` with
each product and sum rounded to double in that order and `delta * (D + B)` an integer
converted to double; both sides are then converted to `long`. -/
@[reducible]
def speculative_inequality_truncated (R : RetrainRecord) (alpha beta : ℚ) : Prop :=
  static_cast_long
      (dmul (of_long (total_size (fun b => b.1 > R.data_to_) R.batches_)) beta) ≥
    static_cast_long
      (dmul 2
        (dadd
          (dmul (dmul alpha (of_long R.training_batch_.2))
            (of_long (total_size (fun b => b.1 > R.data_to_) R.batches_)))
          (of_long
            (Int.tdiv (R.last_arrival_ - R.training_batch_.1) 1000 *
              (R.training_batch_.2 +
                total_size (fun b => b.1 > R.data_to_) R.batches_)))))

/-- Sums over the samples `(time, size)` of a ring, with `y = time` and `x = size`. -/
def sum_y (samples : List (Int × Int)) : ℚ := ((samples.map (fun s => s.1)).sum : Int)

def sum_x (samples : List (Int × Int)) : ℚ := ((samples.map (fun s => s.2)).sum : Int)

def sum_xy (samples : List (Int × Int)) : ℚ := ((samples.map (fun s => s.2 * s.1)).sum : Int)

def sum_xx (samples : List (Int × Int)) : ℚ := ((samples.map (fun s => s.2 * s.2)).sum : Int)

/-- Division over exact numbers: no value for a zero divisor. -/
def exact_div (a b : ℚ) : Double := if b = 0 then none else some (a / b)

/-- The least-squares slope of the specification over exact numbers,
`(n * Σxy − Σx * Σy) / (n * Σx² − (Σx)²)`; no value when the divisor is zero. -/
def ols_alpha (samples : List (Int × Int)) : Double :=
  exact_div ((samples.length : ℚ) * sum_xy samples - sum_x samples * sum_y samples)
    ((samples.length : ℚ) * sum_xx samples - sum_x samples ^ 2)

/-- The least-squares intercept of the specification over exact numbers,
`(Σy − alpha * Σx) / n`. -/
def ols_beta (samples : List (Int × Int)) : Double :=
  match ols_alpha samples with
  | some alpha => exact_div (sum_y samples - alpha * sum_x samples) (samples.length : ℚ)
  | none => none

/-- The slope in double arithmetic: the integers `n * Σxy − Σx * Σy` and
`n * Σx² − (Σx)²` are converted to double and the quotient is rounded; non-finite when
the divisor is zero. -/
def double_alpha (samples : List (Int × Int)) : Double :=
  fdiv
    (of_long
      ((samples.length : Int) * (samples.map (fun s => s.2 * s.1)).sum -
        (samples.map (fun s => s.2)).sum * (samples.map (fun s => s.1)).sum))
    (of_long
      ((samples.length : Int) * (samples.map (fun s => s.2 * s.2)).sum -
        (samples.map (fun s => s.2)).sum * (samples.map (fun s => s.2)).sum))

/-- The intercept in double arithmetic, in the form `Σy / n − (alpha * Σx) / n`: the two
quotients, the product and the difference are each rounded to double. -/
def double_beta (samples : List (Int × Int)) : Double :=
  match double_alpha samples,
    fdiv (of_long (samples.map (fun s => s.1)).sum) (of_long (samples.length : Int)) with
  | some alpha, some mean_time =>
    (fdiv (dmul alpha (of_long (samples.map (fun s => s.2)).sum))
      (of_long (samples.length : Int))).map (fun t => dsub mean_time t)
  | _, _ => none

/-- The `untrained_samples` of the specification: the total size of all batches when the
record is finished, of the batches with `arrival > data_to` when it is not. -/
def untrained_samples (R : RetrainRecord) : Int :=
  if R.finished_ = true then total_size (fun _ => True) R.batches_
  else total_size (fun b => b.1 > R.data_to_) R.batches_

/-- The quotient of the specification over exact numbers,
`(weight * beta - (all_cost - min_cost)) / untrained_samples`. -/
def timeout_quotient (R : RetrainRecord) (weight beta : ℚ) (costs : CostInfo) : ℚ :=
  (weight * beta - ((costs.1 - costs.2 : Int) : ℚ)) / (untrained_samples R : ℚ)

/-- The same quotient in double arithmetic: the product `weight * beta`, the difference
and the quotient are each rounded to double, and the divisor is `untrained_samples` as
an `int`, that is reduced modulo `2 ^ 32` into the range of `int`; non-finite when that
divisor is zero. -/
def timeout_quotient_double (R : RetrainRecord) (weight beta : ℚ) (costs : CostInfo) :
    Double :=
  fdiv (dsub (dmul weight beta) (of_long (costs.1 - costs.2)))
    (of_long (int_cast (untrained_samples R)))

/-! ## Legal traces and invariants -/

/-- The latest arrival time reported up to and including the event `e`, `mark` being
the latest one reported before it. -/
def next_mark (mark : Int) (e : Event) : Int :=
  match e with
  | Event.ReportDataArrival _ arrival_time _ => arrival_time
  | _ => mark

/-- A reported arrival has a positive time stamp, not earlier than the arrivals
reported before it and not later than the clock. -/
def arrival_ok (mark : Int) (env : Env) (e : Event) : Prop :=
  match e with
  | Event.ReportDataArrival _ arrival_time _ =>
    0 < arrival_time ∧ mark ≤ arrival_time ∧ arrival_time ≤ env.cur_time
  | _ => True

/-- A legal trace, `mark` being the latest arrival time reported before it: arrivals
are reported with positive, non-decreasing time stamps, the clock is never earlier
than a reported arrival and does not run backwards inside a handler. -/
def LegalTrace (mark : Int) : List (Env × Event) → Prop
  | [] => True
  | step :: rest =>
    step.1.cur_time ≤ step.1.dispatch_time ∧ mark ≤ step.1.cur_time ∧
    arrival_ok mark step.1 step.2 ∧ LegalTrace (next_mark mark step.2) rest

/-- The same conditions on one step, read in the state `s` in which it is handled: the
clock is not earlier than the last arrival of any record, and a reported arrival is not
earlier than the last arrival of its application. -/
def LegalStep (s : TriggerChecker) (env : Env) (e : Event) : Prop :=
  env.cur_time ≤ env.dispatch_time ∧
  (∀ app_name R, s.retrain_records_ app_name = some R → R.last_arrival_ ≤ env.cur_time) ∧
  (∀ app_name arrival_time data_size,
    e = Event.ReportDataArrival app_name arrival_time data_size →
      0 < arrival_time ∧ arrival_time ≤ env.cur_time ∧
      ∀ R, s.retrain_records_ app_name = some R → R.last_arrival_ ≤ arrival_time)

/-- No record has a last arrival later than `mark`. -/
def Bounded (mark : Int) (s : TriggerChecker) : Prop :=
  ∀ app_name R, s.retrain_records_ app_name = some R → R.last_arrival_ ≤ mark

/-- The records of `s1` have the last arrivals they had in `s`. -/
def ArrivalFrame (s s1 : TriggerChecker) : Prop :=
  ∀ app_name R1, s1.retrain_records_ app_name = some R1 →
    ∃ R, s.retrain_records_ app_name = some R ∧ R1.last_arrival_ = R.last_arrival_

/-- No step of the trace is a `ManualTrigger`. -/
def ManualFree (trace : List (Env × Event)) : Prop :=
  ∀ step ∈ trace, ∀ app_name, step.2 ≠ Event.ManualTrigger app_name

/-- What every record satisfies along legal traces, whatever the policy of its
application; `P` stands for "no manual trigger has been handled". -/
def ArrivalInv (P : Prop) (R : RetrainRecord) : Prop :=
  0 < R.last_arrival_ ∧ (∀ b ∈ R.batches_, b.1 ≤ R.last_arrival_) ∧
  (P → R.data_to_ ≤ R.last_arrival_)

/-- What the record of an application under the Naive, Speculative or Manual policy
satisfies along legal traces. -/
def RecordInv (R : RetrainRecord) : Prop :=
  R.data_from_ ≤ R.data_to_ ∧ R.data_from_ ≤ R.last_arrival_ ∧
  R.data_to_ ≤ R.training_batch_.1 ∧ 0 ≤ R.data_to_

/-- Under a best-effort policy the window of the record is positive. -/
def AppPos (policy : RetrainPolicy) (R : RetrainRecord) : Prop :=
  (policy = RetrainPolicy.NaiveBestEffort ∨ policy = RetrainPolicy.SpeculativeBestEffort) →
    0 < R.data_from_ ∧ 0 < R.data_to_

/-- Every pending timeout belongs to an application that has a record and is under the
cost-aware policy, the only one whose `calc_timeout` is not the constant 0.  The time
stamp and the delay of a pending timeout are left free. -/
def TimersInv (s : TriggerChecker) : Prop :=
  ∀ t ∈ s.pending_timeouts_,
    TriggerChecker.get_app_policy s t.app_name = Except.ok RetrainPolicy.CostAware ∧
    ∃ R, s.retrain_records_ t.app_name = some R

/-- The invariant of the trigger checker, with `AppPos` left out for application `a`. -/
def WeakInv (P : Prop) (s : TriggerChecker) (a : String) : Prop :=
  TimersInv s ∧
  ∀ app_name R, s.retrain_records_ app_name = some R →
    ∃ policy, TriggerChecker.get_app_policy s app_name = Except.ok policy ∧
      ArrivalInv P R ∧
      (policy ≠ RetrainPolicy.CostAware →
        RecordInv R ∧ (app_name ≠ a → AppPos policy R))

/-- The invariant of the trigger checker along legal traces: every application with a
record has a policy, every record satisfies `ArrivalInv`, the record of an application
under a policy other than the cost-aware one satisfies `RecordInv` and `AppPos`, and
the pending timeouts satisfy `TimersInv`. -/
def Inv (P : Prop) (s : TriggerChecker) : Prop :=
  TimersInv s ∧
  ∀ app_name R, s.retrain_records_ app_name = some R →
    ∃ policy, TriggerChecker.get_app_policy s app_name = Except.ok policy ∧
      ArrivalInv P R ∧ (policy ≠ RetrainPolicy.CostAware → RecordInv R ∧ AppPos policy R)

/-- What allows the handler of `e` to dispatch in state `s`: a manual trigger; a data
arrival that finds the record unfinished only under the speculative policy, with
`data_from > 0` and the window `(data_from, arrival)` of the speculative rule; the end of
a retrain only through `on_retrain_finished` evaluated on the record already marked
finished; a timeout only on a finished record; nothing else. -/
def DispatchCause (s : TriggerChecker) (e : Event) : Prop :=
  match e with
  | Event.ManualTrigger _ => True
  | Event.ReportDataArrival a arrival_time data_size =>
    ∀ R, s.retrain_records_ a = some R → R.finished_ = false →
      TriggerChecker.get_app_policy s a = Except.ok RetrainPolicy.SpeculativeBestEffort ∧
      0 < R.data_from_ ∧
      SpeculativeBestEffortPolicy.ready_to_retrain
        { R with
          batches_ := R.batches_ ++ [(arrival_time, data_size)],
          last_arrival_ := arrival_time } =
        Except.ok (true, R.data_from_, arrival_time)
  | Event.ReportRetrainEnd msg_id =>
    ∃ (msg : InflightRetrainMessage) (R : RetrainRecord) (alpha beta : Double)
      (policy : RetrainPolicy) (info : RetrainInfo),
      InflightMessages.find s.inflight_messages_ msg_id = some msg ∧
      s.retrain_records_ msg.app_name_ = some R ∧
      TriggerChecker.get_app_policy s msg.app_name_ = Except.ok policy ∧
      RetrainPolicy.on_retrain_finished policy
        { R with
          finished_ := true,
          batches_ :=
            R.batches_.filter (fun b => decide (¬ (R.data_from_ ≤ b.1 ∧ b.1 ≤ R.data_to_))),
          alpha_ := alpha, beta_ := beta } = Except.ok info ∧
      info.1 = true
  | Event.TimeoutFired index =>
    ∃ (t : PendingTimeout) (R : RetrainRecord),
      s.pending_timeouts_[index]? = some t ∧ s.retrain_records_ t.app_name = some R ∧
      R.finished_ = true
  | Event.ReportRetrainBegin _ => False
  | Event.BackendLinkSet _ => False

/-- The request built by `check_trigger_by_func` and by the timer continuation for the
window `(data_from, data_to)` of a record. -/
def window_request (redis : Redis) (app_name : String) (R : RetrainRecord)
    (data_from data_to : Int) : RetrainRequest :=
  { data_from_ := data_from, data_to_ := data_to,
    batch_ids_ := redis.get_retrain_data_ids app_name data_from data_to,
    data_size_ :=
      sum_sizes_where (fun p => decide (p.1 ≥ data_from) && decide (p.1 ≤ data_to))
        R.batches_ }

/-- The records of `s` are still there in `s1` with the batches, the last arrival and the
cost parameters they had, and the applications have the policies they had. -/
def BatchFrame (s s1 : TriggerChecker) : Prop :=
  s1.app_policies_ = s.app_policies_ ∧
  ∀ app_name R, s.retrain_records_ app_name = some R →
    ∃ R1, s1.retrain_records_ app_name = some R1 ∧ R1.batches_ = R.batches_ ∧
      R1.last_arrival_ = R.last_arrival_ ∧ R1.alpha_ = R.alpha_ ∧ R1.beta_ = R.beta_

/-- The policy evaluation of `check_trigger` is defined on the record: the policy is not
the cost-aware one, and under the speculative one the cost parameters are finite. -/
def PolicyDefined (policy : RetrainPolicy) (R : RetrainRecord) : Prop :=
  policy ≠ RetrainPolicy.CostAware ∧
  (policy = RetrainPolicy.SpeculativeBestEffort →
    ∃ alpha beta, R.alpha_ = some alpha ∧ R.beta_ = some beta)

/-- Between `s` and `s1` no request was handed to the transport, no timer was armed and
no inflight message was added. -/
def NoDispatch (s s1 : TriggerChecker) : Prop :=
  s1.rpc_ = s.rpc_ ∧ s1.pending_timeouts_ = s.pending_timeouts_ ∧
  ∀ p ∈ s1.inflight_messages_, p ∈ s.inflight_messages_

/-- The inflight messages that `s1` holds under ids unknown to `s`: what the step from
`s` to `s1` dispatched. -/
def new_messages (s s1 : TriggerChecker) : InflightMessages :=
  s1.inflight_messages_.filter
    (fun p => (InflightMessages.find s.inflight_messages_ p.1).isNone)

/-- The dispatches of a run, oldest first, each with its application and message id. -/
def TriggerChecker.dispatch_log (s : TriggerChecker) :
    List (Env × Event) → List (String × Int)
  | [] => []
  | step :: rest =>
    match TriggerChecker.handle s step.1 step.2 with
    | Except.ok s1 =>
      (new_messages s s1).map (fun p => (p.2.app_name_, p.1)) ++
        TriggerChecker.dispatch_log s1 rest
    | Except.error _ => []

/-- The id of the most recent dispatch of the log for the application. -/
def last_dispatched (log : List (String × Int)) (app_name : String) : Option Int :=
  ((log.filter (fun p => decide (p.1 = app_name))).getLast?).map Prod.snd

/-- The transport is active; the ids of the inflight messages are distinct, not negative
and below the counter of the transport, as are the links; a link that is the id of an
inflight message leads to a message of the same application. -/
def MapInv (s : TriggerChecker) : Prop :=
  s.rpc_.active_ = true ∧ 0 ≤ s.rpc_.message_id_ ∧
  (s.inflight_messages_.map Prod.fst).Nodup ∧
  (∀ p ∈ s.inflight_messages_,
    0 ≤ p.1 ∧ p.1 < s.rpc_.message_id_ ∧ p.2.msg_link_ < s.rpc_.message_id_) ∧
  (∀ p ∈ s.inflight_messages_, ∀ q ∈ s.inflight_messages_,
    q.1 = p.2.msg_link_ → q.2.app_name_ = p.2.app_name_)

/-- The ids of the log are below the counter of the transport, and the last message
dispatched for an application whose record is unfinished is in the inflight map. -/
def RecInv (s : TriggerChecker) (log : List (String × Int)) : Prop :=
  (∀ a k, last_dispatched log a = some k → k < s.rpc_.message_id_) ∧
  ∀ a R, s.retrain_records_ a = some R → R.finished_ = false →
    ∃ p ∈ s.inflight_messages_, last_dispatched log a = some p.1 ∧ p.2.app_name_ = a

/-- A step that dispatches nothing: the transport is untouched, inflight messages are
only removed or marked, an unfinished record was unfinished before, and the inflight
messages of an application whose record is unfinished are all kept. -/
def Quiet (s s1 : TriggerChecker) : Prop :=
  s1.rpc_ = s.rpc_ ∧
  (s1.inflight_messages_.map Prod.fst).Sublist (s.inflight_messages_.map Prod.fst) ∧
  (∀ p ∈ s1.inflight_messages_, ∃ q ∈ s.inflight_messages_,
    q.1 = p.1 ∧ q.2.app_name_ = p.2.app_name_ ∧ q.2.msg_link_ = p.2.msg_link_) ∧
  (∀ b R1, s1.retrain_records_ b = some R1 → R1.finished_ = false →
    (∃ R, s.retrain_records_ b = some R ∧ R.finished_ = false) ∧
    ∀ q ∈ s.inflight_messages_, q.2.app_name_ = b →
      ∃ p ∈ s1.inflight_messages_, p.1 = q.1 ∧ p.2.app_name_ = b)

/-! ## Call sequences, locals of the cost functions, further quantities -/

/-- A sequence of `add_sample` calls, oldest first. -/
def RuntimeProfiler.add_samples (p : RuntimeProfiler) :
    List (Int × Int) → Except Fault RuntimeProfiler
  | [] => Except.ok p
  | x :: rest =>
    match p.add_sample x.1 x.2 with
    | Except.ok q => RuntimeProfiler.add_samples q rest
    | Except.error f => Except.error f

/-- Every `msg_link_` of the inflight map is `-1` or the id of an entry of the map. -/
def links_closed (s : TriggerChecker) : Bool :=
  s.inflight_messages_.all
    (fun p => decide (p.2.msg_link_ = -1) ||
      (InflightMessages.find s.inflight_messages_ p.2.msg_link_).isSome)

/-- What a test observes of `links_closed` after a run. -/
def observe_links_closed (r : Except Fault TriggerChecker) : Option Bool :=
  match r with
  | Except.ok s => some (links_closed s)
  | Except.error _ => none

/-- The locals `begin`, `itr`, `data_size` and `partial_size` of `calc_cost_info` when it
calls `calc_cost`. -/
def CostAwarePolicy.cost_ranges (record : RetrainRecord) : Nat × Nat × Int × Int :=
  let begin : Nat :=
    if record.finished_ = false then
      CostAwarePolicy.skip_trained record.data_to_ record.batches_
    else 0
  let data_size : Int := sum_sizes_where (fun _ => true) (record.batches_.drop begin)
  let split := CostAwarePolicy.split_loop data_size (record.batches_.drop begin) begin 0
  (begin, split.1, data_size, split.2)

/-- The batches considered by the cost-aware policy: all of them when the record is
finished, those from the first one with arrival after `data_to` on when it is not. -/
def considered_suffix (R : RetrainRecord) : BatchesInfo :=
  if R.finished_ = true then R.batches_
  else R.batches_.dropWhile (fun b => decide (b.1 ≤ R.data_to_))

/-- Total size of a sequence of batches. -/
def batches_size (l : BatchesInfo) : Int := (l.map Prod.snd).sum

/-- The position in the suffix of the first batch at which
`n - batch.size ≤ 2 * partial_size`, with `partial_size` the total size of the batches
before it; the length of the suffix when there is none. -/
def split_index (n : Int) (suffix : BatchesInfo) : Nat :=
  (List.range suffix.length).findIdx
    (fun i => decide (n - (suffix.getD i (0, 0)).2 ≤ 2 * batches_size (suffix.take i)))

/-- The cost of the specification over exact numbers for the batches `range` trained as
`size` samples: `w * (alpha * size + beta) + (Σ (end_time - arrival)) / 1000` with
`end_time` the arrival of the last batch of the range plus `(alpha * size + beta) * 1000`. -/
def exact_cost (range : BatchesInfo) (size : Int) (alpha beta weight : ℚ) : ℚ :=
  let end_time : ℚ :=
    (((range.getLast?.map Prod.fst).getD 0 : Int) : ℚ) + (alpha * size + beta) * 1000
  weight * (alpha * size + beta) + (range.map (fun x => end_time - (x.1 : ℚ))).sum / 1000

/-- The same cost as the code computes it: the training time `alpha * size + beta` in
doubles, converted to a whole number of milliseconds by truncation toward zero, the
summed latency divided by 1000 as integers, and the product and sum of the result in
doubles. -/
def truncated_cost (range : BatchesInfo) (size : Int) (alpha beta weight : ℚ) : ℚ :=
  let retrain_time : Int := static_cast_long (dadd (dmul alpha (of_long size)) beta)
  let end_time : Int := retrain_time * 1000 + (range.getLast?.map Prod.fst).getD 0
  dadd (dmul weight (of_long retrain_time))
    (of_long (Int.tdiv ((range.map (fun x => end_time - x.1)).sum) 1000))

/-- The pair `(all_cost, min_cost)` of the specification over exact numbers: the cost of
the suffix as one pass, and the costs of the part before the split index and of the part
from it on. -/
def exact_cost_info (R : RetrainRecord) (alpha beta weight : ℚ) : ℚ × ℚ :=
  let suffix := considered_suffix R
  let n := batches_size suffix
  let k := split_index n suffix
  let partial_size := batches_size (suffix.take k)
  (exact_cost suffix n alpha beta weight,
   exact_cost (suffix.take k) partial_size alpha beta weight +
     exact_cost (suffix.drop k) (n - partial_size) alpha beta weight)

/-- The same pair from truncated costs, each component converted to `long`. -/
def truncated_cost_info (R : RetrainRecord) (alpha beta weight : ℚ) : CostInfo :=
  let suffix := considered_suffix R
  let n := batches_size suffix
  let k := split_index n suffix
  let partial_size := batches_size (suffix.take k)
  (static_cast_long (truncated_cost suffix n alpha beta weight),
   static_cast_long
     (dadd (truncated_cost (suffix.take k) partial_size alpha beta weight)
       (truncated_cost (suffix.drop k) (n - partial_size) alpha beta weight)))

/-- The divisor of `alpha_` in `calc_alpha_beta`: `size * sum_x_squa - squa_sum_x`. -/
def RuntimeProfiler.alpha_divisor (p : RuntimeProfiler) : Int :=
  let size : Int := p.time_size_pairs_.length
  let sums := RuntimeProfiler.accumulate p.time_size_pairs_
  let squa_sum_x : Int := sums.sum_size * sums.sum_size
  size * sums.sum_x_squa - squa_sum_x

/-- The dividend of `alpha_` in `calc_alpha_beta`:
`size * sum_x_multi_y - multi_sum_x_sum_y`. -/
def RuntimeProfiler.alpha_dividend (p : RuntimeProfiler) : Int :=
  let size : Int := p.time_size_pairs_.length
  let sums := RuntimeProfiler.accumulate p.time_size_pairs_
  let multi_sum_x_sum_y : Int := sums.sum_time * sums.sum_size
  size * sums.sum_x_multi_y - multi_sum_x_sum_y

/-- The quantity `n * Σ x² - (Σ x)²` of a list of sizes. -/
def regression_denominator (xs : List Int) : Int :=
  (xs.length : Int) * (xs.map (fun x => x * x)).sum - xs.sum ^ 2

/-- The time stamps of the `ReportDataArrival` events of a trace for an application, in
trace order. -/
def arrival_times (app_name : String) (trace : List (Env × Event)) : List Int :=
  trace.filterMap
    (fun step =>
      match step.2 with
      | Event.ReportDataArrival a arrival_time _ =>
        if a = app_name then some arrival_time else none
      | _ => none)

/-- The arrival times of the batches of the record of an application, in vector order;
empty when the application has no record. -/
def batch_times (s : TriggerChecker) (app_name : String) : List Int :=
  match s.retrain_records_ app_name with
  | some R => R.batches_.map Prod.fst
  | none => []

/-- Every record of `s1` is a record of `s` whose batches were kept in order, some of
them possibly removed. -/
def BatchesShrink (s s1 : TriggerChecker) : Prop :=
  ∀ app_name R1, s1.retrain_records_ app_name = some R1 →
    ∃ R, s.retrain_records_ app_name = some R ∧ R1.batches_.Sublist R.batches_

/-- The routing identities of the `BackendMetadata` messages of a sequence, in order. -/
def metadata_identities (msgs : List (ReceiveEnv × InboundMessage)) : List RoutingIdentity :=
  (msgs.filter (fun step => decide (step.2.type = 1))).map (fun step => step.2.routing_identity)

/-- The distinct elements of a list in the order of their first occurrence. -/
def distinct_in_order {α : Type} [DecidableEq α] : List α → List α
  | [] => []
  | x :: rest => x :: (distinct_in_order rest).filter (fun y => decide (y ≠ x))

/-- The list `xs` numbered `0, 1, 2, ...`. -/
def numbered {α : Type} (xs : List α) : List (Int × α) :=
  ((List.range xs.length).map (fun (k : Nat) => (k : Int))).zip xs

/-- The list `K` extended by `x` at the end when `x` is not in it. -/
def add_new {α : Type} [DecidableEq α] (K : List α) (x : α) : List α :=
  if x ∈ K then K else K ++ [x]

/-- What the locals of `manage_service` satisfy between two messages: the connection ids
are `0, 1, 2, ...` in insertion order, the counter is the number of connections, the
identities are distinct, and every identity with a connection has a backend name. -/
def ServiceInv (st : ServiceState) : Prop :=
  st.connections.map Prod.fst =
    (List.range st.connections.length).map (fun (k : Nat) => (k : Int)) ∧
  st.zmq_connection_id = st.connections.length ∧
  (st.connections.map Prod.snd).Nodup ∧
  ∀ connection_id ∈ st.connections.map Prod.snd,
    ∃ name, ConnectionsBackendMap.find st.connections_backend_map connection_id = some name

/-! ## Concrete records and traces -/

/-- A record that was never trained, with a negative `data_from_`, marked unfinished. -/
def naive_record_never_trained : RetrainRecord :=
  { alpha_ := some 1, beta_ := some 1, weight_ := some 10, last_arrival_ := 7,
    data_from_ := -3, data_to_ := 0, finished_ := false, training_batch_ := (0, 0),
    batches_ := [(7, 5)] }

/-- A finished record with an arrival after the last dispatch. -/
def naive_record_finished : RetrainRecord :=
  { alpha_ := some 1, beta_ := some 1, weight_ := some 10, last_arrival_ := 2000000,
    data_from_ := 1, data_to_ := 1000000, finished_ := true,
    training_batch_ := (1000000, 5), batches_ := [(2000000, 3)] }

/-- The same record while its retrain is still in flight. -/
def naive_record_in_flight : RetrainRecord :=
  { naive_record_finished with finished_ := false }

/-- Scenario 3: `D = 1000` samples dispatched at `t = 0`, `B = 1000` new samples by
`t = 500000`, `alpha = 0.001`. -/
def scenario3_record (beta : ℚ) : RetrainRecord :=
  { alpha_ := some (1 / 1000), beta_ := some beta, weight_ := some 10,
    last_arrival_ := 500000, data_from_ := 1, data_to_ := 1, finished_ := false,
    training_batch_ := (0, 1000), batches_ := [(1, 1000), (500000, 1000)] }

/-- An in-flight record with `B = 1`, `D = 1`, `delta = 0`, `alpha = 3/8`, `beta = 1/2`:
`B * beta = 1/2` and `2 * (alpha * D * B + delta * (D + B)) = 3/4`. -/
def truncation_record : RetrainRecord :=
  { alpha_ := some (3 / 8), beta_ := some (1 / 2), weight_ := some 10, last_arrival_ := 2,
    data_from_ := 1, data_to_ := 1, finished_ := false, training_batch_ := (2, 1),
    batches_ := [(1, 1), (2, 1)] }

/-- An in-flight record with `B = 10`, `D = 5`, `delta = 0` and the doubles nearest to
`0.47` and `4.6` as `alpha` and `beta`. -/
def rounding_record : RetrainRecord :=
  { alpha_ := some (2116691824864133 / 4503599627370496),
    beta_ := some (2589569785738035 / 562949953421312), weight_ := some 10,
    last_arrival_ := 10, data_from_ := 1, data_to_ := 0, finished_ := false,
    training_batch_ := (0, 5), batches_ := [(0, 5), (10, 10)] }

/-- An in-flight record with `B = 1`, `D = 1`, `delta = 1`, `alpha = 1 - 2 ^ (-53)`, the
largest double below 1, and `beta = 5.5`. -/
def sum_rounding_record : RetrainRecord :=
  { alpha_ := some (9007199254740991 / 9007199254740992), beta_ := some (11 / 2),
    weight_ := some 10, last_arrival_ := 1000, data_from_ := 1, data_to_ := 0,
    finished_ := false, training_batch_ := (0, 1), batches_ := [(0, 1), (1000, 1)] }

/-- A finished record with two batches of 10 samples six milliseconds apart, the
doubles nearest to `0.57` and `0.6` as `alpha` and `beta`, and `weight = 10`. -/
def product_record : RetrainRecord :=
  { alpha_ := some (5134103575202365 / 9007199254740992),
    beta_ := some (5404319552844595 / 9007199254740992), weight_ := some 10,
    last_arrival_ := 6000, data_from_ := 0, data_to_ := 0, finished_ := true,
    training_batch_ := (0, 0), batches_ := [(0, 10), (6000, 10)] }

/-- Scenario 4: two batches, `alpha = 1`, `beta = 1000`, `weight = 10`. -/
def scenario4_record : RetrainRecord :=
  { alpha_ := some 1, beta_ := some 1000, weight_ := some 10, last_arrival_ := 1000000,
    data_from_ := 0, data_to_ := 0, finished_ := true, training_batch_ := (0, 0),
    batches_ := [(0, 10), (1000000, 10)] }

/-- A profiler holding the samples `(1, 1)` and `(2, 2)`. -/
def profiler_rounding : RuntimeProfiler :=
  { RuntimeProfiler.mk_new (some 1) (some 1) with time_size_pairs_ := [(1, 1), (2, 2)] }

/-- A profiler as the trigger checker creates it, holding two samples. -/
def profiler_two_samples : RuntimeProfiler :=
  { RuntimeProfiler.mk_new (some 1) (some 1) with time_size_pairs_ := [(10, 1), (20, 2)] }

/-- A sequence of calls on a fresh transport: a send before the start, three sends to
connection 99 (which no backend registered) while started, a send after a stop and a
send after a restart. -/
def rpc_calls_example : List RPCCall :=
  [RPCCall.send_message ⟨1, 2, [], 3⟩ 99 5,
   RPCCall.start,
   RPCCall.send_message ⟨1, 2, [], 3⟩ 99 6,
   RPCCall.send_message ⟨3, 4, [], 1⟩ 99 7,
   RPCCall.stop,
   RPCCall.send_message ⟨5, 6, [], 1⟩ 0 8,
   RPCCall.start,
   RPCCall.send_message ⟨5, 6, [], 1⟩ 0 9]

/-- A store in which application `app` is linked to a backend with the given policy and
cost parameters. -/
def demo_redis (policy : String) (alpha beta : ℚ) : Redis :=
  { get_backend_link := fun app_name => if app_name = "app" then "backend" else "",
    get_backend := fun name =>
      if name = "backend" then
        some { alpha := some alpha, beta := some beta, weight := some 10, policy := policy,
               zmq_connection_id := 0 }
      else none,
    get_retrain_data_ids := fun _ _ _ => [] }

/-- Inputs of a handler that reads `now` from the clock each time. -/
def demo_env (policy : String) (alpha beta : ℚ) (now : Int) : Env :=
  { redis := demo_redis policy alpha beta, cur_time := now, send_time := now,
    dispatch_time := now }

/-- A record under the Manual policy after one arrival of 1000 samples at `t = 1000000`. -/
def manual_record : RetrainRecord :=
  { RetrainRecord.mk_new 1000000 (some 1) (some 1) (some 10) with
      batches_ := [(1000000, 1000)] }

/-- The trigger checker after that arrival. -/
def manual_state : TriggerChecker :=
  { TriggerChecker.initial with
      retrain_records_ := assign (fun _ => none) "app" manual_record,
      app_policies_ := assign (fun _ => none) "app" ManualPolicy.get_name,
      runtime_profilers_ :=
        assign (fun _ => none) "app" (RuntimeProfiler.mk_new (some 1) (some 1)) }

/-- The same state with the batch already trained and pruned. -/
def manual_state_no_data : TriggerChecker :=
  { manual_state with
      retrain_records_ :=
        assign (fun _ => none) "app"
          { manual_record with data_from_ := 1, data_to_ := 1000000, batches_ := [] } }

/-- What a test observes of the record of an application after a run: `finished_`,
the window, `last_arrival_`, `training_batch_` and the batches. -/
def observe_record (r : Except Fault TriggerChecker) (app_name : String) :
    Option (Bool × Int × Int × Int × BatchInfo × BatchesInfo) :=
  match r with
  | Except.ok s =>
    (s.retrain_records_ app_name).map
      (fun R => (R.finished_, R.data_from_, R.data_to_, R.last_arrival_, R.training_batch_,
        R.batches_))
  | Except.error _ => none

/-- The inflight map after a run: message id, application and `msg_link_` of each entry. -/
def observe_inflight (r : Except Fault TriggerChecker) : Option (List (Int × String × Int)) :=
  match r with
  | Except.ok s => some (s.inflight_messages_.map (fun p => (p.1, p.2.app_name_, p.2.msg_link_)))
  | Except.error _ => none

/-- The requests handed to the transport during a run. -/
def observe_requests (r : Except Fault TriggerChecker) : Option (List RPCRequest) :=
  match r with
  | Except.ok s => some s.rpc_.request_queue_
  | Except.error _ => none

/-- The pending timeouts after a run. -/
def observe_timeouts (r : Except Fault TriggerChecker) : Option (List PendingTimeout) :=
  match r with
  | Except.ok s => some s.pending_timeouts_
  | Except.error _ => none

/-- The fault that ended a run, if any. -/
def observe_fault (r : Except Fault TriggerChecker) : Option Fault :=
  match r with
  | Except.ok _ => none
  | Except.error f => some f

/-- Scenarios 1 and 2 up to the second arrival: Naive policy, arrivals of 5 samples at
`t = 1000000` and of 3 samples at `t = 2000000`. -/
def naive_two_arrivals : List (Env × Event) :=
  [(demo_env "NaiveBestEffortPolicy" 1 1 1000010, Event.ReportDataArrival "app" 1000000 5),
   (demo_env "NaiveBestEffortPolicy" 1 1 2000010, Event.ReportDataArrival "app" 2000000 3)]

/-- The end of the first retrain reported at `t = 3000000`. -/
def naive_first_end : Env × Event :=
  (demo_env "NaiveBestEffortPolicy" 1 1 3000000, Event.ReportRetrainEnd 0)

/-- Speculative policy with `alpha = 0.001`, `beta = 20000`: a first arrival of 1000
samples (dispatched as message 0), a second arrival of 1000 samples half a second later
(dispatched speculatively as message 1, linked to message 0), then the end of message 0. -/
def speculative_first_end : List (Env × Event) :=
  [(demo_env "SpeculativeBestEffortPolicy" (1 / 1000) 20000 1000010,
      Event.ReportDataArrival "app" 1000000 1000),
   (demo_env "SpeculativeBestEffortPolicy" (1 / 1000) 20000 1500010,
      Event.ReportDataArrival "app" 1500000 1000),
   (demo_env "SpeculativeBestEffortPolicy" (1 / 1000) 20000 3000000,
      Event.ReportRetrainEnd 0)]

/-- The end of message 1 reported at `t = 4000000`. -/
def speculative_second_end : Env × Event :=
  (demo_env "SpeculativeBestEffortPolicy" (1 / 1000) 20000 4000000, Event.ReportRetrainEnd 1)

/-- The record of `app` after `naive_two_arrivals`: the first batch is under training,
the second one waits. -/
def naive_chain_record : RetrainRecord :=
  { alpha_ := some 1, beta_ := some 1, weight_ := some 10, last_arrival_ := 2000000,
    data_from_ := 1, data_to_ := 1000000, finished_ := false,
    training_batch_ := (1000010, 5), batches_ := [(1000000, 5), (2000000, 3)] }

/-- The inflight message of that retrain. -/
def naive_chain_message : InflightRetrainMessage :=
  { send_time_ := 1000010, zmq_connection_id_ := 0, app_name_ := "app",
    state_ := RetrainState.RetrainSent, batch_ids_ := [], msg_link_ := -1 }

/-- The trigger checker after `naive_two_arrivals`. -/
def naive_chain_state : TriggerChecker :=
  { rpc_ :=
      { active_ := true, message_id_ := 1,
        request_queue_ :=
          [{ zmq_connection_id := 0, id := 0,
             msg := { data_from_ := 1, data_to_ := 1000000, batch_ids_ := [],
                      data_size_ := 5 },
             time := 1000010 }] },
    retrain_records_ := assign (fun _ => none) "app" naive_chain_record,
    inflight_messages_ := [(0, naive_chain_message)],
    app_policies_ := assign (fun _ => none) "app" NaiveBestEffortPolicy.get_name,
    runtime_profilers_ :=
      assign (fun _ => none) "app" (RuntimeProfiler.mk_new (some 1) (some 1)),
    zmq_connections := assign (fun _ => none) "app" 0,
    pending_timeouts_ := [] }

/-- Manual policy: an arrival of 1000 samples at `t = 1000000`, then a manual trigger
when the clock reads `1500010`. -/
def manual_trace : List (Env × Event) :=
  [(demo_env "ManualPolicy" 1 1 1000010, Event.ReportDataArrival "app" 1000000 1000),
   (demo_env "ManualPolicy" 1 1 1500010, Event.ManualTrigger "app")]

/-- Naive policy: the first arrival, which dispatches message 0. -/
def naive_first_arrival : Env × Event :=
  (demo_env "NaiveBestEffortPolicy" 1 1 1000010, Event.ReportDataArrival "app" 1000000 5)

/-- A manual trigger while message 0 is in flight. -/
def manual_while_in_flight : Env × Event :=
  (demo_env "NaiveBestEffortPolicy" 1 1 1500010, Event.ManualTrigger "app")

/-- Speculative policy (`alpha = 0.001`, `beta = 20000`): the first arrival. -/
def speculative_first_arrival : Env × Event :=
  (demo_env "SpeculativeBestEffortPolicy" (1 / 1000) 20000 1000010,
    Event.ReportDataArrival "app" 1000000 1000)

/-- The second arrival, half a second later, while message 0 is in flight. -/
def speculative_second_arrival : Env × Event :=
  (demo_env "SpeculativeBestEffortPolicy" (1 / 1000) 20000 1500010,
    Event.ReportDataArrival "app" 1500000 1000)

/-- The policy of an application after a run. -/
def observe_policy (r : Except Fault TriggerChecker) (app_name : String) :
    Option RetrainPolicy :=
  match r with
  | Except.ok s =>
    match TriggerChecker.get_app_policy s app_name with
    | Except.ok policy => some policy
    | Except.error _ => none
  | Except.error _ => none

/-- The record of an application right after its first arrival (5 samples at
`t = 1000000`), before any dispatch. -/
def first_arrival_record : RetrainRecord :=
  { RetrainRecord.mk_new 1000000 (some 1) (some 1) (some 10) with
      batches_ := [(1000000, 5)] }

/-- Scenario 4 with 11 samples in the second batch. -/
def timeout_record : RetrainRecord :=
  { scenario4_record with batches_ := [(0, 10), (1000000, 11)] }

/-- Scenario 4 with `alpha = 0` and batches of `2147483648` and `2147483667` samples,
`4294967315` in all. -/
def timeout_record_wide : RetrainRecord :=
  { scenario4_record with
      alpha_ := some 0, batches_ := [(0, 2147483648), (1000000, 2147483667)] }

/-- A finished record with batches of 10 and 20 samples 13 milliseconds apart, the
doubles nearest to `0.57` and `2.9` as `alpha` and `beta`, and `weight = 10`. -/
def timeout_record_rounding : RetrainRecord :=
  { alpha_ := some (5134103575202365 / 9007199254740992),
    beta_ := some (6530219459687219 / 2251799813685248), weight_ := some 10,
    last_arrival_ := 13000, data_from_ := 0, data_to_ := 0, finished_ := true,
    training_batch_ := (0, 0), batches_ := [(0, 10), (13000, 20)] }

/-- Two batches of 10 samples 100 seconds apart, `alpha = 1`, `beta = 1`. -/
def timeout_record_gap (weight : ℚ) : RetrainRecord :=
  { scenario4_record with
      beta_ := some 1, weight_ := some weight, last_arrival_ := 100000000,
      batches_ := [(0, 10), (100000000, 10)] }

/-- A trigger checker holding the record of Scenario 4 for an application under the
cost-aware policy. -/
def cost_aware_state : TriggerChecker :=
  { TriggerChecker.initial with
      retrain_records_ := assign (fun _ => none) "app" scenario4_record,
      app_policies_ := assign (fun _ => none) "app" CostAwarePolicy.get_name,
      runtime_profilers_ :=
        assign (fun _ => none) "app" (RuntimeProfiler.mk_new (some 1) (some 1000)) }

/-- The trigger checker in which `check_trigger` is entered at the first arrival
(10 samples at `t = 1000000`) of an application under the cost-aware policy with
`alpha = 1`, `beta = 1000` and `weight = 10`: it holds the record, the profiler and the
policy that `report_data_arrival` has just created. -/
def cost_aware_entered : TriggerChecker :=
  { TriggerChecker.initial with
      retrain_records_ := assign (fun _ => none) "app"
        { RetrainRecord.mk_new 1000000 (some 1) (some 1000) (some 10) with
            batches_ := [(1000000, 10)] },
      app_policies_ := assign (fun _ => none) "app" CostAwarePolicy.get_name,
      runtime_profilers_ :=
        assign (fun _ => none) "app" (RuntimeProfiler.mk_new (some 1) (some 1000)) }

/-- The trigger checker as that first arrival leaves it when the element that
`calc_cost` reads before the start of the batch vector for the empty range is read
without harm (no computation uses it: the loop over the empty range does not run): the
cost of the whole range is `10 * 1010 + 1010 = 11110`, the one of the empty range
`10 * 1000 + 0`, so `calc_timeout` is `(10000 - (11110 - 21110)) / 10 = 2000` and
`check_trigger` arms a timeout of 2000 milliseconds for the time stamp `1000000`. -/
def cost_aware_arrived : TriggerChecker :=
  TriggerChecker.set_timeout cost_aware_entered "app" 1000000 2000

/-- Cost-aware policy, after the first arrival: a second arrival of 10 samples one
second later, which arms a timeout of 949 milliseconds. -/
def cost_aware_second_arrival : Env × Event :=
  (demo_env "CostAwarePolicy" 1 1000 2000010, Event.ReportDataArrival "app" 2000000 10)

/-- That timeout, the second of the pending ones, fires when the clock reads
`2949010`. -/
def cost_aware_timeout_fired : Env × Event :=
  (demo_env "CostAwarePolicy" 1 1000 2949010, Event.TimeoutFired 1)

/-- The timeout armed at the first arrival fires, when the clock reads `3000010`. -/
def cost_aware_first_timeout_fired : Env × Event :=
  (demo_env "CostAwarePolicy" 1 1000 3000010, Event.TimeoutFired 0)

/-- Cost-aware policy, after the first arrival: a second arrival of 10 samples 100
seconds later. -/
def cost_aware_late_arrival : Env × Event :=
  (demo_env "CostAwarePolicy" 1 1000 101000010, Event.ReportDataArrival "app" 101000000 10)

/-- A third arrival one second after it. -/
def cost_aware_in_flight_arrival : Env × Event :=
  (demo_env "CostAwarePolicy" 1 1000 102000010, Event.ReportDataArrival "app" 102000000 10)

/-- Cost-aware policy, after the first arrival: two arrivals of 10 samples that carry
the same time stamp `t = 2000000`, arming timeouts of 949 and of 632 milliseconds; the
timeout of 632 milliseconds (the third of the pending ones) fires and dispatches
message 0; message 0 ends; the timeout of 949 milliseconds (then the second of the
pending ones) fires. -/
def equal_stamps_timers : List (Env × Event) :=
  [(demo_env "CostAwarePolicy" 1 1000 2000010, Event.ReportDataArrival "app" 2000000 10),
   (demo_env "CostAwarePolicy" 1 1000 2000020, Event.ReportDataArrival "app" 2000000 10),
   (demo_env "CostAwarePolicy" 1 1000 2632020, Event.TimeoutFired 2),
   (demo_env "CostAwarePolicy" 1 1000 2800000, Event.ReportRetrainEnd 0),
   (demo_env "CostAwarePolicy" 1 1000 2949010, Event.TimeoutFired 1)]

/-- The environment of a handler under the store `demo_redis`, with the three clock
readings of the handler. -/
def clock_env (policy : String) (alpha beta : ℚ) (cur_time send_time dispatch_time : Int) :
    Env :=
  { redis := demo_redis policy alpha beta, cur_time := cur_time, send_time := send_time,
    dispatch_time := dispatch_time }

/-- Scenarios 1 and 2 with the first arrival handled (and dispatched) when the clock
reads `2500000`, after the time stamp of the second arrival. -/
def naive_late_dispatch : List (Env × Event) :=
  [(demo_env "NaiveBestEffortPolicy" 1 1 2500000, Event.ReportDataArrival "app" 1000000 5),
   (demo_env "NaiveBestEffortPolicy" 1 1 2600000, Event.ReportDataArrival "app" 2000000 3),
   (demo_env "NaiveBestEffortPolicy" 1 1 3000000, Event.ReportRetrainEnd 0)]

/-- A request for the window `(1000001, 1500000)` with 7 samples. -/
def second_request : RetrainRequest :=
  { data_from_ := 1000001, data_to_ := 1500000, batch_ids_ := [], data_size_ := 7 }

/-- The trigger checker as its constructor leaves it when the transport has not been
started. -/
def TriggerChecker.not_started : TriggerChecker :=
  TriggerChecker.mk_new RPCBackendService.mk_new

/-- Twelve samples `(10 i, i)` for `i = 1 .. 12`. -/
def twelve_samples : List (Int × Int) :=
  [(10, 1), (20, 2), (30, 3), (40, 4), (50, 5), (60, 6), (70, 7), (80, 8), (90, 9),
   (100, 10), (110, 11), (120, 12)]

/-- Naive policy: a first arrival (dispatched as message 0), a manual trigger while
message 0 is in flight (dispatched as message 1, linked to message 0), then the end of
message 0. -/
def manual_dangling_trace : List (Env × Event) :=
  [naive_first_arrival, manual_while_in_flight,
   (demo_env "NaiveBestEffortPolicy" 1 1 3000000, Event.ReportRetrainEnd 0)]

/-- The end of message 1 reported at `t = 4000000`. -/
def manual_second_end : Env × Event :=
  (demo_env "NaiveBestEffortPolicy" 1 1 4000000, Event.ReportRetrainEnd 1)

/-- A first arrival of 5 samples for an application under the cost-aware policy. -/
def cost_aware_first_arrival : Env × Event :=
  (demo_env "CostAwarePolicy" 1 1 1000010, Event.ReportDataArrival "app" 1000000 5)

/-- Scenario 4 with the second batch half a millisecond later. -/
def cost_truncation_record : RetrainRecord :=
  { scenario4_record with
      last_arrival_ := 1000500, batches_ := [(0, 10), (1000500, 10)] }

/-- A finished record with two batches of 10 samples one second apart, the doubles
nearest to `0.57` and `0.3` as `alpha` and as `beta` and `weight`. -/
def cost_rounding_record : RetrainRecord :=
  { alpha_ := some (5134103575202365 / 9007199254740992),
    beta_ := some (5404319552844595 / 18014398509481984),
    weight_ := some (5404319552844595 / 18014398509481984),
    last_arrival_ := 1000000, data_from_ := 0, data_to_ := 0, finished_ := true,
    training_batch_ := (0, 0), batches_ := [(0, 10), (1000000, 10)] }

/-- An unfinished record: the first batch is under training, two batches wait. -/
def unfinished_suffix_record : RetrainRecord :=
  { alpha_ := some 1, beta_ := some 1000, weight_ := some 10, last_arrival_ := 3000000,
    data_from_ := 1, data_to_ := 1000000, finished_ := false,
    training_batch_ := (1000010, 5),
    batches_ := [(1000000, 5), (2000000, 3), (3000000, 4)] }

/-- Naive policy: two arrivals of the same application that carry the same time stamp. -/
def equal_stamps_trace : List (Env × Event) :=
  [(demo_env "NaiveBestEffortPolicy" 1 1 1000010, Event.ReportDataArrival "app" 1000000 5),
   (demo_env "NaiveBestEffortPolicy" 1 1 1000020, Event.ReportDataArrival "app" 1000000 3)]

/-- An outside in which every `params` frame gives `(1, 1, 10)` and `app` is the only
application. -/
def demo_receive_env : ReceiveEnv :=
  { parse_params := fun _ => Except.ok (some 1, some 1, some 10),
    application_names := ["app"] }

/-- A message of the given type from the given identity, with backend name `backend`
for application `app` and the `int` frames `7` and `0`. -/
def demo_message (routing_identity : RoutingIdentity) (type : Int) : InboundMessage :=
  { routing_identity := routing_identity, type := type, backend_name := "backend",
    backend_version := "1", app_name := "app", policy_name := "NaiveBestEffortPolicy",
    params := "", msg_id := 7, retrain_result := 0 }

/-- Seven inbound messages: metadata from identity `[1]`, a heartbeat from `[2]`,
metadata from `[2]`, metadata from `[1]` again, a `RetrainingStarted` from `[1]`,
metadata from `[3]` and a message of type `9` from `[4]`. -/
def demo_inbound : List (ReceiveEnv × InboundMessage) :=
  [(demo_receive_env, demo_message [1] 1), (demo_receive_env, demo_message [2] 4),
   (demo_receive_env, demo_message [2] 1), (demo_receive_env, demo_message [1] 1),
   (demo_receive_env, demo_message [1] 2), (demo_receive_env, demo_message [3] 1),
   (demo_receive_env, demo_message [4] 9)]

/-! # Theorems -/

/-! ## Arithmetic helpers -/

theorem foldl_sizes_acc (p : BatchInfo → Bool) (batches : BatchesInfo) (acc : Int) :
    batches.foldl (fun a b => if p b then a + b.2 else a) acc =
      acc + ((batches.filter p).map Prod.snd).sum := by
  induction batches generalizing acc with
  | nil => simp
  | cons b rest ih =>
    simp only [List.foldl_cons, ih, List.filter_cons]
    by_cases hp : p b = true
    · simp [hp, add_assoc]
    · simp [hp]

/-- The summation loops of the code compute the total size of the selected batches. -/
theorem sum_sizes_where_eq (p : BatchInfo → Bool) (batches : BatchesInfo) :
    sum_sizes_where p batches = ((batches.filter p).map Prod.snd).sum := by
  unfold sum_sizes_where
  rw [foldl_sizes_acc]
  simp

theorem sum_sizes_where_total (p : BatchInfo → Prop) [DecidablePred p] (batches : BatchesInfo) :
    sum_sizes_where (fun b => decide (p b)) batches = total_size p batches := by
  rw [sum_sizes_where_eq]
  rfl

theorem static_cast_long_of_nonneg {x : ℚ} (h : 0 ≤ x) : static_cast_long x = ⌊x⌋ := by
  unfold static_cast_long
  rw [Rat.floor_def, Int.tdiv_eq_ediv (Rat.num_nonneg.mpr h) (Int.ofNat_nonneg _)]

theorem static_cast_long_neg (x : ℚ) : static_cast_long (-x) = - static_cast_long x := by
  unfold static_cast_long
  simp

theorem static_cast_long_of_nonpos {x : ℚ} (h : x ≤ 0) : static_cast_long x = ⌈x⌉ := by
  have h1 : static_cast_long (-x) = ⌊-x⌋ := static_cast_long_of_nonneg (by linarith)
  rw [static_cast_long_neg, Int.floor_neg] at h1
  linarith

/-- Conversion to `long` is monotone. -/
theorem static_cast_long_mono {x y : ℚ} (h : x ≤ y) :
    static_cast_long x ≤ static_cast_long y := by
  rcases le_total 0 x with hx | hx
  · rw [static_cast_long_of_nonneg hx, static_cast_long_of_nonneg (le_trans hx h)]
    exact Int.floor_mono h
  · rcases le_total 0 y with hy | hy
    · rw [static_cast_long_of_nonpos hx, static_cast_long_of_nonneg hy]
      have h1 : ⌈x⌉ ≤ 0 := Int.ceil_le.mpr (by simpa using hx)
      have h2 : (0 : ℤ) ≤ ⌊y⌋ := Int.floor_nonneg.mpr hy
      linarith
    · rw [static_cast_long_of_nonpos hx, static_cast_long_of_nonpos hy]
      exact Int.ceil_mono h

theorem nat_log2_le (fuel n : Nat) (h : 1 ≤ n) : 2 ^ nat_log2 fuel n ≤ n := by
  induction fuel generalizing n with
  | zero => simpa [nat_log2] using h
  | succ fuel ih =>
    unfold nat_log2
    split_ifs with h2
    · simpa using h
    · have h3 : 1 ≤ n / 2 := by omega
      have := ih (n / 2) h3
      rw [pow_succ]
      omega

theorem round_half_even_one (m : Int) : round_half_even m 1 = m := by
  simp [round_half_even]

theorem round_half_even_ne_zero (n : Int) (d : Nat) (hd : 0 < d) (h : (d : Int) ≤ |n|) :
    round_half_even n d ≠ 0 := by
  have hd1 : (0 : Int) < d := by exact_mod_cast hd
  have hmod := Int.emod_nonneg n (ne_of_gt hd1)
  have hlt := Int.emod_lt_of_pos n hd1
  have hdiv := Int.emod_add_ediv n d
  unfold round_half_even
  simp only []
  rcases le_or_lt 0 n with hn | hn
  · rw [abs_of_nonneg hn] at h
    have hf : 1 ≤ n / (d : Int) := by
      by_contra hc
      have : n / (d : Int) ≤ 0 := by omega
      nlinarith
    split_ifs <;> omega
  · rw [abs_of_neg hn] at h
    have hf : n / (d : Int) ≤ -1 := by
      by_contra hc
      have : 0 ≤ n / (d : Int) := by omega
      nlinarith
    by_cases hf2 : n / (d : Int) = -1
    · have hr : n % (d : Int) = 0 := by
        rw [hf2] at hdiv
        nlinarith
      rw [hf2, hr]
      simp [hd1]
    · split_ifs <;> omega

/-- The conversion of a `long` to `double` gives zero for zero only. -/
theorem of_long_eq_zero (n : Int) : of_long n = 0 ↔ n = 0 := by
  constructor
  · intro h
    by_contra hn
    apply absurd h
    unfold of_long round_double
    have hnum : ((n : Int) : ℚ).num = n := Rat.num_intCast n
    have hden : ((n : Int) : ℚ).den = 1 := Rat.den_intCast n
    rw [hnum, hden, if_neg hn]
    have hpos : 1 ≤ n.natAbs := Int.natAbs_pos.mpr hn
    have hlog := nat_log2_le n.natAbs n.natAbs hpos
    have hfl : floor_log2 n.natAbs 1 = (nat_log2 n.natAbs n.natAbs : Int) := by
      unfold floor_log2
      have h1 : nat_log2 1 1 = 0 := rfl
      simp only [h1, pow_zero, mul_one, one_mul, hlog, if_true, Nat.cast_zero, sub_zero]
    simp only [hfl]
    have hmax : max (nat_log2 n.natAbs n.natAbs : Int) (-1022) = nat_log2 n.natAbs n.natAbs := by
      apply max_eq_left
      omega
    rw [hmax]
    split_ifs with hs
    · have htn : ((nat_log2 n.natAbs n.natAbs : Int) - 52).toNat + 52 =
          nat_log2 n.natAbs n.natAbs := by omega
      have hne := round_half_even_ne_zero n
        (1 * 2 ^ ((nat_log2 n.natAbs n.natAbs : Int) - 52).toNat) (by positivity) (by
          have h2 : 2 ^ ((nat_log2 n.natAbs n.natAbs : Int) - 52).toNat ≤
              2 ^ nat_log2 n.natAbs n.natAbs :=
            Nat.pow_le_pow_right (by norm_num) (by omega)
          have h3 : ((n.natAbs : Nat) : Int) = |n| := Int.natCast_natAbs n
          rw [← h3, one_mul]
          exact_mod_cast le_trans h2 hlog)
      have hp : ((2 ^ ((nat_log2 n.natAbs n.natAbs : Int) - 52).toNat : Nat) : Int) ≠ 0 := by
        positivity
      exact_mod_cast mul_ne_zero hne hp
    · rw [round_half_even_one]
      have hp : (2 ^ (-((nat_log2 n.natAbs n.natAbs : Int) - 52)).toNat : Nat) ≠ 0 := by
        positivity
      rw [Rat.mkRat_eq_div]
      push_cast
      have hq : ((2 : ℚ) ^ (-((nat_log2 n.natAbs n.natAbs : Int) - 52)).toNat) ≠ 0 := by
        positivity
      rw [mul_div_assoc, div_self hq, mul_one]
      exact_mod_cast hn
  · intro h
    rw [h]
    rfl

/-! ## Policies -/

/-- C1: `NaiveBestEffortPolicy::ready_to_retrain` returns `(true, 1, last_arrival)` when
`data_from ≤ 0` (negative values and unfinished records included), otherwise
`(true, data_to + 1, last_arrival)` when the record is finished and the last arrival is
later than the dispatch time, and `(false, 0, 0)` in every other case. -/
theorem naive_ready_to_retrain_cases (R : RetrainRecord) :
    (R.data_from_ ≤ 0 →
      NaiveBestEffortPolicy.ready_to_retrain R = (true, 1, R.last_arrival_)) ∧
    (0 < R.data_from_ → R.finished_ = true → R.last_arrival_ > R.training_batch_.1 →
      NaiveBestEffortPolicy.ready_to_retrain R =
        (true, R.data_to_ + 1, R.last_arrival_)) ∧
    (0 < R.data_from_ → ¬ (R.finished_ = true ∧ R.last_arrival_ > R.training_batch_.1) →
      NaiveBestEffortPolicy.ready_to_retrain R = (false, 0, 0)) := by
  refine ⟨fun h => ?_, fun h hf hl => ?_, fun h hn => ?_⟩
  · simp [NaiveBestEffortPolicy.ready_to_retrain, h]
  · have h0 : ¬ R.data_from_ ≤ 0 := not_le.mpr h
    simp [NaiveBestEffortPolicy.ready_to_retrain, h0, hf, hl]
  · have h0 : ¬ R.data_from_ ≤ 0 := not_le.mpr h
    unfold NaiveBestEffortPolicy.ready_to_retrain
    rw [if_neg h0, if_neg hn]

/-- C1, on three records: never trained with a negative `data_from_` and unfinished;
finished with a later arrival; the same record in flight. -/
theorem naive_ready_to_retrain_cases_witness :
    NaiveBestEffortPolicy.ready_to_retrain naive_record_never_trained = (true, 1, 7) ∧
    NaiveBestEffortPolicy.ready_to_retrain naive_record_finished =
      (true, 1000001, 2000000) ∧
    NaiveBestEffortPolicy.ready_to_retrain naive_record_in_flight = (false, 0, 0) :=
  ⟨(naive_ready_to_retrain_cases naive_record_never_trained).1 (by decide),
   (naive_ready_to_retrain_cases naive_record_finished).2.1 (by decide) rfl (by decide),
   (naive_ready_to_retrain_cases naive_record_in_flight).2.2 (by decide) (by decide)⟩

unseal Rat.mul Rat.add Rat.sub Rat.inv in
/-- C2, as stated, fails.  On `truncation_record` (in flight, `data_from > 0`) the policy
triggers with window `(data_from, last_arrival)` although `B * beta = 1/2` is smaller than
`2 * (alpha * D * B + delta * (D + B)) = 3/4`: both sides are converted to `long` (to `0`)
before they are compared.  On `rounding_record` it triggers although the inequality
fails over exact numbers, also between the exact sides converted to `long` (45 against
46): the product `10 * beta` is rounded up to the double `46`. -/
theorem speculative_truncation_counterexample :
    0 < truncation_record.data_from_ ∧ truncation_record.finished_ = false ∧
    truncation_record.alpha_ = some (3 / 8) ∧ truncation_record.beta_ = some (1 / 2) ∧
    SpeculativeBestEffortPolicy.ready_to_retrain truncation_record =
      Except.ok (true, truncation_record.data_from_, truncation_record.last_arrival_) ∧
    ¬ speculative_inequality truncation_record (3 / 8) (1 / 2) ∧
    0 < rounding_record.data_from_ ∧ rounding_record.finished_ = false ∧
    rounding_record.alpha_ = some (2116691824864133 / 4503599627370496) ∧
    rounding_record.beta_ = some (2589569785738035 / 562949953421312) ∧
    SpeculativeBestEffortPolicy.ready_to_retrain rounding_record =
      Except.ok (true, rounding_record.data_from_, rounding_record.last_arrival_) ∧
    ¬ speculative_inequality rounding_record (2116691824864133 / 4503599627370496)
      (2589569785738035 / 562949953421312) ∧
    speculative_sides_exact rounding_record (2116691824864133 / 4503599627370496)
      (2589569785738035 / 562949953421312) = (45, 46) := by
  refine ⟨by decide, rfl, rfl, rfl, rfl, ?_, by decide, rfl, rfl, rfl, rfl, ?_, ?_⟩
  · simp only [speculative_inequality, total_size, truncation_record]
    norm_num [Int.tdiv_eq_ediv]
  · simp only [speculative_inequality, total_size, rounding_record]
    norm_num [Int.tdiv_eq_ediv]
  · decide

/-- C2, amended: for a record in flight with `data_from > 0` and finite `alpha`, `beta`,
`SpeculativeBestEffortPolicy::ready_to_retrain` returns `(true, data_from, last_arrival)`
exactly when the inequality holds between the two sides computed in double arithmetic
(each product and sum rounded to the nearest double, in the order of the code) and
converted to `long`, and `(false, 0, 0)` otherwise. -/
theorem speculative_ready_in_flight (R : RetrainRecord) (alpha beta : ℚ)
    (hfrom : 0 < R.data_from_) (hfin : R.finished_ = false)
    (ha : R.alpha_ = some alpha) (hb : R.beta_ = some beta) :
    (speculative_inequality_truncated R alpha beta →
      SpeculativeBestEffortPolicy.ready_to_retrain R =
        Except.ok (true, R.data_from_, R.last_arrival_)) ∧
    (¬ speculative_inequality_truncated R alpha beta →
      SpeculativeBestEffortPolicy.ready_to_retrain R = Except.ok (false, 0, 0)) := by
  have h0 : ¬ R.data_from_ ≤ 0 := not_le.mpr hfrom
  have hcode : SpeculativeBestEffortPolicy.ready_to_retrain R =
      if speculative_inequality_truncated R alpha beta then
        Except.ok (true, R.data_from_, R.last_arrival_)
      else Except.ok (false, 0, 0) := by
    unfold SpeculativeBestEffortPolicy.ready_to_retrain speculative_inequality_truncated
    rw [if_neg h0, if_neg (by simp [hfin])]
    simp only [ha, hb, finite, bind, Except.bind, sum_sizes_where_total]
  refine ⟨fun h => ?_, fun h => ?_⟩
  · rw [hcode]
    exact if_pos h
  · rw [hcode]
    exact if_neg h

unseal Rat.mul Rat.add Rat.sub Rat.inv in
/-- C2 amended, on Scenario 3 (with `beta = 100` nothing is triggered, with
`beta = 20000` the retrain is triggered with window `(data_from, 500000)`), on
`rounding_record`, where the two sides are `46` and `46`, and on `sum_rounding_record`,
where the sum `alpha + 2` is rounded up to the double `3` and the two sides are `5` and
`6` (over exact numbers the right side is below 6 and its conversion to `long` is 5). -/
theorem speculative_ready_in_flight_witness :
    SpeculativeBestEffortPolicy.ready_to_retrain (scenario3_record 100) =
      Except.ok (false, 0, 0) ∧
    SpeculativeBestEffortPolicy.ready_to_retrain (scenario3_record 20000) =
      Except.ok (true, 1, 500000) ∧
    SpeculativeBestEffortPolicy.ready_to_retrain rounding_record =
      Except.ok (true, 1, 10) ∧
    SpeculativeBestEffortPolicy.ready_to_retrain sum_rounding_record =
      Except.ok (false, 0, 0) ∧
    speculative_sides_exact sum_rounding_record (9007199254740991 / 9007199254740992)
      (11 / 2) = (5, 5) :=
  ⟨(speculative_ready_in_flight (scenario3_record 100) (1 / 1000) 100
      (by decide) rfl rfl rfl).2 (by decide),
   (speculative_ready_in_flight (scenario3_record 20000) (1 / 1000) 20000
      (by decide) rfl rfl rfl).1 (by decide),
   (speculative_ready_in_flight rounding_record (2116691824864133 / 4503599627370496)
      (2589569785738035 / 562949953421312) (by decide) rfl rfl rfl).1 (by decide),
   (speculative_ready_in_flight sum_rounding_record (9007199254740991 / 9007199254740992)
      (11 / 2) (by decide) rfl rfl rfl).2 (by decide),
   by decide⟩

theorem calc_cost_ok_finite {batches : BatchesInfo} {b e : Nat} {n : Int}
    {alpha beta weight : Double} {c : ℚ}
    (h : CostAwarePolicy.calc_cost batches b e n alpha beta weight = Except.ok c) :
    (∃ a, alpha = some a) ∧ (∃ t, beta = some t) ∧ (∃ w, weight = some w) := by
  rcases alpha with _ | a
  · simp [CostAwarePolicy.calc_cost, finite, bind, Except.bind] at h
  rcases beta with _ | t
  · simp [CostAwarePolicy.calc_cost, finite, bind, Except.bind] at h
  rcases weight with _ | w
  · exfalso
    rcases e with _ | e
    · simp [CostAwarePolicy.calc_cost, finite, bind, Except.bind] at h
    · cases hget : batches[e]? <;>
        simp [CostAwarePolicy.calc_cost, finite, bind, Except.bind, hget] at h
  · exact ⟨⟨a, rfl⟩, ⟨t, rfl⟩, ⟨w, rfl⟩⟩

theorem calc_cost_info_ok_finite {R : RetrainRecord} {c : CostInfo}
    (h : CostAwarePolicy.calc_cost_info R = Except.ok c) :
    (∃ a, R.alpha_ = some a) ∧ (∃ t, R.beta_ = some t) ∧ (∃ w, R.weight_ = some w) := by
  unfold CostAwarePolicy.calc_cost_info at h
  simp only [bind, Except.bind] at h
  split at h
  · cases h
  · rename_i x hx
    exact calc_cost_ok_finite hx

unseal Rat.mul Rat.add Rat.sub Rat.inv in
theorem scenario4_cost_info :
    CostAwarePolicy.calc_cost_info scenario4_record = Except.ok (13240, 22220) := rfl

/-- C3: `CostAwarePolicy::ready_to_retrain` returns `(false, 0, 0)` while the record is
unfinished or holds at most one batch; otherwise, with `(all_cost, min_cost)` the result
of `calc_cost_info`, it returns `(true, data_to + 1, last_arrival)` when
`all_cost - min_cost > weight * beta` and `(false, 0, 0)` when not, the comparison being
the one of the code: the difference of the two `long` converted to double against the
product of the two doubles, rounded to the nearest double (and it has no result when
`calc_cost_info` has none); `on_retrain_finished` is `ready_to_retrain`. -/
theorem cost_aware_ready_to_retrain_cases (R : RetrainRecord) :
    ((R.finished_ = false ∨ R.batches_.length ≤ 1) →
      CostAwarePolicy.ready_to_retrain R = Except.ok (false, 0, 0)) ∧
    (R.finished_ = true → 1 < R.batches_.length →
      (∀ c, CostAwarePolicy.calc_cost_info R = Except.ok c →
        ∃ weight beta, R.weight_ = some weight ∧ R.beta_ = some beta ∧
          (of_long (c.1 - c.2) > dmul weight beta →
            CostAwarePolicy.ready_to_retrain R =
              Except.ok (true, R.data_to_ + 1, R.last_arrival_)) ∧
          (¬ of_long (c.1 - c.2) > dmul weight beta →
            CostAwarePolicy.ready_to_retrain R = Except.ok (false, 0, 0))) ∧
      (∀ f, CostAwarePolicy.calc_cost_info R = Except.error f →
        CostAwarePolicy.ready_to_retrain R = Except.error f)) ∧
    CostAwarePolicy.on_retrain_finished R = CostAwarePolicy.ready_to_retrain R := by
  refine ⟨fun h => ?_, fun hf hl => ⟨fun c hc => ?_, fun f hc => ?_⟩, rfl⟩
  · unfold CostAwarePolicy.ready_to_retrain
    rcases h with h | h
    · rw [if_pos h]
    · by_cases hfin : R.finished_ = false
      · rw [if_pos hfin]
      · rw [if_neg hfin, if_pos h]
  · obtain ⟨-, ⟨beta, hb⟩, ⟨weight, hw⟩⟩ := calc_cost_info_ok_finite hc
    have hfin : ¬ R.finished_ = false := by simp [hf]
    have hlen : ¬ R.batches_.length ≤ 1 := not_le.mpr hl
    refine ⟨weight, beta, hw, hb, fun hgt => ?_, fun hgt => ?_⟩
    · unfold CostAwarePolicy.ready_to_retrain
      rw [if_neg hfin, if_neg hlen]
      simp only [hc, hw, hb, finite, bind, Except.bind]
      exact if_pos hgt
    · unfold CostAwarePolicy.ready_to_retrain
      rw [if_neg hfin, if_neg hlen]
      simp only [hc, hw, hb, finite, bind, Except.bind]
      exact if_neg hgt
  · have hfin : ¬ R.finished_ = false := by simp [hf]
    have hlen : ¬ R.batches_.length ≤ 1 := not_le.mpr hl
    unfold CostAwarePolicy.ready_to_retrain
    rw [if_neg hfin, if_neg hlen]
    simp only [hc, bind, Except.bind]

unseal Rat.mul Rat.add Rat.sub Rat.inv in
/-- C3 on Scenario 4 (finished, two batches, cost gap `13240 - 22220` below
`weight * beta = 10000`: no trigger), on the same record with one batch or unfinished,
on two batches 100 seconds apart (gap `100252 - 242` above `weight * beta = 10`: a
trigger with window `(data_to + 1, last_arrival)`) and on `product_record` (costs
`(138, 132)`, and the product of `10` and the double nearest to `0.6` is the double
`6`: `6 > 6` fails, no trigger). -/
theorem cost_aware_ready_to_retrain_cases_witness :
    CostAwarePolicy.ready_to_retrain scenario4_record = Except.ok (false, 0, 0) ∧
    CostAwarePolicy.ready_to_retrain { scenario4_record with batches_ := [(0, 10)] } =
      Except.ok (false, 0, 0) ∧
    CostAwarePolicy.ready_to_retrain { scenario4_record with finished_ := false } =
      Except.ok (false, 0, 0) ∧
    CostAwarePolicy.ready_to_retrain (timeout_record_gap 10) =
      Except.ok (true, 1, 100000000) ∧
    CostAwarePolicy.ready_to_retrain product_record = Except.ok (false, 0, 0) := by
  refine ⟨?_, ?_, ?_, ?_, ?_⟩
  · obtain ⟨weight, beta, hw, hb, -, h⟩ :=
      ((cost_aware_ready_to_retrain_cases scenario4_record).2.1 rfl (by decide)).1
        (13240, 22220) rfl
    have hw1 : weight = 10 := (Option.some.inj hw).symm
    have hb1 : beta = 1000 := (Option.some.inj hb).symm
    apply h
    rw [hw1, hb1]
    decide
  · exact (cost_aware_ready_to_retrain_cases _).1 (Or.inr (by decide))
  · exact (cost_aware_ready_to_retrain_cases _).1 (Or.inl rfl)
  · obtain ⟨weight, beta, hw, hb, h, -⟩ :=
      ((cost_aware_ready_to_retrain_cases (timeout_record_gap 10)).2.1 rfl (by decide)).1
        (100252, 242) rfl
    have hw1 : weight = 10 := (Option.some.inj hw).symm
    have hb1 : beta = 1 := (Option.some.inj hb).symm
    apply h
    rw [hw1, hb1]
    decide
  · obtain ⟨weight, beta, hw, hb, -, h⟩ :=
      ((cost_aware_ready_to_retrain_cases product_record).2.1 rfl (by decide)).1
        (138, 132) rfl
    have hw1 : weight = 10 := (Option.some.inj hw).symm
    have hb1 : beta = 5404319552844595 / 9007199254740992 := (Option.some.inj hb).symm
    apply h
    rw [hw1, hb1]
    decide

/-! ## Backend RPC transport -/

theorem send_message_inactive (rpc : RPCBackendService) (msg : RetrainRequest)
    (zmq_connection_id current_time_micros : Int) (h : rpc.active_ = false) :
    rpc.send_message msg zmq_connection_id current_time_micros = (rpc, -1) := by
  simp [RPCBackendService.send_message, h]

theorem send_message_active (rpc : RPCBackendService) (msg : RetrainRequest)
    (zmq_connection_id current_time_micros : Int) (h : rpc.active_ = true) :
    rpc.send_message msg zmq_connection_id current_time_micros =
      ({ rpc with
          message_id_ := rpc.message_id_ + 1,
          request_queue_ := rpc.request_queue_ ++
            [{ zmq_connection_id := zmq_connection_id, id := rpc.message_id_, msg := msg,
               time := current_time_micros }] },
       rpc.message_id_) := by
  simp [RPCBackendService.send_message, h]

theorem call_start (rpc : RPCBackendService) :
    (rpc.call RPCCall.start).2 = none ∧
    (rpc.call RPCCall.start).1.message_id_ = rpc.message_id_ := by
  unfold RPCBackendService.call RPCBackendService.start
  by_cases ha : rpc.active_ = true <;> simp [ha]

theorem call_stop (rpc : RPCBackendService) :
    (rpc.call RPCCall.stop).2 = none ∧
    (rpc.call RPCCall.stop).1.message_id_ = rpc.message_id_ := by
  unfold RPCBackendService.call RPCBackendService.stop
  by_cases ha : rpc.active_ = true <;> simp [ha]

theorem calls_cons_none (rpc : RPCBackendService) (c : RPCCall) (rest : List RPCCall)
    (h : (rpc.call c).2 = none) :
    (rpc.calls (c :: rest)).2 = ((rpc.call c).1.calls rest).2 := by
  simp only [RPCBackendService.calls, h]

theorem calls_cons_some (rpc : RPCBackendService) (c : RPCCall) (rest : List RPCCall)
    (r : Bool × Int) (h : (rpc.call c).2 = some r) :
    (rpc.calls (c :: rest)).2 = r :: ((rpc.call c).1.calls rest).2 := by
  simp only [RPCBackendService.calls, h]

theorem calls_active_ids (rpc : RPCBackendService) (calls : List RPCCall) :
    active_ids (rpc.calls calls).2 =
      (List.range (active_ids (rpc.calls calls).2).length).map
        (fun (k : Nat) => rpc.message_id_ + (k : Int)) ∧
    ∀ r ∈ (rpc.calls calls).2, r.1 = false → r.2 = -1 := by
  induction calls generalizing rpc with
  | nil => simp [RPCBackendService.calls, active_ids]
  | cons c rest ih =>
    cases c with
    | start =>
      have h := ih (rpc.call RPCCall.start).1
      rw [(call_start rpc).2] at h
      rw [calls_cons_none rpc _ rest (call_start rpc).1]
      exact h
    | stop =>
      have h := ih (rpc.call RPCCall.stop).1
      rw [(call_stop rpc).2] at h
      rw [calls_cons_none rpc _ rest (call_stop rpc).1]
      exact h
    | send_message msg conn t =>
      have hcall : rpc.call (RPCCall.send_message msg conn t) =
          ((rpc.send_message msg conn t).1, some (rpc.active_, (rpc.send_message msg conn t).2)) :=
        rfl
      rw [calls_cons_some rpc _ rest _ (by rw [hcall])]
      rw [hcall]
      by_cases ha : rpc.active_ = true
      · have h := ih (rpc.send_message msg conn t).1
        rw [send_message_active rpc msg conn t ha] at h ⊢
        obtain ⟨h1, h2⟩ := h
        constructor
        · simp only [active_ids, ha, List.filter_cons, if_true, List.map_cons,
            List.length_cons]
          rw [List.range_succ_eq_map, List.map_cons, List.map_map]
          simp only [active_ids, ha] at h1
          rw [h1]
          simp only [List.length_map, List.length_range, Nat.cast_zero, add_zero]
          congr 1
          apply List.map_congr_left
          intro k _
          simp only [Function.comp, Nat.cast_succ]
          ring
        · intro r hr hf
          simp only [List.mem_cons] at hr
          rcases hr with hr | hr
          · rw [hr] at hf
            simp [ha] at hf
          · exact h2 r hr hf
      · have hfalse : rpc.active_ = false := by simpa using ha
        rw [send_message_inactive rpc msg conn t hfalse]
        obtain ⟨h1, h2⟩ := ih rpc
        constructor
        · simpa [active_ids, hfalse] using h1
        · intro r hr hf
          simp only [List.mem_cons] at hr
          rcases hr with hr | hr
          · rw [hr]
          · exact h2 r hr hf

/-- C10: on a fresh transport and for every sequence of `start`, `stop` and
`send_message` calls, the ids returned by the calls made while the transport is active
are `0, 1, 2, ...` in call order (hence strictly increasing), whatever connection id is
passed; a call made while it is inactive returns `-1` and leaves the counter and the
queue as they are; an active call returns the counter, advances it by one and appends
the request to the queue. -/
theorem send_message_ids (calls : List RPCCall) :
    active_ids (RPCBackendService.mk_new.calls calls).2 =
      (List.range (active_ids (RPCBackendService.mk_new.calls calls).2).length).map
        (fun (k : Nat) => (k : Int)) ∧
    List.Pairwise (fun a b => a < b) (active_ids (RPCBackendService.mk_new.calls calls).2) ∧
    (∀ r ∈ (RPCBackendService.mk_new.calls calls).2, r.1 = false → r.2 = -1) ∧
    (∀ (rpc : RPCBackendService) (msg : RetrainRequest) (zmq_connection_id t : Int),
      rpc.active_ = false → rpc.send_message msg zmq_connection_id t = (rpc, -1)) ∧
    (∀ (rpc : RPCBackendService) (msg : RetrainRequest) (zmq_connection_id t : Int),
      rpc.active_ = true →
        (rpc.send_message msg zmq_connection_id t).2 = rpc.message_id_ ∧
        (rpc.send_message msg zmq_connection_id t).1.message_id_ = rpc.message_id_ + 1 ∧
        (rpc.send_message msg zmq_connection_id t).1.request_queue_ =
          rpc.request_queue_ ++
            [{ zmq_connection_id := zmq_connection_id, id := rpc.message_id_, msg := msg,
               time := t }]) := by
  have h := calls_active_ids RPCBackendService.mk_new calls
  have hids : active_ids (RPCBackendService.mk_new.calls calls).2 =
      (List.range (active_ids (RPCBackendService.mk_new.calls calls).2).length).map
        (fun (k : Nat) => (k : Int)) := by
    have h1 := h.1
    simp only [RPCBackendService.mk_new, zero_add] at h1
    exact h1
  refine ⟨hids, ?_, h.2, send_message_inactive, ?_⟩
  · rw [hids, List.pairwise_map]
    exact (List.pairwise_lt_range _).imp (fun hab => by exact_mod_cast hab)
  · intro rpc msg conn t ha
    rw [send_message_active rpc msg conn t ha]
    exact ⟨rfl, rfl, rfl⟩

/-- C10, on `rpc_calls_example`: the sends made while the transport is active return
`0, 1, 2`, the other two return `-1`. -/
theorem send_message_ids_witness :
    (RPCBackendService.mk_new.calls rpc_calls_example).2 =
      [(false, -1), (true, 0), (true, 1), (false, -1), (true, 2)] ∧
    active_ids (RPCBackendService.mk_new.calls rpc_calls_example).2 = [0, 1, 2] :=
  ⟨by decide, by
    have h := (send_message_ids rpc_calls_example).1
    have hlen : (active_ids (RPCBackendService.mk_new.calls rpc_calls_example).2).length = 3 := by
      decide
    rw [hlen] at h
    exact h⟩

/-! ## Runtime profiler -/

theorem accumulate_foldl (samples : List (Int × Int)) (acc : RegressionSums) :
    samples.foldl
      (fun acc s =>
        ({ sum_time := acc.sum_time + s.1,
           sum_size := acc.sum_size + s.2,
           sum_x_multi_y := acc.sum_x_multi_y + s.2 * s.1,
           sum_x_squa := acc.sum_x_squa + s.2 * s.2 } : RegressionSums))
      acc =
    { sum_time := acc.sum_time + (samples.map (fun s => s.1)).sum,
      sum_size := acc.sum_size + (samples.map (fun s => s.2)).sum,
      sum_x_multi_y := acc.sum_x_multi_y + (samples.map (fun s => s.2 * s.1)).sum,
      sum_x_squa := acc.sum_x_squa + (samples.map (fun s => s.2 * s.2)).sum } := by
  induction samples generalizing acc with
  | nil => simp
  | cons x rest ih =>
    rw [List.foldl_cons, ih]
    simp [add_assoc]

/-- The loop of `calc_alpha_beta` computes the four sums over the ring. -/
theorem accumulate_eq (samples : List (Int × Int)) :
    RuntimeProfiler.accumulate samples =
      { sum_time := (samples.map (fun s => s.1)).sum,
        sum_size := (samples.map (fun s => s.2)).sum,
        sum_x_multi_y := (samples.map (fun s => s.2 * s.1)).sum,
        sum_x_squa := (samples.map (fun s => s.2 * s.2)).sum } := by
  unfold RuntimeProfiler.accumulate
  rw [accumulate_foldl]
  simp

/-- The method `calc_alpha_beta` stores the slope and the intercept of the ring as
computed in double arithmetic and changes nothing else. -/
theorem calc_alpha_beta_double (p : RuntimeProfiler) :
    p.calc_alpha_beta.alpha_ = double_alpha p.time_size_pairs_ ∧
    p.calc_alpha_beta.beta_ = double_beta p.time_size_pairs_ ∧
    p.calc_alpha_beta.time_size_pairs_ = p.time_size_pairs_ := by
  have halpha : p.calc_alpha_beta.alpha_ = double_alpha p.time_size_pairs_ := by
    simp only [RuntimeProfiler.calc_alpha_beta, double_alpha, accumulate_eq]
    rw [mul_comm (p.time_size_pairs_.map (fun s => s.1)).sum]
  refine ⟨halpha, ?_, rfl⟩
  have hbeta : p.calc_alpha_beta.beta_ =
      match p.calc_alpha_beta.alpha_,
        fdiv (of_long (p.time_size_pairs_.map (fun s => s.1)).sum)
          (of_long (p.time_size_pairs_.length : Int)) with
      | some a, some mean_time =>
        (fdiv (dmul a (of_long (p.time_size_pairs_.map (fun s => s.2)).sum))
          (of_long (p.time_size_pairs_.length : Int))).map (fun t => dsub mean_time t)
      | _, _ => none := by
    simp only [RuntimeProfiler.calc_alpha_beta, accumulate_eq]
  rw [hbeta, halpha]
  rfl

unseal Rat.mul Rat.add Rat.sub Rat.inv in
/-- C9, as stated, fails: adding the sample `(2, 3)` to a ring holding `(1, 1)` and
`(2, 2)` gives `alpha = 1/2` and `beta = 0.66666666666666674...`, the double above
`2/3`, while `(Σy − alpha Σx) / n` is `2/3` over exact numbers and rounds to the double
below `2/3`: the code computes `Σy / n − (alpha Σx) / n` and the first quotient, `5/3`,
is rounded before `1` is subtracted. -/
theorem add_sample_rounding_counterexample :
    (∃ q, profiler_rounding.add_sample 2 3 = Except.ok q ∧
      q.time_size_pairs_ = [(1, 1), (2, 2), (2, 3)] ∧
      q.alpha_ = some (1 / 2) ∧
      q.beta_ = some (3002399751580331 / 4503599627370496)) ∧
    ols_alpha [(1, 1), (2, 2), (2, 3)] = some (1 / 2) ∧
    ols_beta [(1, 1), (2, 2), (2, 3)] = some (2 / 3) ∧
    round_double (2 / 3) = 6004799503160661 / 9007199254740992 ∧
    (3002399751580331 / 4503599627370496 : ℚ) ≠ 2 / 3 ∧
    (3002399751580331 / 4503599627370496 : ℚ) ≠ 6004799503160661 / 9007199254740992 := by
  refine ⟨⟨_, rfl, rfl, rfl, rfl⟩, ?_, ?_, by decide, by norm_num, by norm_num⟩
  · simp only [ols_alpha, exact_div, sum_x, sum_y, sum_xy, sum_xx, List.map, List.sum_cons,
      List.sum_nil, List.length]
    norm_num
  · simp only [ols_beta, ols_alpha, exact_div, sum_x, sum_y, sum_xy, sum_xx, List.map,
      List.sum_cons, List.sum_nil, List.length]
    norm_num

/-- C9, amended: `add_sample` completes unless it has to erase from an empty ring;
afterwards the ring is the old one, without its oldest sample if it was full, followed
by the new sample; if the ring then holds at least `threshold_` samples, `alpha_` is the
quotient of the integers `n Σxy − Σx Σy` and `n Σx² − (Σx)²` and `beta_` is
`Σy / n − (alpha Σx) / n`, over exactly the samples in the ring (`x` the data size, `y`
the training time) and in double arithmetic: the integers are converted to double and
every quotient, product and difference is rounded to the nearest double; if the ring
holds fewer samples, `alpha_` and `beta_` are unchanged. -/
theorem add_sample_regression (p : RuntimeProfiler) (time data_size : Int) :
    ((unsigned_cast p.max_samples_ ≠ 0 ∨ p.time_size_pairs_ ≠ []) →
      ∃ q, p.add_sample time data_size = Except.ok q) ∧
    ∀ q, p.add_sample time data_size = Except.ok q →
      q.time_size_pairs_ =
        (if p.time_size_pairs_.length ≥ unsigned_cast p.max_samples_ then
          p.time_size_pairs_.tail else p.time_size_pairs_) ++ [(time, data_size)] ∧
      q.threshold_ = p.threshold_ ∧ q.max_samples_ = p.max_samples_ ∧
      (q.time_size_pairs_.length ≥ unsigned_cast p.threshold_ →
        q.alpha_ = double_alpha q.time_size_pairs_ ∧
        q.beta_ = double_beta q.time_size_pairs_) ∧
      (q.time_size_pairs_.length < unsigned_cast p.threshold_ →
        q.alpha_ = p.alpha_ ∧ q.beta_ = p.beta_) := by
  have key : ∀ kept : List (Int × Int),
      ∀ q, (if ({ p with time_size_pairs_ := kept ++ [(time, data_size)] } :
              RuntimeProfiler).time_size_pairs_.length ≥ unsigned_cast p.threshold_ then
            (Except.ok ({ p with time_size_pairs_ := kept ++ [(time, data_size)] } :
              RuntimeProfiler).calc_alpha_beta : Except Fault RuntimeProfiler)
          else Except.ok { p with time_size_pairs_ := kept ++ [(time, data_size)] }) =
          Except.ok q →
        q.time_size_pairs_ = kept ++ [(time, data_size)] ∧
        q.threshold_ = p.threshold_ ∧ q.max_samples_ = p.max_samples_ ∧
        (q.time_size_pairs_.length ≥ unsigned_cast p.threshold_ →
          q.alpha_ = double_alpha q.time_size_pairs_ ∧
          q.beta_ = double_beta q.time_size_pairs_) ∧
        (q.time_size_pairs_.length < unsigned_cast p.threshold_ →
          q.alpha_ = p.alpha_ ∧ q.beta_ = p.beta_) := by
    intro kept q hq
    obtain ⟨h1, h2, h3⟩ := calc_alpha_beta_double
      ({ p with time_size_pairs_ := kept ++ [(time, data_size)] } : RuntimeProfiler)
    split at hq
    · rename_i hge
      have hq2 := (Except.ok.inj hq).symm
      subst hq2
      refine ⟨h3, rfl, rfl, fun _ => ?_, fun hlt => ?_⟩
      · rw [h3]
        exact ⟨h1, h2⟩
      · rw [h3] at hlt
        exact absurd hge (not_le.mpr hlt)
    · rename_i hlt
      have hq2 := (Except.ok.inj hq).symm
      subst hq2
      exact ⟨rfl, rfl, rfl, fun hge => absurd hge hlt, fun _ => ⟨rfl, rfl⟩⟩
  constructor
  · intro hok
    unfold RuntimeProfiler.add_sample
    by_cases hfull : p.time_size_pairs_.length ≥ unsigned_cast p.max_samples_
    · cases hring : p.time_size_pairs_ with
      | nil =>
        exfalso
        rw [hring] at hfull
        rcases hok with hok | hok
        · simp at hfull
          exact hok hfull
        · exact hok hring
      | cons x rest =>
        rw [hring] at hfull
        simp only [hfull, if_true, bind, Except.bind]
        split <;> exact ⟨_, rfl⟩
    · simp only [hfull, if_false, bind, Except.bind]
      split <;> exact ⟨_, rfl⟩
  · intro q hq
    unfold RuntimeProfiler.add_sample at hq
    by_cases hfull : p.time_size_pairs_.length ≥ unsigned_cast p.max_samples_
    · rw [if_pos hfull]
      cases hring : p.time_size_pairs_ with
      | nil =>
        rw [hring] at hfull hq
        have h0 : unsigned_cast p.max_samples_ = 0 := by simpa using hfull
        simp [h0, bind, Except.bind] at hq
      | cons x rest =>
        rw [hring] at hfull hq
        simp only [hfull, if_true, bind, Except.bind] at hq
        exact key rest q hq
    · rw [if_neg hfull]
      simp only [hfull, if_false, bind, Except.bind] at hq
      exact key _ q hq

unseal Rat.mul Rat.add Rat.sub Rat.inv in
/-- C9 amended, on a profiler holding `(10, 1)` and `(20, 2)`: adding `(30, 3)` reaches
the threshold of three samples and gives `alpha = 10`, `beta = 0`; on a fresh profiler
one sample leaves `alpha` and `beta` at their initial values; on a profiler holding
`(1, 1)` and `(2, 2)`, adding `(2, 3)` gives `alpha = 1/2` and the double above `2/3` as
`beta`. -/
theorem add_sample_regression_witness :
    (∃ q, profiler_two_samples.add_sample 30 3 = Except.ok q ∧
      q.time_size_pairs_ = [(10, 1), (20, 2), (30, 3)] ∧
      q.alpha_ = some 10 ∧ q.beta_ = some 0) ∧
    (∃ q, (RuntimeProfiler.mk_new (some 2) (some 7)).add_sample 30 3 = Except.ok q ∧
      q.alpha_ = some 2 ∧ q.beta_ = some 7) ∧
    (∃ q, profiler_rounding.add_sample 2 3 = Except.ok q ∧
      q.time_size_pairs_ = [(1, 1), (2, 2), (2, 3)] ∧
      q.alpha_ = some (1 / 2) ∧
      q.beta_ = some (3002399751580331 / 4503599627370496)) := by
  refine ⟨?_, ?_, ?_⟩
  rotate_left 2
  · obtain ⟨q, hq⟩ :=
      (add_sample_regression profiler_rounding 2 3).1 (Or.inl (by decide))
    obtain ⟨hring, -, -, hge, -⟩ := (add_sample_regression profiler_rounding 2 3).2 q hq
    have hring2 : q.time_size_pairs_ = [(1, 1), (2, 2), (2, 3)] := by
      rw [hring]
      decide
    refine ⟨q, hq, hring2, ?_, ?_⟩
    · rw [(hge (by rw [hring2]; decide)).1, hring2]
      decide
    · rw [(hge (by rw [hring2]; decide)).2, hring2]
      decide
  · obtain ⟨q, hq⟩ :=
      (add_sample_regression profiler_two_samples 30 3).1 (Or.inl (by decide))
    obtain ⟨hring, -, -, hge, -⟩ := (add_sample_regression profiler_two_samples 30 3).2 q hq
    have hring2 : q.time_size_pairs_ = [(10, 1), (20, 2), (30, 3)] := by
      rw [hring]
      decide
    refine ⟨q, hq, hring2, ?_, ?_⟩
    · rw [(hge (by rw [hring2]; decide)).1, hring2]
      decide
    · rw [(hge (by rw [hring2]; decide)).2, hring2]
      decide
  · obtain ⟨q, hq⟩ :=
      (add_sample_regression (RuntimeProfiler.mk_new (some 2) (some 7)) 30 3).1
        (Or.inl (by decide))
    obtain ⟨hring, -, -, -, hlt⟩ :=
      (add_sample_regression (RuntimeProfiler.mk_new (some 2) (some 7)) 30 3).2 q hq
    have hab := hlt (by rw [hring]; decide)
    exact ⟨q, hq, hab.1, hab.2⟩

/-! ## Trigger checker: single handlers -/

theorem trigger_retrain_some (s : TriggerChecker) (app_name : String) (req : RetrainRequest)
    (send_time cur_time : Int) (R : RetrainRecord) (h : s.retrain_records_ app_name = some R) :
    TriggerChecker.trigger_retrain s app_name req send_time cur_time =
      Except.ok
        { s with
            rpc_ := (s.rpc_.send_message req ((s.zmq_connections app_name).getD 0) send_time).1,
            zmq_connections :=
              assign s.zmq_connections app_name ((s.zmq_connections app_name).getD 0),
            retrain_records_ :=
              assign s.retrain_records_ app_name
                { R with
                    data_from_ := req.data_from_, data_to_ := req.data_to_,
                    training_batch_ := (cur_time, req.data_size_), finished_ := false },
            inflight_messages_ :=
              InflightMessages.emplace s.inflight_messages_
                (s.rpc_.send_message req ((s.zmq_connections app_name).getD 0) send_time).2
                { send_time_ := cur_time,
                  zmq_connection_id_ := (s.zmq_connections app_name).getD 0,
                  app_name_ := app_name, state_ := RetrainState.RetrainSent,
                  batch_ids_ := req.batch_ids_,
                  msg_link_ := (TriggerChecker.find_link s.inflight_messages_ app_name).1 } } := by
  unfold TriggerChecker.trigger_retrain
  simp only [h]

theorem trigger_retrain_none (s : TriggerChecker) (app_name : String) (req : RetrainRequest)
    (send_time cur_time : Int) (h : s.retrain_records_ app_name = none) :
    TriggerChecker.trigger_retrain s app_name req send_time cur_time =
      Except.error Fault.null_dereference := by
  unfold TriggerChecker.trigger_retrain
  simp only [h]

theorem assign_same {α : Type} (m : String → Option α) (key : String) (value : α) :
    assign m key value key = some value := by
  simp [assign]

theorem assign_other {α : Type} (m : String → Option α) (key other : String) (value : α)
    (h : other ≠ key) : assign m key value other = m other := by
  simp [assign, h]

/-- C4: `manual_trigger_retrain` on an application without a record gives `-1` and
leaves the state as it is; on a record whose batches with `arrival ≥ data_to` have total
size `0` it gives `0` and leaves the state as it is; when that total `data_size` is
positive it gives `data_size` and calls `trigger_retrain` once, with the request
`(from = old data_to, to = cur_time, data_size)`: the record gets that window, and on
an active transport exactly this one request is appended to the outbound queue. -/
theorem manual_trigger_retrain_cases (s : TriggerChecker) (redis : Redis) (app_name : String)
    (cur_time send_time dispatch_time : Int) :
    (s.retrain_records_ app_name = none →
      TriggerChecker.manual_trigger_retrain s redis app_name cur_time send_time dispatch_time =
        Except.ok (s, -1)) ∧
    (∀ R, s.retrain_records_ app_name = some R →
      (total_size (fun b => b.1 ≥ R.data_to_) R.batches_ = 0 →
        TriggerChecker.manual_trigger_retrain s redis app_name cur_time send_time
          dispatch_time = Except.ok (s, 0)) ∧
      (0 < total_size (fun b => b.1 ≥ R.data_to_) R.batches_ →
        ∃ s1,
          TriggerChecker.manual_trigger_retrain s redis app_name cur_time send_time
            dispatch_time =
            Except.ok (s1, total_size (fun b => b.1 ≥ R.data_to_) R.batches_) ∧
          TriggerChecker.trigger_retrain s app_name
            { data_from_ := R.data_to_, data_to_ := cur_time,
              batch_ids_ := redis.get_retrain_data_ids app_name R.data_to_ cur_time,
              data_size_ := total_size (fun b => b.1 ≥ R.data_to_) R.batches_ }
            send_time dispatch_time = Except.ok s1 ∧
          s1.retrain_records_ app_name =
            some { R with
              data_from_ := R.data_to_, data_to_ := cur_time,
              training_batch_ :=
                (dispatch_time, total_size (fun b => b.1 ≥ R.data_to_) R.batches_),
              finished_ := false } ∧
          (s.rpc_.active_ = true →
            s1.rpc_.request_queue_ = s.rpc_.request_queue_ ++
              [{ zmq_connection_id := (s.zmq_connections app_name).getD 0,
                 id := s.rpc_.message_id_,
                 msg :=
                   { data_from_ := R.data_to_, data_to_ := cur_time,
                     batch_ids_ := redis.get_retrain_data_ids app_name R.data_to_ cur_time,
                     data_size_ := total_size (fun b => b.1 ≥ R.data_to_) R.batches_ },
                 time := send_time }]))) := by
  refine ⟨fun h => ?_, fun R h => ⟨fun h0 => ?_, fun hpos => ?_⟩⟩
  · unfold TriggerChecker.manual_trigger_retrain
    simp only [h]
  · unfold TriggerChecker.manual_trigger_retrain
    simp only [h, sum_sizes_where_total, h0]
    rfl
  · refine ⟨_, ?_, trigger_retrain_some s app_name _ send_time dispatch_time R h, ?_, ?_⟩
    · unfold TriggerChecker.manual_trigger_retrain
      simp only [h, sum_sizes_where_total, hpos, if_true, bind, Except.bind,
        trigger_retrain_some s app_name _ send_time dispatch_time R h]
    · exact assign_same _ _ _
    · intro hact
      simp only [send_message_active s.rpc_ _ _ _ hact]

theorem manual_state_batches_total :
    total_size (fun b => b.1 ≥ manual_record.data_to_) manual_record.batches_ = 1000 := by
  decide

/-- C4, on an application that has no record, on a record whose data is all trained and
on a record with one untrained batch of 1000 samples (manual trigger at
`cur_time = 1500000`). -/
theorem manual_trigger_retrain_cases_witness :
    TriggerChecker.manual_trigger_retrain manual_state (demo_redis "ManualPolicy" 1 1) "foo"
      1500000 1500001 1500002 = Except.ok (manual_state, -1) ∧
    TriggerChecker.manual_trigger_retrain manual_state_no_data (demo_redis "ManualPolicy" 1 1)
      "app" 1500000 1500001 1500002 = Except.ok (manual_state_no_data, 0) ∧
    ∃ s1,
      TriggerChecker.manual_trigger_retrain manual_state (demo_redis "ManualPolicy" 1 1) "app"
        1500000 1500001 1500002 = Except.ok (s1, 1000) ∧
      s1.retrain_records_ "app" =
        some { manual_record with
          data_from_ := 0, data_to_ := 1500000, training_batch_ := (1500002, 1000),
          finished_ := false } ∧
      s1.rpc_.request_queue_ =
        [{ zmq_connection_id := 0, id := 0,
           msg := { data_from_ := 0, data_to_ := 1500000, batch_ids_ := [],
                    data_size_ := 1000 },
           time := 1500001 }] := by
  have hfoo : manual_state.retrain_records_ "foo" = none := by
    simp [manual_state, assign]
  have happ : manual_state.retrain_records_ "app" = some manual_record := by
    simp [manual_state, assign]
  have hnodata : manual_state_no_data.retrain_records_ "app" =
      some { manual_record with data_from_ := 1, data_to_ := 1000000, batches_ := [] } := by
    simp [manual_state_no_data, assign]
  refine ⟨?_, ?_, ?_⟩
  · exact (manual_trigger_retrain_cases manual_state _ "foo" 1500000 1500001 1500002).1 hfoo
  · exact ((manual_trigger_retrain_cases manual_state_no_data _ "app" 1500000 1500001
      1500002).2 _ hnodata).1 (by decide)
  · obtain ⟨s1, h1, -, h3, h4⟩ :=
      ((manual_trigger_retrain_cases manual_state (demo_redis "ManualPolicy" 1 1) "app"
        1500000 1500001 1500002).2 manual_record happ).2 (by decide)
    rw [manual_state_batches_total] at h1 h3 h4
    exact ⟨s1, h1, h3, h4 rfl⟩

theorem bind_eq_ok {ε α β : Type} (x : Except ε α) (f : α → Except ε β) (b : β) :
    (x >>= f) = Except.ok b ↔ ∃ a, x = Except.ok a ∧ f a = Except.ok b := by
  cases x <;> simp [bind, Except.bind]

theorem check_trigger_by_func_ok {s : TriggerChecker} {redis : Redis} {app_name : String}
    {func : RetrainRecord → Except Fault RetrainInfo} {send_time cur_time : Int}
    {out : TriggerChecker × Bool}
    (h : TriggerChecker.check_trigger_by_func s redis app_name func send_time cur_time =
      Except.ok out) :
    ∃ R info, s.retrain_records_ app_name = some R ∧ func R = Except.ok info ∧
      ((info.1 = false ∧ out = (s, false)) ∨
       (info.1 = true ∧ out.2 = true ∧
        TriggerChecker.trigger_retrain s app_name
          { data_from_ := info.2.1, data_to_ := info.2.2,
            batch_ids_ := redis.get_retrain_data_ids app_name info.2.1 info.2.2,
            data_size_ :=
              sum_sizes_where (fun p => decide (p.1 ≥ info.2.1) && decide (p.1 ≤ info.2.2))
                R.batches_ }
          send_time cur_time = Except.ok out.1)) := by
  unfold TriggerChecker.check_trigger_by_func at h
  cases hrec : s.retrain_records_ app_name with
  | none => simp [hrec] at h
  | some R =>
    simp only [hrec, bind_eq_ok] at h
    obtain ⟨info, hinfo, h⟩ := h
    refine ⟨R, info, rfl, hinfo, ?_⟩
    by_cases ht : info.1 = true
    · right
      simp only [ht, if_true, bind_eq_ok] at h
      obtain ⟨s1, hs1, h⟩ := h
      have hout := (Except.ok.inj h).symm
      subst hout
      exact ⟨ht, rfl, hs1⟩
    · left
      simp only [ht, if_false] at h
      have hout := (Except.ok.inj h).symm
      subst hout
      exact ⟨by simpa using ht, rfl⟩

theorem update_retrain_records_ok {s s1 : TriggerChecker} {app_name : String} {cur_time : Int}
    {R : RetrainRecord} (hrec : s.retrain_records_ app_name = some R)
    (h : TriggerChecker.update_retrain_records s app_name cur_time = Except.ok s1) :
    ∃ profiler sampled, s.runtime_profilers_ app_name = some profiler ∧
      profiler.add_sample (Int.tdiv (cur_time - R.training_batch_.1) 1000)
        R.training_batch_.2 = Except.ok sampled ∧
      s1 = { s with
        runtime_profilers_ := assign s.runtime_profilers_ app_name sampled,
        retrain_records_ := assign s.retrain_records_ app_name
          { R with
            finished_ := true,
            batches_ := R.batches_.filter
              (fun b => !(decide (b.1 ≥ R.data_from_) && decide (b.1 ≤ R.data_to_))),
            alpha_ := sampled.alpha_, beta_ := sampled.beta_ } } := by
  unfold TriggerChecker.update_retrain_records at h
  simp only [hrec] at h
  cases hprof : s.runtime_profilers_ app_name with
  | none => simp [hprof] at h
  | some profiler =>
    simp only [hprof, bind_eq_ok] at h
    obtain ⟨sampled, hsampled, h⟩ := h
    exact ⟨profiler, sampled, rfl, hsampled, (Except.ok.inj h).symm⟩

theorem report_retrain_end_ok {s : TriggerChecker} {redis : Redis} {msg_id : Int}
    {cur_time send_time dispatch_time : Int} {out : TriggerChecker × Option Bool}
    {msg : InflightRetrainMessage}
    (hfind : InflightMessages.find s.inflight_messages_ msg_id = some msg)
    (h : TriggerChecker.report_retrain_end s redis msg_id cur_time send_time dispatch_time =
      Except.ok out) :
    ∃ erased s2 policy checked,
      TriggerChecker.erase_links (s.inflight_messages_.length + 1)
        (InflightMessages.erase s.inflight_messages_ msg_id) msg.msg_link_ = Except.ok erased ∧
      TriggerChecker.update_retrain_records { s with inflight_messages_ := erased }
        msg.app_name_ cur_time = Except.ok s2 ∧
      TriggerChecker.get_app_policy s2 msg.app_name_ = Except.ok policy ∧
      TriggerChecker.check_trigger_by_func s2 redis msg.app_name_
        (RetrainPolicy.on_retrain_finished policy) send_time dispatch_time =
        Except.ok checked ∧
      out = (checked.1, some true) := by
  unfold TriggerChecker.report_retrain_end at h
  simp only [hfind, bind_eq_ok] at h
  obtain ⟨erased, h1, s2, h2, policy, h3, checked, h4, h5⟩ := h
  exact ⟨erased, s2, policy, checked, h1, h2, h3, h4, (Except.ok.inj h5).symm⟩

/-! ## ReportRetrainEnd -/

/-- C5, as stated, fails: in the state reached by `naive_two_arrivals` message 0 is in
flight, and after `ReportRetrainEnd(0)` has been handled the record of the application
has `finished_ = false`, because the re-evaluation through `on_retrain_finished`
dispatched the next retrain (window `(1000001, 2000000)`); the batch of the closed
window is pruned. -/
theorem report_retrain_end_chain_counterexample :
    observe_inflight (TriggerChecker.run TriggerChecker.initial naive_two_arrivals) =
      some [(0, "app", -1)] ∧
    observe_record (TriggerChecker.run TriggerChecker.initial naive_two_arrivals) "app" =
      some (false, 1, 1000000, 2000000, (1000010, 5), [(1000000, 5), (2000000, 3)]) ∧
    observe_record
      (TriggerChecker.run TriggerChecker.initial (naive_two_arrivals ++ [naive_first_end]))
      "app" =
      some (false, 1000001, 2000000, 2000000, (3000000, 3), [(2000000, 3)]) := by
  refine ⟨?_, ?_, ?_⟩ <;> rfl

/-- C5, amended: when `ReportRetrainEnd(msg_id)` is handled for a message in flight whose
application has a record `R`, the record is first updated to `finished_ = true` with the
batches whose arrival lies in `[R.data_from_, R.data_to_]` removed and the other batches
kept in their order (and `alpha_`, `beta_` refreshed), and the policy of the application
evaluates `on_retrain_finished` on that updated record; at the end of the event the
record has those same batches, and `finished_` is `true` exactly when the re-evaluation
did not trigger a new retrain. -/
theorem report_retrain_end_record (s : TriggerChecker) (redis : Redis) (msg_id : Int)
    (cur_time send_time dispatch_time : Int) (out : TriggerChecker × Option Bool)
    (msg : InflightRetrainMessage) (R : RetrainRecord)
    (hfind : InflightMessages.find s.inflight_messages_ msg_id = some msg)
    (hrec : s.retrain_records_ msg.app_name_ = some R)
    (h : TriggerChecker.report_retrain_end s redis msg_id cur_time send_time dispatch_time =
      Except.ok out) :
    ∃ (alpha beta : Double) (policy : RetrainPolicy) (info : RetrainInfo) (Rout : RetrainRecord),
      TriggerChecker.get_app_policy s msg.app_name_ = Except.ok policy ∧
      RetrainPolicy.on_retrain_finished policy
        { R with
          finished_ := true,
          batches_ :=
            R.batches_.filter (fun b => decide (¬ (R.data_from_ ≤ b.1 ∧ b.1 ≤ R.data_to_))),
          alpha_ := alpha, beta_ := beta } = Except.ok info ∧
      out.1.retrain_records_ msg.app_name_ = some Rout ∧
      Rout.batches_ =
        R.batches_.filter (fun b => decide (¬ (R.data_from_ ≤ b.1 ∧ b.1 ≤ R.data_to_))) ∧
      (Rout.finished_ = true ↔ info.1 = false) := by
  obtain ⟨erased, s2, policy, checked, -, h2, h3, h4, h5⟩ := report_retrain_end_ok hfind h
  obtain ⟨profiler, sampled, -, -, hs2⟩ :=
    update_retrain_records_ok (s := { s with inflight_messages_ := erased }) hrec h2
  have hfilter : (fun (b : BatchInfo) =>
      !(decide (b.1 ≥ R.data_from_) && decide (b.1 ≤ R.data_to_))) =
      (fun b => decide (¬ (R.data_from_ ≤ b.1 ∧ b.1 ≤ R.data_to_))) := by
    funext b
    by_cases h1 : R.data_from_ ≤ b.1 <;> by_cases h2 : b.1 ≤ R.data_to_ <;> simp [h1, h2]
  rw [hfilter] at hs2
  obtain ⟨R2, info, hR2, hinfo, hcases⟩ := check_trigger_by_func_ok h4
  have hR2eq : s2.retrain_records_ msg.app_name_ = some
      { R with
        finished_ := true,
        batches_ :=
          R.batches_.filter (fun b => decide (¬ (R.data_from_ ≤ b.1 ∧ b.1 ≤ R.data_to_))),
        alpha_ := sampled.alpha_, beta_ := sampled.beta_ } := by
    rw [hs2]
    exact assign_same _ _ _
  rw [hR2eq] at hR2
  have hR2' := (Option.some.inj hR2).symm
  subst hR2'
  have hpol : TriggerChecker.get_app_policy s msg.app_name_ = Except.ok policy := by
    rw [← h3, hs2]
    rfl
  subst h5
  rcases hcases with ⟨hfalse, hout⟩ | ⟨htrue, -, htrig⟩
  · subst hout
    exact ⟨sampled.alpha_, sampled.beta_, policy, info, _, hpol, hinfo, hR2eq, rfl,
      by simp [hfalse]⟩
  · rw [trigger_retrain_some s2 _ _ _ _ _ hR2eq] at htrig
    obtain ⟨c1, c2⟩ := checked
    have hout : c1 = _ := (Except.ok.inj htrig).symm
    subst hout
    exact ⟨sampled.alpha_, sampled.beta_, policy, info, _, hpol, hinfo, assign_same _ _ _, rfl,
      by simp [htrue]⟩

/-- C5 amended, on `naive_chain_state`: message 0 is in flight, the application has the
record `naive_chain_record`, the handler completes, and the conclusion holds there. -/
theorem report_retrain_end_record_witness :
    InflightMessages.find naive_chain_state.inflight_messages_ 0 = some naive_chain_message ∧
    naive_chain_state.retrain_records_ naive_chain_message.app_name_ =
      some naive_chain_record ∧
    ∃ out,
      TriggerChecker.report_retrain_end naive_chain_state (demo_redis "NaiveBestEffortPolicy" 1 1)
        0 3000000 3000000 3000000 = Except.ok out ∧
      ∃ (alpha beta : Double) (policy : RetrainPolicy) (info : RetrainInfo)
        (Rout : RetrainRecord),
        TriggerChecker.get_app_policy naive_chain_state naive_chain_message.app_name_ =
          Except.ok policy ∧
        RetrainPolicy.on_retrain_finished policy
          { naive_chain_record with
            finished_ := true,
            batches_ :=
              naive_chain_record.batches_.filter
                (fun b => decide (¬ (naive_chain_record.data_from_ ≤ b.1 ∧
                  b.1 ≤ naive_chain_record.data_to_))),
            alpha_ := alpha, beta_ := beta } = Except.ok info ∧
        out.1.retrain_records_ naive_chain_message.app_name_ = some Rout ∧
        Rout.batches_ =
          naive_chain_record.batches_.filter
            (fun b => decide (¬ (naive_chain_record.data_from_ ≤ b.1 ∧
              b.1 ≤ naive_chain_record.data_to_))) ∧
        (Rout.finished_ = true ↔ info.1 = false) :=
  ⟨rfl, rfl, _, rfl,
    report_retrain_end_record naive_chain_state (demo_redis "NaiveBestEffortPolicy" 1 1) 0
      3000000 3000000 3000000 _ naive_chain_message naive_chain_record rfl rfl rfl⟩

theorem find_erase_length (m : InflightMessages) (k : Int) (msg : InflightRetrainMessage)
    (h : InflightMessages.find m k = some msg) :
    (InflightMessages.erase m k).length < m.length := by
  induction m with
  | nil => simp [InflightMessages.find] at h
  | cons p rest ih =>
    unfold InflightMessages.erase
    by_cases hp : p.1 = k
    · have hle : (rest.filter (fun q => decide (q.1 ≠ k))).length ≤ rest.length :=
        List.length_filter_le _ _
      simp only [List.filter_cons, hp, ne_eq, not_true_eq_false, decide_False, List.length_cons,
        Bool.false_eq_true, if_false]
      simp only [ne_eq] at hle
      omega
    · have hrest : InflightMessages.find rest k = some msg := by
        simpa [InflightMessages.find, hp] using h
      have := ih hrest
      unfold InflightMessages.erase at this
      simp only [List.filter_cons, ne_eq, hp, not_false_eq_true, decide_True, if_true,
        List.length_cons]
      simp only [ne_eq] at this
      omega

/-- The walk over the predecessors never uses up a fuel above the size of the map: it
ends normally or at a lookup of a missing id. -/
theorem erase_links_fuel (fuel : Nat) (m : InflightMessages) (next_msg : Int)
    (h : m.length < fuel) :
    TriggerChecker.erase_links fuel m next_msg ≠ Except.error Fault.fuel := by
  induction fuel generalizing m next_msg with
  | zero => omega
  | succ n ih =>
    unfold TriggerChecker.erase_links
    by_cases hn : next_msg ≥ 0
    · simp only [hn, if_true]
      cases hfind : InflightMessages.find m next_msg with
      | none => simp
      | some msg =>
        have hlt := find_erase_length m next_msg msg hfind
        exact ih _ _ (by omega)
    · simp [hn]

unseal Rat.mul Rat.add Rat.sub Rat.inv in
/-- C6, failing run: after `speculative_first_end` (message 0 sent, message 1 sent
speculatively with `msg_link_ = 0`, end of message 0 handled) the inflight map holds
message 1 alone, still linked to the erased message 0, and the record is finished;
handling `ReportRetrainEnd(1)` in that state looks up message 0 and dereferences a null
pointer. -/
theorem report_retrain_end_dangling_link :
    observe_inflight (TriggerChecker.run TriggerChecker.initial speculative_first_end) =
      some [(1, "app", 0)] ∧
    observe_fault
      (TriggerChecker.run TriggerChecker.initial
        (speculative_first_end ++ [speculative_second_end])) =
      some Fault.null_dereference := by
  constructor <;> decide

/-! ## Invariants along legal traces -/

theorem sum_sizes_pos_exists (p : BatchInfo → Bool) (batches : BatchesInfo)
    (h : 0 < sum_sizes_where p batches) : ∃ b ∈ batches, p b = true := by
  rw [sum_sizes_where_eq] at h
  cases hf : batches.filter p with
  | nil => simp [hf] at h
  | cons b rest =>
    have hb : b ∈ batches.filter p := by simp [hf]
    exact ⟨b, (List.mem_filter.mp hb).1, (List.mem_filter.mp hb).2⟩

/-- A window chosen by `ready_to_retrain` of a policy other than the cost-aware one. -/
theorem ready_window {policy : RetrainPolicy} {R : RetrainRecord} {info : RetrainInfo}
    (hp : policy ≠ RetrainPolicy.CostAware)
    (hfrom : R.data_from_ ≤ R.last_arrival_) (hto : R.data_to_ ≤ R.training_batch_.1)
    (hla : 0 < R.last_arrival_) (hto0 : 0 ≤ R.data_to_)
    (h : RetrainPolicy.ready_to_retrain policy R = Except.ok info) (ht : info.1 = true) :
    info.2.2 = R.last_arrival_ ∧ 0 < info.2.1 ∧ info.2.1 ≤ info.2.2 := by
  cases policy with
  | CostAware => exact absurd rfl hp
  | Manual =>
    simp only [RetrainPolicy.ready_to_retrain, ManualPolicy.ready_to_retrain] at h
    have := (Except.ok.inj h).symm
    subst this
    simp at ht
  | NaiveBestEffort =>
    simp only [RetrainPolicy.ready_to_retrain, NaiveBestEffortPolicy.ready_to_retrain] at h
    have hinfo := Except.ok.inj h
    split_ifs at hinfo with h1 h2
    · subst hinfo
      refine ⟨rfl, ?_, ?_⟩
      · show (0 : Int) < 1
        decide
      · show (1 : Int) ≤ R.last_arrival_
        omega
    · subst hinfo
      refine ⟨rfl, ?_, ?_⟩
      · show 0 < R.data_to_ + 1
        omega
      · show R.data_to_ + 1 ≤ R.last_arrival_
        have := h2.2
        omega
    · subst hinfo
      simp at ht
  | SpeculativeBestEffort =>
    simp only [RetrainPolicy.ready_to_retrain, SpeculativeBestEffortPolicy.ready_to_retrain] at h
    split_ifs at h with h1 h2
    · have hinfo := (Except.ok.inj h).symm
      subst hinfo
      exact ⟨rfl, hla, le_refl _⟩
    · have hinfo := (Except.ok.inj h).symm
      subst hinfo
      refine ⟨rfl, ?_, ?_⟩
      · show 0 < R.data_to_ + 1
        omega
      · show R.data_to_ + 1 ≤ R.last_arrival_
        have := h2.2
        omega
    · simp only [bind_eq_ok] at h
      obtain ⟨beta, -, alpha, -, h⟩ := h
      split_ifs at h with h3
      · have hinfo := (Except.ok.inj h).symm
        subst hinfo
        refine ⟨rfl, ?_, hfrom⟩
        show 0 < R.data_from_
        omega
      · have hinfo := (Except.ok.inj h).symm
        subst hinfo
        simp at ht

/-- A window chosen by `on_retrain_finished` of a policy other than the cost-aware one. -/
theorem finished_window {policy : RetrainPolicy} {R : RetrainRecord} {info : RetrainInfo}
    (hp : policy ≠ RetrainPolicy.CostAware)
    (hto : R.data_to_ ≤ R.training_batch_.1) (hto0 : 0 ≤ R.data_to_)
    (h : RetrainPolicy.on_retrain_finished policy R = Except.ok info) (ht : info.1 = true) :
    info.2.2 = R.last_arrival_ ∧ 0 < info.2.1 ∧ info.2.1 ≤ info.2.2 ∧ R.finished_ = true := by
  have key : ∀ i : RetrainInfo,
      (if R.finished_ = true ∧ R.last_arrival_ > R.training_batch_.1 then
        (true, R.data_to_ + 1, R.last_arrival_) else (false, 0, 0)) = i → i.1 = true →
      i.2.2 = R.last_arrival_ ∧ 0 < i.2.1 ∧ i.2.1 ≤ i.2.2 ∧ R.finished_ = true := by
    intro i hi hit
    split_ifs at hi with h1
    · subst hi
      refine ⟨rfl, ?_, ?_, h1.1⟩
      · show 0 < R.data_to_ + 1
        omega
      · show R.data_to_ + 1 ≤ R.last_arrival_
        have := h1.2
        omega
    · subst hi
      simp at hit
  cases policy with
  | CostAware => exact absurd rfl hp
  | Manual =>
    simp only [RetrainPolicy.on_retrain_finished, ManualPolicy.on_retrain_finished] at h
    have := (Except.ok.inj h).symm
    subst this
    simp at ht
  | NaiveBestEffort =>
    simp only [RetrainPolicy.on_retrain_finished,
      NaiveBestEffortPolicy.on_retrain_finished] at h
    exact key info (Except.ok.inj h) ht
  | SpeculativeBestEffort =>
    simp only [RetrainPolicy.on_retrain_finished,
      SpeculativeBestEffortPolicy.on_retrain_finished] at h
    exact key info (Except.ok.inj h) ht

/-- The policies other than the cost-aware one never ask for a timeout. -/
theorem calc_timeout_zero {policy : RetrainPolicy} (R : RetrainRecord)
    (hp : policy ≠ RetrainPolicy.CostAware) :
    RetrainPolicy.calc_timeout policy R = Except.ok 0 := by
  cases policy with
  | CostAware => exact absurd rfl hp
  | Manual => rfl
  | NaiveBestEffort => rfl
  | SpeculativeBestEffort => rfl

/-- A best-effort policy triggers on a record that was never trained. -/
theorem ready_never_trained {policy : RetrainPolicy} {R : RetrainRecord} {info : RetrainInfo}
    (hp : policy = RetrainPolicy.NaiveBestEffort ∨ policy = RetrainPolicy.SpeculativeBestEffort)
    (hfrom : R.data_from_ ≤ 0)
    (h : RetrainPolicy.ready_to_retrain policy R = Except.ok info) : info.1 = true := by
  rcases hp with hp | hp
  · subst hp
    simp only [RetrainPolicy.ready_to_retrain, NaiveBestEffortPolicy.ready_to_retrain, hfrom,
      if_true] at h
    rw [← Except.ok.inj h]
  · subst hp
    simp only [RetrainPolicy.ready_to_retrain, SpeculativeBestEffortPolicy.ready_to_retrain,
      hfrom, if_true] at h
    rw [← Except.ok.inj h]

theorem get_app_policy_inj {s : TriggerChecker} {a : String} {p q : RetrainPolicy}
    (hp : TriggerChecker.get_app_policy s a = Except.ok p)
    (hq : TriggerChecker.get_app_policy s a = Except.ok q) : p = q :=
  Except.ok.inj (hp.symm.trans hq)

theorem map_fst_eq_ok {α β : Type} {x : Except Fault (α × β)} {a : α}
    (h : x.map Prod.fst = Except.ok a) : ∃ out, x = Except.ok out ∧ out.1 = a := by
  cases x with
  | error f => simp [Except.map] at h
  | ok out =>
    simp only [Except.map] at h
    exact ⟨out, rfl, Except.ok.inj h⟩

theorem get_app_policy_congr {s s1 : TriggerChecker} (h : s1.app_policies_ = s.app_policies_)
    (a : String) : TriggerChecker.get_app_policy s1 a = TriggerChecker.get_app_policy s a := by
  unfold TriggerChecker.get_app_policy
  rw [h]

/-- A window chosen by `ready_to_retrain` of the cost-aware policy: it is chosen on a
finished record only, and it is `(data_to + 1, last_arrival)`. -/
theorem cost_aware_window {R : RetrainRecord} {info : RetrainInfo}
    (h : CostAwarePolicy.ready_to_retrain R = Except.ok info) (ht : info.1 = true) :
    info = (true, R.data_to_ + 1, R.last_arrival_) ∧ R.finished_ = true := by
  unfold CostAwarePolicy.ready_to_retrain at h
  by_cases hfin : R.finished_ = false
  · rw [if_pos hfin] at h
    rw [← Except.ok.inj h] at ht
    cases ht
  · rw [if_neg hfin] at h
    by_cases hlen : R.batches_.length ≤ 1
    · rw [if_pos hlen] at h
      rw [← Except.ok.inj h] at ht
      cases ht
    · rw [if_neg hlen] at h
      simp only [bind_eq_ok] at h
      obtain ⟨c, -, w, -, b, -, h⟩ := h
      split_ifs at h with h3
      · exact ⟨(Except.ok.inj h).symm, by simpa using hfin⟩
      · rw [← Except.ok.inj h] at ht
        cases ht

/-- A window chosen by `ready_to_retrain`: it ends at the last arrival, and under a
policy other than the cost-aware one it is positive and not empty. -/
theorem ready_window_any {policy : RetrainPolicy} {R : RetrainRecord} {info : RetrainInfo}
    (hla : 0 < R.last_arrival_)
    (hrec : policy ≠ RetrainPolicy.CostAware → RecordInv R)
    (h : RetrainPolicy.ready_to_retrain policy R = Except.ok info) (ht : info.1 = true) :
    info.2.2 = R.last_arrival_ ∧
    (policy ≠ RetrainPolicy.CostAware → 0 < info.2.1 ∧ info.2.1 ≤ info.2.2) := by
  by_cases hp : policy = RetrainPolicy.CostAware
  · subst hp
    obtain ⟨hi, -⟩ := cost_aware_window h ht
    subst hi
    exact ⟨rfl, fun hne => absurd rfl hne⟩
  · obtain ⟨-, r2, r3, r4⟩ := hrec hp
    obtain ⟨w1, w2, w3⟩ := ready_window hp r2 r3 hla r4 h ht
    exact ⟨w1, fun _ => ⟨w2, w3⟩⟩

/-- A window chosen by `on_retrain_finished`: it is chosen on a finished record, it ends
at the last arrival, and under a policy other than the cost-aware one it is positive and
not empty. -/
theorem finished_window_any {policy : RetrainPolicy} {R : RetrainRecord} {info : RetrainInfo}
    (hrec : policy ≠ RetrainPolicy.CostAware → RecordInv R)
    (h : RetrainPolicy.on_retrain_finished policy R = Except.ok info) (ht : info.1 = true) :
    info.2.2 = R.last_arrival_ ∧ R.finished_ = true ∧
    (policy ≠ RetrainPolicy.CostAware → 0 < info.2.1 ∧ info.2.1 ≤ info.2.2) := by
  by_cases hp : policy = RetrainPolicy.CostAware
  · subst hp
    obtain ⟨hi, hfin⟩ := cost_aware_window h ht
    subst hi
    exact ⟨rfl, hfin, fun hne => absurd rfl hne⟩
  · obtain ⟨-, -, r3, r4⟩ := hrec hp
    obtain ⟨w1, w2, w3, w4⟩ := finished_window hp r3 r4 h ht
    exact ⟨w1, w4, fun _ => ⟨w2, w3⟩⟩

theorem inv_of_weak {P : Prop} {s : TriggerChecker} {a : String}
    (h : WeakInv P s a)
    (ha : ∀ R policy, s.retrain_records_ a = some R →
      TriggerChecker.get_app_policy s a = Except.ok policy →
      policy ≠ RetrainPolicy.CostAware → AppPos policy R) :
    Inv P s := by
  refine ⟨h.1, fun app_name R hR => ?_⟩
  obtain ⟨policy, hp, h1, h2⟩ := h.2 app_name R hR
  refine ⟨policy, hp, h1, fun hne => ⟨(h2 hne).1, ?_⟩⟩
  by_cases hx : app_name = a
  · subst hx
    exact ha R policy hR hp hne
  · exact (h2 hne).2 hx

theorem weak_of_inv {P : Prop} {s : TriggerChecker} (a : String) (h : Inv P s) :
    WeakInv P s a := by
  refine ⟨h.1, fun app_name R hR => ?_⟩
  obtain ⟨policy, hp, h1, h2⟩ := h.2 app_name R hR
  exact ⟨policy, hp, h1, fun hne => ⟨(h2 hne).1, fun _ => (h2 hne).2⟩⟩

/-- The invariant with a stronger reading of `P` implies the one with a weaker reading. -/
theorem inv_mono {P Q : Prop} {s : TriggerChecker} (hQP : Q → P) (h : Inv P s) : Inv Q s := by
  refine ⟨h.1, fun app_name R hR => ?_⟩
  obtain ⟨policy, hp, ⟨a1, a2, a3⟩, h2⟩ := h.2 app_name R hR
  exact ⟨policy, hp, ⟨a1, a2, fun hq => a3 (hQP hq)⟩, h2⟩

/-- A dispatch with a well-formed window re-establishes the invariant. -/
theorem trigger_retrain_inv {P : Prop} {s s1 : TriggerChecker} {a : String}
    {req : RetrainRequest} {send_time cur_time : Int} {R : RetrainRecord}
    {policy : RetrainPolicy}
    (hinv : WeakInv P s a) (hrec : s.retrain_records_ a = some R)
    (hpol : TriggerChecker.get_app_policy s a = Except.ok policy)
    (hP : P → req.data_to_ ≤ R.last_arrival_)
    (hwin : policy ≠ RetrainPolicy.CostAware →
      req.data_from_ ≤ req.data_to_ ∧ req.data_from_ ≤ R.last_arrival_ ∧
      req.data_to_ ≤ cur_time ∧ 0 ≤ req.data_to_ ∧ AppPos policy
        { R with
            data_from_ := req.data_from_, data_to_ := req.data_to_,
            training_batch_ := (cur_time, req.data_size_), finished_ := false })
    (h : TriggerChecker.trigger_retrain s a req send_time cur_time = Except.ok s1) :
    Inv P s1 := by
  rw [trigger_retrain_some s a req send_time cur_time R hrec] at h
  have hs1 := (Except.ok.inj h).symm
  subst hs1
  obtain ⟨q, hq, hA, -⟩ := hinv.2 a R hrec
  refine ⟨?_, fun app_name R1 hR1 => ?_⟩
  · intro t ht
    obtain ⟨tp, R2, hR2⟩ := hinv.1 t ht
    refine ⟨tp, ?_⟩
    by_cases hta : t.app_name = a
    · exact ⟨_, by rw [hta]; exact assign_same _ _ _⟩
    · exact ⟨R2, (assign_other _ _ _ _ hta).trans hR2⟩
  · by_cases hne : app_name = a
    · subst hne
      have hR1' : some _ = some R1 := (assign_same _ _ _).symm.trans hR1
      have hR1eq := (Option.some.inj hR1').symm
      subst hR1eq
      refine ⟨policy, hpol, ⟨hA.1, hA.2.1, hP⟩, fun hca => ?_⟩
      obtain ⟨w1, w2, w3, w4, w5⟩ := hwin hca
      exact ⟨⟨w1, w2, w3, w4⟩, w5⟩
    · have hR1' : s.retrain_records_ app_name = some R1 :=
        (assign_other _ _ _ _ hne).symm.trans hR1
      obtain ⟨p1, hp1, q1, q2⟩ := hinv.2 app_name R1 hR1'
      exact ⟨p1, hp1, q1, fun hca => ⟨(q2 hca).1, (q2 hca).2 hne⟩⟩

/-- An evaluation of a policy function that chooses well-formed windows keeps the
invariant, whether it dispatches or not. -/
theorem check_trigger_by_func_inv {P : Prop} {s : TriggerChecker} {redis : Redis} {a : String}
    {func : RetrainRecord → Except Fault RetrainInfo} {send_time cur_time : Int}
    {out : TriggerChecker × Bool} {R : RetrainRecord} {policy : RetrainPolicy}
    (hinv : WeakInv P s a) (hrec : s.retrain_records_ a = some R)
    (hpol : TriggerChecker.get_app_policy s a = Except.ok policy)
    (hla : R.last_arrival_ ≤ cur_time)
    (hwin : ∀ info, func R = Except.ok info → info.1 = true →
      info.2.2 = R.last_arrival_ ∧
      (policy ≠ RetrainPolicy.CostAware → 0 < info.2.1 ∧ info.2.1 ≤ info.2.2))
    (hpos : out.2 = false → policy ≠ RetrainPolicy.CostAware → AppPos policy R)
    (h : TriggerChecker.check_trigger_by_func s redis a func send_time cur_time =
      Except.ok out) :
    Inv P out.1 := by
  obtain ⟨R1, info, hR1, hinfo, hcases⟩ := check_trigger_by_func_ok h
  rw [hrec] at hR1
  have hR1eq := Option.some.inj hR1
  subst hR1eq
  obtain ⟨q, hq, hA, -⟩ := hinv.2 a R hrec
  rcases hcases with ⟨-, hout⟩ | ⟨htrue, -, htrig⟩
  · subst hout
    refine inv_of_weak hinv (fun R2 p2 hR2 hp2 hne => ?_)
    rw [hrec] at hR2
    have hpp : policy = p2 := get_app_policy_inj hpol hp2
    subst hpp
    rw [← Option.some.inj hR2]
    exact hpos rfl hne
  · obtain ⟨w1, w2⟩ := hwin info hinfo htrue
    refine trigger_retrain_inv hinv hrec hpol ?_ ?_ htrig
    · intro _
      show info.2.2 ≤ R.last_arrival_
      omega
    · intro hca
      obtain ⟨w3, w4⟩ := w2 hca
      refine ⟨w4, ?_, ?_, ?_, fun _ => ⟨w3, ?_⟩⟩
      · show info.2.1 ≤ R.last_arrival_
        omega
      · show info.2.2 ≤ cur_time
        omega
      · show 0 ≤ info.2.2
        have := hA.1
        omega
      · show 0 < info.2.2
        have := hA.1
        omega

/-- Arming a timeout keeps the invariant when the application has a record and is under
the cost-aware policy. -/
theorem set_timeout_inv {P : Prop} {s : TriggerChecker} {a : String}
    {last_arrival timeout : Int} (hinv : Inv P s)
    (h : timeout > 0 →
      TriggerChecker.get_app_policy s a = Except.ok RetrainPolicy.CostAware ∧
      ∃ R, s.retrain_records_ a = some R) :
    Inv P (TriggerChecker.set_timeout s a last_arrival timeout) := by
  unfold TriggerChecker.set_timeout
  split_ifs with ht
  · refine ⟨?_, hinv.2⟩
    intro t htm
    rcases List.mem_append.mp htm with h1 | h1
    · exact hinv.1 t h1
    · have hteq : t = { app_name := a, last_arrival := last_arrival, timeout := timeout } := by
        simpa using h1
      subst hteq
      exact h ht
  · exact hinv

/-- The method `check_trigger` keeps the invariant: it dispatches a well-formed window,
or arms a timeout for an application under the cost-aware policy, or changes nothing. -/
theorem check_trigger_inv {P : Prop} {s s1 : TriggerChecker} {redis : Redis} {a : String}
    {arrival_time send_time cur_time : Int} {R : RetrainRecord}
    (hinv : WeakInv P s a) (hrec : s.retrain_records_ a = some R)
    (hla : R.last_arrival_ ≤ cur_time)
    (hpos : (∀ policy, TriggerChecker.get_app_policy s a = Except.ok policy →
        policy ≠ RetrainPolicy.CostAware → AppPos policy R) ∨ R.data_from_ ≤ 0)
    (h : TriggerChecker.check_trigger s redis a arrival_time send_time cur_time =
      Except.ok s1) :
    Inv P s1 := by
  unfold TriggerChecker.check_trigger at h
  simp only [bind_eq_ok] at h
  obtain ⟨policy, hpolicy, checked, hchecked, h⟩ := h
  obtain ⟨q, hq, hA, hrest⟩ := hinv.2 a R hrec
  have hqp : q = policy := get_app_policy_inj hq hpolicy
  subst hqp
  have hwin : ∀ info, RetrainPolicy.ready_to_retrain q R = Except.ok info → info.1 = true →
      info.2.2 = R.last_arrival_ ∧
      (q ≠ RetrainPolicy.CostAware → 0 < info.2.1 ∧ info.2.1 ≤ info.2.2) :=
    fun info hi ht => ready_window_any hA.1 (fun hne => (hrest hne).1) hi ht
  have hpos2 : checked.2 = false → q ≠ RetrainPolicy.CostAware → AppPos q R := by
    intro hfalse hne
    rcases hpos with hpos | hpos
    · exact hpos q hpolicy hne
    · intro hbe
      obtain ⟨R1, info, hR1, hinfo, hcases⟩ := check_trigger_by_func_ok hchecked
      rw [hrec] at hR1
      have hR1eq := Option.some.inj hR1
      subst hR1eq
      have htrue := ready_never_trained hbe hpos hinfo
      rcases hcases with ⟨hf, -⟩ | ⟨-, ht, -⟩
      · rw [htrue] at hf
        cases hf
      · rw [hfalse] at ht
        cases ht
  have hinv1 : Inv P checked.1 :=
    check_trigger_by_func_inv hinv hrec hpolicy hla hwin hpos2 hchecked
  by_cases hc : checked.2 = false
  · simp only [hc, if_true] at h
    have hsame : checked.1 = s := by
      obtain ⟨R1, info, -, -, hcases⟩ := check_trigger_by_func_ok hchecked
      rcases hcases with ⟨-, hout⟩ | ⟨-, ht, -⟩
      · rw [hout]
      · rw [hc] at ht
        cases ht
    cases hrec1 : checked.1.retrain_records_ a with
    | none => simp [hrec1] at h
    | some R1 =>
      simp only [hrec1, bind_eq_ok] at h
      obtain ⟨t, ht, h⟩ := h
      have hs1 := (Except.ok.inj h).symm
      subst hs1
      refine set_timeout_inv hinv1 (fun hpos_t => ?_)
      rw [hsame]
      refine ⟨?_, R, hrec⟩
      by_cases hca : q = RetrainPolicy.CostAware
      · rw [← hca]
        exact hpolicy
      · rw [calc_timeout_zero R1 hca] at ht
        rw [← Except.ok.inj ht] at hpos_t
        exact absurd hpos_t (by decide)
  · simp only [hc, if_false] at h
    have hs1 := (Except.ok.inj h).symm
    subst hs1
    exact hinv1

/-- The invariant reads the pending timeouts, the records and the policy map only. -/
theorem inv_congr {P : Prop} {s s1 : TriggerChecker}
    (h1 : s1.pending_timeouts_ = s.pending_timeouts_)
    (h2 : s1.retrain_records_ = s.retrain_records_)
    (h3 : s1.app_policies_ = s.app_policies_) (h : Inv P s) : Inv P s1 := by
  refine ⟨fun t ht => ?_, fun app_name R hR => ?_⟩
  · rw [h1] at ht
    rw [get_app_policy_congr h3, h2]
    exact h.1 t ht
  · rw [h2] at hR
    rw [get_app_policy_congr h3]
    exact h.2 app_name R hR

/-- With its end at the start of the vector `calc_cost` has no result. -/
theorem calc_cost_end_zero (batches : BatchesInfo) (b : Nat) (n : Int)
    (alpha beta weight : Double) (c : ℚ) :
    CostAwarePolicy.calc_cost batches b 0 n alpha beta weight ≠ Except.ok c := by
  rcases alpha with _ | a
  · simp [CostAwarePolicy.calc_cost, finite, bind, Except.bind]
  rcases beta with _ | t
  · simp [CostAwarePolicy.calc_cost, finite, bind, Except.bind]
  · simp [CostAwarePolicy.calc_cost, finite, bind, Except.bind]

/-- On a finished record with a single batch `calc_cost_info` has no result: the split
point is the first batch, and the cost of the empty range before it reads before the
start of the vector. -/
theorem calc_cost_info_one_batch (R : RetrainRecord) (b : BatchInfo)
    (hfin : R.finished_ = true) (hb : R.batches_ = [b]) (c : CostInfo) :
    CostAwarePolicy.calc_cost_info R ≠ Except.ok c := by
  intro h
  unfold CostAwarePolicy.calc_cost_info at h
  simp only [hfin, hb, Bool.true_eq_false, if_false, List.drop, sum_sizes_where, List.foldl,
    if_true, CostAwarePolicy.split_loop, zero_add, sub_self, mul_zero, gt_iff_lt, lt_self_iff_false,
    bind_eq_ok] at h
  obtain ⟨-, -, c1, hc1, -⟩ := h
  exact calc_cost_end_zero _ _ _ _ _ _ _ hc1

/-- Hence `check_trigger` does not complete on a cost-aware application whose record is
finished and holds a single batch, the state right after its first data arrival. -/
theorem check_trigger_cost_aware_one_batch (s : TriggerChecker) (redis : Redis) (a : String)
    (arrival_time send_time cur_time : Int) (R : RetrainRecord) (b : BatchInfo)
    (hrec : s.retrain_records_ a = some R) (hfin : R.finished_ = true)
    (hb : R.batches_ = [b])
    (hpol : TriggerChecker.get_app_policy s a = Except.ok RetrainPolicy.CostAware)
    (s1 : TriggerChecker) :
    TriggerChecker.check_trigger s redis a arrival_time send_time cur_time ≠ Except.ok s1 := by
  intro h
  unfold TriggerChecker.check_trigger at h
  simp only [bind_eq_ok] at h
  obtain ⟨policy, hpolicy, checked, hchecked, h⟩ := h
  have hp : RetrainPolicy.CostAware = policy := get_app_policy_inj hpol hpolicy
  subst hp
  obtain ⟨R1, info, hR1, hinfo, hcases⟩ := check_trigger_by_func_ok hchecked
  rw [hrec] at hR1
  have hR1eq := Option.some.inj hR1
  subst hR1eq
  have hready : RetrainPolicy.ready_to_retrain RetrainPolicy.CostAware R =
      Except.ok (false, 0, 0) := by
    simp [RetrainPolicy.ready_to_retrain, CostAwarePolicy.ready_to_retrain, hfin, hb]
  rw [hready] at hinfo
  have hi := Except.ok.inj hinfo
  subst hi
  rcases hcases with ⟨-, hout⟩ | ⟨htrue, -, -⟩
  · subst hout
    simp only [if_true, hrec, bind_eq_ok] at h
    obtain ⟨t, ht, -⟩ := h
    simp only [RetrainPolicy.calc_timeout, CostAwarePolicy.calc_timeout, bind_eq_ok] at ht
    obtain ⟨c, hc, -⟩ := ht
    exact calc_cost_info_one_batch R b hfin hb c hc
  · cases htrue

theorem set_app_policy_frame (s : TriggerChecker) (a policy_name : String) :
    (TriggerChecker.set_app_policy s a policy_name).retrain_records_ = s.retrain_records_ ∧
    (TriggerChecker.set_app_policy s a policy_name).pending_timeouts_ = s.pending_timeouts_ ∧
    (TriggerChecker.set_app_policy s a policy_name).inflight_messages_ =
      s.inflight_messages_ ∧
    (TriggerChecker.set_app_policy s a policy_name).rpc_ = s.rpc_ := by
  unfold TriggerChecker.set_app_policy
  cases TriggerChecker.retrain_policies_ policy_name <;> exact ⟨rfl, rfl, rfl, rfl⟩

theorem set_app_policy_other (s : TriggerChecker) (a policy_name b : String) (h : b ≠ a) :
    TriggerChecker.get_app_policy (TriggerChecker.set_app_policy s a policy_name) b =
      TriggerChecker.get_app_policy s b := by
  unfold TriggerChecker.set_app_policy
  cases TriggerChecker.retrain_policies_ policy_name <;>
    simp [TriggerChecker.get_app_policy, assign, h]

/-- After `set_app_policy` the application has one of the four registered policies. -/
theorem set_app_policy_same (s : TriggerChecker) (a policy_name : String) :
    ∃ policy,
      TriggerChecker.get_app_policy (TriggerChecker.set_app_policy s a policy_name) a =
        Except.ok policy := by
  unfold TriggerChecker.set_app_policy
  cases hp : TriggerChecker.retrain_policies_ policy_name with
  | none =>
    refine ⟨RetrainPolicy.NaiveBestEffort, ?_⟩
    simp only [TriggerChecker.get_app_policy, assign_same]
    rfl
  | some policy =>
    refine ⟨policy, ?_⟩
    simp only [TriggerChecker.get_app_policy, assign_same, hp]

/-- Appending an arrival to an existing record and checking the trigger keeps the
invariant. -/
theorem append_inv {P : Prop} {s s1 s2 : TriggerChecker} {redis : Redis} {a : String}
    {arrival_time data_size send_time cur_time : Int} {R : RetrainRecord}
    (h : TriggerChecker.check_trigger s1 redis a arrival_time send_time cur_time =
      Except.ok s2)
    (hinv : Inv P s) (hrec : s.retrain_records_ a = some R)
    (hrec1 : s1.retrain_records_ = assign s.retrain_records_ a
      { R with
        batches_ := R.batches_ ++ [(arrival_time, data_size)],
        last_arrival_ := arrival_time })
    (hpend : s1.pending_timeouts_ = s.pending_timeouts_)
    (hpol : s1.app_policies_ = s.app_policies_)
    (hts : 0 < arrival_time) (hdt : arrival_time ≤ cur_time)
    (hla : R.last_arrival_ ≤ arrival_time) :
    Inv P s2 := by
  obtain ⟨p, hp, ⟨a1, a2, a3⟩, hrest⟩ := hinv.2 a R hrec
  have hrec1a : s1.retrain_records_ a = some
      { R with
        batches_ := R.batches_ ++ [(arrival_time, data_size)],
        last_arrival_ := arrival_time } := by
    rw [hrec1]
    exact assign_same _ _ _
  have hp1 : TriggerChecker.get_app_policy s1 a = Except.ok p := by
    rw [get_app_policy_congr hpol]
    exact hp
  have hpos1 : ∀ policy, TriggerChecker.get_app_policy s1 a = Except.ok policy →
      policy ≠ RetrainPolicy.CostAware → AppPos policy
        { R with
          batches_ := R.batches_ ++ [(arrival_time, data_size)],
          last_arrival_ := arrival_time } := by
    intro p2 hp2 hne
    have hpp : p = p2 := get_app_policy_inj hp1 hp2
    subst hpp
    exact (hrest hne).2
  refine check_trigger_inv ?_ hrec1a hdt (Or.inl hpos1) h
  refine ⟨fun t ht => ?_, fun app_name R1 hR1 => ?_⟩
  · rw [hpend] at ht
    obtain ⟨tp, R2, hR2⟩ := hinv.1 t ht
    refine ⟨by rw [get_app_policy_congr hpol]; exact tp, ?_⟩
    rw [hrec1]
    by_cases hta : t.app_name = a
    · exact ⟨_, by rw [hta]; exact assign_same _ _ _⟩
    · exact ⟨R2, (assign_other _ _ _ _ hta).trans hR2⟩
  · rw [hrec1] at hR1
    by_cases hne : app_name = a
    · rw [hne] at hR1 ⊢
      have hR1' : some _ = some R1 := (assign_same _ _ _).symm.trans hR1
      have hR1eq := Option.some.inj hR1'
      subst hR1eq
      refine ⟨p, hp1, ⟨hts, ?_, fun hP => le_trans (a3 hP) hla⟩, fun hca => ?_⟩
      · intro b hb
        rcases List.mem_append.mp hb with hb1 | hb1
        · exact le_trans (a2 b hb1) hla
        · have hbeq : b = (arrival_time, data_size) := by simpa using hb1
          rw [hbeq]
      · obtain ⟨⟨r1, r2, r3, r4⟩, -⟩ := hrest hca
        exact ⟨⟨r1, le_trans r2 hla, r3, r4⟩, fun hn => absurd rfl hn⟩
    · have hR1' : s.retrain_records_ app_name = some R1 :=
        (assign_other _ _ _ _ hne).symm.trans hR1
      obtain ⟨p1, hpp1, q1, q2⟩ := hinv.2 app_name R1 hR1'
      exact ⟨p1, by rw [get_app_policy_congr hpol]; exact hpp1, q1,
        fun hca => ⟨(q2 hca).1, fun _ => (q2 hca).2⟩⟩

/-- Creating the record of an application at its first arrival and checking the
trigger keeps the invariant. -/
theorem creation_inv {P : Prop} {s s2 s3 : TriggerChecker} {redis : Redis} {a : String}
    {arrival_time data_size send_time cur_time : Int} {R0 : RetrainRecord}
    (h : TriggerChecker.check_trigger s2 redis a arrival_time send_time cur_time =
      Except.ok s3)
    (hinv : Inv P s) (hnone : s.retrain_records_ a = none)
    (hrec2 : s2.retrain_records_ = assign s.retrain_records_ a R0)
    (hfrom : R0.data_from_ = 0) (hto : R0.data_to_ = 0) (htb : R0.training_batch_ = (0, 0))
    (hla : R0.last_arrival_ = arrival_time)
    (hbatches : R0.batches_ = [(arrival_time, data_size)])
    (hpend : s2.pending_timeouts_ = s.pending_timeouts_)
    (hother : ∀ b, b ≠ a →
      TriggerChecker.get_app_policy s2 b = TriggerChecker.get_app_policy s b)
    (hsame : ∃ policy, TriggerChecker.get_app_policy s2 a = Except.ok policy)
    (hts : 0 < arrival_time) (hdt : arrival_time ≤ cur_time) :
    Inv P s3 := by
  obtain ⟨policy, hpolicy⟩ := hsame
  have hrec2a : s2.retrain_records_ a = some R0 := by
    rw [hrec2]
    exact assign_same _ _ _
  refine check_trigger_inv ?_ hrec2a (by rw [hla]; exact hdt) (Or.inr (by rw [hfrom])) h
  refine ⟨fun t ht => ?_, fun app_name R1 hR1 => ?_⟩
  · rw [hpend] at ht
    obtain ⟨tp, R2, hR2⟩ := hinv.1 t ht
    have hta : t.app_name ≠ a := by
      intro hta
      rw [hta, hnone] at hR2
      cases hR2
    refine ⟨by rw [hother _ hta]; exact tp, R2, ?_⟩
    rw [hrec2]
    exact (assign_other _ _ _ _ hta).trans hR2
  · rw [hrec2] at hR1
    by_cases hne : app_name = a
    · rw [hne] at hR1 ⊢
      have hR1' : some _ = some R1 := (assign_same _ _ _).symm.trans hR1
      have hR1eq := Option.some.inj hR1'
      subst hR1eq
      refine ⟨policy, hpolicy, ⟨?_, ?_, ?_⟩, fun _ => ⟨⟨?_, ?_, ?_, ?_⟩, fun hn => absurd rfl hn⟩⟩
      · rw [hla]
        exact hts
      · intro b hb
        rw [hbatches] at hb
        have hbeq : b = (arrival_time, data_size) := by simpa using hb
        rw [hbeq, hla]
      · intro _
        rw [hto, hla]
        exact le_of_lt hts
      · rw [hfrom, hto]
      · rw [hfrom, hla]
        exact le_of_lt hts
      · rw [hto, htb]
      · rw [hto]
    · have hR1' : s.retrain_records_ app_name = some R1 :=
        (assign_other _ _ _ _ hne).symm.trans hR1
      obtain ⟨p1, hpp1, q1, q2⟩ := hinv.2 app_name R1 hR1'
      exact ⟨p1, by rw [hother _ hne]; exact hpp1, q1,
        fun hca => ⟨(q2 hca).1, fun _ => (q2 hca).2⟩⟩

/-- `ReportDataArrival` keeps the invariant. -/
theorem report_data_arrival_inv {P : Prop} {s : TriggerChecker} {redis : Redis} {a : String}
    {arrival_time data_size send_time cur_time : Int} {out : TriggerChecker × Bool}
    (hinv : Inv P s) (hts : 0 < arrival_time) (hdt : arrival_time ≤ cur_time)
    (hmono : ∀ R, s.retrain_records_ a = some R → R.last_arrival_ ≤ arrival_time)
    (h : TriggerChecker.report_data_arrival s redis a arrival_time data_size send_time
      cur_time = Except.ok out) :
    Inv P out.1 := by
  unfold TriggerChecker.report_data_arrival at h
  cases hrec : s.retrain_records_ a with
  | some R =>
    simp only [hrec, bind_eq_ok] at h
    obtain ⟨s2, hs2, h⟩ := h
    have hout := (Except.ok.inj h).symm
    subst hout
    exact append_inv hs2 hinv hrec rfl rfl rfl hts hdt (hmono R hrec)
  | none =>
    simp only [hrec] at h
    by_cases hlink : redis.get_backend_link a = ""
    · simp only [hlink, if_true] at h
      rw [← Except.ok.inj h]
      exact hinv
    · simp only [hlink, if_false] at h
      cases hbackend : redis.get_backend (redis.get_backend_link a) with
      | none => simp [hbackend] at h
      | some backend =>
        simp only [hbackend, bind_eq_ok] at h
        obtain ⟨s3, hs3, h⟩ := h
        have hout := (Except.ok.inj h).symm
        subst hout
        exact creation_inv hs3 hinv hrec (set_app_policy_frame _ a backend.policy).1 rfl rfl
          rfl rfl rfl (set_app_policy_frame _ a backend.policy).2.1
          (fun b hb => set_app_policy_other _ a backend.policy b hb)
          (set_app_policy_same _ a backend.policy) hts hdt

/-- `ManualTrigger` keeps the invariant (it is not counted as manual-free). -/
theorem manual_trigger_retrain_inv {P : Prop} {s : TriggerChecker} {redis : Redis}
    {a : String} {cur_time send_time dispatch_time : Int} {out : TriggerChecker × Int}
    (hinv : Inv P s) (hP : ¬ P) (hclock : cur_time ≤ dispatch_time)
    (hla : ∀ R, s.retrain_records_ a = some R → R.last_arrival_ ≤ cur_time)
    (h : TriggerChecker.manual_trigger_retrain s redis a cur_time send_time dispatch_time =
      Except.ok out) :
    Inv P out.1 := by
  unfold TriggerChecker.manual_trigger_retrain at h
  cases hrec : s.retrain_records_ a with
  | none =>
    simp only [hrec] at h
    rw [← Except.ok.inj h]
    exact hinv
  | some R =>
    simp only [hrec] at h
    by_cases hsize : sum_sizes_where (fun p => decide (p.1 ≥ R.data_to_)) R.batches_ > 0
    · simp only [hsize, if_true, bind_eq_ok] at h
      obtain ⟨s1, hs1, h⟩ := h
      have hout := (Except.ok.inj h).symm
      subst hout
      obtain ⟨p, hp, ⟨a1, a2, a3⟩, hrest⟩ := hinv.2 a R hrec
      obtain ⟨b, hb, hbge⟩ := sum_sizes_pos_exists _ _ hsize
      have hbge2 : R.data_to_ ≤ b.1 := by simpa using hbge
      have hble := a2 b hb
      have hnow := hla R hrec
      refine trigger_retrain_inv (weak_of_inv a hinv) hrec hp ?_ ?_ hs1
      · intro hp2
        exact absurd hp2 hP
      · intro hca
        obtain ⟨⟨r1, r2, r3, r4⟩, hpos⟩ := hrest hca
        refine ⟨?_, ?_, hclock, ?_, fun hbe => ⟨(hpos hbe).2, ?_⟩⟩
        · show R.data_to_ ≤ cur_time
          omega
        · show R.data_to_ ≤ R.last_arrival_
          omega
        · show 0 ≤ cur_time
          omega
        · show 0 < cur_time
          omega
    · simp only [hsize, if_false] at h
      rw [← Except.ok.inj h]
      exact hinv

theorem update_retrain_records_none {s : TriggerChecker} {a : String} {cur_time : Int}
    (hrec : s.retrain_records_ a = none) :
    TriggerChecker.update_retrain_records s a cur_time = Except.ok s := by
  unfold TriggerChecker.update_retrain_records
  simp only [hrec]

/-- `ReportRetrainEnd` keeps the invariant. -/
theorem report_retrain_end_inv {P : Prop} {s : TriggerChecker} {redis : Redis} {msg_id : Int}
    {cur_time send_time dispatch_time : Int} {out : TriggerChecker × Option Bool}
    (hinv : Inv P s) (hclock : cur_time ≤ dispatch_time)
    (hla : ∀ a R, s.retrain_records_ a = some R → R.last_arrival_ ≤ cur_time)
    (h : TriggerChecker.report_retrain_end s redis msg_id cur_time send_time dispatch_time =
      Except.ok out) :
    Inv P out.1 := by
  cases hfind : InflightMessages.find s.inflight_messages_ msg_id with
  | none =>
    unfold TriggerChecker.report_retrain_end at h
    simp only [hfind] at h
    rw [← Except.ok.inj h]
    exact hinv
  | some msg =>
    obtain ⟨erased, s2, policy, checked, -, h2, h3, h4, h5⟩ := report_retrain_end_ok hfind h
    subst h5
    cases hrec : s.retrain_records_ msg.app_name_ with
    | none =>
      exfalso
      rw [update_retrain_records_none (s := { s with inflight_messages_ := erased }) hrec] at h2
      have hs2 := Except.ok.inj h2
      subst hs2
      obtain ⟨R1, -, hR1, -⟩ := check_trigger_by_func_ok h4
      have : s.retrain_records_ msg.app_name_ = some R1 := hR1
      rw [hrec] at this
      cases this
    | some R =>
      obtain ⟨profiler, sampled, -, -, hs2⟩ :=
        update_retrain_records_ok (s := { s with inflight_messages_ := erased }) hrec h2
      obtain ⟨p, hp, ⟨a1, a2, a3⟩, hrest⟩ := hinv.2 _ R hrec
      have hpol2 : ∀ b, TriggerChecker.get_app_policy s2 b = TriggerChecker.get_app_policy s b := by
        intro b
        rw [hs2]
        rfl
      have hpp : p = policy := get_app_policy_inj (by rw [hpol2]; exact hp) h3
      subst hpp
      have hrec2 : s2.retrain_records_ msg.app_name_ = some
          { R with
            finished_ := true,
            batches_ := R.batches_.filter
              (fun b => !(decide (b.1 ≥ R.data_from_) && decide (b.1 ≤ R.data_to_))),
            alpha_ := sampled.alpha_, beta_ := sampled.beta_ } := by
        rw [hs2]
        exact assign_same _ _ _
      have hinv2 : Inv P s2 := by
        refine ⟨fun t ht => ?_, fun app_name R1 hR1 => ?_⟩
        · have ht2 : t ∈ s.pending_timeouts_ := by
            rw [hs2] at ht
            exact ht
          obtain ⟨tp, R2, hR2⟩ := hinv.1 t ht2
          refine ⟨by rw [hpol2]; exact tp, ?_⟩
          by_cases hta : t.app_name = msg.app_name_
          · exact ⟨_, by rw [hta]; exact hrec2⟩
          · refine ⟨R2, ?_⟩
            rw [hs2]
            exact (assign_other _ _ _ _ hta).trans hR2
        · by_cases hne : app_name = msg.app_name_
          · rw [hne] at hR1 ⊢
            rw [hrec2] at hR1
            have hR1eq := Option.some.inj hR1
            subst hR1eq
            exact ⟨p, by rw [hpol2]; exact hp,
              ⟨a1, fun b hb => a2 b (List.mem_filter.mp hb).1, a3⟩, hrest⟩
          · have hR1' : s.retrain_records_ app_name = some R1 := by
              rw [hs2] at hR1
              exact (assign_other _ _ _ _ hne).symm.trans hR1
            obtain ⟨p1, hp1, q1, q2⟩ := hinv.2 app_name R1 hR1'
            exact ⟨p1, by rw [hpol2]; exact hp1, q1, q2⟩
      refine check_trigger_by_func_inv (weak_of_inv _ hinv2) hrec2 h3 ?_ ?_ ?_ h4
      · show R.last_arrival_ ≤ dispatch_time
        have := hla _ R hrec
        omega
      · intro info hi ht
        obtain ⟨w1, -, w3⟩ := finished_window_any (R := { R with
            finished_ := true,
            batches_ := R.batches_.filter
              (fun b => !(decide (b.1 ≥ R.data_from_) && decide (b.1 ≤ R.data_to_))),
            alpha_ := sampled.alpha_, beta_ := sampled.beta_ })
          (fun hne => (hrest hne).1) hi ht
        exact ⟨w1, w3⟩
      · intro _ hne
        exact (hrest hne).2

/-- A timeout that fires keeps the invariant: it removes itself from the pending ones,
and it dispatches only for an application under the cost-aware policy, with a window
that ends at the last arrival of the record. -/
theorem fire_timeout_inv {P : Prop} {s s1 : TriggerChecker} {redis : Redis} {index : Nat}
    {send_time cur_time : Int} (hinv : Inv P s)
    (h : TriggerChecker.fire_timeout s redis index send_time cur_time = Except.ok s1) :
    Inv P s1 := by
  unfold TriggerChecker.fire_timeout at h
  cases ht : s.pending_timeouts_[index]? with
  | none =>
    simp only [ht] at h
    rw [← Except.ok.inj h]
    exact hinv
  | some t =>
    simp only [ht] at h
    have hmem : t ∈ s.pending_timeouts_ := List.getElem?_mem ht
    obtain ⟨tp, R, hR⟩ := hinv.1 t hmem
    have hinv1 : Inv P { s with pending_timeouts_ := s.pending_timeouts_.eraseIdx index } :=
      ⟨fun t2 ht2 => hinv.1 t2 (List.mem_of_mem_eraseIdx ht2), hinv.2⟩
    unfold TriggerChecker.after_timeout at h
    simp only [TriggerChecker.timeout_closure, hR] at h
    by_cases hc : R.last_arrival_ = t.last_arrival ∧ R.finished_ = true
    · simp only [hc, and_self, if_true] at h
      refine trigger_retrain_inv (weak_of_inv _ hinv1) hR tp ?_ ?_ h
      · intro _
        show t.last_arrival ≤ R.last_arrival_
        rw [hc.1]
      · intro hca
        exact absurd rfl hca
    · simp only [hc, if_false] at h
      rw [← Except.ok.inj h]
      exact hinv1

/-- Every handler keeps the invariant on a legal step; `P` survives only steps that are
not manual triggers. -/
theorem handle_inv {P : Prop} {s s1 : TriggerChecker} {env : Env} {e : Event}
    (hinv : Inv P s) (hlegal : LegalStep s env e)
    (hman : P → ∀ a, e ≠ Event.ManualTrigger a)
    (h : TriggerChecker.handle s env e = Except.ok s1) : Inv P s1 := by
  obtain ⟨hclock, hnow, harr⟩ := hlegal
  cases e with
  | ReportDataArrival a arrival_time data_size =>
    obtain ⟨hts, hle, hmono⟩ := harr a arrival_time data_size rfl
    obtain ⟨out, hout, hs1⟩ := map_fst_eq_ok h
    rw [← hs1]
    exact report_data_arrival_inv hinv hts (le_trans hle hclock) hmono hout
  | ManualTrigger a =>
    obtain ⟨out, hout, hs1⟩ := map_fst_eq_ok h
    rw [← hs1]
    exact manual_trigger_retrain_inv hinv (fun hP => hman hP a rfl) hclock
      (fun R hR => hnow a R hR) hout
  | ReportRetrainBegin msg_id =>
    simp only [TriggerChecker.handle] at h
    rw [← Except.ok.inj h]
    unfold TriggerChecker.report_retrain_begin
    cases InflightMessages.find s.inflight_messages_ msg_id with
    | none => exact hinv
    | some m => exact inv_congr rfl rfl rfl hinv
  | ReportRetrainEnd msg_id =>
    obtain ⟨out, hout, hs1⟩ := map_fst_eq_ok h
    rw [← hs1]
    exact report_retrain_end_inv hinv hclock hnow hout
  | TimeoutFired index =>
    exact fire_timeout_inv hinv h
  | BackendLinkSet key =>
    simp only [TriggerChecker.handle, TriggerChecker.backend_link_set] at h
    cases hb : env.redis.get_backend (env.redis.get_backend_link key) with
    | none => simp [hb] at h
    | some backend =>
      simp only [hb] at h
      rw [← Except.ok.inj h]
      exact inv_congr rfl rfl rfl hinv


/-! ## Last arrivals along a trace -/

theorem arrival_frame_of_eq {s s1 : TriggerChecker}
    (h : s1.retrain_records_ = s.retrain_records_) : ArrivalFrame s s1 :=
  fun _ R1 hR1 => ⟨R1, by rw [← h]; exact hR1, rfl⟩

theorem arrival_frame_trans {s s1 s2 : TriggerChecker} (h1 : ArrivalFrame s s1)
    (h2 : ArrivalFrame s1 s2) : ArrivalFrame s s2 := by
  intro a R2 hR2
  obtain ⟨R1, hR1, e1⟩ := h2 a R2 hR2
  obtain ⟨R, hR, e⟩ := h1 a R1 hR1
  exact ⟨R, hR, e1.trans e⟩

theorem trigger_retrain_frame {s s1 : TriggerChecker} {a : String} {req : RetrainRequest}
    {send_time cur_time : Int}
    (h : TriggerChecker.trigger_retrain s a req send_time cur_time = Except.ok s1) :
    ArrivalFrame s s1 := by
  cases hrec : s.retrain_records_ a with
  | none =>
    rw [trigger_retrain_none s a req send_time cur_time hrec] at h
    cases h
  | some R =>
    rw [trigger_retrain_some s a req send_time cur_time R hrec] at h
    have hs1 := (Except.ok.inj h).symm
    subst hs1
    intro b R1 hR1
    by_cases hb : b = a
    · rw [hb] at hR1 ⊢
      have hR1' : some _ = some R1 := (assign_same _ _ _).symm.trans hR1
      rw [← Option.some.inj hR1']
      exact ⟨R, hrec, rfl⟩
    · exact ⟨R1, (assign_other _ _ _ _ hb).symm.trans hR1, rfl⟩

theorem check_trigger_by_func_frame {s : TriggerChecker} {redis : Redis} {a : String}
    {func : RetrainRecord → Except Fault RetrainInfo} {send_time cur_time : Int}
    {out : TriggerChecker × Bool}
    (h : TriggerChecker.check_trigger_by_func s redis a func send_time cur_time =
      Except.ok out) : ArrivalFrame s out.1 := by
  obtain ⟨R, info, -, -, hcases⟩ := check_trigger_by_func_ok h
  rcases hcases with ⟨-, hout⟩ | ⟨-, -, htrig⟩
  · rw [hout]
    exact arrival_frame_of_eq rfl
  · exact trigger_retrain_frame htrig

theorem set_timeout_records (s : TriggerChecker) (a : String) (last_arrival timeout : Int) :
    (TriggerChecker.set_timeout s a last_arrival timeout).retrain_records_ =
      s.retrain_records_ := by
  unfold TriggerChecker.set_timeout
  split <;> rfl

theorem check_trigger_frame {s s1 : TriggerChecker} {redis : Redis} {a : String}
    {arrival_time send_time cur_time : Int}
    (h : TriggerChecker.check_trigger s redis a arrival_time send_time cur_time =
      Except.ok s1) : ArrivalFrame s s1 := by
  unfold TriggerChecker.check_trigger at h
  simp only [bind_eq_ok] at h
  obtain ⟨policy, -, checked, hchecked, h⟩ := h
  have hframe := check_trigger_by_func_frame hchecked
  by_cases hc : checked.2 = false
  · simp only [hc, if_true] at h
    cases hrec1 : checked.1.retrain_records_ a with
    | none => simp [hrec1] at h
    | some R1 =>
      simp only [hrec1, bind_eq_ok] at h
      obtain ⟨t, -, h⟩ := h
      rw [← Except.ok.inj h]
      exact arrival_frame_trans hframe (arrival_frame_of_eq (set_timeout_records _ _ _ _))
  · simp only [hc, if_false] at h
    rw [← Except.ok.inj h]
    exact hframe

theorem update_retrain_records_frame {s s1 : TriggerChecker} {a : String} {cur_time : Int}
    (h : TriggerChecker.update_retrain_records s a cur_time = Except.ok s1) :
    ArrivalFrame s s1 := by
  cases hrec : s.retrain_records_ a with
  | none =>
    rw [update_retrain_records_none hrec] at h
    rw [← Except.ok.inj h]
    exact arrival_frame_of_eq rfl
  | some R =>
    obtain ⟨profiler, sampled, -, -, hs1⟩ := update_retrain_records_ok hrec h
    subst hs1
    intro b R1 hR1
    by_cases hb : b = a
    · rw [hb] at hR1 ⊢
      have hR1' : some _ = some R1 := (assign_same _ _ _).symm.trans hR1
      rw [← Option.some.inj hR1']
      exact ⟨R, hrec, rfl⟩
    · exact ⟨R1, (assign_other _ _ _ _ hb).symm.trans hR1, rfl⟩

theorem report_retrain_end_frame {s : TriggerChecker} {redis : Redis} {msg_id : Int}
    {cur_time send_time dispatch_time : Int} {out : TriggerChecker × Option Bool}
    (h : TriggerChecker.report_retrain_end s redis msg_id cur_time send_time dispatch_time =
      Except.ok out) : ArrivalFrame s out.1 := by
  cases hfind : InflightMessages.find s.inflight_messages_ msg_id with
  | none =>
    unfold TriggerChecker.report_retrain_end at h
    simp only [hfind] at h
    rw [← Except.ok.inj h]
    exact arrival_frame_of_eq rfl
  | some msg =>
    obtain ⟨erased, s2, policy, checked, -, h2, -, h4, h5⟩ := report_retrain_end_ok hfind h
    subst h5
    have f1 : ArrivalFrame s s2 :=
      update_retrain_records_frame (s := { s with inflight_messages_ := erased }) h2
    exact arrival_frame_trans f1 (check_trigger_by_func_frame h4)

theorem manual_trigger_retrain_frame {s : TriggerChecker} {redis : Redis} {a : String}
    {cur_time send_time dispatch_time : Int} {out : TriggerChecker × Int}
    (h : TriggerChecker.manual_trigger_retrain s redis a cur_time send_time dispatch_time =
      Except.ok out) : ArrivalFrame s out.1 := by
  unfold TriggerChecker.manual_trigger_retrain at h
  cases hrec : s.retrain_records_ a with
  | none =>
    simp only [hrec] at h
    rw [← Except.ok.inj h]
    exact arrival_frame_of_eq rfl
  | some R =>
    simp only [hrec] at h
    by_cases hsize : sum_sizes_where (fun p => decide (p.1 ≥ R.data_to_)) R.batches_ > 0
    · simp only [hsize, if_true, bind_eq_ok] at h
      obtain ⟨s1, hs1, h⟩ := h
      rw [← Except.ok.inj h]
      exact trigger_retrain_frame hs1
    · simp only [hsize, if_false] at h
      rw [← Except.ok.inj h]
      exact arrival_frame_of_eq rfl

theorem fire_timeout_frame {s s1 : TriggerChecker} {redis : Redis} {index : Nat}
    {send_time cur_time : Int}
    (h : TriggerChecker.fire_timeout s redis index send_time cur_time = Except.ok s1) :
    ArrivalFrame s s1 := by
  unfold TriggerChecker.fire_timeout at h
  cases ht : s.pending_timeouts_[index]? with
  | none =>
    simp only [ht] at h
    rw [← Except.ok.inj h]
    exact arrival_frame_of_eq rfl
  | some t =>
    simp only [ht] at h
    unfold TriggerChecker.after_timeout at h
    split at h
    · split at h
      · cases h
      · simp only [] at h
        have f1 : ArrivalFrame s
            { s with pending_timeouts_ := s.pending_timeouts_.eraseIdx index } :=
          arrival_frame_of_eq rfl
        exact arrival_frame_trans f1 (trigger_retrain_frame h)
    · rw [← Except.ok.inj h]
      exact arrival_frame_of_eq rfl

theorem bounded_of_frame {mark : Int} {s s1 : TriggerChecker} (hb : Bounded mark s)
    (hf : ArrivalFrame s s1) : Bounded mark s1 := by
  intro a R1 hR1
  obtain ⟨R, hR, e⟩ := hf a R1 hR1
  rw [e]
  exact hb a R hR

theorem bounded_mono {mark mark1 : Int} {s : TriggerChecker} (hb : Bounded mark s)
    (h : mark ≤ mark1) : Bounded mark1 s :=
  fun a R hR => le_trans (hb a R hR) h

theorem report_data_arrival_bounded {mark : Int} {s : TriggerChecker} {redis : Redis}
    {a : String} {arrival_time data_size send_time cur_time : Int}
    {out : TriggerChecker × Bool} (hb : Bounded mark s) (hle : mark ≤ arrival_time)
    (h : TriggerChecker.report_data_arrival s redis a arrival_time data_size send_time
      cur_time = Except.ok out) : Bounded arrival_time out.1 := by
  have key : ∀ (s1 s2 : TriggerChecker) (R0 : RetrainRecord),
      s1.retrain_records_ = assign s.retrain_records_ a R0 →
      R0.last_arrival_ = arrival_time → ArrivalFrame s1 s2 → Bounded arrival_time s2 := by
    intro s1 s2 R0 hrec1 hla hframe
    refine bounded_of_frame ?_ hframe
    intro b R1 hR1
    rw [hrec1] at hR1
    by_cases hba : b = a
    · rw [hba, assign_same] at hR1
      rw [← Option.some.inj hR1, hla]
    · rw [assign_other _ _ _ _ hba] at hR1
      exact le_trans (hb b R1 hR1) hle
  unfold TriggerChecker.report_data_arrival at h
  cases hrec : s.retrain_records_ a with
  | some R =>
    simp only [hrec, bind_eq_ok] at h
    obtain ⟨s2, hs2, h⟩ := h
    rw [← Except.ok.inj h]
    exact key _ s2 _ rfl rfl (check_trigger_frame hs2)
  | none =>
    simp only [hrec] at h
    by_cases hlink : redis.get_backend_link a = ""
    · simp only [hlink, if_true] at h
      rw [← Except.ok.inj h]
      exact bounded_mono hb hle
    · simp only [hlink, if_false] at h
      cases hbackend : redis.get_backend (redis.get_backend_link a) with
      | none => simp [hbackend] at h
      | some backend =>
        simp only [hbackend, bind_eq_ok] at h
        obtain ⟨s3, hs3, h⟩ := h
        rw [← Except.ok.inj h]
        exact key _ s3 _ (set_app_policy_frame _ a backend.policy).1 rfl
          (check_trigger_frame hs3)

/-- After a step whose arrival, if any, is not earlier than `mark`, no record has a last
arrival later than the new mark. -/
theorem handle_bounded {mark : Int} {s s1 : TriggerChecker} {env : Env} {e : Event}
    (hb : Bounded mark s) (hok : arrival_ok mark env e)
    (h : TriggerChecker.handle s env e = Except.ok s1) : Bounded (next_mark mark e) s1 := by
  cases e with
  | ReportDataArrival a arrival_time data_size =>
    obtain ⟨out, hout, hs1⟩ := map_fst_eq_ok h
    rw [← hs1]
    exact report_data_arrival_bounded hb hok.2.1 hout
  | ManualTrigger a =>
    obtain ⟨out, hout, hs1⟩ := map_fst_eq_ok h
    rw [← hs1]
    exact bounded_of_frame hb (manual_trigger_retrain_frame hout)
  | ReportRetrainBegin msg_id =>
    simp only [TriggerChecker.handle] at h
    rw [← Except.ok.inj h]
    unfold TriggerChecker.report_retrain_begin
    cases InflightMessages.find s.inflight_messages_ msg_id with
    | none => exact hb
    | some m => exact hb
  | ReportRetrainEnd msg_id =>
    obtain ⟨out, hout, hs1⟩ := map_fst_eq_ok h
    rw [← hs1]
    exact bounded_of_frame hb (report_retrain_end_frame hout)
  | TimeoutFired index =>
    exact bounded_of_frame hb (fire_timeout_frame h)
  | BackendLinkSet key =>
    simp only [TriggerChecker.handle, TriggerChecker.backend_link_set] at h
    cases hbk : env.redis.get_backend (env.redis.get_backend_link key) with
    | none => simp [hbk] at h
    | some backend =>
      simp only [hbk] at h
      rw [← Except.ok.inj h]
      exact hb

theorem legal_step_of_bounded {mark : Int} {s : TriggerChecker} {env : Env} {e : Event}
    (hb : Bounded mark s) (h1 : env.cur_time ≤ env.dispatch_time) (h2 : mark ≤ env.cur_time)
    (h3 : arrival_ok mark env e) : LegalStep s env e := by
  refine ⟨h1, fun a R hR => le_trans (hb a R hR) h2, fun a t n he => ?_⟩
  subst he
  exact ⟨h3.1, h3.2.2, fun R hR => le_trans (hb a R hR) h3.2.1⟩

theorem inv_initial (P : Prop) : Inv P TriggerChecker.initial :=
  ⟨fun t ht => absurd ht (List.not_mem_nil t), fun _ _ h => by cases h⟩

theorem bounded_initial : Bounded 0 TriggerChecker.initial :=
  fun _ _ h => by cases h

/-- A trigger checker that holds a single record satisfies the invariant when the record
does and every pending timeout is one of that application, under the cost-aware
policy. -/
theorem inv_single {P : Prop} (s : TriggerChecker) (a : String) (R : RetrainRecord)
    (policy : RetrainPolicy)
    (hrec : s.retrain_records_ = assign (fun _ => none) a R)
    (hpol : TriggerChecker.get_app_policy s a = Except.ok policy)
    (htimers : ∀ t ∈ s.pending_timeouts_,
      t.app_name = a ∧ policy = RetrainPolicy.CostAware)
    (hA : ArrivalInv P R)
    (hR : policy ≠ RetrainPolicy.CostAware → RecordInv R ∧ AppPos policy R) : Inv P s := by
  refine ⟨fun t ht => ?_, fun app_name R1 hR1 => ?_⟩
  · obtain ⟨h1, h2⟩ := htimers t ht
    rw [h1, ← h2]
    exact ⟨hpol, R, by rw [hrec]; exact assign_same _ _ _⟩
  · rw [hrec] at hR1
    by_cases hne : app_name = a
    · subst hne
      rw [assign_same] at hR1
      rw [← Option.some.inj hR1]
      exact ⟨policy, hpol, hA, hR⟩
    · rw [assign_other _ _ _ _ hne] at hR1
      cases hR1

theorem bounded_single (s : TriggerChecker) (a : String) (R : RetrainRecord)
    (hrec : s.retrain_records_ = assign (fun _ => none) a R) :
    Bounded R.last_arrival_ s := by
  intro app_name R1 hR1
  rw [hrec] at hR1
  by_cases hne : app_name = a
  · subst hne
    rw [assign_same] at hR1
    rw [← Option.some.inj hR1]
  · rw [assign_other _ _ _ _ hne] at hR1
    cases hR1

/-- The state that the first arrival of a cost-aware application leaves satisfies the
invariant. -/
theorem inv_cost_aware_arrived : Inv True cost_aware_arrived :=
  inv_single cost_aware_arrived "app" _ RetrainPolicy.CostAware rfl rfl
    (fun t ht => by
      have hteq : t = { app_name := "app", last_arrival := 1000000, timeout := 2000 } :=
        List.mem_singleton.mp ht
      rw [hteq]
      exact ⟨rfl, rfl⟩)
    ⟨by decide, by decide, fun _ => by decide⟩ (fun h => absurd rfl h)

theorem bounded_cost_aware_arrived : Bounded 1000000 cost_aware_arrived :=
  bounded_single cost_aware_arrived "app" _ rfl

/-- The invariant holds after every legal trace. -/
theorem run_inv {P : Prop} (trace : List (Env × Event)) (mark : Int) (s s1 : TriggerChecker)
    (hinv : Inv P s) (hb : Bounded mark s) (hlegal : LegalTrace mark trace)
    (hman : P → ManualFree trace)
    (h : TriggerChecker.run s trace = Except.ok s1) : Inv P s1 := by
  induction trace generalizing s mark with
  | nil =>
    simp only [TriggerChecker.run] at h
    rw [← Except.ok.inj h]
    exact hinv
  | cons step rest ih =>
    simp only [TriggerChecker.run] at h
    obtain ⟨l1, l2, l3, l4⟩ := hlegal
    cases hstep : TriggerChecker.handle s step.1 step.2 with
    | error f => simp [hstep] at h
    | ok s2 =>
      simp only [hstep] at h
      have hinv2 : Inv P s2 :=
        handle_inv hinv (legal_step_of_bounded hb l1 l2 l3)
          (fun hP a => hman hP step (List.mem_cons_self _ _) a) hstep
      exact ih _ s2 hinv2 (handle_bounded hb l3 hstep) l4
        (fun hP st hst => hman hP st (List.mem_cons_of_mem _ hst)) h

theorem manual_trace_legal : LegalTrace 0 manual_trace := by
  simp [LegalTrace, manual_trace, demo_env, arrival_ok, next_mark]

theorem equal_stamps_timers_legal : LegalTrace 1000000 equal_stamps_timers := by
  simp [LegalTrace, equal_stamps_timers, demo_env, arrival_ok, next_mark]

theorem equal_stamps_timers_manual_free : ManualFree equal_stamps_timers := by
  intro step hstep a
  simp only [equal_stamps_timers, List.mem_cons, List.mem_singleton, List.not_mem_nil,
    or_false] at hstep
  rcases hstep with h | h | h | h | h <;> rw [h] <;> simp

set_option maxRecDepth 4096 in
unseal Rat.mul Rat.add Rat.sub Rat.inv in
/-- C8, as stated, fails, in two ways.  By design: `manual_trace` is legal (a positive
arrival time, the clock never earlier than the arrival), and after the manual trigger
the record has `data_to = 1500010`, the clock value, above `last_arrival = 1000000`.
And under the cost-aware policy without any manual trigger.  The first arrival of such
an application runs `check_trigger` on `cost_aware_entered`, where `calc_cost` reads
before the start of the batch vector (in the model the run ends there); read without
harm, it leaves `cost_aware_arrived`.  From there two further arrivals with the same
time stamp `2000000` each arm a timeout; the one that fires first dispatches the window
`(1, 2000000)`, and after the end of that retrain the other one, whose test
`last_arrival = ts` and `finished` holds again, dispatches the window
`(data_to + 1, ts) = (2000001, 2000000)`: the record has `data_from > data_to`. -/
theorem manual_trigger_window_counterexample :
    (LegalTrace 0 manual_trace ∧
      observe_record (TriggerChecker.run TriggerChecker.initial manual_trace) "app" =
        some (false, 0, 1500010, 1000000, (1500010, 1000), [(1000000, 1000)]) ∧
      ¬ ((1500010 : Int) ≤ 1000000)) ∧
    (TriggerChecker.report_data_arrival TriggerChecker.initial
        (demo_redis "CostAwarePolicy" 1 1000) "app" 1000000 10 1000010 1000010 =
      (TriggerChecker.check_trigger cost_aware_entered (demo_redis "CostAwarePolicy" 1 1000)
        "app" 1000000 1000010 1000010).map (fun s => (s, true)) ∧
      TriggerChecker.check_trigger cost_aware_entered (demo_redis "CostAwarePolicy" 1 1000)
        "app" 1000000 1000010 1000010 = Except.error Fault.out_of_bounds ∧
      CostAwarePolicy.calc_cost [(1000000, 10)] 0 1 10 (some 1) (some 1000) (some 10) =
        Except.ok 11110 ∧
      fdiv (dsub (dmul 10 1000) (of_long (11110 - (10000 + 11110)))) (of_long 10) =
        some 2000 ∧
      cost_aware_arrived.pending_timeouts_ =
        [{ app_name := "app", last_arrival := 1000000, timeout := 2000 }] ∧
      LegalTrace 1000000 equal_stamps_timers ∧ ManualFree equal_stamps_timers ∧
      observe_policy (Except.ok cost_aware_arrived) "app" = some RetrainPolicy.CostAware ∧
      observe_record (Except.ok cost_aware_arrived) "app" =
        some (true, 0, 0, 1000000, (0, 0), [(1000000, 10)]) ∧
      observe_record (TriggerChecker.run cost_aware_arrived (equal_stamps_timers.take 2))
          "app" =
        some (true, 0, 0, 2000000, (0, 0), [(1000000, 10), (2000000, 10), (2000000, 10)]) ∧
      observe_timeouts (TriggerChecker.run cost_aware_arrived (equal_stamps_timers.take 2)) =
        some [{ app_name := "app", last_arrival := 1000000, timeout := 2000 },
              { app_name := "app", last_arrival := 2000000, timeout := 949 },
              { app_name := "app", last_arrival := 2000000, timeout := 632 }] ∧
      observe_record (TriggerChecker.run cost_aware_arrived (equal_stamps_timers.take 3))
          "app" =
        some (false, 1, 2000000, 2000000, (2632020, 30),
          [(1000000, 10), (2000000, 10), (2000000, 10)]) ∧
      observe_record (TriggerChecker.run cost_aware_arrived (equal_stamps_timers.take 4))
          "app" =
        some (true, 1, 2000000, 2000000, (2632020, 30), []) ∧
      observe_record (TriggerChecker.run cost_aware_arrived equal_stamps_timers) "app" =
        some (false, 2000001, 2000000, 2000000, (2949010, 0), []) ∧
      ¬ ((2000001 : Int) ≤ 2000000)) :=
  ⟨⟨manual_trace_legal, rfl, by decide⟩,
    ⟨rfl, rfl, rfl, by decide, rfl, equal_stamps_timers_legal,
      equal_stamps_timers_manual_free, rfl, rfl, rfl, rfl, rfl, rfl, rfl, by decide⟩⟩

/-- The invariant together with `data_to ≤ last_arrival` for every record is the
invariant of a state in which no manual trigger has been handled. -/
theorem inv_fresh {s : TriggerChecker} (h : Inv False s)
    (hfresh : ∀ a R, s.retrain_records_ a = some R → R.data_to_ ≤ R.last_arrival_) :
    Inv True s := by
  refine ⟨h.1, fun app_name R hR => ?_⟩
  obtain ⟨policy, hp, ⟨a1, a2, -⟩, h2⟩ := h.2 app_name R hR
  exact ⟨policy, hp, ⟨a1, a2, fun _ => hfresh app_name R hR⟩, h2⟩

/-- C8, amended: in every state reached by a legal trace from the initial state, or
from any state that satisfies the invariant `Inv` (which holds in the initial state, is
kept by every handler and leaves the time stamp and the delay of the pending timeouts
free), every record satisfies `data_to ≤ last_arrival` as long as no `ManualTrigger`
has been handled (the records of the start state satisfy it and the trace holds none),
whatever the policy and whatever timeouts fire; and every record of an application
under a policy other than the cost-aware one (Naive, Speculative, Manual) satisfies
`data_from ≤ data_to` and `data_from ≤ last_arrival`, manual triggers included. -/
theorem record_window_invariant (s0 : TriggerChecker) (mark : Int)
    (trace : List (Env × Event)) (s : TriggerChecker)
    (hstart : Inv False s0) (hmark : Bounded mark s0) (hlegal : LegalTrace mark trace)
    (hrun : TriggerChecker.run s0 trace = Except.ok s)
    (app_name : String) (R : RetrainRecord) (hrec : s.retrain_records_ app_name = some R) :
    ((∀ a R0, s0.retrain_records_ a = some R0 → R0.data_to_ ≤ R0.last_arrival_) →
      ManualFree trace → R.data_to_ ≤ R.last_arrival_) ∧
    (∀ policy, TriggerChecker.get_app_policy s app_name = Except.ok policy →
      policy ≠ RetrainPolicy.CostAware →
      R.data_from_ ≤ R.data_to_ ∧ R.data_from_ ≤ R.last_arrival_) := by
  constructor
  · intro hfresh hfree
    have hinv : Inv True s :=
      run_inv trace mark _ s (inv_fresh hstart hfresh) hmark hlegal (fun _ => hfree) hrun
    obtain ⟨p, -, hA, -⟩ := hinv.2 app_name R hrec
    exact hA.2.2 trivial
  · intro policy hpolicy hne
    have hinv : Inv False s :=
      run_inv trace mark _ s hstart hmark hlegal (fun hf => absurd hf id) hrun
    obtain ⟨p, hp, -, hrest⟩ := hinv.2 app_name R hrec
    have hpp : p = policy := get_app_policy_inj hp hpolicy
    subst hpp
    exact ⟨(hrest hne).1.1, (hrest hne).1.2.1⟩

theorem naive_two_arrivals_legal : LegalTrace 0 (naive_two_arrivals ++ [naive_first_end]) := by
  simp [LegalTrace, naive_two_arrivals, naive_first_end, demo_env, arrival_ok, next_mark]

theorem naive_two_arrivals_manual_free :
    ManualFree (naive_two_arrivals ++ [naive_first_end]) := by
  intro step hstep a
  simp only [naive_two_arrivals, naive_first_end, List.cons_append, List.nil_append,
    List.mem_cons, List.mem_singleton, List.not_mem_nil, or_false] at hstep
  rcases hstep with h | h | h <;> rw [h] <;> simp

theorem cost_aware_timer_legal :
    LegalTrace 1000000 [cost_aware_second_arrival, cost_aware_timeout_fired] := by
  simp [LegalTrace, cost_aware_second_arrival, cost_aware_timeout_fired, demo_env, arrival_ok,
    next_mark]

theorem cost_aware_timer_manual_free :
    ManualFree [cost_aware_second_arrival, cost_aware_timeout_fired] := by
  intro step hstep a
  simp only [cost_aware_second_arrival, cost_aware_timeout_fired, List.mem_cons,
    List.mem_singleton, List.not_mem_nil, or_false] at hstep
  rcases hstep with h | h <;> rw [h] <;> simp

theorem fresh_initial (a : String) (R0 : RetrainRecord)
    (h : TriggerChecker.initial.retrain_records_ a = some R0) :
    R0.data_to_ ≤ R0.last_arrival_ := by
  cases h

theorem fresh_cost_aware_arrived (a : String) (R0 : RetrainRecord)
    (h : cost_aware_arrived.retrain_records_ a = some R0) :
    R0.data_to_ ≤ R0.last_arrival_ := by
  obtain ⟨-, -, ⟨-, -, h3⟩, -⟩ := inv_cost_aware_arrived.2 a R0 h
  exact h3 trivial

set_option maxRecDepth 4096 in
unseal Rat.mul Rat.add Rat.sub Rat.inv in
/-- C8 amended, on three runs.  From the initial state, on the legal trace of Scenarios
1 and 2: after the end of the first retrain the record of `app` (Naive) has
`data_from = 1000001`, `data_to = 2000000` and `last_arrival = 2000000`.  From the
state that the first arrival of a cost-aware application leaves: after a second arrival
and the firing of the timeout it has armed, the record has the window `(1, 2000000)`
and `last_arrival = 2000000`; and after the two arrivals with equal time stamps and the
two timeouts the record has `data_to = 2000000 = last_arrival` (and
`data_from = 2000001`). -/
theorem record_window_invariant_witness :
    (Inv False TriggerChecker.initial ∧ Bounded 0 TriggerChecker.initial ∧
      LegalTrace 0 (naive_two_arrivals ++ [naive_first_end]) ∧
      ManualFree (naive_two_arrivals ++ [naive_first_end]) ∧
      ∃ s R,
        TriggerChecker.run TriggerChecker.initial (naive_two_arrivals ++ [naive_first_end]) =
          Except.ok s ∧
        s.retrain_records_ "app" = some R ∧
        TriggerChecker.get_app_policy s "app" = Except.ok RetrainPolicy.NaiveBestEffort ∧
        R.data_from_ = 1000001 ∧ R.data_to_ = 2000000 ∧ R.last_arrival_ = 2000000 ∧
        R.data_to_ ≤ R.last_arrival_ ∧
        (R.data_from_ ≤ R.data_to_ ∧ R.data_from_ ≤ R.last_arrival_)) ∧
    (Inv False cost_aware_arrived ∧ Bounded 1000000 cost_aware_arrived ∧
      LegalTrace 1000000 [cost_aware_second_arrival, cost_aware_timeout_fired] ∧
      ManualFree [cost_aware_second_arrival, cost_aware_timeout_fired] ∧
      ∃ s R,
        TriggerChecker.run cost_aware_arrived
          [cost_aware_second_arrival, cost_aware_timeout_fired] = Except.ok s ∧
        s.retrain_records_ "app" = some R ∧
        TriggerChecker.get_app_policy s "app" = Except.ok RetrainPolicy.CostAware ∧
        R.data_from_ = 1 ∧ R.data_to_ = 2000000 ∧ R.last_arrival_ = 2000000 ∧
        R.data_to_ ≤ R.last_arrival_) ∧
    (LegalTrace 1000000 equal_stamps_timers ∧ ManualFree equal_stamps_timers ∧
      ∃ s R,
        TriggerChecker.run cost_aware_arrived equal_stamps_timers = Except.ok s ∧
        s.retrain_records_ "app" = some R ∧
        TriggerChecker.get_app_policy s "app" = Except.ok RetrainPolicy.CostAware ∧
        R.data_from_ = 2000001 ∧ R.data_to_ = 2000000 ∧ R.last_arrival_ = 2000000 ∧
        R.data_to_ ≤ R.last_arrival_) :=
  ⟨⟨inv_initial False, bounded_initial, naive_two_arrivals_legal,
      naive_two_arrivals_manual_free, _, _, rfl, rfl, rfl, rfl, rfl, rfl,
      (record_window_invariant TriggerChecker.initial 0
        (naive_two_arrivals ++ [naive_first_end]) _ (inv_initial False) bounded_initial
        naive_two_arrivals_legal rfl "app" _ rfl).1 fresh_initial
        naive_two_arrivals_manual_free,
      (record_window_invariant TriggerChecker.initial 0
        (naive_two_arrivals ++ [naive_first_end]) _ (inv_initial False) bounded_initial
        naive_two_arrivals_legal rfl "app" _ rfl).2 RetrainPolicy.NaiveBestEffort rfl
        (by decide)⟩,
    ⟨inv_mono (fun hf => absurd hf id) inv_cost_aware_arrived, bounded_cost_aware_arrived,
      cost_aware_timer_legal, cost_aware_timer_manual_free, _, _, rfl, rfl, rfl, rfl, rfl,
      rfl,
      (record_window_invariant cost_aware_arrived 1000000
        [cost_aware_second_arrival, cost_aware_timeout_fired] _
        (inv_mono (fun hf => absurd hf id) inv_cost_aware_arrived)
        bounded_cost_aware_arrived cost_aware_timer_legal rfl "app" _ rfl).1
        fresh_cost_aware_arrived cost_aware_timer_manual_free⟩,
    ⟨equal_stamps_timers_legal, equal_stamps_timers_manual_free, _, _, rfl, rfl, rfl, rfl,
      rfl, rfl,
      (record_window_invariant cost_aware_arrived 1000000 equal_stamps_timers _
        (inv_mono (fun hf => absurd hf id) inv_cost_aware_arrived)
        bounded_cost_aware_arrived equal_stamps_timers_legal rfl "app" _ rfl).1
        fresh_cost_aware_arrived equal_stamps_timers_manual_free⟩⟩

/-! ## Dispatches on unfinished records -/

theorem manual_in_flight_legal :
    LegalTrace 0 [naive_first_arrival, manual_while_in_flight] := by
  simp [LegalTrace, naive_first_arrival, manual_while_in_flight, demo_env, arrival_ok,
    next_mark]

/-- C7, as stated, fails: under the Naive policy the first arrival dispatches message 0
and leaves the record unfinished; the `ManualTrigger` that follows dispatches a second
retrain, with window `(1000000, 1500010)`, while `finished = false`. -/
theorem manual_trigger_in_flight_counterexample :
    LegalTrace 0 [naive_first_arrival, manual_while_in_flight] ∧
    observe_policy (TriggerChecker.run TriggerChecker.initial [naive_first_arrival]) "app" =
      some RetrainPolicy.NaiveBestEffort ∧
    observe_record (TriggerChecker.run TriggerChecker.initial [naive_first_arrival]) "app" =
      some (false, 1, 1000000, 1000000, (1000010, 5), [(1000000, 5)]) ∧
    observe_requests
      (TriggerChecker.run TriggerChecker.initial [naive_first_arrival]) =
      some [{ zmq_connection_id := 0, id := 0,
              msg := { data_from_ := 1, data_to_ := 1000000, batch_ids_ := [],
                       data_size_ := 5 },
              time := 1000010 }] ∧
    observe_requests
      (TriggerChecker.run TriggerChecker.initial
        [naive_first_arrival, manual_while_in_flight]) =
      some [{ zmq_connection_id := 0, id := 0,
              msg := { data_from_ := 1, data_to_ := 1000000, batch_ids_ := [],
                       data_size_ := 5 },
              time := 1000010 },
            { zmq_connection_id := 0, id := 1,
              msg := { data_from_ := 1000000, data_to_ := 1500010, batch_ids_ := [],
                       data_size_ := 5 },
              time := 1500010 }] :=
  ⟨manual_in_flight_legal, rfl, rfl, rfl, rfl⟩

theorem prune_filter_eq (R : RetrainRecord) :
    (fun (b : BatchInfo) => !(decide (b.1 ≥ R.data_from_) && decide (b.1 ≤ R.data_to_))) =
      (fun b => decide (¬ (R.data_from_ ≤ b.1 ∧ b.1 ≤ R.data_to_))) := by
  funext b
  by_cases h1 : R.data_from_ ≤ b.1 <;> by_cases h2 : b.1 ≤ R.data_to_ <;> simp [h1, h2]

/-- On an unfinished record with `data_from > 0` the speculative policy can only trigger
through its speculative rule, with window `(data_from, last_arrival)`. -/
theorem speculative_trigger_in_flight {R : RetrainRecord} {info : RetrainInfo}
    (hfin : R.finished_ = false) (hfrom : 0 < R.data_from_)
    (h : SpeculativeBestEffortPolicy.ready_to_retrain R = Except.ok info)
    (ht : info.1 = true) : info = (true, R.data_from_, R.last_arrival_) := by
  unfold SpeculativeBestEffortPolicy.ready_to_retrain at h
  rw [if_neg (not_le.mpr hfrom), if_neg (by simp [hfin])] at h
  simp only [bind_eq_ok] at h
  obtain ⟨beta, -, alpha, -, h⟩ := h
  split_ifs at h with h3
  · exact (Except.ok.inj h).symm
  · rw [← Except.ok.inj h] at ht
    cases ht

/-- On an unfinished record with `data_from > 0` the Naive policy does not trigger. -/
theorem naive_no_trigger_in_flight {R : RetrainRecord}
    (hfin : R.finished_ = false) (hfrom : 0 < R.data_from_) :
    NaiveBestEffortPolicy.ready_to_retrain R = (false, 0, 0) := by
  unfold NaiveBestEffortPolicy.ready_to_retrain
  rw [if_neg (not_le.mpr hfrom), if_neg (by simp [hfin])]

theorem set_timeout_rpc (s : TriggerChecker) (a : String) (last_arrival timeout : Int) :
    (TriggerChecker.set_timeout s a last_arrival timeout).rpc_ = s.rpc_ := by
  unfold TriggerChecker.set_timeout
  split <;> rfl

/-- C7, amended: in every state reached by a legal trace from the initial state, or
from any state that satisfies the invariant `Inv` (which holds in the initial state, is
kept by every handler and leaves the time stamp and the delay of the pending timeouts
free), a handler that hands a request to the transport does so for one of these causes
only: the event is a `ManualTrigger` (which does not look at `finished`); or it is a
data arrival, and if the record was unfinished then the policy is the speculative one,
`data_from > 0` and the window is the one of the speculative rule (under the Naive,
Cost-Aware and Manual policies an arrival dispatches on a finished record only); or it
is the end of a retrain, and the dispatch follows `on_retrain_finished` evaluated on the
record already marked finished; or it is a timeout fired on a finished record. -/
theorem dispatch_cause (s0 : TriggerChecker) (mark : Int) (trace : List (Env × Event))
    (s : TriggerChecker)
    (hstart : Inv False s0) (hmark : Bounded mark s0) (hlegal : LegalTrace mark trace)
    (hrun : TriggerChecker.run s0 trace = Except.ok s)
    (env : Env) (e : Event) (s1 : TriggerChecker)
    (h : TriggerChecker.handle s env e = Except.ok s1)
    (hne : s1.rpc_.request_queue_ ≠ s.rpc_.request_queue_) : DispatchCause s e := by
  have hinv : Inv False s :=
    run_inv trace mark _ s hstart hmark hlegal (fun hf => absurd hf id) hrun
  cases e with
  | ManualTrigger a => exact trivial
  | ReportRetrainBegin msg_id =>
    exfalso
    apply hne
    simp only [TriggerChecker.handle] at h
    rw [← Except.ok.inj h]
    unfold TriggerChecker.report_retrain_begin
    cases InflightMessages.find s.inflight_messages_ msg_id <;> rfl
  | BackendLinkSet key =>
    exfalso
    apply hne
    simp only [TriggerChecker.handle, TriggerChecker.backend_link_set] at h
    cases hbk : env.redis.get_backend (env.redis.get_backend_link key) with
    | none => simp [hbk] at h
    | some backend =>
      simp only [hbk] at h
      rw [← Except.ok.inj h]
  | TimeoutFired index =>
    simp only [TriggerChecker.handle, TriggerChecker.fire_timeout] at h
    cases ht : s.pending_timeouts_[index]? with
    | none =>
      exfalso
      apply hne
      simp only [ht] at h
      rw [← Except.ok.inj h]
    | some t =>
      simp only [ht] at h
      unfold TriggerChecker.after_timeout at h
      cases hrec : s.retrain_records_ t.app_name with
      | none =>
        exfalso
        apply hne
        simp only [TriggerChecker.timeout_closure, hrec] at h
        rw [← Except.ok.inj h]
      | some R =>
        simp only [TriggerChecker.timeout_closure, hrec] at h
        by_cases hc : R.last_arrival_ = t.last_arrival ∧ R.finished_ = true
        · exact ⟨t, R, ht, hrec, hc.2⟩
        · exfalso
          apply hne
          simp only [hc, if_false] at h
          rw [← Except.ok.inj h]
  | ReportRetrainEnd msg_id =>
    obtain ⟨out, hout, hs1⟩ := map_fst_eq_ok h
    subst hs1
    cases hfind : InflightMessages.find s.inflight_messages_ msg_id with
    | none =>
      exfalso
      apply hne
      unfold TriggerChecker.report_retrain_end at hout
      simp only [hfind] at hout
      rw [← Except.ok.inj hout]
    | some msg =>
      obtain ⟨erased, s2, policy, checked, -, h2, h3, h4, h5⟩ :=
        report_retrain_end_ok hfind hout
      subst h5
      cases hrec : s.retrain_records_ msg.app_name_ with
      | none =>
        exfalso
        rw [update_retrain_records_none (s := { s with inflight_messages_ := erased })
          hrec] at h2
        have hs2 := Except.ok.inj h2
        subst hs2
        obtain ⟨R1, -, hR1, -⟩ := check_trigger_by_func_ok h4
        have : s.retrain_records_ msg.app_name_ = some R1 := hR1
        rw [hrec] at this
        cases this
      | some R =>
        obtain ⟨profiler, sampled, -, -, hs2⟩ :=
          update_retrain_records_ok (s := { s with inflight_messages_ := erased }) hrec h2
        rw [prune_filter_eq] at hs2
        obtain ⟨R2, info, hR2, hinfo, hcases⟩ := check_trigger_by_func_ok h4
        have hR2eq : s2.retrain_records_ msg.app_name_ = some
            { R with
              finished_ := true,
              batches_ :=
                R.batches_.filter
                  (fun b => decide (¬ (R.data_from_ ≤ b.1 ∧ b.1 ≤ R.data_to_))),
              alpha_ := sampled.alpha_, beta_ := sampled.beta_ } := by
          rw [hs2]
          exact assign_same _ _ _
        rw [hR2eq] at hR2
        have hR2' := Option.some.inj hR2
        subst hR2'
        have hpol : TriggerChecker.get_app_policy s msg.app_name_ = Except.ok policy := by
          rw [← h3, hs2]
          rfl
        rcases hcases with ⟨-, hcheck⟩ | ⟨htrue, -, -⟩
        · exfalso
          apply hne
          rw [hcheck, hs2]
        · exact ⟨msg, R, sampled.alpha_, sampled.beta_, policy, info, hfind, hrec, hpol, hinfo,
            htrue⟩
  | ReportDataArrival a arrival_time data_size =>
    intro R hrec hfin
    obtain ⟨out, hout, hs1⟩ := map_fst_eq_ok h
    subst hs1
    unfold TriggerChecker.report_data_arrival at hout
    simp only [hrec, bind_eq_ok] at hout
    obtain ⟨s2, hs2, hout⟩ := hout
    have hout2 := (Except.ok.inj hout).symm
    subst hout2
    unfold TriggerChecker.check_trigger at hs2
    simp only [bind_eq_ok] at hs2
    obtain ⟨policy, hpolicy, checked, hchecked, hs2⟩ := hs2
    obtain ⟨p, hp, -, hrest⟩ := hinv.2 a R hrec
    have hpp : p = policy := get_app_policy_inj hp hpolicy
    subst hpp
    obtain ⟨R1, info, hR1, hinfo, hcases⟩ := check_trigger_by_func_ok hchecked
    have hR1' : some _ = some R1 := (assign_same _ _ _).symm.trans hR1
    have hR1eq := Option.some.inj hR1'
    subst hR1eq
    rcases hcases with ⟨-, hcheck⟩ | ⟨htrue, -, -⟩
    · exfalso
      apply hne
      subst hcheck
      simp only [if_true, assign_same, bind_eq_ok] at hs2
      obtain ⟨t, -, hs2⟩ := hs2
      rw [← Except.ok.inj hs2, set_timeout_rpc]
    · cases p with
      | CostAware =>
        exfalso
        simp only [RetrainPolicy.ready_to_retrain] at hinfo
        obtain ⟨-, hfin2⟩ := cost_aware_window hinfo htrue
        have hfin3 : R.finished_ = true := hfin2
        rw [hfin] at hfin3
        cases hfin3
      | Manual =>
        simp only [RetrainPolicy.ready_to_retrain, ManualPolicy.ready_to_retrain] at hinfo
        rw [← Except.ok.inj hinfo] at htrue
        cases htrue
      | NaiveBestEffort =>
        have hfrom := ((hrest (by decide)).2 (Or.inl rfl)).1
        simp only [RetrainPolicy.ready_to_retrain] at hinfo
        rw [naive_no_trigger_in_flight (R := { R with
            batches_ := R.batches_ ++ [(arrival_time, data_size)],
            last_arrival_ := arrival_time }) hfin hfrom] at hinfo
        rw [← Except.ok.inj hinfo] at htrue
        cases htrue
      | SpeculativeBestEffort =>
        have hfrom := ((hrest (by decide)).2 (Or.inr rfl)).1
        simp only [RetrainPolicy.ready_to_retrain] at hinfo
        have hinfo2 := speculative_trigger_in_flight (R := { R with
            batches_ := R.batches_ ++ [(arrival_time, data_size)],
            last_arrival_ := arrival_time }) hfin hfrom hinfo htrue
        rw [hinfo2] at hinfo
        exact ⟨hp, hfrom, hinfo⟩

theorem speculative_first_arrival_legal : LegalTrace 0 [speculative_first_arrival] := by
  simp [LegalTrace, speculative_first_arrival, demo_env, arrival_ok, next_mark]

theorem cost_aware_second_arrival_legal : LegalTrace 1000000 [cost_aware_second_arrival] := by
  simp [LegalTrace, cost_aware_second_arrival, demo_env, arrival_ok, next_mark]

theorem cost_aware_late_arrival_legal : LegalTrace 1000000 [cost_aware_late_arrival] := by
  simp [LegalTrace, cost_aware_late_arrival, demo_env, arrival_ok, next_mark]

set_option maxRecDepth 4096 in
unseal Rat.mul Rat.add Rat.sub Rat.inv in
/-- C7 amended, on four dispatches and one arrival that does not dispatch.  Scenario 3
run through the trigger checker from the initial state: after the legal trace
`[speculative_first_arrival]` the second arrival dispatches while message 0 is in
flight, and the cause is the speculative rule.  From the state that the first arrival
of a cost-aware application leaves: the timeout armed at that arrival fires and
dispatches the window `(1, 1000000)`, on a finished record; the timeout armed by a
second arrival fires and dispatches, on a finished record; a second arrival 100 seconds
after the first dispatches through `ready_to_retrain`, on a finished record, and the
arrival that follows while that retrain is in flight arms a timeout and dispatches
nothing. -/
theorem dispatch_cause_witness :
    (Inv False TriggerChecker.initial ∧ Bounded 0 TriggerChecker.initial ∧
      LegalTrace 0 [speculative_first_arrival] ∧
      ∃ s s1,
        TriggerChecker.run TriggerChecker.initial [speculative_first_arrival] = Except.ok s ∧
        TriggerChecker.handle s speculative_second_arrival.1 speculative_second_arrival.2 =
          Except.ok s1 ∧
        s1.rpc_.request_queue_ ≠ s.rpc_.request_queue_ ∧
        DispatchCause s speculative_second_arrival.2) ∧
    (Inv False cost_aware_arrived ∧ Bounded 1000000 cost_aware_arrived ∧
      ∃ s1,
        TriggerChecker.handle cost_aware_arrived cost_aware_first_timeout_fired.1
          cost_aware_first_timeout_fired.2 = Except.ok s1 ∧
        s1.rpc_.request_queue_ ≠ cost_aware_arrived.rpc_.request_queue_ ∧
        observe_record (Except.ok cost_aware_arrived) "app" =
          some (true, 0, 0, 1000000, (0, 0), [(1000000, 10)]) ∧
        observe_record (Except.ok s1) "app" =
          some (false, 1, 1000000, 1000000, (3000010, 10), [(1000000, 10)]) ∧
        DispatchCause cost_aware_arrived cost_aware_first_timeout_fired.2) ∧
    (LegalTrace 1000000 [cost_aware_second_arrival] ∧
      ∃ s s1,
        TriggerChecker.run cost_aware_arrived [cost_aware_second_arrival] = Except.ok s ∧
        s.pending_timeouts_ =
          [{ app_name := "app", last_arrival := 1000000, timeout := 2000 },
           { app_name := "app", last_arrival := 2000000, timeout := 949 }] ∧
        TriggerChecker.handle s cost_aware_timeout_fired.1 cost_aware_timeout_fired.2 =
          Except.ok s1 ∧
        s1.rpc_.request_queue_ ≠ s.rpc_.request_queue_ ∧
        observe_record (Except.ok s) "app" =
          some (true, 0, 0, 2000000, (0, 0), [(1000000, 10), (2000000, 10)]) ∧
        observe_record (Except.ok s1) "app" =
          some (false, 1, 2000000, 2000000, (2949010, 20), [(1000000, 10), (2000000, 10)]) ∧
        DispatchCause s cost_aware_timeout_fired.2) ∧
    (∃ s1,
        TriggerChecker.handle cost_aware_arrived cost_aware_late_arrival.1
          cost_aware_late_arrival.2 = Except.ok s1 ∧
        s1.rpc_.request_queue_ ≠ cost_aware_arrived.rpc_.request_queue_ ∧
        observe_record (Except.ok s1) "app" =
          some (false, 1, 101000000, 101000000, (101000010, 20),
            [(1000000, 10), (101000000, 10)]) ∧
        DispatchCause cost_aware_arrived cost_aware_late_arrival.2) ∧
    (LegalTrace 1000000 [cost_aware_late_arrival] ∧
      ∃ s s1,
        TriggerChecker.run cost_aware_arrived [cost_aware_late_arrival] = Except.ok s ∧
        TriggerChecker.handle s cost_aware_in_flight_arrival.1 cost_aware_in_flight_arrival.2 =
          Except.ok s1 ∧
        s1.rpc_.request_queue_ = s.rpc_.request_queue_ ∧
        s1.pending_timeouts_ =
          [{ app_name := "app", last_arrival := 1000000, timeout := 2000 },
           { app_name := "app", last_arrival := 102000000, timeout := 2000 }] ∧
        (s1.rpc_.request_queue_ ≠ s.rpc_.request_queue_ →
          DispatchCause s cost_aware_in_flight_arrival.2)) := by
  refine ⟨⟨inv_initial False, bounded_initial, speculative_first_arrival_legal, _, _, rfl, rfl,
      ?_, ?_⟩,
    ⟨inv_mono (fun hf => absurd hf id) inv_cost_aware_arrived, bounded_cost_aware_arrived,
      _, rfl, ?_, rfl, rfl, ?_⟩,
    ⟨cost_aware_second_arrival_legal, _, _, rfl, rfl, rfl, ?_, rfl, rfl, ?_⟩,
    ⟨_, rfl, ?_, rfl, ?_⟩,
    ⟨cost_aware_late_arrival_legal, _, _, rfl, rfl, rfl, rfl, ?_⟩⟩
  · decide
  · exact dispatch_cause TriggerChecker.initial 0 [speculative_first_arrival] _
      (inv_initial False) bounded_initial speculative_first_arrival_legal rfl
      speculative_second_arrival.1 speculative_second_arrival.2 _ rfl (by decide)
  · decide
  · exact dispatch_cause cost_aware_arrived 1000000 [] _
      (inv_mono (fun hf => absurd hf id) inv_cost_aware_arrived) bounded_cost_aware_arrived
      trivial rfl cost_aware_first_timeout_fired.1 cost_aware_first_timeout_fired.2 _ rfl
      (by decide)
  · decide
  · exact dispatch_cause cost_aware_arrived 1000000 [cost_aware_second_arrival] _
      (inv_mono (fun hf => absurd hf id) inv_cost_aware_arrived) bounded_cost_aware_arrived
      cost_aware_second_arrival_legal rfl cost_aware_timeout_fired.1
      cost_aware_timeout_fired.2 _ rfl (by decide)
  · decide
  · exact dispatch_cause cost_aware_arrived 1000000 [] _
      (inv_mono (fun hf => absurd hf id) inv_cost_aware_arrived) bounded_cost_aware_arrived
      trivial rfl cost_aware_late_arrival.1 cost_aware_late_arrival.2 _ rfl (by decide)
  · exact dispatch_cause cost_aware_arrived 1000000 [cost_aware_late_arrival] _
      (inv_mono (fun hf => absurd hf id) inv_cost_aware_arrived) bounded_cost_aware_arrived
      cost_aware_late_arrival_legal rfl cost_aware_in_flight_arrival.1
      cost_aware_in_flight_arrival.2 _ rfl

/-! ## Naive and Speculative compared -/

unseal Rat.mul Rat.add Rat.sub Rat.inv in
/-- C12: whenever `NaiveBestEffortPolicy.ready_to_retrain` triggers on a record,
`SpeculativeBestEffortPolicy.ready_to_retrain` returns and triggers on it; the two
`on_retrain_finished` are the same function, so the same holds for them; and the
restriction is strict: on the in-flight record of Scenario 3 with `beta = 20000` Naive
does not trigger while Speculative does, with the window `(data_from, last_arrival)`. -/
theorem naive_triggers_speculative_triggers (R : RetrainRecord) :
    ((NaiveBestEffortPolicy.ready_to_retrain R).1 = true →
      ∃ info, SpeculativeBestEffortPolicy.ready_to_retrain R = Except.ok info ∧
        info.1 = true) ∧
    ((NaiveBestEffortPolicy.on_retrain_finished R).1 = true →
      (SpeculativeBestEffortPolicy.on_retrain_finished R).1 = true) ∧
    SpeculativeBestEffortPolicy.on_retrain_finished R =
      NaiveBestEffortPolicy.on_retrain_finished R ∧
    ∃ Q : RetrainRecord,
      NaiveBestEffortPolicy.ready_to_retrain Q = (false, 0, 0) ∧
      SpeculativeBestEffortPolicy.ready_to_retrain Q =
        Except.ok (true, Q.data_from_, Q.last_arrival_) := by
  refine ⟨?_, ?_, rfl, scenario3_record 20000, ?_, ?_⟩
  · intro h
    unfold NaiveBestEffortPolicy.ready_to_retrain at h
    unfold SpeculativeBestEffortPolicy.ready_to_retrain
    split_ifs at h with h1 h2
    · exact ⟨_, if_pos h1, rfl⟩
    · exact ⟨_, by rw [if_neg h1, if_pos h2], rfl⟩
  · intro h
    exact h
  · rfl
  · rfl

/-- C12 on the finished record of Scenario 2 (an arrival at `t = 2000000` after the
dispatch at `t = 1000000`): Naive triggers, in `ready_to_retrain` and in
`on_retrain_finished`, and so does Speculative. -/
theorem naive_triggers_speculative_triggers_witness :
    (NaiveBestEffortPolicy.ready_to_retrain naive_record_finished).1 = true ∧
    (∃ info, SpeculativeBestEffortPolicy.ready_to_retrain naive_record_finished =
        Except.ok info ∧ info.1 = true) ∧
    (NaiveBestEffortPolicy.on_retrain_finished naive_record_finished).1 = true ∧
    (SpeculativeBestEffortPolicy.on_retrain_finished naive_record_finished).1 = true :=
  ⟨by decide, (naive_triggers_speculative_triggers naive_record_finished).1 (by decide),
    by decide, (naive_triggers_speculative_triggers naive_record_finished).2.1 (by decide)⟩

/-- C13, as stated, fails: on the never-trained record left by a first arrival at
`t = 1000000` Naive returns `(true, 1, 1000000)` and Speculative returns
`(true, 1000000, 1000000)`: the windows start at different times. -/
theorem speculative_first_retrain_counterexample :
    first_arrival_record.data_from_ ≤ 0 ∧
    NaiveBestEffortPolicy.ready_to_retrain first_arrival_record = (true, 1, 1000000) ∧
    SpeculativeBestEffortPolicy.ready_to_retrain first_arrival_record =
      Except.ok (true, 1000000, 1000000) ∧
    SpeculativeBestEffortPolicy.ready_to_retrain first_arrival_record ≠
      Except.ok (NaiveBestEffortPolicy.ready_to_retrain first_arrival_record) := by
  refine ⟨by decide, rfl, rfl, ?_⟩
  intro h
  have h3 : (Except.ok (true, 1000000, 1000000) : Except Fault RetrainInfo) =
      Except.ok (true, 1, 1000000) := h
  exact absurd (Except.ok.inj h3) (by decide)

/-- C13, amended: on a record with `data_from ≤ 0` both policies trigger with
`to = last_arrival`, Naive with `from = 1` and Speculative with `from = last_arrival`;
on a record with `data_from > 0` that is finished and has `last_arrival` after the
dispatch time, Speculative returns exactly what Naive returns,
`(true, data_to + 1, last_arrival)`. -/
theorem speculative_ready_shared_rules (R : RetrainRecord) :
    (R.data_from_ ≤ 0 →
      NaiveBestEffortPolicy.ready_to_retrain R = (true, 1, R.last_arrival_) ∧
      SpeculativeBestEffortPolicy.ready_to_retrain R =
        Except.ok (true, R.last_arrival_, R.last_arrival_)) ∧
    (0 < R.data_from_ → R.finished_ = true → R.last_arrival_ > R.training_batch_.1 →
      NaiveBestEffortPolicy.ready_to_retrain R = (true, R.data_to_ + 1, R.last_arrival_) ∧
      SpeculativeBestEffortPolicy.ready_to_retrain R =
        Except.ok (NaiveBestEffortPolicy.ready_to_retrain R)) := by
  constructor
  · intro h
    exact ⟨if_pos h, if_pos h⟩
  · intro h1 h2 h3
    have hn : NaiveBestEffortPolicy.ready_to_retrain R =
        (true, R.data_to_ + 1, R.last_arrival_) := by
      unfold NaiveBestEffortPolicy.ready_to_retrain
      rw [if_neg (not_le.mpr h1), if_pos ⟨h2, h3⟩]
    refine ⟨hn, ?_⟩
    rw [hn]
    unfold SpeculativeBestEffortPolicy.ready_to_retrain
    rw [if_neg (not_le.mpr h1), if_pos ⟨h2, h3⟩]

/-- C13 amended, on the record left by a first arrival and on the finished record of
Scenario 2. -/
theorem speculative_ready_shared_rules_witness :
    (first_arrival_record.data_from_ ≤ 0 ∧
      NaiveBestEffortPolicy.ready_to_retrain first_arrival_record =
        (true, 1, first_arrival_record.last_arrival_) ∧
      SpeculativeBestEffortPolicy.ready_to_retrain first_arrival_record =
        Except.ok (true, first_arrival_record.last_arrival_,
          first_arrival_record.last_arrival_)) ∧
    (0 < naive_record_finished.data_from_ ∧ naive_record_finished.finished_ = true ∧
      naive_record_finished.last_arrival_ > naive_record_finished.training_batch_.1 ∧
      NaiveBestEffortPolicy.ready_to_retrain naive_record_finished =
        (true, naive_record_finished.data_to_ + 1, naive_record_finished.last_arrival_) ∧
      SpeculativeBestEffortPolicy.ready_to_retrain naive_record_finished =
        Except.ok (NaiveBestEffortPolicy.ready_to_retrain naive_record_finished)) :=
  ⟨⟨by decide, (speculative_ready_shared_rules first_arrival_record).1 (by decide)⟩,
   ⟨by decide, rfl, by decide,
    (speculative_ready_shared_rules naive_record_finished).2 (by decide) rfl (by decide)⟩⟩

/-! ## The timeout of the cost-aware policy -/

theorem int_cast_add (a b : Int) : int_cast (int_cast a + b) = int_cast (a + b) := by
  unfold int_cast
  omega

theorem untrained_foldl (p : BatchInfo → Bool) (batches : BatchesInfo) (acc : Int) :
    batches.foldl (fun acc b => if p b then int_cast (acc + b.2) else acc) (int_cast acc) =
      int_cast (acc + ((batches.filter p).map Prod.snd).sum) := by
  induction batches generalizing acc with
  | nil => simp
  | cons b rest ih =>
    rw [List.foldl_cons]
    by_cases hp : p b = true
    · simp only [hp, if_true, int_cast_add, ih, List.filter_cons_of_pos, List.map_cons,
        List.sum_cons, add_assoc]
    · simp only [hp, Bool.false_eq_true, if_false, ih, List.filter_cons_of_neg,
        not_false_eq_true]

/-- The loop of `calc_timeout` over the batches, which adds each size into an `int`,
leaves `untrained_samples` reduced into the range of `int`. -/
theorem untrained_eq (R : RetrainRecord) :
    R.batches_.foldl
      (fun acc b =>
        if R.finished_ || (!R.finished_ && decide (b.1 > R.data_to_)) then
          int_cast (acc + b.2)
        else acc)
      0 = int_cast (untrained_samples R) := by
  have h0 : (0 : Int) = int_cast 0 := rfl
  have h := untrained_foldl
    (fun b => R.finished_ || (!R.finished_ && decide (b.1 > R.data_to_))) R.batches_ 0
  rw [← h0, zero_add] at h
  rw [h]
  unfold untrained_samples total_size
  cases hf : R.finished_
  · simp
  · simp

unseal Rat.mul Rat.add Rat.sub Rat.inv in
theorem timeout_record_cost_info :
    CostAwarePolicy.calc_cost_info timeout_record = Except.ok (13252, 22231) := rfl

unseal Rat.mul Rat.add Rat.sub Rat.inv in
theorem timeout_record_gap_cost_info :
    CostAwarePolicy.calc_cost_info (timeout_record_gap 10) = Except.ok (100252, 242) ∧
    CostAwarePolicy.calc_cost_info (timeout_record_gap 50010) =
      Except.ok (1150252, 1100242) := ⟨rfl, rfl⟩

set_option maxRecDepth 4096 in
unseal Rat.mul Rat.add Rat.sub Rat.inv in
/-- C14, as stated, fails, in three ways.  On Scenario 4 with 11 samples in the second
batch `calc_cost_info` returns `(13252, 22231)`, `weight * beta = 10000` and
`untrained_samples = 21`, so the quotient is `18979 / 21`, which is not an integer;
`calc_timeout` returns the `long` 903.  On `timeout_record_wide` the total size
`4294967315` is accumulated in an `int` and becomes `19`: the function returns
`19000 / 19 = 1000`, where the quotient by `untrained_samples` is below one.  On
`timeout_record_rounding` the product `10 * beta` is rounded up to the double `29`: the
function returns `30 / 30 = 1`, where the quotient over exact numbers is below one. -/
theorem calc_timeout_truncation_counterexample :
    CostAwarePolicy.calc_cost_info timeout_record = Except.ok (13252, 22231) ∧
    timeout_record.weight_ = some 10 ∧ timeout_record.beta_ = some 1000 ∧
    untrained_samples timeout_record = 21 ∧
    timeout_quotient timeout_record 10 1000 (13252, 22231) = 18979 / 21 ∧
    CostAwarePolicy.calc_timeout timeout_record = Except.ok 903 ∧
    ((903 : Int) : ℚ) ≠ 18979 / 21 ∧
    CostAwarePolicy.calc_cost_info timeout_record_wide = Except.ok (13000, 22000) ∧
    timeout_record_wide.weight_ = some 10 ∧ timeout_record_wide.beta_ = some 1000 ∧
    untrained_samples timeout_record_wide = 4294967315 ∧
    timeout_quotient timeout_record_wide 10 1000 (13000, 22000) = 19000 / 4294967315 ∧
    CostAwarePolicy.calc_timeout timeout_record_wide = Except.ok 1000 ∧
    static_cast_long (19000 / 4294967315) = 0 ∧
    CostAwarePolicy.calc_cost_info timeout_record_rounding = Except.ok (241, 242) ∧
    timeout_record_rounding.weight_ = some 10 ∧
    timeout_record_rounding.beta_ = some (6530219459687219 / 2251799813685248) ∧
    untrained_samples timeout_record_rounding = 30 ∧
    timeout_quotient timeout_record_rounding 10 (6530219459687219 / 2251799813685248)
        (241, 242) = 33776997205278719 / 33776997205278720 ∧
    CostAwarePolicy.calc_timeout timeout_record_rounding = Except.ok 1 ∧
    static_cast_long (33776997205278719 / 33776997205278720) = 0 := by
  have hu : untrained_samples timeout_record = 21 := by decide
  have hq : timeout_quotient timeout_record 10 1000 (13252, 22231) = 18979 / 21 := by
    rw [timeout_quotient, hu]
    norm_num
  have hu2 : untrained_samples timeout_record_wide = 4294967315 := by decide
  have hq2 : timeout_quotient timeout_record_wide 10 1000 (13000, 22000) =
      19000 / 4294967315 := by
    rw [timeout_quotient, hu2]
    norm_num
  have hu3 : untrained_samples timeout_record_rounding = 30 := by decide
  have hq3 : timeout_quotient timeout_record_rounding 10
      (6530219459687219 / 2251799813685248) (241, 242) =
      33776997205278719 / 33776997205278720 := by
    rw [timeout_quotient, hu3]
    norm_num
  exact ⟨rfl, rfl, rfl, hu, hq, rfl, by norm_num, rfl, rfl, rfl, hu2, hq2, rfl, by decide,
    rfl, rfl, rfl, hu3, hq3, rfl, by decide⟩

/-- C14, amended: on every record for which `calc_cost_info` returns
`(all_cost, min_cost)` and whose `untrained_samples`, reduced modulo `2 ^ 32` into the
range of `int`, is not zero, `calc_timeout` returns the quotient
`(weight * beta - (all_cost - min_cost)) / untrained_samples` computed in double
arithmetic (product, difference and quotient each rounded to the nearest double, the
divisor being the reduced `int`) and converted to `long`, that is truncated toward
zero. -/
theorem cost_aware_calc_timeout (R : RetrainRecord) (costs : CostInfo)
    (hc : CostAwarePolicy.calc_cost_info R = Except.ok costs)
    (hu : int_cast (untrained_samples R) ≠ 0) :
    ∃ weight beta quotient, R.weight_ = some weight ∧ R.beta_ = some beta ∧
      timeout_quotient_double R weight beta costs = some quotient ∧
      CostAwarePolicy.calc_timeout R = Except.ok (static_cast_long quotient) := by
  obtain ⟨-, ⟨beta, hb⟩, ⟨weight, hw⟩⟩ := calc_cost_info_ok_finite hc
  have hq : of_long (int_cast (untrained_samples R)) ≠ 0 :=
    fun h => hu ((of_long_eq_zero _).mp h)
  refine ⟨weight, beta,
    round_double (dsub (dmul weight beta) (of_long (costs.1 - costs.2)) /
      of_long (int_cast (untrained_samples R))), hw, hb, ?_, ?_⟩
  · unfold timeout_quotient_double fdiv
    rw [if_neg hq]
  · unfold CostAwarePolicy.calc_timeout
    simp only [hc, hw, hb, finite, bind, Except.bind, untrained_eq, fdiv, if_neg hq]

set_option maxRecDepth 4096 in
unseal Rat.mul Rat.add Rat.sub Rat.inv in
/-- C14 amended, on Scenario 4 (timeout 949), on two batches 100 seconds apart, where
the value is negative with `weight = 10` (-5000) and zero with `weight = 50010`, on
`timeout_record_wide` (1000) and on `timeout_record_rounding` (1). -/
theorem cost_aware_calc_timeout_witness :
    CostAwarePolicy.calc_cost_info scenario4_record = Except.ok (13240, 22220) ∧
    untrained_samples scenario4_record ≠ 0 ∧
    CostAwarePolicy.calc_timeout scenario4_record = Except.ok 949 ∧
    CostAwarePolicy.calc_timeout (timeout_record_gap 10) = Except.ok (-5000) ∧
    CostAwarePolicy.calc_timeout (timeout_record_gap 50010) = Except.ok 0 ∧
    CostAwarePolicy.calc_timeout timeout_record_wide = Except.ok 1000 ∧
    CostAwarePolicy.calc_timeout timeout_record_rounding = Except.ok 1 := by
  refine ⟨rfl, by decide, ?_, ?_, ?_, ?_, ?_⟩
  · obtain ⟨weight, beta, quotient, hw, hb, hq, h⟩ :=
      cost_aware_calc_timeout scenario4_record (13240, 22220) rfl (by decide)
    have hw1 : weight = 10 := (Option.some.inj hw).symm
    have hb1 : beta = 1000 := (Option.some.inj hb).symm
    rw [hw1, hb1] at hq
    have hq1 : quotient = 949 := Option.some.inj (hq.symm.trans (by decide))
    rw [h, hq1]
    rfl
  · obtain ⟨weight, beta, quotient, hw, hb, hq, h⟩ :=
      cost_aware_calc_timeout (timeout_record_gap 10) (100252, 242) rfl (by decide)
    have hw1 : weight = 10 := (Option.some.inj hw).symm
    have hb1 : beta = 1 := (Option.some.inj hb).symm
    rw [hw1, hb1] at hq
    have hq1 : quotient = -5000 := Option.some.inj (hq.symm.trans (by decide))
    rw [h, hq1]
    rfl
  · obtain ⟨weight, beta, quotient, hw, hb, hq, h⟩ :=
      cost_aware_calc_timeout (timeout_record_gap 50010) (1150252, 1100242) rfl (by decide)
    have hw1 : weight = 50010 := (Option.some.inj hw).symm
    have hb1 : beta = 1 := (Option.some.inj hb).symm
    rw [hw1, hb1] at hq
    have hq1 : quotient = 0 := Option.some.inj (hq.symm.trans (by decide))
    rw [h, hq1]
    rfl
  · obtain ⟨weight, beta, quotient, hw, hb, hq, h⟩ :=
      cost_aware_calc_timeout timeout_record_wide (13000, 22000) rfl (by decide)
    have hw1 : weight = 10 := (Option.some.inj hw).symm
    have hb1 : beta = 1000 := (Option.some.inj hb).symm
    rw [hw1, hb1] at hq
    have hq1 : quotient = 1000 := Option.some.inj (hq.symm.trans (by decide))
    rw [h, hq1]
    rfl
  · obtain ⟨weight, beta, quotient, hw, hb, hq, h⟩ :=
      cost_aware_calc_timeout timeout_record_rounding (241, 242) rfl (by decide)
    have hw1 : weight = 10 := (Option.some.inj hw).symm
    have hb1 : beta = 6530219459687219 / 2251799813685248 := (Option.some.inj hb).symm
    rw [hw1, hb1] at hq
    have hq1 : quotient = 1 := Option.some.inj (hq.symm.trans (by decide))
    rw [h, hq1]
    rfl

/-! ## check_trigger and its timer -/

theorem check_trigger_by_func_false {s : TriggerChecker} {redis : Redis} {a : String}
    {func : RetrainRecord → Except Fault RetrainInfo} {send_time cur_time : Int}
    {R : RetrainRecord} {info : RetrainInfo}
    (hrec : s.retrain_records_ a = some R) (hfunc : func R = Except.ok info)
    (hno : info.1 = false) :
    TriggerChecker.check_trigger_by_func s redis a func send_time cur_time =
      Except.ok (s, false) := by
  unfold TriggerChecker.check_trigger_by_func
  simp [hrec, hfunc, hno, bind, Except.bind]

theorem check_trigger_by_func_true {s : TriggerChecker} {redis : Redis} {a : String}
    {func : RetrainRecord → Except Fault RetrainInfo} {send_time cur_time : Int}
    {R : RetrainRecord} {info : RetrainInfo}
    (hrec : s.retrain_records_ a = some R) (hfunc : func R = Except.ok info)
    (hyes : info.1 = true) :
    TriggerChecker.check_trigger_by_func s redis a func send_time cur_time =
      (TriggerChecker.trigger_retrain s a (window_request redis a R info.2.1 info.2.2)
        send_time cur_time).map (fun s1 => (s1, true)) := by
  unfold TriggerChecker.check_trigger_by_func
  simp only [hrec, hfunc, hyes, bind, Except.bind, if_true, window_request]
  cases TriggerChecker.trigger_retrain s a _ send_time cur_time <;> rfl

theorem check_trigger_not_triggered {s : TriggerChecker} {redis : Redis} {a : String}
    {arrival_time send_time cur_time : Int} {policy : RetrainPolicy} {R : RetrainRecord}
    {info : RetrainInfo} {timeout : Int}
    (hpol : TriggerChecker.get_app_policy s a = Except.ok policy)
    (hrec : s.retrain_records_ a = some R)
    (hready : RetrainPolicy.ready_to_retrain policy R = Except.ok info)
    (hno : info.1 = false)
    (htimeout : RetrainPolicy.calc_timeout policy R = Except.ok timeout) :
    TriggerChecker.check_trigger s redis a arrival_time send_time cur_time =
      Except.ok (TriggerChecker.set_timeout s a arrival_time timeout) := by
  unfold TriggerChecker.check_trigger
  simp [hpol, check_trigger_by_func_false hrec hready hno, hrec, htimeout, bind, Except.bind]

theorem check_trigger_triggered {s : TriggerChecker} {redis : Redis} {a : String}
    {arrival_time send_time cur_time : Int} {policy : RetrainPolicy} {R : RetrainRecord}
    {info : RetrainInfo}
    (hpol : TriggerChecker.get_app_policy s a = Except.ok policy)
    (hrec : s.retrain_records_ a = some R)
    (hready : RetrainPolicy.ready_to_retrain policy R = Except.ok info)
    (hyes : info.1 = true) :
    TriggerChecker.check_trigger s redis a arrival_time send_time cur_time =
      TriggerChecker.trigger_retrain s a (window_request redis a R info.2.1 info.2.2)
        send_time cur_time := by
  unfold TriggerChecker.check_trigger
  simp only [hpol, check_trigger_by_func_true hrec hready hyes, bind, Except.bind]
  cases TriggerChecker.trigger_retrain s a _ send_time cur_time <;> rfl

/-- What a completed `check_trigger` did. -/
theorem check_trigger_ok {s s1 : TriggerChecker} {redis : Redis} {a : String}
    {arrival_time send_time cur_time : Int}
    (h : TriggerChecker.check_trigger s redis a arrival_time send_time cur_time =
      Except.ok s1) :
    ∃ policy R info, TriggerChecker.get_app_policy s a = Except.ok policy ∧
      s.retrain_records_ a = some R ∧
      RetrainPolicy.ready_to_retrain policy R = Except.ok info ∧
      ((info.1 = true ∧
        TriggerChecker.trigger_retrain s a (window_request redis a R info.2.1 info.2.2)
          send_time cur_time = Except.ok s1) ∨
       (info.1 = false ∧ ∃ timeout, RetrainPolicy.calc_timeout policy R = Except.ok timeout ∧
        s1 = TriggerChecker.set_timeout s a arrival_time timeout)) := by
  cases hpol : TriggerChecker.get_app_policy s a with
  | error f => simp [TriggerChecker.check_trigger, hpol, bind, Except.bind] at h
  | ok policy =>
    cases hrec : s.retrain_records_ a with
    | none =>
      simp [TriggerChecker.check_trigger, TriggerChecker.check_trigger_by_func, hpol, hrec,
        bind, Except.bind] at h
    | some R =>
      cases hready : RetrainPolicy.ready_to_retrain policy R with
      | error f =>
        simp [TriggerChecker.check_trigger, TriggerChecker.check_trigger_by_func, hpol, hrec,
          hready, bind, Except.bind] at h
      | ok info =>
        refine ⟨policy, R, info, rfl, rfl, hready, ?_⟩
        by_cases hyes : info.1 = true
        · left
          rw [check_trigger_triggered hpol hrec hready hyes] at h
          exact ⟨hyes, h⟩
        · right
          have hno : info.1 = false := by simpa using hyes
          cases ht : RetrainPolicy.calc_timeout policy R with
          | error f =>
            simp [TriggerChecker.check_trigger, check_trigger_by_func_false hrec hready hno,
              hpol, hrec, ht, bind, Except.bind] at h
          | ok timeout =>
            rw [check_trigger_not_triggered hpol hrec hready hno ht] at h
            exact ⟨hno, timeout, rfl, (Except.ok.inj h).symm⟩

theorem fire_timeout_match (s : TriggerChecker) (redis : Redis) (index : Nat)
    (send_time cur_time : Int) {t : PendingTimeout} {R : RetrainRecord}
    (ht : s.pending_timeouts_[index]? = some t)
    (hrec : s.retrain_records_ t.app_name = some R)
    (hla : R.last_arrival_ = t.last_arrival) (hfin : R.finished_ = true) :
    TriggerChecker.fire_timeout s redis index send_time cur_time =
      TriggerChecker.trigger_retrain
        { s with pending_timeouts_ := s.pending_timeouts_.eraseIdx index } t.app_name
        (window_request redis t.app_name R (R.data_to_ + 1) t.last_arrival)
        send_time cur_time := by
  unfold TriggerChecker.fire_timeout
  simp only [ht, TriggerChecker.timeout_closure, hrec, hla, hfin, and_self, if_true,
    TriggerChecker.after_timeout, window_request]

theorem fire_timeout_stale {s : TriggerChecker} {redis : Redis} {index : Nat}
    {send_time cur_time : Int} {t : PendingTimeout}
    (ht : s.pending_timeouts_[index]? = some t)
    (hstale : ∀ R, s.retrain_records_ t.app_name = some R →
      ¬ (R.last_arrival_ = t.last_arrival ∧ R.finished_ = true)) :
    TriggerChecker.fire_timeout s redis index send_time cur_time =
      Except.ok { s with pending_timeouts_ := s.pending_timeouts_.eraseIdx index } := by
  unfold TriggerChecker.fire_timeout
  cases hrec : s.retrain_records_ t.app_name with
  | none =>
    simp [ht, TriggerChecker.timeout_closure, hrec, TriggerChecker.after_timeout]
  | some R =>
    simp [ht, TriggerChecker.timeout_closure, hrec, hstale R hrec,
      TriggerChecker.after_timeout]

theorem set_timeout_positive (s : TriggerChecker) (a : String) (ts timeout : Int)
    (h : 0 < timeout) :
    TriggerChecker.set_timeout s a ts timeout =
      { s with
          pending_timeouts_ := s.pending_timeouts_ ++
            [{ app_name := a, last_arrival := ts, timeout := timeout }] } := by
  unfold TriggerChecker.set_timeout
  rw [if_pos h]

theorem set_timeout_nonpositive (s : TriggerChecker) (a : String) (ts timeout : Int)
    (h : timeout ≤ 0) : TriggerChecker.set_timeout s a ts timeout = s := by
  unfold TriggerChecker.set_timeout
  rw [if_neg (not_lt.mpr h)]

/-- C15: when `ready_to_retrain` does not trigger and `calc_timeout` returns `timeout`,
`check_trigger(app, ts)` arms a timer for `(app, ts)` when `timeout > 0` and changes
nothing when `timeout ≤ 0`.  When a pending timer for `(app, ts)` fires and the record of
the application has `last_arrival = ts` and `finished = true`, the firing is the dispatch
`trigger_retrain` of the window `(data_to + 1, ts)` (the record gets that window, and on an
active transport one request is appended to the outbound queue); when the record does not
satisfy both conditions, the firing changes nothing (the fired timer leaves the pending
list). -/
theorem check_trigger_timer (s : TriggerChecker) (redis : Redis) (send_time cur_time : Int) :
    (∀ app ts policy R info timeout,
      TriggerChecker.get_app_policy s app = Except.ok policy →
      s.retrain_records_ app = some R →
      RetrainPolicy.ready_to_retrain policy R = Except.ok info → info.1 = false →
      RetrainPolicy.calc_timeout policy R = Except.ok timeout →
        (0 < timeout →
          TriggerChecker.check_trigger s redis app ts send_time cur_time =
            Except.ok
              { s with
                  pending_timeouts_ := s.pending_timeouts_ ++
                    [{ app_name := app, last_arrival := ts, timeout := timeout }] }) ∧
        (timeout ≤ 0 →
          TriggerChecker.check_trigger s redis app ts send_time cur_time = Except.ok s)) ∧
    (∀ index t, s.pending_timeouts_[index]? = some t →
      (∀ R, s.retrain_records_ t.app_name = some R →
        R.last_arrival_ = t.last_arrival → R.finished_ = true →
          TriggerChecker.fire_timeout s redis index send_time cur_time =
            TriggerChecker.trigger_retrain
              { s with pending_timeouts_ := s.pending_timeouts_.eraseIdx index } t.app_name
              (window_request redis t.app_name R (R.data_to_ + 1) t.last_arrival)
              send_time cur_time ∧
          ∃ s1, TriggerChecker.fire_timeout s redis index send_time cur_time = Except.ok s1 ∧
            s1.retrain_records_ t.app_name =
              some { R with
                data_from_ := R.data_to_ + 1, data_to_ := t.last_arrival,
                training_batch_ :=
                  (cur_time,
                   (window_request redis t.app_name R (R.data_to_ + 1) t.last_arrival).data_size_),
                finished_ := false } ∧
            (s.rpc_.active_ = true →
              s1.rpc_.request_queue_ = s.rpc_.request_queue_ ++
                [{ zmq_connection_id := (s.zmq_connections t.app_name).getD 0,
                   id := s.rpc_.message_id_,
                   msg := window_request redis t.app_name R (R.data_to_ + 1) t.last_arrival,
                   time := send_time }])) ∧
      ((∀ R, s.retrain_records_ t.app_name = some R →
          ¬ (R.last_arrival_ = t.last_arrival ∧ R.finished_ = true)) →
        TriggerChecker.fire_timeout s redis index send_time cur_time =
          Except.ok { s with pending_timeouts_ := s.pending_timeouts_.eraseIdx index })) := by
  refine ⟨?_, ?_⟩
  · intro app ts policy R info timeout hpol hrec hready hno htimeout
    rw [check_trigger_not_triggered hpol hrec hready hno htimeout]
    exact ⟨fun h => by rw [set_timeout_positive _ _ _ _ h],
      fun h => by rw [set_timeout_nonpositive _ _ _ _ h]⟩
  · intro index t ht
    refine ⟨fun R hrec hla hfin => ?_, fun hstale => fire_timeout_stale ht hstale⟩
    have hfire := fire_timeout_match s redis index send_time cur_time ht hrec hla hfin
    refine ⟨hfire, ?_⟩
    rw [hfire, trigger_retrain_some
      { s with pending_timeouts_ := s.pending_timeouts_.eraseIdx index } t.app_name _ _ _ R hrec]
    refine ⟨_, rfl, assign_same _ _ _, fun hact => ?_⟩
    simp [RPCBackendService.send_message, hact]

unseal Rat.mul Rat.add Rat.sub Rat.inv in
theorem scenario4_ready :
    RetrainPolicy.ready_to_retrain RetrainPolicy.CostAware scenario4_record =
      Except.ok (false, 0, 0) := rfl

unseal Rat.mul Rat.add Rat.sub Rat.inv in
theorem scenario4_calc_timeout :
    RetrainPolicy.calc_timeout RetrainPolicy.CostAware scenario4_record = Except.ok 949 :=
  rfl

/-- C15 on Scenario 4 under the cost-aware policy: no trigger, `calc_timeout = 949`, so a
timer is armed for `(app, 1000000)`; fired with the record unchanged it dispatches the
window `(1, 1000000)`; a timer armed for the arrival at `500000` fires without effect. -/
theorem check_trigger_timer_witness :
    TriggerChecker.check_trigger cost_aware_state (demo_redis "CostAwarePolicy" 1 1000) "app"
        1000000 1000010 1000010 =
      Except.ok
        { cost_aware_state with
            pending_timeouts_ := [{ app_name := "app", last_arrival := 1000000, timeout := 949 }] } ∧
    (∃ s1,
      TriggerChecker.fire_timeout
        { cost_aware_state with
            pending_timeouts_ := [{ app_name := "app", last_arrival := 1000000, timeout := 949 }] }
        (demo_redis "CostAwarePolicy" 1 1000) 0 1949010 1949010 = Except.ok s1 ∧
      s1.rpc_.request_queue_ =
        [{ zmq_connection_id := 0, id := 0,
           msg := { data_from_ := 1, data_to_ := 1000000, batch_ids_ := [], data_size_ := 10 },
           time := 1949010 }]) ∧
    TriggerChecker.fire_timeout
        { cost_aware_state with
            pending_timeouts_ := [{ app_name := "app", last_arrival := 500000, timeout := 949 }] }
        (demo_redis "CostAwarePolicy" 1 1000) 0 1949010 1949010 = Except.ok cost_aware_state := by
  refine ⟨?_, ?_, ?_⟩
  · exact ((check_trigger_timer cost_aware_state (demo_redis "CostAwarePolicy" 1 1000)
      1000010 1000010).1 "app" 1000000 RetrainPolicy.CostAware scenario4_record (false, 0, 0)
      949 rfl rfl scenario4_ready rfl scenario4_calc_timeout).1 (by decide)
  · obtain ⟨s1, h1, -, h3⟩ :=
      (((check_trigger_timer
        { cost_aware_state with
            pending_timeouts_ := [{ app_name := "app", last_arrival := 1000000, timeout := 949 }] }
        (demo_redis "CostAwarePolicy" 1 1000) 1949010 1949010).2 0
        { app_name := "app", last_arrival := 1000000, timeout := 949 } rfl).1
        scenario4_record rfl rfl rfl).2
    exact ⟨s1, h1, (h3 rfl).trans rfl⟩
  · exact ((check_trigger_timer
        { cost_aware_state with
            pending_timeouts_ := [{ app_name := "app", last_arrival := 500000, timeout := 949 }] }
        (demo_redis "CostAwarePolicy" 1 1000) 1949010 1949010).2 0
        { app_name := "app", last_arrival := 500000, timeout := 949 } rfl).2
        (fun R hR => by
          have hR1 : scenario4_record = R := Option.some.inj hR
          rw [← hR1]
          decide)

/-! ## Repeated data arrivals -/

theorem batch_frame_refl (s : TriggerChecker) : BatchFrame s s :=
  ⟨rfl, fun _ R h => ⟨R, h, rfl, rfl, rfl, rfl⟩⟩

theorem trigger_retrain_batch_frame {s s1 : TriggerChecker} {a : String} {req : RetrainRequest}
    {send_time cur_time : Int}
    (h : TriggerChecker.trigger_retrain s a req send_time cur_time = Except.ok s1) :
    BatchFrame s s1 := by
  cases hrec : s.retrain_records_ a with
  | none =>
    rw [trigger_retrain_none s a req send_time cur_time hrec] at h
    cases h
  | some R =>
    rw [trigger_retrain_some s a req send_time cur_time R hrec] at h
    have hs1 := (Except.ok.inj h).symm
    subst hs1
    refine ⟨rfl, fun b Rb hRb => ?_⟩
    by_cases hb : b = a
    · subst hb
      have hRR : R = Rb := Option.some.inj (hrec.symm.trans hRb)
      subst hRR
      exact ⟨_, assign_same _ _ _, rfl, rfl, rfl, rfl⟩
    · exact ⟨Rb, (assign_other _ _ _ _ hb).trans hRb, rfl, rfl, rfl, rfl⟩

theorem set_timeout_batch_frame (s : TriggerChecker) (a : String) (ts timeout : Int) :
    BatchFrame s (TriggerChecker.set_timeout s a ts timeout) := by
  unfold TriggerChecker.set_timeout
  split_ifs
  · exact ⟨rfl, fun _ R h => ⟨R, h, rfl, rfl, rfl, rfl⟩⟩
  · exact batch_frame_refl s

theorem check_trigger_batch_frame {s s1 : TriggerChecker} {redis : Redis} {a : String}
    {arrival_time send_time cur_time : Int}
    (h : TriggerChecker.check_trigger s redis a arrival_time send_time cur_time =
      Except.ok s1) : BatchFrame s s1 := by
  obtain ⟨policy, R, info, -, -, -, h | h⟩ := check_trigger_ok h
  · exact trigger_retrain_batch_frame h.2
  · obtain ⟨-, timeout, -, hs1⟩ := h
    rw [hs1]
    exact set_timeout_batch_frame s a arrival_time timeout

theorem ready_to_retrain_defined {policy : RetrainPolicy} {R : RetrainRecord}
    (h : PolicyDefined policy R) :
    ∃ info, RetrainPolicy.ready_to_retrain policy R = Except.ok info := by
  cases policy with
  | CostAware => exact absurd rfl h.1
  | Manual => exact ⟨_, rfl⟩
  | NaiveBestEffort => exact ⟨_, rfl⟩
  | SpeculativeBestEffort =>
    obtain ⟨alpha, beta, ha, hb⟩ := h.2 rfl
    simp only [RetrainPolicy.ready_to_retrain, SpeculativeBestEffortPolicy.ready_to_retrain,
      ha, hb, finite, bind, Except.bind]
    split_ifs <;> exact ⟨_, rfl⟩

theorem check_trigger_defined {s : TriggerChecker} (redis : Redis) {a : String}
    (arrival_time send_time cur_time : Int) {policy : RetrainPolicy} {R : RetrainRecord}
    (hpol : TriggerChecker.get_app_policy s a = Except.ok policy)
    (hrec : s.retrain_records_ a = some R) (hdef : PolicyDefined policy R) :
    ∃ s1, TriggerChecker.check_trigger s redis a arrival_time send_time cur_time =
      Except.ok s1 := by
  obtain ⟨info, hready⟩ := ready_to_retrain_defined hdef
  by_cases hyes : info.1 = true
  · rw [check_trigger_triggered hpol hrec hready hyes, trigger_retrain_some s a _ _ _ R hrec]
    exact ⟨_, rfl⟩
  · have hno : info.1 = false := by simpa using hyes
    rw [check_trigger_not_triggered hpol hrec hready hno (calc_timeout_zero R hdef.1)]
    exact ⟨_, rfl⟩

theorem report_data_arrival_existing (s : TriggerChecker) (redis : Redis) (a : String)
    (ts size send_time cur_time : Int) {R : RetrainRecord}
    (hrec : s.retrain_records_ a = some R) :
    TriggerChecker.report_data_arrival s redis a ts size send_time cur_time =
      (TriggerChecker.check_trigger
        { s with
            retrain_records_ := assign s.retrain_records_ a
              { R with batches_ := R.batches_ ++ [(ts, size)], last_arrival_ := ts } }
        redis a ts send_time cur_time).map (fun s2 => (s2, true)) := by
  unfold TriggerChecker.report_data_arrival
  simp only [hrec, bind, Except.bind]
  cases TriggerChecker.check_trigger _ redis a ts send_time cur_time <;> rfl

/-- One `ReportDataArrival` for an application with a record, when the handler completes:
the promise gets `true`, the batch is appended, nothing else of the batches changes. -/
theorem report_data_arrival_append {s : TriggerChecker} {redis : Redis} {a : String}
    {ts size send_time cur_time : Int} {R : RetrainRecord} {out : TriggerChecker × Bool}
    (hrec : s.retrain_records_ a = some R)
    (h : TriggerChecker.report_data_arrival s redis a ts size send_time cur_time =
      Except.ok out) :
    out.2 = true ∧ out.1.app_policies_ = s.app_policies_ ∧
    ∃ R1, out.1.retrain_records_ a = some R1 ∧ R1.batches_ = R.batches_ ++ [(ts, size)] ∧
      R1.last_arrival_ = ts ∧ R1.alpha_ = R.alpha_ ∧ R1.beta_ = R.beta_ := by
  rw [report_data_arrival_existing s redis a ts size send_time cur_time hrec] at h
  cases hc : TriggerChecker.check_trigger
      { s with
          retrain_records_ := assign s.retrain_records_ a
            { R with batches_ := R.batches_ ++ [(ts, size)], last_arrival_ := ts } }
      redis a ts send_time cur_time with
  | error f =>
    rw [hc] at h
    cases h
  | ok s2 =>
    rw [hc] at h
    have hout := (Except.ok.inj h).symm
    subst hout
    obtain ⟨hpol, hframe⟩ := check_trigger_batch_frame hc
    obtain ⟨R1, h1, h2, h3, h4, h5⟩ := hframe a _ (assign_same _ _ _)
    exact ⟨rfl, hpol, R1, h1, h2, h3, h4, h5⟩

theorem report_data_arrival_defined {s : TriggerChecker} (redis : Redis) {a : String}
    (ts size send_time cur_time : Int) {policy : RetrainPolicy} {R : RetrainRecord}
    (hpol : TriggerChecker.get_app_policy s a = Except.ok policy)
    (hrec : s.retrain_records_ a = some R) (hdef : PolicyDefined policy R) :
    ∃ out, TriggerChecker.report_data_arrival s redis a ts size send_time cur_time =
      Except.ok out := by
  rw [report_data_arrival_existing s redis a ts size send_time cur_time hrec]
  have hpol1 : TriggerChecker.get_app_policy
      { s with
          retrain_records_ := assign s.retrain_records_ a
            { R with batches_ := R.batches_ ++ [(ts, size)], last_arrival_ := ts } } a =
      Except.ok policy := hpol
  obtain ⟨s1, hs1⟩ := check_trigger_defined redis ts send_time cur_time hpol1
    (assign_same _ _ _) ⟨hdef.1, hdef.2⟩
  rw [hs1]
  exact ⟨_, rfl⟩

/-- C16: for an application with a record, when two `ReportDataArrival(app, ts, size)`
handled in a row complete, both promises get `true`, the batches of the record are the
previous ones followed by `(ts, size), (ts, size)` and `last_arrival = ts`; the two
handlers do complete when the policy evaluation is defined on the record (any policy but
the cost-aware one, the speculative one with finite cost parameters).  For an application
with no record and no backend link the handler gives `true` and returns the state as it
was. -/
theorem report_data_arrival_twice (s : TriggerChecker) (redis redis1 : Redis) (app : String)
    (ts size send_time cur_time send_time1 cur_time1 : Int) :
    (∀ R, s.retrain_records_ app = some R →
      (∀ out out1,
        TriggerChecker.report_data_arrival s redis app ts size send_time cur_time =
          Except.ok out →
        TriggerChecker.report_data_arrival out.1 redis1 app ts size send_time1 cur_time1 =
          Except.ok out1 →
        out.2 = true ∧ out1.2 = true ∧
        ∃ R2, out1.1.retrain_records_ app = some R2 ∧
          R2.batches_ = R.batches_ ++ [(ts, size), (ts, size)] ∧ R2.last_arrival_ = ts) ∧
      (∀ policy, TriggerChecker.get_app_policy s app = Except.ok policy →
        PolicyDefined policy R →
        ∃ out out1,
          TriggerChecker.report_data_arrival s redis app ts size send_time cur_time =
            Except.ok out ∧
          TriggerChecker.report_data_arrival out.1 redis1 app ts size send_time1 cur_time1 =
            Except.ok out1)) ∧
    (s.retrain_records_ app = none → redis.get_backend_link app = "" →
      TriggerChecker.report_data_arrival s redis app ts size send_time cur_time =
        Except.ok (s, true)) := by
  refine ⟨fun R hrec => ⟨fun out out1 h h1 => ?_, fun policy hpol hdef => ?_⟩,
    fun hrec hlink => ?_⟩
  · obtain ⟨hp, -, R1, hR1, hb1, -, -, -⟩ := report_data_arrival_append hrec h
    obtain ⟨hp1, -, R2, hR2, hb2, hl2, -, -⟩ := report_data_arrival_append hR1 h1
    refine ⟨hp, hp1, R2, hR2, ?_, hl2⟩
    rw [hb2, hb1, List.append_assoc]
    rfl
  · obtain ⟨out, h⟩ := report_data_arrival_defined redis ts size send_time cur_time hpol hrec hdef
    obtain ⟨-, hpols, R1, hR1, -, -, ha, hb⟩ := report_data_arrival_append hrec h
    have hpol1 : TriggerChecker.get_app_policy out.1 app = Except.ok policy := by
      rw [get_app_policy_congr hpols]
      exact hpol
    have hdef1 : PolicyDefined policy R1 := by
      refine ⟨hdef.1, fun hs => ?_⟩
      obtain ⟨alpha, beta, h3, h4⟩ := hdef.2 hs
      exact ⟨alpha, beta, ha.trans h3, hb.trans h4⟩
    obtain ⟨out1, h1⟩ :=
      report_data_arrival_defined redis1 ts size send_time1 cur_time1 hpol1 hR1 hdef1
    exact ⟨out, out1, h, h1⟩
  · unfold TriggerChecker.report_data_arrival
    simp [hrec, hlink]

/-- C16 after the two arrivals of Scenario 2 (Naive policy, message 0 in flight): two
arrivals `(3000000, 2)` in a row leave the batches
`(1000000, 5), (2000000, 3), (3000000, 2), (3000000, 2)`; an arrival for an application
without backend link leaves the initial state as it is. -/
theorem report_data_arrival_twice_witness :
    (∃ out out1,
      TriggerChecker.report_data_arrival naive_chain_state
        (demo_redis "NaiveBestEffortPolicy" 1 1) "app" 3000000 2 3000010 3000010 =
        Except.ok out ∧
      TriggerChecker.report_data_arrival out.1
        (demo_redis "NaiveBestEffortPolicy" 1 1) "app" 3000000 2 3000020 3000020 =
        Except.ok out1 ∧
      out.2 = true ∧ out1.2 = true ∧
      ∃ R2, out1.1.retrain_records_ "app" = some R2 ∧
        R2.batches_ = [(1000000, 5), (2000000, 3), (3000000, 2), (3000000, 2)] ∧
        R2.last_arrival_ = 3000000) ∧
    TriggerChecker.report_data_arrival TriggerChecker.initial
      (demo_redis "NaiveBestEffortPolicy" 1 1) "other" 1000000 5 1000010 1000010 =
      Except.ok (TriggerChecker.initial, true) := by
  have hrec : naive_chain_state.retrain_records_ "app" = some naive_chain_record := by
    simp [naive_chain_state, assign]
  have hpol : TriggerChecker.get_app_policy naive_chain_state "app" =
      Except.ok RetrainPolicy.NaiveBestEffort := rfl
  have hdef : PolicyDefined RetrainPolicy.NaiveBestEffort naive_chain_record :=
    ⟨by decide, fun h => by cases h⟩
  constructor
  · obtain ⟨out, out1, h, h1⟩ :=
      ((report_data_arrival_twice naive_chain_state (demo_redis "NaiveBestEffortPolicy" 1 1)
        (demo_redis "NaiveBestEffortPolicy" 1 1) "app" 3000000 2 3000010 3000010 3000020
        3000020).1 naive_chain_record hrec).2 RetrainPolicy.NaiveBestEffort hpol hdef
    exact ⟨out, out1, h, h1,
      ((report_data_arrival_twice naive_chain_state (demo_redis "NaiveBestEffortPolicy" 1 1)
        (demo_redis "NaiveBestEffortPolicy" 1 1) "app" 3000000 2 3000010 3000010 3000020
        3000020).1 naive_chain_record hrec).1 out out1 h h1⟩
  · exact (report_data_arrival_twice TriggerChecker.initial
      (demo_redis "NaiveBestEffortPolicy" 1 1) (demo_redis "NaiveBestEffortPolicy" 1 1)
      "other" 1000000 5 1000010 1000010 1000010 1000010).2 rfl (by decide)

/-! ## The promise of ReportRetrainEnd -/

unseal Rat.mul Rat.add Rat.sub Rat.inv in
/-- C17 at a failing input: under the speculative policy (Scenario 3 with `beta = 20000`)
messages 0 and 1 are dispatched, message 1 linked to message 0; `ReportRetrainEnd(1)`
removes both from the inflight map.  When the end of message 0 is reported afterwards,
`report_retrain_end` returns the state as it is and gives no value to the promise, where
`report_retrain_begin` gives `true` for the same absent id; for a message that is present
(message 0 after the two arrivals of Scenario 2) the promise gets `true`. -/
theorem report_retrain_end_absent_promise :
    ∃ s,
      TriggerChecker.run TriggerChecker.initial
        [speculative_first_arrival, speculative_second_arrival, speculative_second_end] =
        Except.ok s ∧
      s.inflight_messages_ = [] ∧
      InflightMessages.find s.inflight_messages_ 0 = none ∧
      TriggerChecker.report_retrain_end s
        (demo_redis "SpeculativeBestEffortPolicy" (1 / 1000) 20000) 0
        5000000 5000000 5000000 = Except.ok (s, none) ∧
      TriggerChecker.report_retrain_begin s 0 = (s, true) ∧
      (TriggerChecker.report_retrain_end naive_chain_state
        (demo_redis "NaiveBestEffortPolicy" 1 1) 0 3000000 3000000 3000000).map Prod.snd =
        Except.ok (some true) :=
  ⟨_, rfl, rfl, rfl, rfl, rfl, rfl⟩

/-! ## The Manual policy -/

theorem check_trigger_manual {s s1 : TriggerChecker} {redis : Redis} {a : String}
    {arrival_time send_time cur_time : Int}
    (h : TriggerChecker.check_trigger s redis a arrival_time send_time cur_time =
      Except.ok s1)
    (hpol : TriggerChecker.get_app_policy s a = Except.ok RetrainPolicy.Manual) : s1 = s := by
  obtain ⟨policy, R, info, hp, -, hready, h | h⟩ := check_trigger_ok h
  · have hm : policy = RetrainPolicy.Manual := get_app_policy_inj hp hpol
    subst hm
    have hi : info = (false, 0, 0) := (Except.ok.inj hready).symm
    rw [hi] at h
    exact absurd h.1 (by decide)
  · obtain ⟨-, timeout, ht, hs1⟩ := h
    have hm : policy = RetrainPolicy.Manual := get_app_policy_inj hp hpol
    subst hm
    have h0 : timeout = 0 := (Except.ok.inj ht).symm
    rw [hs1, h0]
    rfl

theorem erase_subset (m : InflightMessages) (k : Int) :
    ∀ p ∈ InflightMessages.erase m k, p ∈ m := by
  intro p hp
  exact (List.mem_filter.mp hp).1

theorem erase_links_subset (fuel : Nat) (m m1 : InflightMessages) (next_msg : Int)
    (h : TriggerChecker.erase_links fuel m next_msg = Except.ok m1) :
    ∀ p ∈ m1, p ∈ m := by
  induction fuel generalizing m next_msg with
  | zero =>
    unfold TriggerChecker.erase_links at h
    split_ifs at h
    rw [← Except.ok.inj h]
    exact fun p hp => hp
  | succ n ih =>
    unfold TriggerChecker.erase_links at h
    split_ifs at h with hn
    · cases hfind : InflightMessages.find m next_msg with
      | none => simp [hfind] at h
      | some msg =>
        simp only [hfind] at h
        exact fun p hp => erase_subset m next_msg p (ih _ _ h p hp)
    · rw [← Except.ok.inj h]
      exact fun p hp => hp

theorem update_retrain_records_rest {s s1 : TriggerChecker} {a : String} {cur_time : Int}
    (h : TriggerChecker.update_retrain_records s a cur_time = Except.ok s1) :
    s1.rpc_ = s.rpc_ ∧ s1.pending_timeouts_ = s.pending_timeouts_ ∧
    s1.inflight_messages_ = s.inflight_messages_ ∧ s1.app_policies_ = s.app_policies_ := by
  cases hrec : s.retrain_records_ a with
  | none =>
    rw [update_retrain_records_none hrec] at h
    rw [← Except.ok.inj h]
    exact ⟨rfl, rfl, rfl, rfl⟩
  | some R =>
    obtain ⟨profiler, sampled, -, -, hs1⟩ := update_retrain_records_ok hrec h
    rw [hs1]
    exact ⟨rfl, rfl, rfl, rfl⟩

/-- C18: `ManualPolicy.ready_to_retrain` and `ManualPolicy.on_retrain_finished` return
`(false, 0, 0)` and `ManualPolicy.calc_timeout` returns `0` on every record; a
`ReportDataArrival` for an application whose policy is Manual once the handler has run
(set by this handler on a first arrival, unchanged otherwise), and a `ReportRetrainEnd`
for a message of an application whose policy is Manual (or for an absent message), hand
no request to the transport, arm no timer and add no inflight message. -/
theorem manual_policy_no_dispatch (R : RetrainRecord) (s s1 : TriggerChecker) (env : Env) :
    ManualPolicy.ready_to_retrain R = (false, 0, 0) ∧
    ManualPolicy.on_retrain_finished R = (false, 0, 0) ∧
    ManualPolicy.calc_timeout R = 0 ∧
    (∀ app ts size,
      TriggerChecker.handle s env (Event.ReportDataArrival app ts size) = Except.ok s1 →
      TriggerChecker.get_app_policy s1 app = Except.ok RetrainPolicy.Manual →
      NoDispatch s s1) ∧
    (∀ msg_id,
      TriggerChecker.handle s env (Event.ReportRetrainEnd msg_id) = Except.ok s1 →
      (∀ msg, InflightMessages.find s.inflight_messages_ msg_id = some msg →
        TriggerChecker.get_app_policy s msg.app_name_ = Except.ok RetrainPolicy.Manual) →
      NoDispatch s s1) := by
  refine ⟨rfl, rfl, rfl, ?_, ?_⟩
  · intro app ts size h hpol
    obtain ⟨out, hout, hs1⟩ := map_fst_eq_ok h
    subst hs1
    cases hrec : s.retrain_records_ app with
    | some R0 =>
      rw [report_data_arrival_existing s env.redis app ts size _ _ hrec] at hout
      cases hc : TriggerChecker.check_trigger
          { s with
              retrain_records_ := assign s.retrain_records_ app
                { R0 with batches_ := R0.batches_ ++ [(ts, size)], last_arrival_ := ts } }
          env.redis app ts env.send_time env.dispatch_time with
      | error f =>
        rw [hc] at hout
        cases hout
      | ok s2 =>
        rw [hc] at hout
        have ho := (Except.ok.inj hout).symm
        subst ho
        have hp2 := (get_app_policy_congr (check_trigger_batch_frame hc).1 app).symm.trans hpol
        rw [check_trigger_manual hc hp2]
        exact ⟨rfl, rfl, fun p hp => hp⟩
    | none =>
      unfold TriggerChecker.report_data_arrival at hout
      simp only [hrec] at hout
      split_ifs at hout with hlink
      · rw [← Except.ok.inj hout]
        exact ⟨rfl, rfl, fun p hp => hp⟩
      · cases hb : env.redis.get_backend (env.redis.get_backend_link app) with
        | none => simp [hb] at hout
        | some backend =>
          simp only [hb, bind_eq_ok] at hout
          obtain ⟨s3, hc, hout⟩ := hout
          have ho := (Except.ok.inj hout).symm
          subst ho
          have hp2 := (get_app_policy_congr (check_trigger_batch_frame hc).1 app).symm.trans
            hpol
          rw [check_trigger_manual hc hp2]
          obtain ⟨-, h2, h3, h4⟩ := set_app_policy_frame
            { s with
                retrain_records_ := assign s.retrain_records_ app
                  { RetrainRecord.mk_new ts backend.alpha backend.beta backend.weight with
                      batches_ := [(ts, size)] },
                runtime_profilers_ :=
                  match s.runtime_profilers_ app with
                  | some _ => s.runtime_profilers_
                  | none => assign s.runtime_profilers_ app
                      (RuntimeProfiler.mk_new backend.alpha backend.beta) }
            app backend.policy
          exact ⟨h4, h2, fun p hp => Eq.mp (congrArg (fun l => p ∈ l) h3) hp⟩
  · intro msg_id h hpol
    obtain ⟨out, hout, hs1⟩ := map_fst_eq_ok h
    subst hs1
    cases hfind : InflightMessages.find s.inflight_messages_ msg_id with
    | none =>
      unfold TriggerChecker.report_retrain_end at hout
      simp only [hfind] at hout
      rw [← Except.ok.inj hout]
      exact ⟨rfl, rfl, fun p hp => hp⟩
    | some msg =>
      obtain ⟨erased, s2, policy, checked, h1, h2, h3, h4, h5⟩ :=
        report_retrain_end_ok hfind hout
      subst h5
      obtain ⟨hr, hpd, hin, hap⟩ := update_retrain_records_rest h2
      have hm : policy = RetrainPolicy.Manual :=
        get_app_policy_inj h3 ((get_app_policy_congr hap msg.app_name_).trans (hpol msg hfind))
      subst hm
      obtain ⟨R0, info, -, hinfo, hc | hc⟩ := check_trigger_by_func_ok h4
      · rw [hc.2]
        refine ⟨hr, hpd, fun p hp => ?_⟩
        rw [hin] at hp
        exact erase_subset _ _ p (erase_links_subset _ _ _ _ h1 p hp)
      · have hi : info = (false, 0, 0) := (Except.ok.inj hinfo).symm
        rw [hi] at hc
        exact absurd hc.1 (by decide)

/-- C18 under the Manual policy: the first arrival of an application dispatches nothing;
after the arrival and a `ManualTrigger` one request is in the outbound queue, and the
end of that retrain dispatches nothing. -/
theorem manual_policy_no_dispatch_witness :
    (∃ s1,
      TriggerChecker.handle TriggerChecker.initial (demo_env "ManualPolicy" 1 1 1000010)
        (Event.ReportDataArrival "app" 1000000 1000) = Except.ok s1 ∧
      TriggerChecker.get_app_policy s1 "app" = Except.ok RetrainPolicy.Manual ∧
      NoDispatch TriggerChecker.initial s1) ∧
    (∃ s s1,
      TriggerChecker.run TriggerChecker.initial manual_trace = Except.ok s ∧
      s.rpc_.request_queue_.length = 1 ∧
      TriggerChecker.handle s (demo_env "ManualPolicy" 1 1 3000000) (Event.ReportRetrainEnd 0) =
        Except.ok s1 ∧
      NoDispatch s s1) :=
  ⟨⟨_, rfl, rfl,
      (manual_policy_no_dispatch manual_record TriggerChecker.initial _
        (demo_env "ManualPolicy" 1 1 1000010)).2.2.2.1 "app" 1000000 1000 rfl rfl⟩,
    ⟨_, _, rfl, rfl, rfl,
      (manual_policy_no_dispatch manual_record _ _
        (demo_env "ManualPolicy" 1 1 3000000)).2.2.2.2 0 rfl
        (fun msg hm => by cases hm; rfl)⟩⟩

/-! ## The Naive chain of Scenarios 1 and 2 -/

theorem report_retrain_end_dispatch {s : TriggerChecker} (redis : Redis) {msg_id : Int}
    (cur_time send_time dispatch_time : Int) {msg : InflightRetrainMessage}
    {erased : InflightMessages} {s2 : TriggerChecker} {policy : RetrainPolicy}
    {R : RetrainRecord} {info : RetrainInfo}
    (hfind : InflightMessages.find s.inflight_messages_ msg_id = some msg)
    (herase : TriggerChecker.erase_links (s.inflight_messages_.length + 1)
      (InflightMessages.erase s.inflight_messages_ msg_id) msg.msg_link_ = Except.ok erased)
    (hupd : TriggerChecker.update_retrain_records { s with inflight_messages_ := erased }
      msg.app_name_ cur_time = Except.ok s2)
    (hpol : TriggerChecker.get_app_policy s2 msg.app_name_ = Except.ok policy)
    (hrec : s2.retrain_records_ msg.app_name_ = some R)
    (hfin : RetrainPolicy.on_retrain_finished policy R = Except.ok info)
    (hyes : info.1 = true) :
    TriggerChecker.report_retrain_end s redis msg_id cur_time send_time dispatch_time =
      (TriggerChecker.trigger_retrain s2 msg.app_name_
        (window_request redis msg.app_name_ R info.2.1 info.2.2) send_time dispatch_time).map
        (fun s3 => (s3, some true)) := by
  unfold TriggerChecker.report_retrain_end
  simp only [hfind, herase, hupd, hpol, check_trigger_by_func_true hrec hfin hyes, bind,
    Except.bind]
  cases TriggerChecker.trigger_retrain s2 msg.app_name_ _ send_time dispatch_time <;> rfl

theorem naive_on_retrain_finished_trigger {R : RetrainRecord} (hfin : R.finished_ = true)
    (hla : R.last_arrival_ > R.training_batch_.1) :
    RetrainPolicy.on_retrain_finished RetrainPolicy.NaiveBestEffort R =
      Except.ok (true, R.data_to_ + 1, R.last_arrival_) :=
  congrArg Except.ok (if_pos ⟨hfin, hla⟩)

theorem handle_report_retrain_end {s : TriggerChecker} {env : Env} {msg_id : Int}
    {out : TriggerChecker × Option Bool}
    (h : TriggerChecker.report_retrain_end s env.redis msg_id env.cur_time env.send_time
      env.dispatch_time = Except.ok out) :
    TriggerChecker.handle s env (Event.ReportRetrainEnd msg_id) = Except.ok out.1 := by
  simp only [TriggerChecker.handle, h]
  rfl

theorem naive_late_dispatch_legal : LegalTrace 0 naive_late_dispatch := by
  simp [LegalTrace, naive_late_dispatch, demo_env, arrival_ok, next_mark]

/-- C19, as stated, fails: with the first arrival handled when the clock reads `2500000`
(a legal trace: the clock is not earlier than the arrivals) the first retrain is dispatched
with dispatch time `2500000`; at `ReportRetrainEnd(0)` the record has
`last_arrival = 2000000`, not after the dispatch time, and nothing is dispatched: the
outbound queue holds one request and the record is finished, with the batch
`(2000000, 3)` waiting. -/
theorem naive_chain_clock_counterexample :
    LegalTrace 0 naive_late_dispatch ∧
    observe_requests (TriggerChecker.run TriggerChecker.initial naive_late_dispatch) =
      some [{ zmq_connection_id := 0, id := 0,
              msg := { data_from_ := 1, data_to_ := 1000000, batch_ids_ := [],
                       data_size_ := 5 },
              time := 2500000 }] ∧
    observe_record (TriggerChecker.run TriggerChecker.initial naive_late_dispatch) "app" =
      some (true, 1, 1000000, 2000000, (2500000, 5), [(2000000, 3)]) :=
  ⟨naive_late_dispatch_legal, rfl, rfl⟩

/-- C19, amended: under the Naive policy (`alpha = 1`, `beta = 1`, `weight = 10`), from
the initial state, whatever the clock reads in the three handlers, provided the first
dispatch reads a time `d1 < 2000000`: the first arrival dispatches
`(data_from = 1, data_to = 1000000, data_size = 5)` and leaves `finished = false` and
`training_batch = (d1, 5)`; the second arrival dispatches nothing; `ReportRetrainEnd(0)`
prunes the batch `(1000000, 5)` and dispatches
`(data_from = 1000001, data_to = 2000000, data_size = 3)`; the outbound queue then holds
exactly these two requests. -/
theorem naive_chain_dispatches (c1 t1 d1 c2 t2 d2 c3 t3 d3 : Int) (hd : d1 < 2000000) :
    ∃ s1 s2 s3,
      TriggerChecker.handle TriggerChecker.initial
        (clock_env "NaiveBestEffortPolicy" 1 1 c1 t1 d1)
        (Event.ReportDataArrival "app" 1000000 5) = Except.ok s1 ∧
      TriggerChecker.handle s1 (clock_env "NaiveBestEffortPolicy" 1 1 c2 t2 d2)
        (Event.ReportDataArrival "app" 2000000 3) = Except.ok s2 ∧
      TriggerChecker.handle s2 (clock_env "NaiveBestEffortPolicy" 1 1 c3 t3 d3)
        (Event.ReportRetrainEnd 0) = Except.ok s3 ∧
      s1.rpc_.request_queue_ =
        [{ zmq_connection_id := 0, id := 0,
           msg := { data_from_ := 1, data_to_ := 1000000, batch_ids_ := [], data_size_ := 5 },
           time := t1 }] ∧
      observe_record (Except.ok s1) "app" =
        some (false, 1, 1000000, 1000000, (d1, 5), [(1000000, 5)]) ∧
      s2.rpc_.request_queue_ = s1.rpc_.request_queue_ ∧
      observe_record (Except.ok s2) "app" =
        some (false, 1, 1000000, 2000000, (d1, 5), [(1000000, 5), (2000000, 3)]) ∧
      s3.rpc_.request_queue_ =
        [{ zmq_connection_id := 0, id := 0,
           msg := { data_from_ := 1, data_to_ := 1000000, batch_ids_ := [], data_size_ := 5 },
           time := t1 },
         { zmq_connection_id := 0, id := 1,
           msg := { data_from_ := 1000001, data_to_ := 2000000, batch_ids_ := [],
                    data_size_ := 3 },
           time := t3 }] ∧
      observe_record (Except.ok s3) "app" =
        some (false, 1000001, 2000000, 2000000, (d3, 3), [(2000000, 3)]) :=
  ⟨_, _, _, rfl, rfl,
    handle_report_retrain_end
      (Eq.trans (report_retrain_end_dispatch _ _ _ _ rfl rfl rfl rfl rfl
        (naive_on_retrain_finished_trigger rfl hd) rfl) rfl),
    rfl, rfl, rfl, rfl, rfl, rfl⟩

/-- C19 amended, with the clock reading `1000010`, `2000010` and `3000000` in the three
handlers. -/
theorem naive_chain_dispatches_witness :
    (1000010 : Int) < 2000000 ∧
    ∃ s,
      TriggerChecker.run TriggerChecker.initial (naive_two_arrivals ++ [naive_first_end]) =
        Except.ok s ∧
      s.rpc_.request_queue_ =
        [{ zmq_connection_id := 0, id := 0,
           msg := { data_from_ := 1, data_to_ := 1000000, batch_ids_ := [], data_size_ := 5 },
           time := 1000010 },
         { zmq_connection_id := 0, id := 1,
           msg := { data_from_ := 1000001, data_to_ := 2000000, batch_ids_ := [],
                    data_size_ := 3 },
           time := 3000000 }] := by
  refine ⟨by decide, ?_⟩
  obtain ⟨s1, s2, s3, h1, h2, h3, -, -, -, -, h8, -⟩ :=
    naive_chain_dispatches 1000010 1000010 1000010 2000010 2000010 2000010 3000000 3000000
      3000000 (by decide)
  refine ⟨s3, ?_, h8⟩
  have e1 : TriggerChecker.handle TriggerChecker.initial
      (demo_env "NaiveBestEffortPolicy" 1 1 1000010)
      (Event.ReportDataArrival "app" 1000000 5) = Except.ok s1 := h1
  have e2 : TriggerChecker.handle s1 (demo_env "NaiveBestEffortPolicy" 1 1 2000010)
      (Event.ReportDataArrival "app" 2000000 3) = Except.ok s2 := h2
  have e3 : TriggerChecker.handle s2 (demo_env "NaiveBestEffortPolicy" 1 1 3000000)
      (Event.ReportRetrainEnd 0) = Except.ok s3 := h3
  simp only [naive_two_arrivals, naive_first_end, List.cons_append, List.nil_append,
    TriggerChecker.run, e1, e2, e3]

/-! ## The effect of trigger_retrain -/

theorem find_link_foldl (m : InflightMessages) (app : String) (acc : Int × Int) :
    let r := m.foldl
      (fun acc p =>
        if p.2.app_name_ = app then
          if p.2.send_time_ > acc.2 then (p.1, p.2.send_time_) else acc
        else acc) acc
    acc.2 ≤ r.2 ∧ (∀ p ∈ m, p.2.app_name_ = app → p.2.send_time_ ≤ r.2) ∧
    (r = acc ∨ ∃ p ∈ m, p.2.app_name_ = app ∧ p.1 = r.1 ∧ p.2.send_time_ = r.2 ∧ acc.2 < r.2) := by
  induction m generalizing acc with
  | nil => exact ⟨le_refl _, fun p hp => absurd hp (List.not_mem_nil p), Or.inl rfl⟩
  | cons q rest ih =>
    simp only [List.foldl_cons]
    by_cases hq : q.2.app_name_ = app
    · by_cases ht : q.2.send_time_ > acc.2
      · simp only [hq, ht, if_true]
        obtain ⟨h1, h2, h3⟩ := ih (q.1, q.2.send_time_)
        refine ⟨le_trans (le_of_lt ht) h1, ?_, ?_⟩
        · intro p hp happ
          rcases List.mem_cons.mp hp with hpq | hpr
          · rw [hpq]
            exact h1
          · exact h2 p hpr happ
        · right
          rcases h3 with h3 | ⟨p, hp, happ, hk, hs, hlt⟩
          · refine ⟨q, List.mem_cons_self _ _, hq, ?_, ?_, ?_⟩
            · rw [h3]
            · rw [h3]
            · rw [h3]
              exact ht
          · exact ⟨p, List.mem_cons_of_mem _ hp, happ, hk, hs, lt_trans ht hlt⟩
      · simp only [hq, ht, if_true, if_false]
        obtain ⟨h1, h2, h3⟩ := ih acc
        refine ⟨h1, ?_, ?_⟩
        · intro p hp happ
          rcases List.mem_cons.mp hp with hpq | hpr
          · rw [hpq]
            exact le_trans (not_lt.mp ht) h1
          · exact h2 p hpr happ
        · rcases h3 with h3 | ⟨p, hp, happ, hk, hs, hlt⟩
          · exact Or.inl h3
          · exact Or.inr ⟨p, List.mem_cons_of_mem _ hp, happ, hk, hs, hlt⟩
    · simp only [hq, if_false]
      obtain ⟨h1, h2, h3⟩ := ih acc
      refine ⟨h1, ?_, ?_⟩
      · intro p hp happ
        rcases List.mem_cons.mp hp with hpq | hpr
        · rw [hpq] at happ
          exact absurd happ hq
        · exact h2 p hpr happ
      · rcases h3 with h3 | ⟨p, hp, happ, hk, hs, hlt⟩
        · exact Or.inl h3
        · exact Or.inr ⟨p, List.mem_cons_of_mem _ hp, happ, hk, hs, hlt⟩

/-- The link found by `trigger_retrain`: `-1` when no inflight message of the application
has a positive send time, else the id of one with the largest send time. -/
theorem find_link_cases (m : InflightMessages) (app : String) :
    ((TriggerChecker.find_link m app).1 = -1 ∧
      ∀ p ∈ m, p.2.app_name_ = app → p.2.send_time_ ≤ 0) ∨
    (∃ p ∈ m, p.2.app_name_ = app ∧ p.1 = (TriggerChecker.find_link m app).1 ∧
      0 < p.2.send_time_ ∧ ∀ q ∈ m, q.2.app_name_ = app → q.2.send_time_ ≤ p.2.send_time_) := by
  obtain ⟨-, h2, h3⟩ := find_link_foldl m app (-1, 0)
  rcases h3 with h3 | ⟨p, hp, happ, hk, hs, hlt⟩
  · left
    unfold TriggerChecker.find_link
    rw [h3] at h2 ⊢
    exact ⟨rfl, h2⟩
  · right
    refine ⟨p, hp, happ, hk, ?_, ?_⟩
    · rw [hs]
      exact hlt
    · intro q hq hqa
      rw [hs]
      exact h2 q hq hqa

theorem emplace_fresh (m : InflightMessages) (k : Int) (msg : InflightRetrainMessage)
    (h : InflightMessages.find m k = none) :
    InflightMessages.emplace m k msg = m ++ [(k, msg)] := by
  unfold InflightMessages.emplace
  rw [h]

theorem emplace_present (m : InflightMessages) (k : Int) (msg old : InflightRetrainMessage)
    (h : InflightMessages.find m k = some old) :
    InflightMessages.emplace m k msg = m := by
  unfold InflightMessages.emplace
  rw [h]

/-- C11, as stated, fails in two states.  With a transport that was not started
`send_message` returns `-1` at every dispatch: the first dispatch stores its message
under `-1`, and a second `trigger_retrain` finds the key present and adds no inflight
message.  With an inflight message of the application whose send time is `0`, the loop
that looks for the last message (started at `last_time = 0`, comparison `>`) passes it
over, and the new message gets the link `-1` although a message of the application is
present. -/
theorem trigger_retrain_inflight_counterexample :
    (∃ s s1 R,
      TriggerChecker.run TriggerChecker.not_started [naive_first_arrival] = Except.ok s ∧
      s.retrain_records_ "app" = some R ∧
      observe_inflight (Except.ok s) = some [(-1, "app", -1)] ∧
      (s.rpc_.send_message second_request ((s.zmq_connections "app").getD 0) 1500010).2 = -1 ∧
      TriggerChecker.trigger_retrain s "app" second_request 1500010 1500010 = Except.ok s1 ∧
      s1.inflight_messages_ = s.inflight_messages_) ∧
    (∃ s s1 R,
      TriggerChecker.run TriggerChecker.initial
        [(demo_env "NaiveBestEffortPolicy" 1 1 0, Event.ReportDataArrival "app" 1000000 5)] =
        Except.ok s ∧
      s.retrain_records_ "app" = some R ∧
      s.inflight_messages_.map (fun p => (p.1, p.2.app_name_, p.2.send_time_)) =
        [(0, "app", 0)] ∧
      TriggerChecker.trigger_retrain s "app" second_request 1500010 1500010 = Except.ok s1 ∧
      observe_inflight (Except.ok s1) = some [(0, "app", -1), (1, "app", -1)]) :=
  ⟨⟨_, _, _, rfl, rfl, rfl, rfl, rfl, rfl⟩, ⟨_, _, _, rfl, rfl, rfl, rfl, rfl⟩⟩

/-- C11, amended: for an application with a record `R`, `trigger_retrain` returns and
leaves the record `R` with `data_from`, `data_to`, `training_batch = (now, data_size)` and
`finished = false` set and the other fields as they were, and the other records
untouched; when the id returned by `send_message` is not yet a key of the inflight map,
exactly one inflight message is added under it, in state `RetrainSent`, and its link is
`-1` when the application has no inflight message with a positive send time, else the id
of an inflight message of the application with the largest send time. -/
theorem trigger_retrain_effect (s : TriggerChecker) (app : String) (req : RetrainRequest)
    (send_time now : Int) (R : RetrainRecord)
    (hrec : s.retrain_records_ app = some R)
    (hfresh : InflightMessages.find s.inflight_messages_
      (s.rpc_.send_message req ((s.zmq_connections app).getD 0) send_time).2 = none) :
    ∃ s1 link,
      TriggerChecker.trigger_retrain s app req send_time now = Except.ok s1 ∧
      s1.retrain_records_ app =
        some { R with
          data_from_ := req.data_from_, data_to_ := req.data_to_,
          training_batch_ := (now, req.data_size_), finished_ := false } ∧
      (∀ other, other ≠ app → s1.retrain_records_ other = s.retrain_records_ other) ∧
      s1.inflight_messages_ = s.inflight_messages_ ++
        [((s.rpc_.send_message req ((s.zmq_connections app).getD 0) send_time).2,
          { send_time_ := now, zmq_connection_id_ := (s.zmq_connections app).getD 0,
            app_name_ := app, state_ := RetrainState.RetrainSent,
            batch_ids_ := req.batch_ids_, msg_link_ := link })] ∧
      ((link = -1 ∧
          ∀ p ∈ s.inflight_messages_, p.2.app_name_ = app → p.2.send_time_ ≤ 0) ∨
       (∃ p ∈ s.inflight_messages_, p.2.app_name_ = app ∧ p.1 = link ∧ 0 < p.2.send_time_ ∧
          ∀ q ∈ s.inflight_messages_, q.2.app_name_ = app →
            q.2.send_time_ ≤ p.2.send_time_)) := by
  refine ⟨_, (TriggerChecker.find_link s.inflight_messages_ app).1,
    trigger_retrain_some s app req send_time now R hrec, assign_same _ _ _,
    fun other ho => assign_other _ _ _ _ ho, emplace_fresh _ _ _ hfresh,
    find_link_cases s.inflight_messages_ app⟩

/-- C11 amended, in the state after the two arrivals of Scenario 2 (message 0 in flight,
next id 1): the new message is stored under 1 with link 0. -/
theorem trigger_retrain_effect_witness :
    naive_chain_state.retrain_records_ "app" = some naive_chain_record ∧
    InflightMessages.find naive_chain_state.inflight_messages_ 1 = none ∧
    ∃ s1,
      TriggerChecker.trigger_retrain naive_chain_state "app" second_request 1500010 1500020 =
        Except.ok s1 ∧
      s1.retrain_records_ "app" =
        some { naive_chain_record with
          data_from_ := 1000001, data_to_ := 1500000, training_batch_ := (1500020, 7) } ∧
      s1.inflight_messages_ =
        [(0, naive_chain_message),
         (1, { naive_chain_message with send_time_ := 1500020, msg_link_ := 0 })] := by
  have hrec : naive_chain_state.retrain_records_ "app" = some naive_chain_record := by
    simp [naive_chain_state, assign]
  refine ⟨hrec, rfl, ?_⟩
  obtain ⟨s1, link, h1, h2, -, h4, h5⟩ :=
    trigger_retrain_effect naive_chain_state "app" second_request 1500010 1500020
      naive_chain_record hrec rfl
  have hlink : link = 0 := by
    rcases h5 with ⟨-, h5⟩ | ⟨p, hp, -, hk, -, -⟩
    · exact absurd (h5 (0, naive_chain_message) (List.mem_singleton.mpr rfl) rfl) (by decide)
    · rw [← hk, List.mem_singleton.mp hp]
  subst hlink
  exact ⟨s1, h1, h2, h4⟩

/-! ## The finished flag and the inflight map -/

theorem find_of_mem {m : InflightMessages} {p : Int × InflightRetrainMessage} (hp : p ∈ m) :
    ∃ x, InflightMessages.find m p.1 = some x := by
  induction m with
  | nil => exact absurd hp (List.not_mem_nil p)
  | cons q rest ih =>
    unfold InflightMessages.find
    by_cases hq : q.1 = p.1
    · exact ⟨q.2, if_pos hq⟩
    · rw [if_neg hq]
      rcases List.mem_cons.mp hp with h | h
      · exact absurd (congrArg Prod.fst h).symm hq
      · exact ih h

theorem mem_of_find {m : InflightMessages} {k : Int} {x : InflightRetrainMessage}
    (h : InflightMessages.find m k = some x) : (k, x) ∈ m := by
  induction m with
  | nil => simp [InflightMessages.find] at h
  | cons q rest ih =>
    unfold InflightMessages.find at h
    by_cases hq : q.1 = k
    · rw [if_pos hq] at h
      have hx : q.2 = x := Option.some.inj h
      rw [← hq, ← hx]
      exact List.mem_cons_self _ _
    · rw [if_neg hq] at h
      exact List.mem_cons_of_mem _ (ih h)

theorem find_of_mem_nodup {m : InflightMessages} (hnd : (m.map Prod.fst).Nodup)
    {p : Int × InflightRetrainMessage} (hp : p ∈ m) :
    InflightMessages.find m p.1 = some p.2 := by
  induction m with
  | nil => exact absurd hp (List.not_mem_nil p)
  | cons q rest ih =>
    rw [List.map_cons, List.nodup_cons] at hnd
    unfold InflightMessages.find
    rcases List.mem_cons.mp hp with h | h
    · rw [h, if_pos rfl]
    · have hq : q.1 ≠ p.1 := by
        intro heq
        exact hnd.1 (heq ▸ List.mem_map_of_mem Prod.fst h)
      rw [if_neg hq]
      exact ih hnd.2 h

theorem find_none_of_lt {m : InflightMessages} {k : Int} (h : ∀ p ∈ m, p.1 < k) :
    InflightMessages.find m k = none := by
  cases hf : InflightMessages.find m k with
  | none => rfl
  | some x => exact absurd (h _ (mem_of_find hf)) (lt_irrefl k)

theorem last_dispatched_append (log : List (String × Int)) (a b : String) (k : Int) :
    last_dispatched (log ++ [(a, k)]) b =
      if a = b then some k else last_dispatched log b := by
  unfold last_dispatched
  rw [List.filter_append]
  by_cases h : a = b
  · simp [h]
  · simp [h]

theorem quiet_refl (s : TriggerChecker) : Quiet s s :=
  ⟨rfl, List.Sublist.refl _, fun p hp => ⟨p, hp, rfl, rfl, rfl⟩,
    fun _ R1 h1 h2 => ⟨⟨R1, h1, h2⟩, fun q hq hb => ⟨q, hq, rfl, hb⟩⟩⟩

theorem quiet_trans {s s1 s2 : TriggerChecker} (h1 : Quiet s s1) (h2 : Quiet s1 s2) :
    Quiet s s2 := by
  obtain ⟨a1, b1, c1, d1⟩ := h1
  obtain ⟨a2, b2, c2, d2⟩ := h2
  refine ⟨a2.trans a1, b2.trans b1, fun p hp => ?_, fun b R2 hR2 hf => ?_⟩
  · obtain ⟨q, hq, e1, e2, e3⟩ := c2 p hp
    obtain ⟨r, hr, f1, f2, f3⟩ := c1 q hq
    exact ⟨r, hr, f1.trans e1, f2.trans e2, f3.trans e3⟩
  · obtain ⟨⟨R1, hR1, hf1⟩, k2⟩ := d2 b R2 hR2 hf
    obtain ⟨hR, k1⟩ := d1 b R1 hR1 hf1
    refine ⟨hR, fun q hq hb => ?_⟩
    obtain ⟨p, hp, e1, e2⟩ := k1 q hq hb
    obtain ⟨r, hr, f1, f2⟩ := k2 p hp e2
    exact ⟨r, hr, f1.trans e1, f2⟩

theorem quiet_map_inv {s s1 : TriggerChecker} (h : Quiet s s1) (hm : MapInv s) : MapInv s1 := by
  obtain ⟨a1, b1, c1, -⟩ := h
  obtain ⟨m1, m2, m3, m4, m5⟩ := hm
  refine ⟨by rw [a1]; exact m1, by rw [a1]; exact m2, m3.sublist b1, fun p hp => ?_,
    fun p hp q hq hl => ?_⟩
  · obtain ⟨q, hq, e1, -, e3⟩ := c1 p hp
    rw [a1, ← e1, ← e3]
    exact m4 q hq
  · obtain ⟨p0, hp0, e1, e2, e3⟩ := c1 p hp
    obtain ⟨q0, hq0, f1, f2, -⟩ := c1 q hq
    rw [← e2, ← f2]
    exact m5 p0 hp0 q0 hq0 (by rw [f1, hl, e3])

theorem quiet_rec_inv {s s1 : TriggerChecker} {log : List (String × Int)} (h : Quiet s s1)
    (hr : RecInv s log) : RecInv s1 log := by
  obtain ⟨a1, -, -, d1⟩ := h
  obtain ⟨r1, r2⟩ := hr
  refine ⟨fun a k hk => by rw [a1]; exact r1 a k hk, fun a R1 hR1 hf => ?_⟩
  obtain ⟨⟨R, hR, hfR⟩, keep⟩ := d1 a R1 hR1 hf
  obtain ⟨q, hq, hlast, hqa⟩ := r2 a R hR hfR
  obtain ⟨p, hp, e1, e2⟩ := keep q hq hqa
  exact ⟨p, hp, by rw [e1]; exact hlast, e2⟩

theorem quiet_new_messages {s s1 : TriggerChecker} (h : Quiet s s1) :
    new_messages s s1 = [] := by
  unfold new_messages
  rw [List.filter_eq_nil_iff]
  intro p hp
  obtain ⟨q, hq, e1, -, -⟩ := h.2.2.1 p hp
  obtain ⟨x, hx⟩ := find_of_mem hq
  rw [← e1, hx]
  simp

/-- A dispatch: the message is stored under the current value of the counter, and the
invariants hold again with the dispatch added to the log. -/
theorem trigger_retrain_flight {s s1 : TriggerChecker} {a : String} {req : RetrainRequest}
    {send_time cur_time : Int} {log : List (String × Int)}
    (hm : MapInv s) (hr : RecInv s log)
    (h : TriggerChecker.trigger_retrain s a req send_time cur_time = Except.ok s1) :
    MapInv s1 ∧ RecInv s1 (log ++ [(a, s.rpc_.message_id_)]) ∧
    ∃ msg, msg.app_name_ = a ∧
      s1.inflight_messages_ = s.inflight_messages_ ++ [(s.rpc_.message_id_, msg)] := by
  obtain ⟨m1, m2, m3, m4, m5⟩ := hm
  obtain ⟨r1, r2⟩ := hr
  cases hrec : s.retrain_records_ a with
  | none =>
    rw [trigger_retrain_none s a req send_time cur_time hrec] at h
    cases h
  | some R =>
    rw [trigger_retrain_some s a req send_time cur_time R hrec] at h
    have hs1 := (Except.ok.inj h).symm
    have hsend : s.rpc_.send_message req ((s.zmq_connections a).getD 0) send_time =
        ({ s.rpc_ with
            message_id_ := s.rpc_.message_id_ + 1,
            request_queue_ := s.rpc_.request_queue_ ++
              [{ zmq_connection_id := (s.zmq_connections a).getD 0, id := s.rpc_.message_id_,
                 msg := req, time := send_time }] }, s.rpc_.message_id_) := by
      simp [RPCBackendService.send_message, m1]
    have hfresh : InflightMessages.find s.inflight_messages_ s.rpc_.message_id_ = none :=
      find_none_of_lt (fun p hp => (m4 p hp).2.1)
    rw [hsend, emplace_fresh _ _ _ hfresh] at hs1
    subst hs1
    have hlink := find_link_cases s.inflight_messages_ a
    refine ⟨⟨m1, by simp only; omega, ?_, ?_, ?_⟩, ⟨?_, ?_⟩, ⟨_, rfl, rfl⟩⟩
    · simp only [List.map_append, List.map_cons, List.map_nil]
      rw [List.nodup_append]
      refine ⟨m3, List.nodup_singleton _, ?_⟩
      intro k hk hk1
      obtain ⟨p, hp, hpk⟩ := List.mem_map.mp hk
      have := (m4 p hp).2.1
      rw [hpk, List.mem_singleton.mp hk1] at this
      exact lt_irrefl _ this
    · intro p hp
      simp only
      rcases List.mem_append.mp hp with hp | hp
      · obtain ⟨b1, b2, b3⟩ := m4 p hp
        exact ⟨b1, by omega, by omega⟩
      · rw [List.mem_singleton.mp hp]
        refine ⟨m2, by simp only; omega, ?_⟩
        simp only
        rcases hlink with ⟨hl, -⟩ | ⟨q, hq, -, hk, -, -⟩
        · rw [hl]
          omega
        · rw [← hk]
          have := (m4 q hq).2.1
          omega
    · intro p hp q hq hl
      rcases List.mem_append.mp hp with hp | hp
      · rcases List.mem_append.mp hq with hq | hq
        · exact m5 p hp q hq hl
        · rw [List.mem_singleton.mp hq] at hl
          have := (m4 p hp).2.2
          simp only at hl
          omega
      · rw [List.mem_singleton.mp hp] at hl ⊢
        simp only at hl ⊢
        rcases List.mem_append.mp hq with hq | hq
        · rcases hlink with ⟨hl1, -⟩ | ⟨q1, hq1, hqa, hk, -, -⟩
          · have := (m4 q hq).1
            rw [hl1] at hl
            omega
          · have h1 := find_of_mem_nodup m3 hq
            have h2 := find_of_mem_nodup m3 hq1
            rw [hl, ← hk, h2] at h1
            rw [← Option.some.inj h1]
            exact hqa
        · rw [List.mem_singleton.mp hq]
    · intro b k hk
      rw [last_dispatched_append] at hk
      simp only
      by_cases hab : a = b
      · rw [if_pos hab] at hk
        have := Option.some.inj hk
        omega
      · rw [if_neg hab] at hk
        have := r1 b k hk
        omega
    · intro b Rb hRb hf
      by_cases hab : b = a
      · subst hab
        refine ⟨_, List.mem_append_right _ (List.mem_singleton.mpr rfl), ?_, rfl⟩
        rw [last_dispatched_append, if_pos rfl]
      · have hRb' : s.retrain_records_ b = some Rb :=
          (assign_other _ _ _ _ hab).symm.trans hRb
        obtain ⟨p, hp, hlast, hpa⟩ := r2 b Rb hRb' hf
        refine ⟨p, List.mem_append_left _ hp, ?_, hpa⟩
        rw [last_dispatched_append, if_neg (fun h => hab h.symm)]
        exact hlast

theorem erase_links_sublist (fuel : Nat) (m m1 : InflightMessages) (next_msg : Int)
    (h : TriggerChecker.erase_links fuel m next_msg = Except.ok m1) : m1.Sublist m := by
  induction fuel generalizing m next_msg with
  | zero =>
    unfold TriggerChecker.erase_links at h
    split_ifs at h
    rw [← Except.ok.inj h]
  | succ n ih =>
    unfold TriggerChecker.erase_links at h
    split_ifs at h with hn
    · cases hfind : InflightMessages.find m next_msg with
      | none => simp [hfind] at h
      | some msg =>
        simp only [hfind] at h
        exact (ih _ _ h).trans (List.filter_sublist _)
    · rw [← Except.ok.inj h]

/-- The walk along the links removes messages of one application only: when the links of
`M` stay inside an application and the walk starts at a message of `a`, the messages of
the other applications are kept. -/
theorem erase_links_keeps (fuel : Nat) (m m1 M : InflightMessages) (next_msg : Int)
    (a : String) (hsub : ∀ p ∈ m, p ∈ M)
    (hclosed : ∀ p ∈ M, ∀ q ∈ M, q.1 = p.2.msg_link_ → q.2.app_name_ = p.2.app_name_)
    (hstart : ∀ q ∈ M, q.1 = next_msg → q.2.app_name_ = a)
    (h : TriggerChecker.erase_links fuel m next_msg = Except.ok m1) :
    ∀ p ∈ m, p.2.app_name_ ≠ a → p ∈ m1 := by
  induction fuel generalizing m next_msg with
  | zero =>
    unfold TriggerChecker.erase_links at h
    split_ifs at h
    rw [← Except.ok.inj h]
    exact fun p hp _ => hp
  | succ n ih =>
    unfold TriggerChecker.erase_links at h
    split_ifs at h with hn
    · cases hfind : InflightMessages.find m next_msg with
      | none => simp [hfind] at h
      | some msg =>
        simp only [hfind] at h
        have hmem : (next_msg, msg) ∈ M := hsub _ (mem_of_find hfind)
        have hmsg : msg.app_name_ = a := hstart _ hmem rfl
        intro p hp hpa
        refine ih (InflightMessages.erase m next_msg) msg.msg_link_
          (fun q hq => hsub q (erase_subset m next_msg q hq))
          (fun q hq hl => (hclosed _ hmem q hq hl).trans hmsg) h p ?_ hpa
        unfold InflightMessages.erase
        rw [List.mem_filter]
        refine ⟨hp, ?_⟩
        simp only [decide_eq_true_eq]
        intro hk
        exact hpa (hstart p (hsub p hp) hk)
    · rw [← Except.ok.inj h]
      exact fun p hp _ => hp

theorem quiet_of_eq {s s1 : TriggerChecker} (h1 : s1.rpc_ = s.rpc_)
    (h2 : s1.inflight_messages_ = s.inflight_messages_)
    (h3 : ∀ b R1, s1.retrain_records_ b = some R1 → R1.finished_ = false →
      ∃ R, s.retrain_records_ b = some R ∧ R.finished_ = false) : Quiet s s1 := by
  refine ⟨h1, by rw [h2], fun p hp => ⟨p, by rw [← h2]; exact hp, rfl, rfl, rfl⟩,
    fun b R1 hR1 hf => ⟨h3 b R1 hR1 hf, fun q hq hb => ⟨q, by rw [h2]; exact hq, rfl, hb⟩⟩⟩

theorem set_timeout_quiet (s : TriggerChecker) (a : String) (ts timeout : Int) :
    Quiet s (TriggerChecker.set_timeout s a ts timeout) := by
  unfold TriggerChecker.set_timeout
  split_ifs
  · exact quiet_of_eq rfl rfl (fun b R1 h1 h2 => ⟨R1, h1, h2⟩)
  · exact quiet_refl s

/-- What `check_trigger` does after a quiet step: nothing but arming a timer, or one
dispatch. -/
theorem check_trigger_decomp {s0 s s1 : TriggerChecker} {redis : Redis} {a : String}
    {arrival_time send_time cur_time : Int}
    (h : TriggerChecker.check_trigger s redis a arrival_time send_time cur_time =
      Except.ok s1) (hq : Quiet s0 s) :
    ∃ s2, Quiet s0 s2 ∧
      (s1 = s2 ∨ ∃ b req st ct, TriggerChecker.trigger_retrain s2 b req st ct = Except.ok s1) := by
  obtain ⟨policy, R, info, -, -, -, h | h⟩ := check_trigger_ok h
  · exact ⟨s, hq, Or.inr ⟨a, _, _, _, h.2⟩⟩
  · obtain ⟨-, timeout, -, hs1⟩ := h
    exact ⟨s1, by rw [hs1]; exact quiet_trans hq (set_timeout_quiet s a arrival_time timeout),
      Or.inl rfl⟩

theorem report_data_arrival_decomp {s : TriggerChecker} {redis : Redis} {a : String}
    {ts size send_time cur_time : Int} {out : TriggerChecker × Bool}
    (h : TriggerChecker.report_data_arrival s redis a ts size send_time cur_time =
      Except.ok out) :
    ∃ s2, Quiet s s2 ∧
      (out.1 = s2 ∨
        ∃ b req st ct, TriggerChecker.trigger_retrain s2 b req st ct = Except.ok out.1) := by
  cases hrec : s.retrain_records_ a with
  | some R =>
    rw [report_data_arrival_existing s redis a ts size send_time cur_time hrec] at h
    cases hc : TriggerChecker.check_trigger
        { s with
            retrain_records_ := assign s.retrain_records_ a
              { R with batches_ := R.batches_ ++ [(ts, size)], last_arrival_ := ts } }
        redis a ts send_time cur_time with
    | error f =>
      rw [hc] at h
      cases h
    | ok s2 =>
      rw [hc] at h
      rw [← Except.ok.inj h]
      refine check_trigger_decomp hc (quiet_of_eq rfl rfl (fun b R1 hR1 hf => ?_))
      by_cases hb : b = a
      · subst hb
        have hR1' : some _ = some R1 := (assign_same _ _ _).symm.trans hR1
        rw [← Option.some.inj hR1'] at hf
        exact ⟨R, hrec, hf⟩
      · exact ⟨R1, (assign_other _ _ _ _ hb).symm.trans hR1, hf⟩
  | none =>
    unfold TriggerChecker.report_data_arrival at h
    simp only [hrec] at h
    split_ifs at h with hlink
    · rw [← Except.ok.inj h]
      exact ⟨s, quiet_refl s, Or.inl rfl⟩
    · cases hb : redis.get_backend (redis.get_backend_link a) with
      | none => simp [hb] at h
      | some backend =>
        simp only [hb, bind_eq_ok] at h
        obtain ⟨s3, hc, h⟩ := h
        rw [← Except.ok.inj h]
        refine check_trigger_decomp hc ?_
        refine quiet_of_eq (set_app_policy_frame _ a backend.policy).2.2.2
          (set_app_policy_frame _ a backend.policy).2.2.1 (fun b R1 hR1 hf => ?_)
        have hR2 := (congrFun (set_app_policy_frame _ a backend.policy).1 b).symm.trans hR1
        by_cases hba : b = a
        · subst hba
          have hR3 : some _ = some R1 := (assign_same _ _ _).symm.trans hR2
          rw [← Option.some.inj hR3] at hf
          cases hf
        · exact ⟨R1, (assign_other _ _ _ _ hba).symm.trans hR2, hf⟩

theorem manual_trigger_retrain_decomp {s : TriggerChecker} {redis : Redis} {a : String}
    {cur_time send_time dispatch_time : Int} {out : TriggerChecker × Int}
    (h : TriggerChecker.manual_trigger_retrain s redis a cur_time send_time dispatch_time =
      Except.ok out) :
    out.1 = s ∨ ∃ b req st ct, TriggerChecker.trigger_retrain s b req st ct = Except.ok out.1 := by
  unfold TriggerChecker.manual_trigger_retrain at h
  cases hrec : s.retrain_records_ a with
  | none =>
    simp only [hrec] at h
    rw [← Except.ok.inj h]
    exact Or.inl rfl
  | some R =>
    simp only [hrec] at h
    split_ifs at h with hd
    · simp only [bind_eq_ok] at h
      obtain ⟨s1, hs1, h⟩ := h
      rw [← Except.ok.inj h]
      exact Or.inr ⟨a, _, _, _, hs1⟩
    · rw [← Except.ok.inj h]
      exact Or.inl rfl

theorem modify_map_fst (m : InflightMessages) (k : Int)
    (f : InflightRetrainMessage → InflightRetrainMessage) :
    (InflightMessages.modify m k f).map Prod.fst = m.map Prod.fst := by
  unfold InflightMessages.modify
  rw [List.map_map]
  apply List.map_congr_left
  intro p _
  simp only [Function.comp]
  split_ifs <;> rfl

theorem report_retrain_begin_quiet (s : TriggerChecker) (msg_id : Int) :
    Quiet s (TriggerChecker.report_retrain_begin s msg_id).1 := by
  unfold TriggerChecker.report_retrain_begin
  cases InflightMessages.find s.inflight_messages_ msg_id with
  | none => exact quiet_refl s
  | some msg =>
    refine ⟨rfl, ?_, fun p hp => ?_, fun b R1 hR1 hf => ⟨⟨R1, hR1, hf⟩, fun q hq hb => ?_⟩⟩
    · simp only
      rw [modify_map_fst]
    · simp only [InflightMessages.modify, List.mem_map] at hp
      obtain ⟨q, hq, hp⟩ := hp
      refine ⟨q, hq, ?_⟩
      rw [← hp]
      split_ifs <;> exact ⟨rfl, rfl, rfl⟩
    · simp only [InflightMessages.modify, List.mem_map]
      refine ⟨_, ⟨q, hq, rfl⟩, ?_⟩
      split_ifs <;> exact ⟨rfl, hb⟩

/-- The first part of `report_retrain_end`, up to the re-evaluation, dispatches
nothing. -/
theorem report_retrain_end_quiet {s s2 : TriggerChecker} {msg_id cur_time : Int}
    {msg : InflightRetrainMessage} {erased : InflightMessages} (hm : MapInv s)
    (hfind : InflightMessages.find s.inflight_messages_ msg_id = some msg)
    (herase : TriggerChecker.erase_links (s.inflight_messages_.length + 1)
      (InflightMessages.erase s.inflight_messages_ msg_id) msg.msg_link_ = Except.ok erased)
    (hupd : TriggerChecker.update_retrain_records { s with inflight_messages_ := erased }
      msg.app_name_ cur_time = Except.ok s2) : Quiet s s2 := by
  obtain ⟨-, -, m3, -, m5⟩ := hm
  obtain ⟨u1, -, u3, -⟩ := update_retrain_records_rest hupd
  have hmem : (msg_id, msg) ∈ s.inflight_messages_ := mem_of_find hfind
  have hsub : ∀ p ∈ erased, p ∈ s.inflight_messages_ := fun p hp =>
    erase_subset _ _ p (erase_links_subset _ _ _ _ herase p hp)
  -- unfinished records are records of other applications
  have hother : ∀ b R1, s2.retrain_records_ b = some R1 → R1.finished_ = false →
      b ≠ msg.app_name_ ∧ s.retrain_records_ b = some R1 := by
    intro b R1 hR1 hf
    cases hrec : s.retrain_records_ msg.app_name_ with
    | none =>
      rw [update_retrain_records_none (s := { s with inflight_messages_ := erased }) hrec]
        at hupd
      rw [← Except.ok.inj hupd] at hR1
      refine ⟨fun hb => ?_, hR1⟩
      rw [hb] at hR1
      have hcontra : (none : Option RetrainRecord) = some R1 := hrec.symm.trans hR1
      cases hcontra
    | some R =>
      obtain ⟨profiler, sampled, -, -, hs2⟩ :=
        update_retrain_records_ok (s := { s with inflight_messages_ := erased }) hrec hupd
      rw [hs2] at hR1
      by_cases hb : b = msg.app_name_
      · rw [hb] at hR1
        have hR1' : some _ = some R1 := (assign_same _ _ _).symm.trans hR1
        rw [← Option.some.inj hR1'] at hf
        cases hf
      · exact ⟨hb, (assign_other _ _ _ _ hb).symm.trans hR1⟩
  refine ⟨u1, ?_, fun p hp => ?_, fun b R1 hR1 hf => ?_⟩
  · rw [u3]
    exact ((erase_links_sublist _ _ _ _ herase).trans (List.filter_sublist _)).map Prod.fst
  · rw [u3] at hp
    exact ⟨p, hsub p hp, rfl, rfl, rfl⟩
  · obtain ⟨hb, hR⟩ := hother b R1 hR1 hf
    refine ⟨⟨R1, hR, hf⟩, fun q hq hqb => ?_⟩
    refine ⟨q, ?_, rfl, hqb⟩
    rw [u3]
    refine erase_links_keeps _ _ _ s.inflight_messages_ msg.msg_link_ msg.app_name_
      (erase_subset _ _) m5 (fun r hr hl => m5 _ hmem r hr hl) herase q ?_
      (by rw [hqb]; exact hb)
    unfold InflightMessages.erase
    rw [List.mem_filter]
    refine ⟨hq, ?_⟩
    simp only [decide_eq_true_eq]
    intro hk
    have h1 := find_of_mem_nodup m3 hq
    rw [hk, hfind] at h1
    rw [← Option.some.inj h1] at hqb
    exact hb hqb.symm

theorem report_retrain_end_decomp {s : TriggerChecker} {redis : Redis} {msg_id : Int}
    {cur_time send_time dispatch_time : Int} {out : TriggerChecker × Option Bool}
    (hm : MapInv s)
    (h : TriggerChecker.report_retrain_end s redis msg_id cur_time send_time dispatch_time =
      Except.ok out) :
    ∃ s2, Quiet s s2 ∧
      (out.1 = s2 ∨
        ∃ b req st ct, TriggerChecker.trigger_retrain s2 b req st ct = Except.ok out.1) := by
  cases hfind : InflightMessages.find s.inflight_messages_ msg_id with
  | none =>
    unfold TriggerChecker.report_retrain_end at h
    simp only [hfind] at h
    rw [← Except.ok.inj h]
    exact ⟨s, quiet_refl s, Or.inl rfl⟩
  | some msg =>
    obtain ⟨erased, s2, policy, checked, h1, h2, -, h4, h5⟩ := report_retrain_end_ok hfind h
    subst h5
    refine ⟨s2, report_retrain_end_quiet hm hfind h1 h2, ?_⟩
    obtain ⟨R0, info, -, -, hc | hc⟩ := check_trigger_by_func_ok h4
    · left
      rw [hc.2]
    · exact Or.inr ⟨_, _, _, _, hc.2.2⟩

theorem fire_timeout_decomp {s s1 : TriggerChecker} {redis : Redis} {index : Nat}
    {send_time cur_time : Int}
    (h : TriggerChecker.fire_timeout s redis index send_time cur_time = Except.ok s1) :
    ∃ s2, Quiet s s2 ∧
      (s1 = s2 ∨ ∃ b req st ct, TriggerChecker.trigger_retrain s2 b req st ct = Except.ok s1) := by
  unfold TriggerChecker.fire_timeout at h
  cases ht : s.pending_timeouts_[index]? with
  | none =>
    simp only [ht] at h
    rw [← Except.ok.inj h]
    exact ⟨s, quiet_refl s, Or.inl rfl⟩
  | some t =>
    simp only [ht] at h
    refine ⟨{ s with pending_timeouts_ := s.pending_timeouts_.eraseIdx index },
      quiet_of_eq rfl rfl (fun b R1 h1 h2 => ⟨R1, h1, h2⟩), ?_⟩
    unfold TriggerChecker.after_timeout at h
    split_ifs at h with hyes
    · cases hrec : s.retrain_records_ t.app_name with
      | none => simp [hrec] at h
      | some R =>
        simp only [hrec] at h
        exact Or.inr ⟨_, _, _, _, h⟩
    · exact Or.inl (Except.ok.inj h).symm

theorem handle_decomp {s s1 : TriggerChecker} {env : Env} {e : Event} (hm : MapInv s)
    (h : TriggerChecker.handle s env e = Except.ok s1) :
    ∃ s2, Quiet s s2 ∧
      (s1 = s2 ∨ ∃ b req st ct, TriggerChecker.trigger_retrain s2 b req st ct = Except.ok s1) := by
  cases e with
  | ReportDataArrival a ts size =>
    obtain ⟨out, hout, hs1⟩ := map_fst_eq_ok h
    rw [← hs1]
    exact report_data_arrival_decomp hout
  | ManualTrigger a =>
    obtain ⟨out, hout, hs1⟩ := map_fst_eq_ok h
    rw [← hs1]
    exact ⟨s, quiet_refl s, manual_trigger_retrain_decomp hout⟩
  | ReportRetrainBegin msg_id =>
    simp only [TriggerChecker.handle] at h
    rw [← Except.ok.inj h]
    exact ⟨_, report_retrain_begin_quiet s msg_id, Or.inl rfl⟩
  | ReportRetrainEnd msg_id =>
    obtain ⟨out, hout, hs1⟩ := map_fst_eq_ok h
    rw [← hs1]
    exact report_retrain_end_decomp hm hout
  | TimeoutFired index => exact fire_timeout_decomp h
  | BackendLinkSet key =>
    simp only [TriggerChecker.handle, TriggerChecker.backend_link_set] at h
    cases hbk : env.redis.get_backend (env.redis.get_backend_link key) with
    | none => simp [hbk] at h
    | some backend =>
      simp only [hbk] at h
      rw [← Except.ok.inj h]
      exact ⟨{ s with
          zmq_connections := assign s.zmq_connections key backend.zmq_connection_id },
        quiet_of_eq rfl rfl (fun b R1 h1 h2 => ⟨R1, h1, h2⟩), Or.inl rfl⟩

/-- The log entry of a dispatch that follows a quiet step. -/
theorem dispatch_new_messages {s s2 s1 : TriggerChecker} {a : String}
    {msg : InflightRetrainMessage} (hm : MapInv s) (hq : Quiet s s2)
    (hmsg : msg.app_name_ = a)
    (h : s1.inflight_messages_ = s2.inflight_messages_ ++ [(s2.rpc_.message_id_, msg)]) :
    (new_messages s s1).map (fun p => (p.2.app_name_, p.1)) = [(a, s2.rpc_.message_id_)] := by
  unfold new_messages
  rw [h, List.filter_append]
  have h1 : s2.inflight_messages_.filter
      (fun p => (InflightMessages.find s.inflight_messages_ p.1).isNone) = [] :=
    quiet_new_messages hq
  have h2 : InflightMessages.find s.inflight_messages_ s2.rpc_.message_id_ = none := by
    rw [hq.1]
    exact find_none_of_lt (fun p hp => (hm.2.2.2.1 p hp).2.1)
  rw [h1]
  simp [h2, hmsg]

/-- One handler keeps the two invariants, with its dispatch added to the log. -/
theorem handle_flight {s s1 : TriggerChecker} {env : Env} {e : Event}
    {log : List (String × Int)} (hm : MapInv s) (hr : RecInv s log)
    (h : TriggerChecker.handle s env e = Except.ok s1) :
    MapInv s1 ∧ RecInv s1 (log ++ (new_messages s s1).map (fun p => (p.2.app_name_, p.1))) := by
  obtain ⟨s2, hq, h2 | ⟨b, req, st, ct, h2⟩⟩ := handle_decomp hm h
  · subst h2
    rw [quiet_new_messages hq, List.map_nil, List.append_nil]
    exact ⟨quiet_map_inv hq hm, quiet_rec_inv hq hr⟩
  · obtain ⟨f1, f2, msg, hmsg, hin⟩ :=
      trigger_retrain_flight (quiet_map_inv hq hm) (quiet_rec_inv hq hr) h2
    rw [dispatch_new_messages hm hq hmsg hin]
    exact ⟨f1, f2⟩

theorem run_flight (trace : List (Env × Event)) (s s1 : TriggerChecker)
    (log : List (String × Int)) (hm : MapInv s) (hr : RecInv s log)
    (h : TriggerChecker.run s trace = Except.ok s1) :
    MapInv s1 ∧ RecInv s1 (log ++ TriggerChecker.dispatch_log s trace) := by
  induction trace generalizing s log with
  | nil =>
    simp only [TriggerChecker.run] at h
    rw [← Except.ok.inj h]
    simp only [TriggerChecker.dispatch_log, List.append_nil]
    exact ⟨hm, hr⟩
  | cons step rest ih =>
    simp only [TriggerChecker.run] at h
    cases hstep : TriggerChecker.handle s step.1 step.2 with
    | error f => simp [hstep] at h
    | ok s2 =>
      simp only [hstep] at h
      obtain ⟨hm2, hr2⟩ := handle_flight hm hr hstep
      have := ih s2 _ hm2 hr2 h
      simp only [TriggerChecker.dispatch_log, hstep]
      rw [← List.append_assoc]
      exact this

theorem map_inv_initial : MapInv TriggerChecker.initial :=
  ⟨rfl, le_refl _, List.nodup_nil, fun p hp => absurd hp (List.not_mem_nil p),
    fun p hp => absurd hp (List.not_mem_nil p)⟩

theorem rec_inv_initial : RecInv TriggerChecker.initial [] :=
  ⟨fun a k h => by simp [last_dispatched] at h, fun a R h => by cases h⟩

/-- In a state reached from the initial state the id that `send_message` returns is not
a key of the inflight map. -/
theorem reachable_fresh (trace : List (Env × Event)) (s : TriggerChecker)
    (hrun : TriggerChecker.run TriggerChecker.initial trace = Except.ok s)
    (req : RetrainRequest) (zmq_connection_id send_time : Int) :
    InflightMessages.find s.inflight_messages_
      (s.rpc_.send_message req zmq_connection_id send_time).2 = none := by
  obtain ⟨hm, -⟩ := run_flight trace _ s [] map_inv_initial rec_inv_initial hrun
  have hid : (s.rpc_.send_message req zmq_connection_id send_time).2 = s.rpc_.message_id_ := by
    simp [RPCBackendService.send_message, hm.1]
  rw [hid]
  exact find_none_of_lt (fun p hp => (hm.2.2.2.1 p hp).2.1)

/-- C20, amended: in every state reached from the initial state, an application whose
record has `finished = false` has its most recently dispatched message in the inflight
map.  (The converse is what fails: `finished` becomes true at the end of any message of
the application.) -/
theorem unfinished_last_dispatch_in_flight (trace : List (Env × Event)) (s : TriggerChecker)
    (hrun : TriggerChecker.run TriggerChecker.initial trace = Except.ok s)
    (app : String) (R : RetrainRecord) (hrec : s.retrain_records_ app = some R)
    (hfin : R.finished_ = false) :
    ∃ k msg,
      last_dispatched (TriggerChecker.dispatch_log TriggerChecker.initial trace) app = some k ∧
      InflightMessages.find s.inflight_messages_ k = some msg ∧ msg.app_name_ = app := by
  obtain ⟨hm, hr⟩ := run_flight trace _ s [] map_inv_initial rec_inv_initial hrun
  rw [List.nil_append] at hr
  obtain ⟨p, hp, hlast, hpa⟩ := hr.2 app R hrec hfin
  exact ⟨p.1, p.2, hlast, find_of_mem_nodup hm.2.2.1 hp, hpa⟩

theorem speculative_first_end_legal : LegalTrace 0 speculative_first_end := by
  simp [LegalTrace, speculative_first_end, demo_env, arrival_ok, next_mark]

unseal Rat.mul Rat.add Rat.sub Rat.inv in
/-- C20, as stated, fails: under the speculative policy (Scenario 3 with `beta = 20000`)
message 0 is dispatched at the first arrival and message 1, linked to it, at the second;
after `ReportRetrainEnd(0)` the record is finished while message 1, the most recently
dispatched message of the application, is still in the inflight map. -/
theorem finished_while_in_flight_counterexample :
    LegalTrace 0 speculative_first_end ∧
    TriggerChecker.dispatch_log TriggerChecker.initial speculative_first_end =
      [("app", 0), ("app", 1)] ∧
    last_dispatched (TriggerChecker.dispatch_log TriggerChecker.initial speculative_first_end)
      "app" = some 1 ∧
    observe_inflight (TriggerChecker.run TriggerChecker.initial speculative_first_end) =
      some [(1, "app", 0)] ∧
    observe_record (TriggerChecker.run TriggerChecker.initial speculative_first_end) "app" =
      some (true, 1000000, 1500000, 1500000, (1500010, 2000), []) :=
  ⟨speculative_first_end_legal, by decide, by decide, by decide, rfl⟩

unseal Rat.mul Rat.add Rat.sub Rat.inv in
/-- C20 amended, after the two arrivals of Scenario 3 with `beta = 20000`: the record is
unfinished and the last dispatched message is in the inflight map. -/
theorem unfinished_last_dispatch_in_flight_witness :
    ∃ s R,
      TriggerChecker.run TriggerChecker.initial
        [speculative_first_arrival, speculative_second_arrival] = Except.ok s ∧
      s.retrain_records_ "app" = some R ∧ R.finished_ = false ∧
      ∃ k msg,
        last_dispatched
          (TriggerChecker.dispatch_log TriggerChecker.initial
            [speculative_first_arrival, speculative_second_arrival]) "app" = some k ∧
        InflightMessages.find s.inflight_messages_ k = some msg ∧ msg.app_name_ = "app" :=
  ⟨_, _, rfl, rfl, rfl,
    unfinished_last_dispatch_in_flight [speculative_first_arrival, speculative_second_arrival]
      _ rfl "app" _ rfl rfl⟩

/-! ## The ring of samples -/

/-- Recomputing the regression keeps the ring and its capacity. -/
theorem calc_alpha_beta_ring (p : RuntimeProfiler) :
    p.calc_alpha_beta.time_size_pairs_ = p.time_size_pairs_ ∧
    p.calc_alpha_beta.max_samples_ = p.max_samples_ := ⟨rfl, rfl⟩

/-- One `add_sample` on a ring of capacity 10 that holds at most 10 samples. -/
theorem add_sample_ring (p : RuntimeProfiler) (time data_size : Int)
    (hmax : p.max_samples_ = 10) :
    ∃ q, p.add_sample time data_size = Except.ok q ∧ q.max_samples_ = 10 ∧
      q.time_size_pairs_ =
        (if 10 ≤ p.time_size_pairs_.length then p.time_size_pairs_.tail
          else p.time_size_pairs_) ++ [(time, data_size)] := by
  have hcast : unsigned_cast p.max_samples_ = 10 := by
    rw [hmax]
    decide
  unfold RuntimeProfiler.add_sample
  rw [hcast]
  by_cases hfull : p.time_size_pairs_.length ≥ 10
  · cases hring : p.time_size_pairs_ with
    | nil =>
      rw [hring] at hfull
      simp at hfull
    | cons x rest =>
      rw [hring] at hfull
      simp only [hfull, if_true, bind, Except.bind, List.tail_cons]
      split_ifs
      · exact ⟨_, rfl, hmax, rfl⟩
      · exact ⟨_, rfl, hmax, rfl⟩
  · simp only [hfull, if_false, bind, Except.bind]
    split_ifs
    · exact ⟨_, rfl, hmax, rfl⟩
    · exact ⟨_, rfl, hmax, rfl⟩

/-- Any sequence of `add_sample` calls on a ring of capacity 10 holding at most 10
samples returns, and leaves the last 10 of the old and new samples. -/
theorem add_samples_ring (samples : List (Int × Int)) (p : RuntimeProfiler)
    (hmax : p.max_samples_ = 10) (hlen : p.time_size_pairs_.length ≤ 10) :
    ∃ q, p.add_samples samples = Except.ok q ∧ q.max_samples_ = 10 ∧
      q.time_size_pairs_ =
        (p.time_size_pairs_ ++ samples).drop
          ((p.time_size_pairs_ ++ samples).length - 10) := by
  induction samples generalizing p with
  | nil =>
    refine ⟨p, rfl, hmax, ?_⟩
    have h0 : (p.time_size_pairs_ ++ []).length - 10 = 0 := by
      simp only [List.append_nil]
      omega
    rw [h0, List.drop_zero, List.append_nil]
  | cons x rest ih =>
    obtain ⟨q, hq, hqmax, hqring⟩ := add_sample_ring p x.1 x.2 hmax
    have hqlen : q.time_size_pairs_.length ≤ 10 := by
      rw [hqring]
      split_ifs with hfull
      · simp only [List.length_append, List.length_tail, List.length_singleton]
        omega
      · simp only [List.length_append, List.length_singleton]
        omega
    obtain ⟨r, hr, hrmax, hrring⟩ := ih q hqmax hqlen
    refine ⟨r, ?_, hrmax, ?_⟩
    · simp only [RuntimeProfiler.add_samples, hq]
      exact hr
    · rw [hrring, hqring]
      split_ifs with hfull
      · have h10 : p.time_size_pairs_.length = 10 := le_antisymm hlen hfull
        cases hring : p.time_size_pairs_ with
        | nil =>
          rw [hring] at h10
          simp at h10
        | cons y ys =>
          rw [hring] at h10
          simp only [List.length_cons] at h10
          simp only [List.tail_cons, List.append_assoc, List.singleton_append,
            List.length_append, List.length_cons, List.cons_append]
          have e1 : ys.length + (rest.length + 1) + 1 - 10 =
              ys.length + (rest.length + 1) - 10 + 1 := by omega
          rw [e1, List.drop_succ_cons]
          simp only [List.length_nil, Nat.zero_add, List.nil_append, Nat.add_assoc]
      · simp only [List.append_assoc, List.singleton_append]

/-- C21: on a profiler with `max_samples = 10` and an empty ring, every sequence of
`add_sample` calls returns; after the `k` calls the ring holds exactly the last
`min k 10` samples in insertion order, hence never more than 10 (the statement holds
for every sequence, so for every prefix of one). -/
theorem add_samples_last_ten (p : RuntimeProfiler) (samples : List (Int × Int))
    (hmax : p.max_samples_ = 10) (hempty : p.time_size_pairs_ = []) :
    ∃ q, p.add_samples samples = Except.ok q ∧
      q.time_size_pairs_ = samples.drop (samples.length - 10) ∧
      q.time_size_pairs_.length = min samples.length 10 ∧
      q.time_size_pairs_.length ≤ 10 := by
  obtain ⟨q, hq, -, hring⟩ := add_samples_ring samples p hmax (by rw [hempty]; simp)
  rw [hempty, List.nil_append] at hring
  have hlen : q.time_size_pairs_.length = min samples.length 10 := by
    rw [hring, List.length_drop]
    omega
  exact ⟨q, hq, hring, hlen, by rw [hlen]; exact min_le_right _ _⟩

/-- Witness for C21: after twelve samples the fresh profiler holds samples 3 to 12. -/
theorem add_samples_last_ten_witness :
    (RuntimeProfiler.mk_new (some 1) (some 1)).max_samples_ = 10 ∧
    (RuntimeProfiler.mk_new (some 1) (some 1)).time_size_pairs_ = [] ∧
    ∃ q, (RuntimeProfiler.mk_new (some 1) (some 1)).add_samples twelve_samples = Except.ok q ∧
      q.time_size_pairs_ =
        [(30, 3), (40, 4), (50, 5), (60, 6), (70, 7), (80, 8), (90, 9), (100, 10),
         (110, 11), (120, 12)] ∧
      q.time_size_pairs_.length = 10 := by
  refine ⟨rfl, rfl, ?_⟩
  obtain ⟨q, hq, hring, hlen, -⟩ :=
    add_samples_last_ten (RuntimeProfiler.mk_new (some 1) (some 1)) twelve_samples rfl rfl
  exact ⟨q, hq, hring.trans (by decide), hlen.trans (by decide)⟩

/-! ## The policy of an application -/

/-- The registry `retrain_policies_` holds the four policies under their class names. -/
theorem retrain_policies_names (policy_name : String) :
    TriggerChecker.retrain_policies_ policy_name =
      if policy_name = "NaiveBestEffortPolicy" then some RetrainPolicy.NaiveBestEffort
      else if policy_name = "SpeculativeBestEffortPolicy" then
        some RetrainPolicy.SpeculativeBestEffort
      else if policy_name = "CostAwarePolicy" then some RetrainPolicy.CostAware
      else if policy_name = "ManualPolicy" then some RetrainPolicy.Manual
      else none := rfl

/-- C23: for every state, application and policy-name string `s`, `set_app_policy`
followed by `get_app_policy` returns the policy registered under `s` when `s` is one of
the four class names, and the Naive policy for every other string; the policy returned
reports the name `s` in the first case and `NaiveBestEffortPolicy` in the second. -/
theorem set_then_get_app_policy (s : TriggerChecker) (app_name policy_name : String) :
    TriggerChecker.get_app_policy (TriggerChecker.set_app_policy s app_name policy_name)
        app_name =
      Except.ok
        (if policy_name = "NaiveBestEffortPolicy" then RetrainPolicy.NaiveBestEffort
         else if policy_name = "SpeculativeBestEffortPolicy" then
           RetrainPolicy.SpeculativeBestEffort
         else if policy_name = "CostAwarePolicy" then RetrainPolicy.CostAware
         else if policy_name = "ManualPolicy" then RetrainPolicy.Manual
         else RetrainPolicy.NaiveBestEffort) ∧
    (TriggerChecker.set_app_policy s app_name policy_name).app_policies_ app_name =
      some
        (if policy_name = "NaiveBestEffortPolicy" ∨
            policy_name = "SpeculativeBestEffortPolicy" ∨
            policy_name = "CostAwarePolicy" ∨ policy_name = "ManualPolicy" then policy_name
         else "NaiveBestEffortPolicy") ∧
    TriggerChecker.get_app_policy (TriggerChecker.set_app_policy s app_name "") app_name =
      Except.ok RetrainPolicy.NaiveBestEffort := by
  refine ⟨?_, ?_, ?_⟩
  · unfold TriggerChecker.set_app_policy
    rw [retrain_policies_names policy_name]
    split_ifs with h1 h2 h3 h4
    · simp only [TriggerChecker.get_app_policy, assign_same, h1]
      rfl
    · simp only [TriggerChecker.get_app_policy, assign_same, h2]
      rfl
    · simp only [TriggerChecker.get_app_policy, assign_same, h3]
      rfl
    · simp only [TriggerChecker.get_app_policy, assign_same, h4]
      rfl
    · simp only [TriggerChecker.get_app_policy, assign_same]
      rfl
  · unfold TriggerChecker.set_app_policy
    rw [retrain_policies_names policy_name]
    split_ifs with h1 h2 h3 h4 h5 h6 h7 h8 h9 <;>
      simp_all [assign_same, DEFAULT_POLICY, NaiveBestEffortPolicy.get_name]
  · have h0 : TriggerChecker.retrain_policies_ "" = none := by decide
    simp only [TriggerChecker.get_app_policy, TriggerChecker.set_app_policy, h0, assign_same]
    rfl

/-! ## Scenario 4 in closed form -/

unseal Rat.mul Rat.add Rat.sub Rat.inv in
/-- C26: on the finished record of Scenario 4 (batches `(0, 10)` and `(1000000, 10)`,
`alpha = 1`, `beta = 1000`, `weight = 10`) the split loop stops at the second batch with
`partial_size = 10`; the training time is 1020 ms for the pass over the 20 samples and
1010 ms for each split pass; the three costs are 13240, 11110 and 11110, so
`calc_cost_info` returns `(13240, 22220)`; the threshold `weight * beta` is 10000; and
`ready_to_retrain` returns the decision of `all_cost - min_cost > 10000`, which is
negative: no trigger. -/
theorem scenario4_closed_form :
    CostAwarePolicy.split_loop 20 scenario4_record.batches_ 0 0 = (1, 10) ∧
    sum_sizes_where (fun _ => true) scenario4_record.batches_ = 20 ∧
    static_cast_long ((1 : ℚ) * (20 : Int) + 1000) = 1020 ∧
    static_cast_long ((1 : ℚ) * (10 : Int) + 1000) = 1010 ∧
    CostAwarePolicy.calc_cost scenario4_record.batches_ 0 2 20 scenario4_record.alpha_
      scenario4_record.beta_ scenario4_record.weight_ = Except.ok 13240 ∧
    CostAwarePolicy.calc_cost scenario4_record.batches_ 0 1 10 scenario4_record.alpha_
      scenario4_record.beta_ scenario4_record.weight_ = Except.ok 11110 ∧
    CostAwarePolicy.calc_cost scenario4_record.batches_ 1 2 (20 - 10) scenario4_record.alpha_
      scenario4_record.beta_ scenario4_record.weight_ = Except.ok 11110 ∧
    CostAwarePolicy.calc_cost_info scenario4_record = Except.ok (13240, 22220) ∧
    (do
      let weight ← finite scenario4_record.weight_
      let beta ← finite scenario4_record.beta_
      Except.ok (weight * beta)) = Except.ok (10000 : ℚ) ∧
    CostAwarePolicy.ready_to_retrain scenario4_record =
      Except.ok (decide ((13240 : Int) - 22220 > 10000), 0, 0) ∧
    decide ((13240 : Int) - 22220 > 10000) = false := by
  refine ⟨by decide, by decide, ?_, ?_, rfl, rfl, rfl, rfl, ?_, ?_, by decide⟩
  · norm_num [static_cast_long, Int.tdiv_eq_ediv]
  · norm_num [static_cast_long, Int.tdiv_eq_ediv]
  · simp only [scenario4_record, finite, bind, Except.bind]
    norm_num
  · have hd : decide ((13240 : Int) - 22220 > 10000) = false := by decide
    rw [hd]
    rfl

/-! ## Links of the inflight map along a run -/

unseal Rat.mul Rat.add Rat.sub Rat.inv in
/-- C27, failing run: under the Naive policy, after a first arrival (message 0), a manual
trigger while message 0 is in flight (message 1, `msg_link_ = 0`) and the end of message
0, the links are closed before the end of message 0 and not after it: the inflight map
holds message 1 alone, linked to the erased message 0; the same holds after
`speculative_first_end`; handling `ReportRetrainEnd(1)` next looks up message 0 and
dereferences a null pointer. -/
theorem inflight_links_not_closed :
    observe_links_closed
      (TriggerChecker.run TriggerChecker.initial
        [naive_first_arrival, manual_while_in_flight]) = some true ∧
    observe_inflight (TriggerChecker.run TriggerChecker.initial manual_dangling_trace) =
      some [(1, "app", 0)] ∧
    observe_links_closed (TriggerChecker.run TriggerChecker.initial manual_dangling_trace) =
      some false ∧
    observe_links_closed (TriggerChecker.run TriggerChecker.initial speculative_first_end) =
      some false ∧
    observe_fault
      (TriggerChecker.run TriggerChecker.initial
        (manual_dangling_trace ++ [manual_second_end])) =
      some Fault.null_dereference := by
  refine ⟨?_, ?_, ?_, ?_, ?_⟩ <;> decide

/-! ## The timeout of a record with one batch -/

unseal Rat.mul Rat.add Rat.sub Rat.inv in
/-- C29, failing input: on the finished record that holds the single batch of a first
arrival, `ready_to_retrain` declines, the split loop stops at the first batch with
`partial_size = 0`, and the cost of the empty range before it reads `(end - 1)` before
the start of the vector, so `calc_timeout` has no result, although the divisor
`untrained_samples` is 5; the first `ReportDataArrival` of an application under the
cost-aware policy ends in that fault. -/
theorem calc_timeout_one_batch_out_of_bounds :
    first_arrival_record.finished_ = true ∧
    first_arrival_record.batches_ = [(1000000, 5)] ∧
    CostAwarePolicy.ready_to_retrain first_arrival_record = Except.ok (false, 0, 0) ∧
    CostAwarePolicy.split_loop 5 first_arrival_record.batches_ 0 0 = (0, 0) ∧
    CostAwarePolicy.calc_cost first_arrival_record.batches_ 0 0 0
      first_arrival_record.alpha_ first_arrival_record.beta_ first_arrival_record.weight_ =
      Except.error Fault.out_of_bounds ∧
    CostAwarePolicy.calc_cost_info first_arrival_record = Except.error Fault.out_of_bounds ∧
    CostAwarePolicy.calc_timeout first_arrival_record = Except.error Fault.out_of_bounds ∧
    untrained_samples first_arrival_record = 5 ∧
    observe_fault (TriggerChecker.run TriggerChecker.initial [cost_aware_first_arrival]) =
      some Fault.out_of_bounds := by
  have hcost : CostAwarePolicy.calc_cost first_arrival_record.batches_ 0 0 0
      first_arrival_record.alpha_ first_arrival_record.beta_ first_arrival_record.weight_ =
      Except.error Fault.out_of_bounds := rfl
  have hinfo : CostAwarePolicy.calc_cost_info first_arrival_record =
      Except.error Fault.out_of_bounds := rfl
  refine ⟨rfl, rfl, rfl, by decide, hcost, hinfo, ?_, by decide, ?_⟩
  · simp only [CostAwarePolicy.calc_timeout, hinfo, bind, Except.bind]
  · decide

/-! ## The ranges of calc_cost_info -/

theorem calc_cost_info_ranges (R : RetrainRecord) :
    CostAwarePolicy.calc_cost_info R =
      (do
        let all_cost ← CostAwarePolicy.calc_cost R.batches_ (CostAwarePolicy.cost_ranges R).1
          R.batches_.length (CostAwarePolicy.cost_ranges R).2.2.1 R.alpha_ R.beta_ R.weight_
        let first_cost ← CostAwarePolicy.calc_cost R.batches_ (CostAwarePolicy.cost_ranges R).1
          (CostAwarePolicy.cost_ranges R).2.1 (CostAwarePolicy.cost_ranges R).2.2.2
          R.alpha_ R.beta_ R.weight_
        let second_cost ← CostAwarePolicy.calc_cost R.batches_
          (CostAwarePolicy.cost_ranges R).2.1 R.batches_.length
          ((CostAwarePolicy.cost_ranges R).2.2.1 - (CostAwarePolicy.cost_ranges R).2.2.2)
          R.alpha_ R.beta_ R.weight_
        Except.ok (static_cast_long all_cost, static_cast_long (dadd first_cost second_cost))) :=
  rfl

theorem drop_skip_trained (d : Int) (bs : BatchesInfo) :
    bs.drop (CostAwarePolicy.skip_trained d bs) = bs.dropWhile (fun b => decide (b.1 ≤ d)) ∧
    CostAwarePolicy.skip_trained d bs + (bs.dropWhile (fun b => decide (b.1 ≤ d))).length =
      bs.length := by
  induction bs with
  | nil => exact ⟨rfl, rfl⟩
  | cons b rest ih =>
    by_cases h : b.1 > d
    · have h1 : ¬ b.1 ≤ d := not_le.mpr h
      simp [CostAwarePolicy.skip_trained, h, List.dropWhile_cons, h1]
    · have h1 : b.1 ≤ d := not_lt.mp h
      simp only [CostAwarePolicy.skip_trained, h, if_false, List.drop_succ_cons,
        List.dropWhile_cons, h1, decide_True, if_true, List.length_cons]
      exact ⟨ih.1, by omega⟩

theorem sum_sizes_all (l : BatchesInfo) :
    sum_sizes_where (fun _ => true) l = batches_size l := by
  rw [sum_sizes_where_eq]
  simp [batches_size]

theorem batches_size_cons (b : BatchInfo) (l : BatchesInfo) :
    batches_size (b :: l) = b.2 + batches_size l := by
  simp [batches_size]

theorem batches_size_take_drop (k : Nat) (l : BatchesInfo) :
    batches_size (l.take k) + batches_size (l.drop k) = batches_size l := by
  unfold batches_size
  rw [← List.sum_append, ← List.map_append, List.take_append_drop]

theorem batches_size_pos (l : BatchesInfo) (hne : l ≠ []) (hpos : ∀ b ∈ l, 0 < b.2) :
    0 < batches_size l := by
  induction l with
  | nil => exact absurd rfl hne
  | cons b rest ih =>
    rw [batches_size_cons]
    have hb : 0 < b.2 := hpos b (List.mem_cons_self _ _)
    by_cases hr : rest = []
    · rw [hr]
      simpa [batches_size] using hb
    · have := ih hr (fun x hx => hpos x (List.mem_cons_of_mem _ hx))
      omega

/-- The loop of the split point: it stops at the first position `k` of the remaining
batches at which the test fails, having added the sizes before it. -/
theorem split_loop_spec (n : Int) (l : BatchesInfo) (itr : Nat) (p : Int) :
    ∃ k, k ≤ l.length ∧
      CostAwarePolicy.split_loop n l itr p = (itr + k, p + batches_size (l.take k)) ∧
      (∀ j, j < k → ¬ n - (l.getD j (0, 0)).2 ≤ 2 * (p + batches_size (l.take j))) ∧
      (k < l.length → n - (l.getD k (0, 0)).2 ≤ 2 * (p + batches_size (l.take k))) := by
  induction l generalizing itr p with
  | nil =>
    exact ⟨0, le_refl _, by simp [CostAwarePolicy.split_loop, batches_size],
      fun j hj => absurd hj (Nat.not_lt_zero _), fun h => absurd h (Nat.lt_irrefl _)⟩
  | cons b rest ih =>
    by_cases hc : n - b.2 > 2 * p
    · obtain ⟨k, hk, hres, hbefore, hat⟩ := ih (itr + 1) (p + b.2)
      refine ⟨k + 1, by simpa using hk, ?_, ?_, ?_⟩
      · simp only [CostAwarePolicy.split_loop, hc, if_true, hres, List.take_succ_cons,
          batches_size_cons]
        rw [Nat.add_assoc, Nat.add_comm 1 k, add_assoc]
      · intro j hj
        cases j with
        | zero =>
          simp only [List.getD_cons_zero, List.take_zero, batches_size, List.map_nil,
            List.sum_nil, add_zero]
          omega
        | succ j =>
          have := hbefore j (by omega)
          simpa [List.getD_cons_succ, List.take_succ_cons, batches_size_cons, add_assoc]
            using this
      · intro hlt
        have := hat (by simpa using hlt)
        simpa [List.getD_cons_succ, List.take_succ_cons, batches_size_cons, add_assoc]
          using this
    · refine ⟨0, Nat.zero_le _, ?_, fun j hj => absurd hj (Nat.not_lt_zero _), fun _ => ?_⟩
      · simp [CostAwarePolicy.split_loop, hc, batches_size]
      · simp only [List.getD_cons_zero, List.take_zero, batches_size, List.map_nil,
          List.sum_nil, add_zero]
        omega

/-- The loop computes the split index of the specification. -/
theorem split_loop_index (n : Int) (l : BatchesInfo) (itr : Nat) :
    CostAwarePolicy.split_loop n l itr 0 =
      (itr + split_index n l, batches_size (l.take (split_index n l))) := by
  obtain ⟨k, hk, hres, hbefore, hat⟩ := split_loop_spec n l itr 0
  have hidx : split_index n l = k := by
    unfold split_index
    rcases Nat.lt_or_ge k l.length with hlt | hge
    · have hlt2 : k < (List.range l.length).length := by simpa using hlt
      rw [List.findIdx_eq hlt2]
      refine ⟨?_, fun j hj => ?_⟩
      · have := hat hlt
        simpa using this
      · have := hbefore j hj
        simpa using this
    · have hkl : k = l.length := le_antisymm hk hge
      have hlen : (List.range l.length).length = l.length := List.length_range _
      rw [hkl]
      refine Eq.trans (List.findIdx_eq_length.mpr ?_) hlen
      intro x hx
      have hx2 : x < k := by
        rw [hkl]
        exact List.mem_range.mp hx
      have := hbefore x hx2
      simpa using this
  rw [hidx, hres, zero_add]

/-- With at least two batches, all of positive size, the split index lies strictly
inside the suffix and both parts have positive size. -/
theorem split_index_inside (l : BatchesInfo) (hlen : 2 ≤ l.length)
    (hpos : ∀ b ∈ l, 0 < b.2) :
    0 < split_index (batches_size l) l ∧ split_index (batches_size l) l < l.length ∧
    0 < batches_size (l.take (split_index (batches_size l) l)) ∧
    batches_size (l.take (split_index (batches_size l) l)) < batches_size l := by
  obtain ⟨k, hk, hres, hbefore, hat⟩ := split_loop_spec (batches_size l) l 0 0
  have hidx : split_index (batches_size l) l = k := by
    have h := split_loop_index (batches_size l) l 0
    rw [hres] at h
    have h1 := congrArg Prod.fst h
    simp only [zero_add] at h1
    exact h1.symm
  rw [hidx]
  have hsplit := fun j => batches_size_take_drop j l
  have hpos_take : ∀ j, 0 < j → 0 < batches_size (l.take j) := by
    intro j hj
    apply batches_size_pos
    · intro h0
      have := congrArg List.length h0
      simp only [List.length_take, List.length_nil] at this
      omega
    · exact fun b hb => hpos b (List.mem_of_mem_take hb)
  have hpos_drop : ∀ j, j < l.length → 0 < batches_size (l.drop j) := by
    intro j hj
    apply batches_size_pos
    · intro h0
      have := congrArg List.length h0
      simp only [List.length_drop, List.length_nil] at this
      omega
    · exact fun b hb => hpos b (List.mem_of_mem_drop hb)
  have hk0 : 0 < k := by
    rcases Nat.eq_zero_or_pos k with h0 | h0
    · exfalso
      subst h0
      have h1 := hat (by omega)
      cases l with
      | nil => simp at hlen
      | cons b rest =>
        have h2 := hpos_drop 1 (by simpa using hlen)
        simp only [List.getD_cons_zero, List.take_zero, batches_size_cons, List.drop_succ_cons,
          List.drop_zero] at h1 h2
        have h3 : batches_size ([] : BatchesInfo) = 0 := rfl
        rw [h3] at h1
        omega
    · exact h0
  have hklt : k < l.length := by
    rcases Nat.lt_or_ge k l.length with hlt | hge
    · exact hlt
    · exfalso
      have h1 := hbefore (l.length - 1) (by omega)
      have h2 := hsplit (l.length - 1)
      have h3 := hpos_take (l.length - 1) (by omega)
      have hlast : l.length - 1 < l.length := by omega
      have h4 : l.drop (l.length - 1) = [l.getD (l.length - 1) (0, 0)] := by
        rw [List.drop_eq_getElem_cons hlast]
        have h5 : l.length - 1 + 1 = l.length := by omega
        rw [h5, List.drop_length, List.getD_eq_getElem _ _ hlast]
      rw [h4, batches_size_cons] at h2
      have h6 : batches_size ([] : BatchesInfo) = 0 := rfl
      rw [h6] at h2
      omega
  exact ⟨hk0, hklt, hpos_take k hk0, by have := hsplit k; have := hpos_drop k hklt; omega⟩

theorem foldl_latency (end_time : Int) (l : BatchesInfo) (acc : Int) :
    l.foldl (fun acc x => acc + (end_time - x.1)) acc =
      acc + (l.map (fun x => end_time - x.1)).sum := by
  induction l generalizing acc with
  | nil => simp
  | cons b rest ih =>
    simp only [List.foldl_cons, List.map_cons, List.sum_cons]
    rw [ih]
    ring

/-- The last batch of a non-empty range `[b, e + 1)` is the batch at index `e`. -/
theorem range_getLast (bs : BatchesInfo) (b e : Nat) (x : BatchInfo)
    (hx : bs[e]? = some x) (hb : b ≤ e) :
    ((bs.drop b).take (e + 1 - b)).getLast? = some x := by
  have he : e < bs.length := by
    rcases Nat.lt_or_ge e bs.length with h | h
    · exact h
    · rw [List.getElem?_eq_none h] at hx
      cases hx
  rw [List.getLast?_eq_getElem?]
  have hlen : ((bs.drop b).take (e + 1 - b)).length = e + 1 - b := by
    rw [List.length_take, List.length_drop]
    omega
  rw [hlen]
  have h1 : e + 1 - b - 1 = e - b := by omega
  rw [h1, List.getElem?_take_of_lt (by omega), List.getElem?_drop]
  have h2 : b + (e - b) = e := by omega
  rw [h2, hx]

/-- With finite parameters and its end after a batch of the vector, `calc_cost` returns
the truncated cost of its range. -/
theorem calc_cost_truncated (bs : BatchesInfo) (b e : Nat) (x : BatchInfo) (size : Int)
    (a t w : ℚ) (hx : bs[e]? = some x) (hb : b ≤ e + 1) :
    CostAwarePolicy.calc_cost bs b (e + 1) size (some a) (some t) (some w) =
      Except.ok (truncated_cost ((bs.drop b).take (e + 1 - b)) size a t w) := by
  simp only [CostAwarePolicy.calc_cost, finite, bind, Except.bind, hx, truncated_cost]
  rw [foldl_latency, zero_add]
  rcases Nat.lt_or_ge e b with hlt | hge
  · have h0 : e + 1 - b = 0 := by omega
    rw [h0, List.take_zero]
    rfl
  · rw [range_getLast bs b e x hx hge]
    rfl

theorem calc_cost_zero (bs : BatchesInfo) (b : Nat) (size : Int) (a t w : ℚ) :
    CostAwarePolicy.calc_cost bs b 0 size (some a) (some t) (some w) =
      Except.error Fault.out_of_bounds := rfl

/-- The locals of `calc_cost_info` in the terms of the specification. -/
theorem cost_ranges_spec (R : RetrainRecord) :
    (CostAwarePolicy.cost_ranges R).1 + (considered_suffix R).length = R.batches_.length ∧
    R.batches_.drop (CostAwarePolicy.cost_ranges R).1 = considered_suffix R ∧
    (CostAwarePolicy.cost_ranges R).2.2.1 = batches_size (considered_suffix R) ∧
    (CostAwarePolicy.cost_ranges R).2.1 =
      (CostAwarePolicy.cost_ranges R).1 +
        split_index (batches_size (considered_suffix R)) (considered_suffix R) ∧
    (CostAwarePolicy.cost_ranges R).2.2.2 =
      batches_size ((considered_suffix R).take
        (split_index (batches_size (considered_suffix R)) (considered_suffix R))) := by
  have hdrop : R.batches_.drop (CostAwarePolicy.cost_ranges R).1 = considered_suffix R ∧
      (CostAwarePolicy.cost_ranges R).1 + (considered_suffix R).length =
        R.batches_.length := by
    unfold CostAwarePolicy.cost_ranges considered_suffix
    cases hf : R.finished_
    · simp only [if_true, Bool.false_eq_true, if_false]
      exact drop_skip_trained R.data_to_ R.batches_
    · simp
  have h1 : (CostAwarePolicy.cost_ranges R).2.2.1 =
      sum_sizes_where (fun _ => true) (R.batches_.drop (CostAwarePolicy.cost_ranges R).1) := rfl
  have h2 : ((CostAwarePolicy.cost_ranges R).2.1, (CostAwarePolicy.cost_ranges R).2.2.2) =
      CostAwarePolicy.split_loop (CostAwarePolicy.cost_ranges R).2.2.1
        (R.batches_.drop (CostAwarePolicy.cost_ranges R).1)
        (CostAwarePolicy.cost_ranges R).1 0 := rfl
  rw [hdrop.1, sum_sizes_all] at h1
  rw [hdrop.1, h1, split_loop_index] at h2
  exact ⟨hdrop.2, hdrop.1, h1, congrArg Prod.fst h2, congrArg Prod.snd h2⟩

/-- With finite parameters `calc_cost_info` returns the truncated costs of the suffix and
of its two parts, unless the split point is the first batch of the vector (or the vector
is empty), where `(end - 1)` is read before the start of the vector. -/
theorem calc_cost_info_cases (R : RetrainRecord) (a t w : ℚ)
    (ha : R.alpha_ = some a) (hb : R.beta_ = some t) (hw : R.weight_ = some w) :
    CostAwarePolicy.calc_cost_info R =
      if 0 < R.batches_.length - (considered_suffix R).length +
          split_index (batches_size (considered_suffix R)) (considered_suffix R) then
        Except.ok
          (static_cast_long
            (truncated_cost (considered_suffix R) (batches_size (considered_suffix R)) a t w),
           static_cast_long
            (dadd (truncated_cost
                ((considered_suffix R).take
                  (split_index (batches_size (considered_suffix R)) (considered_suffix R)))
                (batches_size ((considered_suffix R).take
                  (split_index (batches_size (considered_suffix R)) (considered_suffix R))))
                a t w)
              (truncated_cost
                ((considered_suffix R).drop
                  (split_index (batches_size (considered_suffix R)) (considered_suffix R)))
                (batches_size (considered_suffix R) -
                  batches_size ((considered_suffix R).take
                    (split_index (batches_size (considered_suffix R)) (considered_suffix R))))
                a t w)))
      else Except.error Fault.out_of_bounds := by
  obtain ⟨hlen, hdrop, hn, hitr, hpart⟩ := cost_ranges_spec R
  have hk : split_index (batches_size (considered_suffix R)) (considered_suffix R) ≤
      (considered_suffix R).length := by
    unfold split_index
    have := @List.findIdx_le_length Nat
      (fun i => decide (batches_size (considered_suffix R) -
        ((considered_suffix R).getD i (0, 0)).2 ≤
          2 * batches_size ((considered_suffix R).take i)))
      (List.range (considered_suffix R).length)
    simpa using this
  have hbegin : R.batches_.length - (considered_suffix R).length =
      (CostAwarePolicy.cost_ranges R).1 := by omega
  rw [calc_cost_info_ranges, hitr, hpart, hn, ha, hb, hw, hbegin]
  generalize hk0 : split_index (batches_size (considered_suffix R)) (considered_suffix R) = k
    at hk ⊢
  generalize hb0 : (CostAwarePolicy.cost_ranges R).1 = begin at hlen hdrop ⊢
  cases hl : R.batches_.length with
  | zero =>
    have h1 : begin = 0 := by omega
    have h2 : k = 0 := by omega
    subst h1 h2
    simp only [calc_cost_zero, bind, Except.bind]
    rfl
  | succ e =>
    have he : e < R.batches_.length := by omega
    have hx : R.batches_[e]? = some (R.batches_.get ⟨e, he⟩) := List.getElem?_eq_getElem he
    have hall := calc_cost_truncated R.batches_ begin e _
      (batches_size (considered_suffix R)) a t w hx (by omega)
    have hsecond := calc_cost_truncated R.batches_ (begin + k) e _
      (batches_size (considered_suffix R) - batches_size ((considered_suffix R).take k))
      a t w hx (by omega)
    have hr1 : (R.batches_.drop begin).take (e + 1 - begin) = considered_suffix R := by
      rw [hdrop]
      exact List.take_of_length_le (by omega)
    have hr2 : (R.batches_.drop (begin + k)).take (e + 1 - (begin + k)) =
        (considered_suffix R).drop k := by
      have hdd : R.batches_.drop (begin + k) = (considered_suffix R).drop k := by
        rw [← hdrop, List.drop_drop]
      rw [hdd]
      exact List.take_of_length_le (by rw [List.length_drop]; omega)
    rw [hr1] at hall
    rw [hr2] at hsecond
    rw [hall, hsecond]
    cases hi : begin + k with
    | zero =>
      simp only [calc_cost_zero, bind, Except.bind]
      rfl
    | succ i =>
      have hi2 : i < R.batches_.length := by omega
      have hy : R.batches_[i]? = some (R.batches_.get ⟨i, hi2⟩) := List.getElem?_eq_getElem hi2
      have hfirst := calc_cost_truncated R.batches_ begin i _
        (batches_size ((considered_suffix R).take k)) a t w hy (by omega)
      have hr3 : (R.batches_.drop begin).take (i + 1 - begin) = (considered_suffix R).take k := by
        rw [hdrop]
        congr 1
        omega
      rw [hr3] at hfirst
      rw [hfirst, if_pos (Nat.succ_pos i)]
      rfl

theorem calc_cost_not_finite (bs : BatchesInfo) (b e : Nat) (x : BatchInfo) (size : Int)
    (alpha beta weight : Double) (hx : bs[e]? = some x)
    (h : alpha = none ∨ beta = none ∨ weight = none) :
    CostAwarePolicy.calc_cost bs b (e + 1) size alpha beta weight =
      Except.error Fault.non_finite := by
  rcases alpha with _ | a
  · simp [CostAwarePolicy.calc_cost, finite, bind, Except.bind]
  rcases beta with _ | t
  · simp [CostAwarePolicy.calc_cost, finite, bind, Except.bind]
  rcases weight with _ | w
  · simp [CostAwarePolicy.calc_cost, finite, bind, Except.bind, hx]
  · simp at h

set_option maxRecDepth 4096 in
unseal Rat.mul Rat.add Rat.sub Rat.inv in
/-- C25, as stated, fails: on Scenario 4 with the second batch at `t = 1000500` the cost
of the specification for the single pass is `13240.5` in exact arithmetic, which is not
a whole number, while `calc_cost_info` returns the pair of `long` `(13240, 22220)`. And
the arithmetic of the code is that of doubles: with two batches of 10 samples one second
apart and the doubles nearest to `0.57` and `0.3` as `alpha` and as `beta` and `weight`,
the training time of each part is 5 whole milliseconds and its cost `0.3 * 5 + 5`, below
`6.5` in exact arithmetic, so that the sum of both is below 13, but exactly `6.5` in
doubles, and `calc_cost_info` returns `(1025, 13)`. -/
theorem calc_cost_info_exact_counterexample :
    cost_truncation_record.alpha_ = some 1 ∧ cost_truncation_record.beta_ = some 1000 ∧
    cost_truncation_record.weight_ = some 10 ∧
    CostAwarePolicy.calc_cost_info cost_truncation_record = Except.ok (13240, 22220) ∧
    exact_cost_info cost_truncation_record 1 1000 10 = (26481 / 2, 22220) ∧
    ((13240 : Int) : ℚ) ≠ 26481 / 2 ∧
    CostAwarePolicy.calc_cost_info cost_rounding_record = Except.ok (1025, 13) ∧
    static_cast_long
      (dadd (dmul (5134103575202365 / 9007199254740992) (of_long 10))
        (5404319552844595 / 18014398509481984)) = 5 ∧
    (5404319552844595 / 18014398509481984 : ℚ) * 5 + 5 < 13 / 2 ∧
    dadd (dmul (5404319552844595 / 18014398509481984) (of_long 5)) (of_long 5) = 13 / 2 := by
  refine ⟨rfl, rfl, rfl, rfl, ?_, by norm_num, rfl, by decide, by norm_num, by decide⟩
  have hs : considered_suffix cost_truncation_record = [(0, 10), (1000500, 10)] := rfl
  have hn : batches_size [((0 : Int), (10 : Int)), (1000500, 10)] = 20 := by decide
  have hk : split_index 20 [((0 : Int), (10 : Int)), (1000500, 10)] = 1 := by decide
  simp only [exact_cost_info, hs, hn, hk, List.take, List.drop]
  have h1 : batches_size [((0 : Int), (10 : Int))] = 10 := by decide
  rw [h1]
  simp only [exact_cost, List.getLast?, List.getLast, Option.map, Option.getD, List.map,
    List.sum_cons, List.sum_nil]
  norm_num

/-- C25, amended: for every record with finite `alpha`, `beta` and `weight` whose split
point is not the first batch of the vector, `calc_cost_info` returns the pair of the
specification computed as the code does, in doubles with truncated costs: the suffix
starts at the first batch with arrival after `data_to` when the record is unfinished and
at the first batch otherwise, `n` is its total size, the split index is the first batch
at which `n - size ≤ 2 * partial_size`, and each cost is `w * T + L` with `T` the
training time `alpha * size + beta`, computed in doubles and truncated to whole
milliseconds, `L` the summed latency `Σ (last arrival + 1000 T - arrival)` divided by
1000 with truncation, and the product and the sum rounded as doubles; `min_cost` is the
sum in doubles of the two costs, and both components are converted to `long`. -/
theorem calc_cost_info_truncated (R : RetrainRecord) (a t w : ℚ)
    (ha : R.alpha_ = some a) (hb : R.beta_ = some t) (hw : R.weight_ = some w)
    (hsplit : 0 < R.batches_.length - (considered_suffix R).length +
      split_index (batches_size (considered_suffix R)) (considered_suffix R)) :
    CostAwarePolicy.calc_cost_info R = Except.ok (truncated_cost_info R a t w) := by
  rw [calc_cost_info_cases R a t w ha hb hw, if_pos hsplit]
  rfl

set_option maxRecDepth 4096 in
unseal Rat.mul Rat.add Rat.sub Rat.inv in
/-- Witness for C25 amended: on Scenario 4 with the second batch at `t = 1000500` the
pair is `(13240, 22220)`; with two batches of 10 samples one second apart and the
doubles nearest to `0.57` and `0.3` as parameters it is `(1025, 13)`; on the unfinished
record, whose suffix is the two waiting batches, it is `(13084, 22077)`. -/
theorem calc_cost_info_truncated_witness :
    (cost_truncation_record.alpha_ = some 1 ∧ cost_truncation_record.beta_ = some 1000 ∧
      cost_truncation_record.weight_ = some 10 ∧
      0 < cost_truncation_record.batches_.length -
          (considered_suffix cost_truncation_record).length +
        split_index (batches_size (considered_suffix cost_truncation_record))
          (considered_suffix cost_truncation_record) ∧
      CostAwarePolicy.calc_cost_info cost_truncation_record =
        Except.ok (truncated_cost_info cost_truncation_record 1 1000 10) ∧
      truncated_cost_info cost_truncation_record 1 1000 10 = (13240, 22220)) ∧
    (0 < cost_rounding_record.batches_.length -
          (considered_suffix cost_rounding_record).length +
        split_index (batches_size (considered_suffix cost_rounding_record))
          (considered_suffix cost_rounding_record) ∧
      CostAwarePolicy.calc_cost_info cost_rounding_record =
        Except.ok (truncated_cost_info cost_rounding_record
          (5134103575202365 / 9007199254740992) (5404319552844595 / 18014398509481984)
          (5404319552844595 / 18014398509481984)) ∧
      truncated_cost_info cost_rounding_record
          (5134103575202365 / 9007199254740992) (5404319552844595 / 18014398509481984)
          (5404319552844595 / 18014398509481984) = (1025, 13)) ∧
    (0 < unfinished_suffix_record.batches_.length -
          (considered_suffix unfinished_suffix_record).length +
        split_index (batches_size (considered_suffix unfinished_suffix_record))
          (considered_suffix unfinished_suffix_record) ∧
      CostAwarePolicy.calc_cost_info unfinished_suffix_record =
        Except.ok (truncated_cost_info unfinished_suffix_record 1 1000 10) ∧
      truncated_cost_info unfinished_suffix_record 1 1000 10 = (13084, 22077)) :=
  ⟨⟨rfl, rfl, rfl, by decide,
      calc_cost_info_truncated cost_truncation_record 1 1000 10 rfl rfl rfl (by decide),
      by decide⟩,
    ⟨by decide,
      calc_cost_info_truncated cost_rounding_record _ _ _ rfl rfl rfl (by decide),
      by decide⟩,
    ⟨by decide,
      calc_cost_info_truncated unfinished_suffix_record 1 1000 10 rfl rfl rfl (by decide),
      by decide⟩⟩

/-- C28: when the considered suffix of a record (all batches when finished, those from
the first one with arrival after `data_to` when not) holds at least two batches, all of
positive size, the split point of `calc_cost_info` lies strictly between the first batch
of the suffix and the end of the vector and `0 < partial_size < n`; so the three ranges
`[begin, end)`, `[begin, itr)` and `[itr, end)` are non-empty, no call of `calc_cost`
reads outside the vector, and with finite parameters `calc_cost_info` returns. -/
theorem split_point_inside (R : RetrainRecord)
    (hlen : 2 ≤ (considered_suffix R).length)
    (hpos : ∀ b ∈ considered_suffix R, 0 < b.2) :
    R.batches_.drop (CostAwarePolicy.cost_ranges R).1 = considered_suffix R ∧
    (CostAwarePolicy.cost_ranges R).2.2.1 = batches_size (considered_suffix R) ∧
    (CostAwarePolicy.cost_ranges R).2.2.2 =
      batches_size ((considered_suffix R).take
        ((CostAwarePolicy.cost_ranges R).2.1 - (CostAwarePolicy.cost_ranges R).1)) ∧
    (CostAwarePolicy.cost_ranges R).1 < (CostAwarePolicy.cost_ranges R).2.1 ∧
    (CostAwarePolicy.cost_ranges R).2.1 < R.batches_.length ∧
    0 < (CostAwarePolicy.cost_ranges R).2.2.2 ∧
    (CostAwarePolicy.cost_ranges R).2.2.2 < (CostAwarePolicy.cost_ranges R).2.2.1 ∧
    CostAwarePolicy.calc_cost_info R ≠ Except.error Fault.out_of_bounds ∧
    (∀ a t w, R.alpha_ = some a → R.beta_ = some t → R.weight_ = some w →
      ∃ c, CostAwarePolicy.calc_cost_info R = Except.ok c) := by
  obtain ⟨hl, hdrop, hn, hitr, hpart⟩ := cost_ranges_spec R
  obtain ⟨hk0, hklt, hp0, hpn⟩ := split_index_inside (considered_suffix R) hlen hpos
  have hsplit : 0 < R.batches_.length - (considered_suffix R).length +
      split_index (batches_size (considered_suffix R)) (considered_suffix R) := by omega
  have hsub : (CostAwarePolicy.cost_ranges R).2.1 - (CostAwarePolicy.cost_ranges R).1 =
      split_index (batches_size (considered_suffix R)) (considered_suffix R) := by omega
  have hret : ∀ a t w, R.alpha_ = some a → R.beta_ = some t → R.weight_ = some w →
      ∃ c, CostAwarePolicy.calc_cost_info R = Except.ok c := by
    intro a t w ha hb hw
    rw [calc_cost_info_cases R a t w ha hb hw, if_pos hsplit]
    exact ⟨_, rfl⟩
  refine ⟨hdrop, hn, by rw [hsub]; exact hpart, by omega, by omega, by rw [hpart]; exact hp0,
    by rw [hpart, hn]; exact hpn, ?_, hret⟩
  by_cases hfin : (∃ a, R.alpha_ = some a) ∧ (∃ t, R.beta_ = some t) ∧ (∃ w, R.weight_ = some w)
  · obtain ⟨⟨a, ha⟩, ⟨t, hb⟩, ⟨w, hw⟩⟩ := hfin
    obtain ⟨c, hc⟩ := hret a t w ha hb hw
    rw [hc]
    intro h
    cases h
  · have hnone : R.alpha_ = none ∨ R.beta_ = none ∨ R.weight_ = none := by
      rcases hA : R.alpha_ with _ | a
      · exact Or.inl rfl
      rcases hB : R.beta_ with _ | t
      · exact Or.inr (Or.inl rfl)
      rcases hW : R.weight_ with _ | w
      · exact Or.inr (Or.inr rfl)
      · exact absurd ⟨⟨a, hA⟩, ⟨t, hB⟩, ⟨w, hW⟩⟩ hfin
    have he : R.batches_.length - 1 < R.batches_.length := by omega
    have hx : R.batches_[R.batches_.length - 1]? =
        some (R.batches_.get ⟨R.batches_.length - 1, he⟩) := List.getElem?_eq_getElem he
    have hall := calc_cost_not_finite R.batches_ (CostAwarePolicy.cost_ranges R).1
      (R.batches_.length - 1) _ (CostAwarePolicy.cost_ranges R).2.2.1 R.alpha_ R.beta_
      R.weight_ hx hnone
    have hlen1 : R.batches_.length - 1 + 1 = R.batches_.length := by omega
    rw [hlen1] at hall
    rw [calc_cost_info_ranges, hall]
    intro h
    cases h

unseal Rat.mul Rat.add Rat.sub Rat.inv in
/-- Witness for C28: on Scenario 4 the ranges are `[0, 2)`, `[0, 1)` and `[1, 2)` with
`partial_size = 10` of `n = 20`; on an unfinished record with one batch under training
and batches of 3 and 4 samples waiting they are `[1, 3)`, `[1, 2)` and `[2, 3)` with
`partial_size = 3` of `n = 7`. -/
theorem split_point_inside_witness :
    2 ≤ (considered_suffix scenario4_record).length ∧
    (∀ b ∈ considered_suffix scenario4_record, 0 < b.2) ∧
    CostAwarePolicy.cost_ranges scenario4_record = (0, 1, 20, 10) ∧
    CostAwarePolicy.calc_cost_info scenario4_record ≠ Except.error Fault.out_of_bounds ∧
    considered_suffix unfinished_suffix_record = [(2000000, 3), (3000000, 4)] ∧
    CostAwarePolicy.cost_ranges unfinished_suffix_record = (1, 2, 7, 3) ∧
    (∃ c, CostAwarePolicy.calc_cost_info unfinished_suffix_record = Except.ok c) :=
  ⟨by decide, by decide, by decide,
    (split_point_inside scenario4_record (by decide) (by decide)).2.2.2.2.2.2.2.1,
    by decide, by decide,
    (split_point_inside unfinished_suffix_record (by decide) (by decide)).2.2.2.2.2.2.2.2
      1 1000 10 rfl rfl rfl⟩

/-! ## The divisor of the regression -/

theorem sum_sq_diff (x : Int) (l : List Int) :
    (l.map (fun y => (y - x) ^ 2)).sum =
      (l.map (fun y => y * y)).sum - 2 * x * l.sum + (l.length : Int) * x ^ 2 := by
  induction l with
  | nil => simp
  | cons y rest ih =>
    simp only [List.map_cons, List.sum_cons, List.length_cons, ih]
    push_cast
    ring

theorem regression_denominator_cons (x : Int) (l : List Int) :
    regression_denominator (x :: l) =
      regression_denominator l + (l.map (fun y => (y - x) ^ 2)).sum := by
  rw [sum_sq_diff]
  simp only [regression_denominator, List.map_cons, List.sum_cons, List.length_cons]
  push_cast
  ring

theorem sum_sq_nonneg (x : Int) (l : List Int) :
    0 ≤ (l.map (fun y => (y - x) ^ 2)).sum := by
  apply List.sum_nonneg
  intro a ha
  obtain ⟨y, -, rfl⟩ := List.mem_map.mp ha
  exact sq_nonneg _

theorem sum_sq_eq_zero (x : Int) (l : List Int) :
    (l.map (fun y => (y - x) ^ 2)).sum = 0 ↔ ∀ y ∈ l, y = x := by
  induction l with
  | nil => simp
  | cons y rest ih =>
    simp only [List.map_cons, List.sum_cons, List.mem_cons, forall_eq_or_imp]
    have h1 := sum_sq_nonneg x rest
    have h2 : 0 ≤ (y - x) ^ 2 := sq_nonneg _
    constructor
    · intro h
      have h3 : (y - x) ^ 2 = 0 := by omega
      have h4 : (rest.map (fun y => (y - x) ^ 2)).sum = 0 := by omega
      exact ⟨by have := pow_eq_zero_iff (two_ne_zero) |>.mp h3; omega, ih.mp h4⟩
    · rintro ⟨hy, hrest⟩
      rw [ih.mpr hrest, hy]
      simp

theorem regression_denominator_nonneg (l : List Int) : 0 ≤ regression_denominator l := by
  induction l with
  | nil => simp [regression_denominator]
  | cons x rest ih =>
    rw [regression_denominator_cons]
    have := sum_sq_nonneg x rest
    omega

theorem regression_denominator_eq_zero (l : List Int) :
    regression_denominator l = 0 ↔ ∀ a ∈ l, ∀ b ∈ l, a = b := by
  induction l with
  | nil => simp [regression_denominator]
  | cons x rest ih =>
    rw [regression_denominator_cons]
    have h1 := sum_sq_nonneg x rest
    have h2 := regression_denominator_nonneg rest
    constructor
    · intro h
      have h3 : regression_denominator rest = 0 := by omega
      have h4 : (rest.map (fun y => (y - x) ^ 2)).sum = 0 := by omega
      have h5 := (sum_sq_eq_zero x rest).mp h4
      intro a ha b hb
      have ha1 : a = x := by
        rcases List.mem_cons.mp ha with h | h
        · exact h
        · exact h5 a h
      have hb1 : b = x := by
        rcases List.mem_cons.mp hb with h | h
        · exact h
        · exact h5 b h
      rw [ha1, hb1]
    · intro h
      have h3 : regression_denominator rest = 0 :=
        ih.mpr (fun a ha b hb => h a (List.mem_cons_of_mem _ ha) b (List.mem_cons_of_mem _ hb))
      have h4 : (rest.map (fun y => (y - x) ^ 2)).sum = 0 :=
        (sum_sq_eq_zero x rest).mpr
          (fun y hy => h y (List.mem_cons_of_mem _ hy) x (List.mem_cons_self _ _))
      omega

theorem alpha_divisor_eq (p : RuntimeProfiler) :
    p.alpha_divisor = regression_denominator (p.time_size_pairs_.map Prod.snd) := by
  simp only [RuntimeProfiler.alpha_divisor, accumulate_eq, regression_denominator,
    List.length_map, List.map_map]
  have h1 : (p.time_size_pairs_.map (fun s => s.2)).sum =
      (p.time_size_pairs_.map Prod.snd).sum := rfl
  have h2 : (p.time_size_pairs_.map (fun s => s.2 * s.2)).sum =
      (p.time_size_pairs_.map ((fun x => x * x) ∘ Prod.snd)).sum := rfl
  rw [h1, h2]
  ring

/-- C30: for every ring of samples the divisor `n * Σ x² - (Σ x)²` computed by
`calc_alpha_beta` is non-negative, and it is zero exactly when all data sizes of the
ring are equal; `alpha_` is the quotient by that divisor (dividend and divisor converted
to double, which maps no other integer than zero to zero), so the division is by a
non-zero number, and `alpha_` finite, exactly when the ring holds two distinct data
sizes. -/
theorem alpha_divisor_zero_iff (p : RuntimeProfiler) :
    p.alpha_divisor = regression_denominator (p.time_size_pairs_.map Prod.snd) ∧
    0 ≤ p.alpha_divisor ∧
    (p.alpha_divisor = 0 ↔
      ∀ s ∈ p.time_size_pairs_, ∀ s1 ∈ p.time_size_pairs_, s.2 = s1.2) ∧
    p.calc_alpha_beta.alpha_ = fdiv (of_long p.alpha_dividend) (of_long p.alpha_divisor) ∧
    (p.alpha_divisor ≠ 0 ↔
      ∃ s ∈ p.time_size_pairs_, ∃ s1 ∈ p.time_size_pairs_, s.2 ≠ s1.2) ∧
    (p.calc_alpha_beta.alpha_ ≠ none ↔
      ∃ s ∈ p.time_size_pairs_, ∃ s1 ∈ p.time_size_pairs_, s.2 ≠ s1.2) := by
  have hzero : p.alpha_divisor = 0 ↔
      ∀ s ∈ p.time_size_pairs_, ∀ s1 ∈ p.time_size_pairs_, s.2 = s1.2 := by
    rw [alpha_divisor_eq, regression_denominator_eq_zero]
    constructor
    · intro h s hs s1 hs1
      exact h s.2 (List.mem_map_of_mem _ hs) s1.2 (List.mem_map_of_mem _ hs1)
    · intro h a ha b hb
      obtain ⟨s, hs, rfl⟩ := List.mem_map.mp ha
      obtain ⟨s1, hs1, rfl⟩ := List.mem_map.mp hb
      exact h s hs s1 hs1
  have hne : p.alpha_divisor ≠ 0 ↔
      ∃ s ∈ p.time_size_pairs_, ∃ s1 ∈ p.time_size_pairs_, s.2 ≠ s1.2 := by
    rw [Ne, hzero]
    push_neg
    rfl
  have halpha : p.calc_alpha_beta.alpha_ =
      fdiv (of_long p.alpha_dividend) (of_long p.alpha_divisor) := rfl
  refine ⟨alpha_divisor_eq p, ?_, hzero, halpha, hne, ?_⟩
  · rw [alpha_divisor_eq]
    exact regression_denominator_nonneg _
  · rw [← hne, halpha]
    unfold fdiv
    constructor
    · intro h h0
      rw [h0, (of_long_eq_zero 0).mpr rfl] at h
      simp at h
    · intro h
      have hq : of_long p.alpha_divisor ≠ 0 := fun h0 => h ((of_long_eq_zero _).mp h0)
      rw [if_neg hq]
      simp

/-! ## The order of the batches -/

theorem batches_shrink_of_eq {s s1 : TriggerChecker}
    (h : s1.retrain_records_ = s.retrain_records_) : BatchesShrink s s1 :=
  fun _ R1 hR1 => ⟨R1, by rw [← h]; exact hR1, List.Sublist.refl _⟩

theorem batches_shrink_trans {s s1 s2 : TriggerChecker} (h1 : BatchesShrink s s1)
    (h2 : BatchesShrink s1 s2) : BatchesShrink s s2 := by
  intro a R2 hR2
  obtain ⟨R1, hR1, e1⟩ := h2 a R2 hR2
  obtain ⟨R, hR, e⟩ := h1 a R1 hR1
  exact ⟨R, hR, e1.trans e⟩

theorem trigger_retrain_shrink {s s1 : TriggerChecker} {a : String} {req : RetrainRequest}
    {send_time cur_time : Int}
    (h : TriggerChecker.trigger_retrain s a req send_time cur_time = Except.ok s1) :
    BatchesShrink s s1 := by
  cases hrec : s.retrain_records_ a with
  | none =>
    rw [trigger_retrain_none s a req send_time cur_time hrec] at h
    cases h
  | some R =>
    rw [trigger_retrain_some s a req send_time cur_time R hrec] at h
    have hs1 := (Except.ok.inj h).symm
    subst hs1
    intro b R1 hR1
    by_cases hb : b = a
    · rw [hb] at hR1 ⊢
      have hR1' : some _ = some R1 := (assign_same _ _ _).symm.trans hR1
      rw [← Option.some.inj hR1']
      exact ⟨R, hrec, List.Sublist.refl _⟩
    · exact ⟨R1, (assign_other _ _ _ _ hb).symm.trans hR1, List.Sublist.refl _⟩

theorem check_trigger_by_func_shrink {s : TriggerChecker} {redis : Redis} {a : String}
    {func : RetrainRecord → Except Fault RetrainInfo} {send_time cur_time : Int}
    {out : TriggerChecker × Bool}
    (h : TriggerChecker.check_trigger_by_func s redis a func send_time cur_time =
      Except.ok out) : BatchesShrink s out.1 := by
  obtain ⟨R, info, -, -, hcases⟩ := check_trigger_by_func_ok h
  rcases hcases with ⟨-, hout⟩ | ⟨-, -, htrig⟩
  · rw [hout]
    exact batches_shrink_of_eq rfl
  · exact trigger_retrain_shrink htrig

theorem check_trigger_shrink {s s1 : TriggerChecker} {redis : Redis} {a : String}
    {arrival_time send_time cur_time : Int}
    (h : TriggerChecker.check_trigger s redis a arrival_time send_time cur_time =
      Except.ok s1) : BatchesShrink s s1 := by
  unfold TriggerChecker.check_trigger at h
  simp only [bind_eq_ok] at h
  obtain ⟨policy, -, checked, hchecked, h⟩ := h
  have hframe := check_trigger_by_func_shrink hchecked
  by_cases hc : checked.2 = false
  · simp only [hc, if_true] at h
    cases hrec1 : checked.1.retrain_records_ a with
    | none => simp [hrec1] at h
    | some R1 =>
      simp only [hrec1, bind_eq_ok] at h
      obtain ⟨t, -, h⟩ := h
      rw [← Except.ok.inj h]
      exact batches_shrink_trans hframe (batches_shrink_of_eq (set_timeout_records _ _ _ _))
  · simp only [hc, if_false] at h
    rw [← Except.ok.inj h]
    exact hframe

theorem update_retrain_records_shrink {s s1 : TriggerChecker} {a : String} {cur_time : Int}
    (h : TriggerChecker.update_retrain_records s a cur_time = Except.ok s1) :
    BatchesShrink s s1 := by
  cases hrec : s.retrain_records_ a with
  | none =>
    rw [update_retrain_records_none hrec] at h
    rw [← Except.ok.inj h]
    exact batches_shrink_of_eq rfl
  | some R =>
    obtain ⟨profiler, sampled, -, -, hs1⟩ := update_retrain_records_ok hrec h
    subst hs1
    intro b R1 hR1
    by_cases hb : b = a
    · rw [hb] at hR1 ⊢
      have hR1' : some _ = some R1 := (assign_same _ _ _).symm.trans hR1
      rw [← Option.some.inj hR1']
      exact ⟨R, hrec, List.filter_sublist _⟩
    · exact ⟨R1, (assign_other _ _ _ _ hb).symm.trans hR1, List.Sublist.refl _⟩

theorem report_retrain_end_shrink {s : TriggerChecker} {redis : Redis} {msg_id : Int}
    {cur_time send_time dispatch_time : Int} {out : TriggerChecker × Option Bool}
    (h : TriggerChecker.report_retrain_end s redis msg_id cur_time send_time dispatch_time =
      Except.ok out) : BatchesShrink s out.1 := by
  cases hfind : InflightMessages.find s.inflight_messages_ msg_id with
  | none =>
    unfold TriggerChecker.report_retrain_end at h
    simp only [hfind] at h
    rw [← Except.ok.inj h]
    exact batches_shrink_of_eq rfl
  | some msg =>
    obtain ⟨erased, s2, policy, checked, -, h2, -, h4, h5⟩ := report_retrain_end_ok hfind h
    subst h5
    have f1 : BatchesShrink s s2 :=
      update_retrain_records_shrink (s := { s with inflight_messages_ := erased }) h2
    exact batches_shrink_trans f1 (check_trigger_by_func_shrink h4)

theorem manual_trigger_retrain_shrink {s : TriggerChecker} {redis : Redis} {a : String}
    {cur_time send_time dispatch_time : Int} {out : TriggerChecker × Int}
    (h : TriggerChecker.manual_trigger_retrain s redis a cur_time send_time dispatch_time =
      Except.ok out) : BatchesShrink s out.1 := by
  unfold TriggerChecker.manual_trigger_retrain at h
  cases hrec : s.retrain_records_ a with
  | none =>
    simp only [hrec] at h
    rw [← Except.ok.inj h]
    exact batches_shrink_of_eq rfl
  | some R =>
    simp only [hrec] at h
    by_cases hsize : sum_sizes_where (fun p => decide (p.1 ≥ R.data_to_)) R.batches_ > 0
    · simp only [hsize, if_true, bind_eq_ok] at h
      obtain ⟨s1, hs1, h⟩ := h
      rw [← Except.ok.inj h]
      exact trigger_retrain_shrink hs1
    · simp only [hsize, if_false] at h
      rw [← Except.ok.inj h]
      exact batches_shrink_of_eq rfl

theorem fire_timeout_shrink {s s1 : TriggerChecker} {redis : Redis} {index : Nat}
    {send_time cur_time : Int}
    (h : TriggerChecker.fire_timeout s redis index send_time cur_time = Except.ok s1) :
    BatchesShrink s s1 := by
  unfold TriggerChecker.fire_timeout at h
  cases ht : s.pending_timeouts_[index]? with
  | none =>
    simp only [ht] at h
    rw [← Except.ok.inj h]
    exact batches_shrink_of_eq rfl
  | some t =>
    simp only [ht] at h
    unfold TriggerChecker.after_timeout at h
    split at h
    · split at h
      · cases h
      · simp only [] at h
        have f1 : BatchesShrink s
            { s with pending_timeouts_ := s.pending_timeouts_.eraseIdx index } :=
          batches_shrink_of_eq rfl
        exact batches_shrink_trans f1 (trigger_retrain_shrink h)
    · rw [← Except.ok.inj h]
      exact batches_shrink_of_eq rfl

theorem backend_link_set_shrink {s s1 : TriggerChecker} {redis : Redis} {key : String}
    (h : TriggerChecker.backend_link_set s redis key = Except.ok s1) :
    BatchesShrink s s1 := by
  unfold TriggerChecker.backend_link_set at h
  cases hb : redis.get_backend (redis.get_backend_link key) with
  | none => simp [hb] at h
  | some backend =>
    simp only [hb] at h
    rw [← Except.ok.inj h]
    exact batches_shrink_of_eq rfl

theorem batch_times_shrink {s s1 : TriggerChecker} (h : BatchesShrink s s1) (a : String) :
    (batch_times s1 a).Sublist (batch_times s a) := by
  unfold batch_times
  cases h1 : s1.retrain_records_ a with
  | none => exact List.nil_sublist _
  | some R1 =>
    obtain ⟨R, hR, hsub⟩ := h a R1 h1
    rw [hR]
    exact hsub.map _

/-- A data arrival appends its time stamp to the batch times of its application, or
leaves the batches as they are, and leaves those of the other applications. -/
theorem report_data_arrival_times {s : TriggerChecker} {redis : Redis} {a : String}
    {ts size send_time cur_time : Int} {out : TriggerChecker × Bool}
    (h : TriggerChecker.report_data_arrival s redis a ts size send_time cur_time =
      Except.ok out) (b : String) :
    (batch_times out.1 b).Sublist (batch_times s b ++ if a = b then [ts] else []) := by
  have key : ∀ (s1 s2 : TriggerChecker) (R0 : RetrainRecord),
      s1.retrain_records_ = assign s.retrain_records_ a R0 →
      R0.batches_.map Prod.fst = batch_times s a ++ [ts] → BatchesShrink s1 s2 →
      (batch_times s2 b).Sublist (batch_times s b ++ if a = b then [ts] else []) := by
    intro s1 s2 R0 hrec1 htimes hframe
    refine (batch_times_shrink hframe b).trans ?_
    unfold batch_times at htimes ⊢
    rw [hrec1]
    by_cases hba : b = a
    · subst hba
      rw [assign_same, if_pos rfl]
      simp only []
      rw [htimes]
    · rw [assign_other _ _ _ _ hba, if_neg (fun h => hba h.symm), List.append_nil]
  unfold TriggerChecker.report_data_arrival at h
  cases hrec : s.retrain_records_ a with
  | some R =>
    simp only [hrec, bind_eq_ok] at h
    obtain ⟨s2, hs2, h⟩ := h
    rw [← Except.ok.inj h]
    refine key _ s2 _ rfl ?_ (check_trigger_shrink hs2)
    simp [batch_times, hrec]
  | none =>
    simp only [hrec] at h
    by_cases hlink : redis.get_backend_link a = ""
    · simp only [hlink, if_true] at h
      rw [← Except.ok.inj h]
      exact List.sublist_append_left _ _
    · simp only [hlink, if_false] at h
      cases hbk : redis.get_backend (redis.get_backend_link a) with
      | none => simp [hbk] at h
      | some backend =>
        simp only [hbk, bind_eq_ok] at h
        obtain ⟨s3, hs3, h⟩ := h
        rw [← Except.ok.inj h]
        refine key _ s3 _ (set_app_policy_frame _ _ _).1 ?_ (check_trigger_shrink hs3)
        simp [batch_times, hrec]

/-- One step of a run: the batch times of an application after the step are, in order,
among its batch times before the step followed by the arrival time of the step. -/
theorem handle_batch_times {s s1 : TriggerChecker} {env : Env} {e : Event}
    (h : TriggerChecker.handle s env e = Except.ok s1) (b : String) :
    (batch_times s1 b).Sublist (batch_times s b ++ arrival_times b [(env, e)]) := by
  cases e with
  | ReportDataArrival a ts size =>
    obtain ⟨out, hout, hs1⟩ := map_fst_eq_ok h
    rw [← hs1]
    have ht : arrival_times b [(env, Event.ReportDataArrival a ts size)] =
        if a = b then [ts] else [] := by
      by_cases hab : a = b <;> simp [arrival_times, hab]
    rw [ht]
    exact report_data_arrival_times hout b
  | ManualTrigger a =>
    obtain ⟨out, hout, hs1⟩ := map_fst_eq_ok h
    rw [← hs1]
    simpa [arrival_times] using batch_times_shrink (manual_trigger_retrain_shrink hout) b
  | ReportRetrainBegin msg_id =>
    simp only [TriggerChecker.handle] at h
    rw [← Except.ok.inj h]
    have hs : BatchesShrink s (TriggerChecker.report_retrain_begin s msg_id).1 := by
      apply batches_shrink_of_eq
      unfold TriggerChecker.report_retrain_begin
      split <;> rfl
    simpa [arrival_times] using batch_times_shrink hs b
  | ReportRetrainEnd msg_id =>
    obtain ⟨out, hout, hs1⟩ := map_fst_eq_ok h
    rw [← hs1]
    simpa [arrival_times] using batch_times_shrink (report_retrain_end_shrink hout) b
  | TimeoutFired index =>
    simpa [arrival_times] using batch_times_shrink (fire_timeout_shrink h) b
  | BackendLinkSet key =>
    simpa [arrival_times] using batch_times_shrink (backend_link_set_shrink h) b

theorem arrival_times_append (b : String) (t1 t2 : List (Env × Event)) :
    arrival_times b (t1 ++ t2) = arrival_times b t1 ++ arrival_times b t2 := by
  unfold arrival_times
  exact List.filterMap_append _ _ _

/-- Along a run the batch times of every application are, in order, among the time
stamps of its data arrivals. -/
theorem run_batch_times (trace seen : List (Env × Event)) (s0 s : TriggerChecker)
    (h0 : ∀ b, (batch_times s0 b).Sublist (arrival_times b seen))
    (h : TriggerChecker.run s0 trace = Except.ok s) (b : String) :
    (batch_times s b).Sublist (arrival_times b (seen ++ trace)) := by
  induction trace generalizing seen s0 with
  | nil =>
    simp only [TriggerChecker.run] at h
    rw [← Except.ok.inj h, List.append_nil]
    exact h0 b
  | cons step rest ih =>
    simp only [TriggerChecker.run] at h
    cases hstep : TriggerChecker.handle s0 step.1 step.2 with
    | error f =>
      rw [hstep] at h
      cases h
    | ok s1 =>
      rw [hstep] at h
      have h1 : ∀ c, (batch_times s1 c).Sublist (arrival_times c (seen ++ [step])) := by
        intro c
        rw [arrival_times_append]
        exact (handle_batch_times hstep c).trans
          (List.Sublist.append (h0 c) (List.Sublist.refl _))
      have := ih (seen ++ [step]) s1 h1 h
      simpa using this

/-- C24, as stated, fails: two arrivals of one application with the same time stamp form
a trace with non-decreasing time stamps, and the record reached holds both batches, so
two entries of its batches have equal arrival times. -/
theorem equal_stamps_counterexample :
    (∀ app_name, (arrival_times app_name equal_stamps_trace).Pairwise (fun a b => a ≤ b)) ∧
    observe_record (TriggerChecker.run TriggerChecker.initial equal_stamps_trace) "app" =
      some (false, 1, 1000000, 1000000, (1000010, 5), [(1000000, 5), (1000000, 3)]) ∧
    (∃ s, TriggerChecker.run TriggerChecker.initial equal_stamps_trace = Except.ok s ∧
      batch_times s "app" = [1000000, 1000000]) ∧
    ¬ ([1000000, 1000000] : List Int).Pairwise (fun a b => a < b) := by
  refine ⟨fun app_name => ?_, rfl, ⟨_, rfl, rfl⟩, by decide⟩
  by_cases h : "app" = app_name
  · subst h
    decide
  · have h0 : arrival_times app_name equal_stamps_trace = [] := by
      simp [arrival_times, equal_stamps_trace, h]
    rw [h0]
    exact List.Pairwise.nil

/-- C24, amended: in every state reached by a run from the initial state, the arrival
times of the batches of every record are, in order, among the time stamps of the data
arrivals of its application; hence they are non-decreasing when those time stamps are
non-decreasing, and strictly increasing (no two equal) when those are strictly
increasing.  Each step preserves this: a `ReportRetrainEnd` only removes batches, in
place, and a `ReportDataArrival` only appends its own time stamp, at the end, to the
batches of its application. -/
theorem batches_ordered (trace : List (Env × Event)) (s : TriggerChecker)
    (hrun : TriggerChecker.run TriggerChecker.initial trace = Except.ok s)
    (app_name : String) (R : RetrainRecord)
    (hrec : s.retrain_records_ app_name = some R) :
    (R.batches_.map Prod.fst).Sublist (arrival_times app_name trace) ∧
    ((arrival_times app_name trace).Pairwise (fun a b => a ≤ b) →
      (R.batches_.map Prod.fst).Pairwise (fun a b => a ≤ b)) ∧
    ((arrival_times app_name trace).Pairwise (fun a b => a < b) →
      (R.batches_.map Prod.fst).Pairwise (fun a b => a < b)) ∧
    (∀ (s0 s1 : TriggerChecker) (env : Env) (msg_id : Int) (b : String),
      TriggerChecker.handle s0 env (Event.ReportRetrainEnd msg_id) = Except.ok s1 →
      (batch_times s1 b).Sublist (batch_times s0 b)) ∧
    (∀ (s0 s1 : TriggerChecker) (env : Env) (a : String) (ts size : Int) (b : String),
      TriggerChecker.handle s0 env (Event.ReportDataArrival a ts size) = Except.ok s1 →
      (batch_times s1 b).Sublist (batch_times s0 b ++ if a = b then [ts] else [])) := by
  have hsub : (R.batches_.map Prod.fst).Sublist (arrival_times app_name trace) := by
    have h := run_batch_times trace [] TriggerChecker.initial s
      (fun b => List.nil_sublist _) hrun app_name
    simpa [batch_times, hrec] using h
  refine ⟨hsub, fun h => h.sublist hsub, fun h => h.sublist hsub, ?_, ?_⟩
  · intro s0 s1 env msg_id b h
    obtain ⟨out, hout, hs1⟩ := map_fst_eq_ok h
    rw [← hs1]
    exact batch_times_shrink (report_retrain_end_shrink hout) b
  · intro s0 s1 env a ts size b h
    obtain ⟨out, hout, hs1⟩ := map_fst_eq_ok h
    rw [← hs1]
    exact report_data_arrival_times hout b

/-- Witness for C24 amended: Scenarios 1 and 2 up to the end of the first retrain, where
the first batch has been pruned, and the two arrivals with equal time stamps. -/
theorem batches_ordered_witness :
    (∃ s R,
      TriggerChecker.run TriggerChecker.initial (naive_two_arrivals ++ [naive_first_end]) =
        Except.ok s ∧
      s.retrain_records_ "app" = some R ∧ R.batches_ = [(2000000, 3)] ∧
      (R.batches_.map Prod.fst).Pairwise (fun a b => a < b)) ∧
    (∃ s R,
      TriggerChecker.run TriggerChecker.initial equal_stamps_trace = Except.ok s ∧
      s.retrain_records_ "app" = some R ∧ R.batches_ = [(1000000, 5), (1000000, 3)] ∧
      (R.batches_.map Prod.fst).Pairwise (fun a b => a ≤ b)) :=
  ⟨⟨_, _, rfl, rfl, rfl,
      (batches_ordered (naive_two_arrivals ++ [naive_first_end]) _ rfl "app" _ rfl).2.2.1
        (by decide)⟩,
    ⟨_, _, rfl, rfl, rfl,
      (batches_ordered equal_stamps_trace _ rfl "app" _ rfl).2.1 (by decide)⟩⟩

/-! ## Connection ids of the transport -/

theorem of_int_metadata (n : Int) :
    MessageType.of_int n = some MessageType.BackendMetadata ↔ n = 1 := by
  unfold MessageType.of_int
  split_ifs with h0 h1 h2 h3 h4 <;> simp_all

theorem right_find_is_none (m : Connections) (connection_id : RoutingIdentity) :
    (Connections.right_find m connection_id).isNone = true ↔
      connection_id ∉ m.map Prod.snd := by
  unfold Connections.right_find
  rw [Option.isNone_iff_eq_none, Option.map_eq_none', List.find?_eq_none]
  simp only [decide_eq_true_eq, List.mem_map, not_exists, not_and]

theorem connections_insert_fresh (m : Connections) (id : Int) (connection_id : RoutingIdentity)
    (h1 : id ∉ m.map Prod.fst) (h2 : connection_id ∉ m.map Prod.snd) :
    Connections.insert m id connection_id = m ++ [(id, connection_id)] := by
  unfold Connections.insert
  rw [if_neg]
  intro h
  obtain ⟨p, hp, hor⟩ := List.any_eq_true.mp h
  simp only [Bool.or_eq_true, decide_eq_true_eq] at hor
  rcases hor with h | h
  · exact h1 (h ▸ List.mem_map_of_mem Prod.fst hp)
  · exact h2 (h ▸ List.mem_map_of_mem Prod.snd hp)

theorem backend_map_find_emplace (m : ConnectionsBackendMap)
    (connection_id : RoutingIdentity) (name : String) (x : RoutingIdentity)
    (h : x = connection_id ∨ ∃ n, ConnectionsBackendMap.find m x = some n) :
    ∃ n, ConnectionsBackendMap.find (ConnectionsBackendMap.emplace m connection_id name) x =
      some n := by
  unfold ConnectionsBackendMap.emplace
  by_cases hany : m.any (fun p => decide (p.1 = connection_id)) = true
  · rw [if_pos hany]
    rcases h with h | h
    · subst h
      obtain ⟨p, hp, hpe⟩ := List.any_eq_true.mp hany
      unfold ConnectionsBackendMap.find
      have hsome : (m.find? (fun p => decide (p.1 = x))).isSome = true :=
        List.find?_isSome.mpr ⟨p, hp, hpe⟩
      obtain ⟨q, hq⟩ := Option.isSome_iff_exists.mp hsome
      exact ⟨q.2, by rw [hq]; rfl⟩
    · exact h
  · rw [if_neg hany]
    unfold ConnectionsBackendMap.find
    rw [List.find?_append]
    rcases h with h | h
    · subst h
      cases hf : m.find? (fun p => decide (p.1 = x)) with
      | some q => exact ⟨q.2, rfl⟩
      | none => exact ⟨name, by simp⟩
    · obtain ⟨n, hn⟩ := h
      unfold ConnectionsBackendMap.find at hn
      cases hf : m.find? (fun p => decide (p.1 = x)) with
      | some q => exact ⟨q.2, rfl⟩
      | none =>
        rw [hf] at hn
        cases hn

/-- What one call of `receive_message` does to the locals: a `BackendMetadata` from an
identity without a connection inserts the pair of the counter and the identity, inserts
the backend name and advances the counter; every other message leaves the locals. -/
theorem receive_message_locals {env : ReceiveEnv} {st : ServiceState} {msg : InboundMessage}
    {out : ServiceState × List Effect}
    (h : RPCBackendService.receive_message env st msg = Except.ok out) :
    (msg.type = 1 → msg.routing_identity ∉ st.connections.map Prod.snd →
      out.1 =
        { connections :=
            Connections.insert st.connections st.zmq_connection_id msg.routing_identity,
          connections_backend_map :=
            ConnectionsBackendMap.emplace st.connections_backend_map msg.routing_identity
              msg.backend_name,
          zmq_connection_id := st.zmq_connection_id + 1 }) ∧
    (msg.type = 1 → msg.routing_identity ∈ st.connections.map Prod.snd → out = (st, [])) ∧
    (msg.type ≠ 1 → out.1 = st) := by
  unfold RPCBackendService.receive_message at h
  refine ⟨fun ht hnew => ?_, fun ht hold => ?_, fun ht => ?_⟩
  · have h1 := (of_int_metadata msg.type).mpr ht
    have h2 := (right_find_is_none st.connections msg.routing_identity).mpr hnew
    simp only [h1, h2, if_true, bind_eq_ok] at h
    obtain ⟨parsed, -, h⟩ := h
    rw [← Except.ok.inj h]
  · have h1 := (of_int_metadata msg.type).mpr ht
    have h2 : ¬ (Connections.right_find st.connections msg.routing_identity).isNone = true :=
      fun hn => (right_find_is_none st.connections msg.routing_identity).mp hn hold
    simp only [h1, h2, if_false] at h
    exact (Except.ok.inj h).symm
  · have h1 : MessageType.of_int msg.type ≠ some MessageType.BackendMetadata :=
      fun hm => ht ((of_int_metadata msg.type).mp hm)
    cases hty : MessageType.of_int msg.type with
    | none =>
      simp only [hty] at h
      rw [← Except.ok.inj h]
    | some ty =>
      cases ty with
      | BackendMetadata => exact absurd hty h1
      | StartRetraining =>
        simp only [hty] at h
        rw [← Except.ok.inj h]
      | BackendHeartbeat =>
        simp only [hty] at h
        rw [← Except.ok.inj h]
      | RetrainingStarted =>
        simp only [hty] at h
        split at h
        · split at h
          · cases h
          · rw [← Except.ok.inj h]
        · rw [← Except.ok.inj h]
      | RetrainingEnded =>
        simp only [hty] at h
        split at h
        · split at h
          · cases h
          · rw [← Except.ok.inj h]
        · rw [← Except.ok.inj h]

theorem service_inv_initial : ServiceInv ServiceState.initial :=
  ⟨rfl, rfl, List.nodup_nil, fun _ h => absurd h (List.not_mem_nil _)⟩

theorem counter_not_assigned {st : ServiceState} (hinv : ServiceInv st) :
    st.zmq_connection_id ∉ st.connections.map Prod.fst := by
  rw [hinv.1, hinv.2.1]
  intro h
  obtain ⟨k, hk, hkeq⟩ := List.mem_map.mp h
  have h1 : k < st.connections.length := List.mem_range.mp hk
  have h2 : k = st.connections.length := by exact_mod_cast hkeq
  omega

/-- One call of `receive_message` keeps the invariant and appends the identity of a
first `BackendMetadata` to the identities with a connection. -/
theorem receive_message_inv {env : ReceiveEnv} {st : ServiceState} {msg : InboundMessage}
    {out : ServiceState × List Effect} (hinv : ServiceInv st)
    (h : RPCBackendService.receive_message env st msg = Except.ok out) :
    ServiceInv out.1 ∧
    out.1.connections.map Prod.snd =
      if msg.type = 1 then add_new (st.connections.map Prod.snd) msg.routing_identity
      else st.connections.map Prod.snd := by
  obtain ⟨hnew, hold, hother⟩ := receive_message_locals h
  by_cases ht : msg.type = 1
  · rw [if_pos ht]
    by_cases hk : msg.routing_identity ∈ st.connections.map Prod.snd
    · rw [hold ht hk]
      exact ⟨hinv, by simp [add_new, hk]⟩
    · have hout := hnew ht hk
      have hins := connections_insert_fresh st.connections st.zmq_connection_id
        msg.routing_identity (counter_not_assigned hinv) hk
      rw [hins] at hout
      rw [hout]
      obtain ⟨h1, h2, h3, h4⟩ := hinv
      refine ⟨⟨?_, ?_, ?_, ?_⟩, ?_⟩
      · simp only [List.map_append, List.map_cons, List.map_nil, List.length_append,
          List.length_singleton, List.range_succ, h1, h2]
      · simp only [List.length_append, List.length_singleton, h2]
        push_cast
        rfl
      · simp only [List.map_append, List.map_cons, List.map_nil]
        rw [List.nodup_append]
        refine ⟨h3, List.nodup_singleton _, ?_⟩
        intro x hx hx1
        rw [List.mem_singleton] at hx1
        exact hk (hx1 ▸ hx)
      · intro x hx
        simp only [List.map_append, List.map_cons, List.map_nil, List.mem_append,
          List.mem_singleton] at hx
        apply backend_map_find_emplace
        rcases hx with hx | hx
        · exact Or.inr (h4 x hx)
        · exact Or.inl hx
      · simp [add_new, hk]
  · rw [if_neg ht, hother ht]
    exact ⟨hinv, rfl⟩

/-- Under the invariant `receive_message` returns whenever the parameters of a
`BackendMetadata` message can be read. -/
theorem receive_message_returns (env : ReceiveEnv) (st : ServiceState) (msg : InboundMessage)
    (hinv : ServiceInv st)
    (hparse : msg.type = 1 → ∃ v, env.parse_params msg.params = Except.ok v) :
    ∃ out, RPCBackendService.receive_message env st msg = Except.ok out := by
  have hknown : (Connections.right_find st.connections msg.routing_identity).isNone = false →
      ∃ name, ConnectionsBackendMap.find st.connections_backend_map msg.routing_identity =
        some name := by
    intro hf
    apply hinv.2.2.2
    by_contra hk
    have := (right_find_is_none st.connections msg.routing_identity).mpr hk
    rw [hf] at this
    cases this
  unfold RPCBackendService.receive_message
  cases hty : MessageType.of_int msg.type with
  | none => exact ⟨_, rfl⟩
  | some ty =>
    cases ty with
    | BackendMetadata =>
      obtain ⟨v, hv⟩ := hparse ((of_int_metadata msg.type).mp hty)
      simp only [hv, bind, Except.bind]
      split_ifs <;> exact ⟨_, rfl⟩
    | StartRetraining => exact ⟨_, rfl⟩
    | BackendHeartbeat => exact ⟨_, rfl⟩
    | RetrainingStarted =>
      simp only []
      split_ifs with hc
      · obtain ⟨name, hname⟩ := hknown hc
        rw [hname]
        exact ⟨_, rfl⟩
      · exact ⟨_, rfl⟩
    | RetrainingEnded =>
      simp only []
      split_ifs with hc
      · obtain ⟨name, hname⟩ := hknown hc
        rw [hname]
        exact ⟨_, rfl⟩
      · exact ⟨_, rfl⟩

theorem manage_service_cons {st : ServiceState} {step : ReceiveEnv × InboundMessage}
    {rest : List (ReceiveEnv × InboundMessage)} {final : ServiceState × List Effect}
    (h : RPCBackendService.manage_service st (step :: rest) = Except.ok final) :
    ∃ out last, RPCBackendService.receive_message step.1 st step.2 = Except.ok out ∧
      RPCBackendService.manage_service out.1 rest = Except.ok last ∧ final.1 = last.1 := by
  simp only [RPCBackendService.manage_service] at h
  cases h1 : RPCBackendService.receive_message step.1 st step.2 with
  | error f =>
    rw [h1] at h
    cases h
  | ok out =>
    rw [h1] at h
    simp only [] at h
    cases h2 : RPCBackendService.manage_service out.1 rest with
    | error f =>
      rw [h2] at h
      cases h
    | ok last =>
      rw [h2] at h
      exact ⟨out, last, rfl, h2, by rw [← Except.ok.inj h]⟩

theorem metadata_identities_cons (step : ReceiveEnv × InboundMessage)
    (rest : List (ReceiveEnv × InboundMessage)) :
    metadata_identities (step :: rest) =
      if step.2.type = 1 then step.2.routing_identity :: metadata_identities rest
      else metadata_identities rest := by
  unfold metadata_identities
  by_cases h : step.2.type = 1 <;> simp [List.filter_cons, h]

/-- Along the loop the invariant holds and the identities with a connection are those
of the `BackendMetadata` messages, each added at its first occurrence. -/
theorem manage_service_inv (msgs : List (ReceiveEnv × InboundMessage)) (st : ServiceState)
    (final : ServiceState × List Effect) (hinv : ServiceInv st)
    (h : RPCBackendService.manage_service st msgs = Except.ok final) :
    ServiceInv final.1 ∧
    final.1.connections.map Prod.snd =
      (metadata_identities msgs).foldl add_new (st.connections.map Prod.snd) := by
  induction msgs generalizing st final with
  | nil =>
    simp only [RPCBackendService.manage_service] at h
    rw [← Except.ok.inj h]
    exact ⟨hinv, rfl⟩
  | cons step rest ih =>
    obtain ⟨out, last, h1, h2, h3⟩ := manage_service_cons h
    obtain ⟨hinv1, hk1⟩ := receive_message_inv hinv h1
    obtain ⟨hinv2, hk2⟩ := ih out.1 last hinv1 h2
    rw [h3]
    refine ⟨hinv2, ?_⟩
    rw [hk2, hk1, metadata_identities_cons]
    by_cases ht : step.2.type = 1
    · simp only [ht, if_true, List.foldl_cons]
    · simp only [ht, if_false]

theorem manage_service_returns (msgs : List (ReceiveEnv × InboundMessage)) (st : ServiceState)
    (hinv : ServiceInv st)
    (hparse : ∀ step ∈ msgs, step.2.type = 1 →
      ∃ v, step.1.parse_params step.2.params = Except.ok v) :
    ∃ final, RPCBackendService.manage_service st msgs = Except.ok final := by
  induction msgs generalizing st with
  | nil => exact ⟨_, rfl⟩
  | cons step rest ih =>
    obtain ⟨out, hout⟩ := receive_message_returns step.1 st step.2 hinv
      (hparse step (List.mem_cons_self _ _))
    obtain ⟨last, hlast⟩ := ih out.1 (receive_message_inv hinv hout).1
      (fun x hx => hparse x (List.mem_cons_of_mem _ hx))
    exact ⟨(last.1, out.2 ++ last.2), by simp only [RPCBackendService.manage_service, hout, hlast]⟩

theorem mem_distinct_in_order {α : Type} [DecidableEq α] (l : List α) (x : α) :
    x ∈ distinct_in_order l ↔ x ∈ l := by
  induction l with
  | nil => simp [distinct_in_order]
  | cons y rest ih =>
    simp only [distinct_in_order, List.mem_cons, List.mem_filter, decide_eq_true_eq, ih]
    constructor
    · rintro (h | ⟨h, -⟩)
      · exact Or.inl h
      · exact Or.inr h
    · intro h
      by_cases hxy : x = y
      · exact Or.inl hxy
      · rcases h with h | h
        · exact Or.inl h
        · exact Or.inr ⟨h, hxy⟩

theorem nodup_distinct_in_order {α : Type} [DecidableEq α] (l : List α) :
    (distinct_in_order l).Nodup := by
  induction l with
  | nil => exact List.nodup_nil
  | cons y rest ih =>
    simp only [distinct_in_order, List.nodup_cons, List.mem_filter, decide_eq_true_eq]
    exact ⟨fun h => h.2 rfl, ih.filter _⟩

/-- Adding the elements of a list one by one, each when it is new, adds its distinct
elements in the order of their first occurrence. -/
theorem foldl_add_new {α : Type} [DecidableEq α] (l K : List α) :
    l.foldl add_new K = K ++ (distinct_in_order l).filter (fun y => decide (y ∉ K)) := by
  induction l generalizing K with
  | nil => simp [distinct_in_order]
  | cons x rest ih =>
    rw [List.foldl_cons, ih]
    by_cases hx : x ∈ K
    · simp only [add_new, hx, if_true, distinct_in_order, List.filter_cons, decide_not,
        Bool.not_true, Bool.false_eq_true, if_false, decide_True]
      congr 1
      rw [List.filter_filter]
      apply List.filter_congr
      intro y _
      by_cases hy : y ∈ K
      · simp [hy]
      · have hne : y ≠ x := fun h => hy (h ▸ hx)
        simp [hy, hne]
    · simp only [add_new, hx, if_false, distinct_in_order, List.filter_cons, decide_not,
        decide_False, Bool.not_false, if_true, List.append_assoc, List.singleton_append]
      congr 2
      rw [List.filter_filter]
      apply List.filter_congr
      intro y _
      by_cases hy : y ∈ K
      · simp [hy]
      · by_cases hne : y = x
        · simp [hne]
        · simp [hy, hne]

theorem numbered_of_map (l : List (Int × RoutingIdentity))
    (h : l.map Prod.fst = (List.range l.length).map (fun (k : Nat) => (k : Int))) :
    l = numbered (l.map Prod.snd) := by
  have h1 := List.zip_unzip l
  rw [List.unzip_eq_map] at h1
  simp only [] at h1
  unfold numbered
  rw [List.length_map, ← h]
  exact h1.symm

theorem right_find_of_mem (m : Connections) (id : Int) (connection_id : RoutingIdentity)
    (hnodup : (m.map Prod.snd).Nodup) (hmem : (id, connection_id) ∈ m) :
    Connections.right_find m connection_id = some id := by
  unfold Connections.right_find
  have hsome : (m.find? (fun p => decide (p.2 = connection_id))).isSome = true :=
    List.find?_isSome.mpr ⟨(id, connection_id), hmem, by simp⟩
  obtain ⟨q, hq⟩ := Option.isSome_iff_exists.mp hsome
  have hq1 : q.2 = connection_id := by simpa using List.find?_some hq
  have hq2 : q ∈ m := List.mem_of_find?_eq_some hq
  have hq3 : q = (id, connection_id) := List.inj_on_of_nodup_map hnodup hq2 hmem hq1
  rw [hq, hq3]
  rfl

theorem numbered_get (K : List RoutingIdentity) (k : Nat) (connection_id : RoutingIdentity)
    (h : K[k]? = some connection_id) : (((k : Nat) : Int), connection_id) ∈ numbered K := by
  have hk : k < K.length := by
    rcases Nat.lt_or_ge k K.length with hlt | hge
    · exact hlt
    · rw [List.getElem?_eq_none hge] at h
      cases h
  apply List.getElem?_mem (n := k)
  unfold numbered
  rw [List.getElem?_zip_eq_some]
  refine ⟨?_, h⟩
  rw [List.getElem?_map, List.getElem?_range hk]
  rfl

/-- C22: for every sequence of inbound messages that the loop of `manage_service`
handles from its initial locals, the connections are the distinct routing identities of
the `BackendMetadata` messages, in the order of their first occurrence, numbered
`0, 1, 2, ...`: the `k`-th one has connection id `k`; the counter is their number; ids
and identities are both distinct, so the mapping is one-to-one.  In the state reached, a
`BackendMetadata` from an identity with a connection changes nothing, a message of any
other type leaves the locals as they are, and a `BackendMetadata` from a new identity
gets the counter as its id and advances the counter by one; the loop handles every
further sequence whose `BackendMetadata` parameters can be read. -/
theorem connection_ids_dense (msgs : List (ReceiveEnv × InboundMessage))
    (final : ServiceState × List Effect)
    (hrun : RPCBackendService.manage_service ServiceState.initial msgs = Except.ok final) :
    final.1.connections = numbered (distinct_in_order (metadata_identities msgs)) ∧
    final.1.zmq_connection_id = (distinct_in_order (metadata_identities msgs)).length ∧
    (∀ (k : Nat) connection_id,
      (distinct_in_order (metadata_identities msgs))[k]? = some connection_id →
      Connections.right_find final.1.connections connection_id = some (k : Int)) ∧
    (final.1.connections.map Prod.fst).Nodup ∧
    (final.1.connections.map Prod.snd).Nodup ∧
    (∀ env msg out, RPCBackendService.receive_message env final.1 msg = Except.ok out →
      (msg.type = 1 → msg.routing_identity ∈ final.1.connections.map Prod.snd →
        out = (final.1, [])) ∧
      (msg.type ≠ 1 → out.1 = final.1) ∧
      (msg.type = 1 → msg.routing_identity ∉ final.1.connections.map Prod.snd →
        out.1.connections =
          final.1.connections ++ [(final.1.zmq_connection_id, msg.routing_identity)] ∧
        out.1.zmq_connection_id = final.1.zmq_connection_id + 1)) ∧
    (∀ more : List (ReceiveEnv × InboundMessage),
      (∀ step ∈ more, step.2.type = 1 →
        ∃ v, step.1.parse_params step.2.params = Except.ok v) →
      ∃ last, RPCBackendService.manage_service final.1 more = Except.ok last) := by
  obtain ⟨hinv, hknown⟩ := manage_service_inv msgs ServiceState.initial final
    service_inv_initial hrun
  have hK : final.1.connections.map Prod.snd =
      distinct_in_order (metadata_identities msgs) := by
    rw [hknown, foldl_add_new]
    simp [ServiceState.initial]
  have hnum : final.1.connections = numbered (distinct_in_order (metadata_identities msgs)) := by
    rw [← hK]
    exact numbered_of_map _ hinv.1
  have hfst : (final.1.connections.map Prod.fst).Nodup := by
    rw [hinv.1]
    exact (List.nodup_range _).map (fun a b hab => by exact_mod_cast hab)
  refine ⟨hnum, ?_, ?_, hfst, hinv.2.2.1, ?_, ?_⟩
  · rw [hinv.2.1, ← hK, List.length_map]
  · intro k connection_id hk
    apply right_find_of_mem _ _ _ hinv.2.2.1
    rw [hnum]
    exact numbered_get _ k connection_id hk
  · intro env msg out hout
    obtain ⟨hnew, hold, hother⟩ := receive_message_locals hout
    refine ⟨hold, hother, fun ht hk => ?_⟩
    rw [hnew ht hk]
    exact ⟨connections_insert_fresh _ _ _ (counter_not_assigned hinv) hk, rfl⟩
  · intro more hparse
    exact manage_service_returns more final.1 hinv hparse

/-- Witness for C22: the seven messages of `demo_inbound` are handled; identities `[1]`,
`[2]` and `[3]` get the ids 0, 1 and 2 and the counter is 3; the heartbeat of `[2]`
before its metadata, the second metadata of `[1]`, the `RetrainingStarted` and the
unrecognised type assign nothing. -/
theorem connection_ids_dense_witness :
    ∃ final, RPCBackendService.manage_service ServiceState.initial demo_inbound =
        Except.ok final ∧
      distinct_in_order (metadata_identities demo_inbound) = [[1], [2], [3]] ∧
      final.1.connections = [(0, [1]), (1, [2]), (2, [3])] ∧
      final.1.zmq_connection_id = 3 :=
  ⟨_, rfl, by decide,
    (connection_ids_dense demo_inbound _ rfl).1.trans (by decide),
    (connection_ids_dense demo_inbound _ rfl).2.1.trans (by decide)⟩

end continuum
